import Mathlib

/-!
# pictDB: a shallow embedding of the storage engine

The development follows the C sources of the picture database
(`pictDB.h`, `db_utils.c`, `dedup.c`, `db_insert.c`, `db_delete.c`,
`db_read.c`, `image_content.c`, `db_create.c`).

Modelling conventions.

* The file behind `fpdb` is the list of its bytes.  Positioned writes follow
  POSIX: a write inside the file overwrites, a write reaching past the end
  extends the file, a gap left by a seek past the end reads as zero bytes.
* C strings (`pict_id`, the `id` arguments) are the lists of their characters
  before the terminating NUL; `strcmp(a, b) == 0` is equality of the lists.
* Unsigned machine integers are natural numbers; the arithmetic that can wrap
  (`db_version += 1`, `num_files += 1`, the conversion of a `size_t` to
  `uint32_t`) is written with an explicit `% UINT32_MOD`.
* The in-memory table `metadata` is the list of the rows of the allocated
  array.  A read of `metadata[i]` with `i` outside the array has no defined
  behaviour in C: the model then answers `Code.UNDEFINED`.
* Failures of the environment (a full disk, an allocation that fails) are not
  modelled: `fseek`, `ftell`, `calloc` succeed and `fwrite` of a non-empty
  block succeeds.  The failures that the arguments alone decide are modelled:
  `fwrite(buf, 0, 1, f)` and `fread(buf, 0, 1, f)` return 0, `fread` returns 0
  when fewer bytes than asked remain.
* The external libraries (SHA-256, the JPEG codec) and the sizes and byte
  images of the two structures are the fields of `Env`.
-/

namespace PictDB

/-! ## Constants of `pictDB.h` -/

/-- Max. size of a PictDB name. -/
abbrev MAX_DB_NAME : Nat := 31
/-- Max. size of a picture id. -/
abbrev MAX_PIC_ID : Nat := 127
/-- Max. value of max_files. -/
abbrev MAX_MAX_FILES : Nat := 100000
/-- Value of `is_valid` for a free row. -/
abbrev EMPTY : Nat := 0
/-- Value of `is_valid` for an occupied row. -/
abbrev NON_EMPTY : Nat := 1
/-- Internal code of the thumbnail resolution. -/
abbrev RES_THUMB : Nat := 0
/-- Internal code of the small resolution. -/
abbrev RES_SMALL : Nat := 1
/-- Internal code of the original resolution. -/
abbrev RES_ORIG : Nat := 2
/-- Number of values of a `uint32_t`. -/
abbrev UINT32_MOD : Nat := 4294967296
/-- The text `CAT_TXT`, "EPFL PictDB binary", as character codes. -/
def CAT_TXT : List Nat :=
  [69, 80, 70, 76, 32, 80, 105, 99, 116, 68, 66, 32, 98, 105, 110, 97, 114, 121]

/-- Modelled from the spec: `error.h` is not among the sources; the return
codes it declares are taken as distinct values, `OK` standing for the return
value 0.  `UNDEFINED` is not a return code: it marks a run that reads the
metadata array outside its bounds. -/
inductive Code where
  | OK
  | ERR_IO
  | ERR_OUT_OF_MEMORY
  | ERR_INVALID_ARGUMENT
  | ERR_INVALID_FILENAME
  | ERR_INVALID_PICID
  | ERR_FILE_NOT_FOUND
  | ERR_FULL_DATABASE
  | ERR_DUPLICATE_ID
  | ERR_RESOLUTIONS
  | ERR_MAX_FILES
  | ERR_VIPS
  | ERR_NOT_ENOUGH_ARGUMENTS
  | UNDEFINED
  deriving DecidableEq, Repr

/-! ## Data structures of `pictDB.h` -/

/-- The header `struct pictdb_header`. -/
structure pictdb_header where
  db_name : List Nat
  db_version : Nat
  num_files : Nat
  max_files : Nat
  res_resized : List Nat
  unused_32 : Nat
  unused_64 : Nat
  deriving DecidableEq, Repr

/-- An array indexed by the resolution codes (`size[NB_RES]`,
`offset[NB_RES]`): entry `RES_THUMB`, entry `RES_SMALL`, entry `RES_ORIG`. -/
structure res_array where
  thumb : Nat
  small : Nat
  orig : Nat
  deriving DecidableEq, Repr

/-- The entry `a[dim]` for a resolution code `dim`. -/
def res_array.get (a : res_array) (dim : Nat) : Nat :=
  if dim = RES_THUMB then a.thumb else if dim = RES_SMALL then a.small else a.orig

/-- The array after `a[dim] = v` for a resolution code `dim`. -/
def res_array.set (a : res_array) (dim : Nat) (v : Nat) : res_array :=
  if dim = RES_THUMB then { a with thumb := v }
  else if dim = RES_SMALL then { a with small := v }
  else { a with orig := v }

/-- A row `struct pict_metadata`; `res_orig` is the pair
`(res_orig[DIM_X_ORIG], res_orig[DIM_Y_ORIG])`. -/
structure pict_metadata where
  pict_id : List Nat
  SHA : List Nat
  res_orig : Nat × Nat
  size : res_array
  offset : res_array
  is_valid : Nat
  unused_16 : Nat
  deriving DecidableEq, Repr

/-- The database `struct pictdb_file`: the bytes of the file behind `fpdb`,
the header and the metadata array. -/
structure pictdb_file where
  fpdb : List Nat
  header : pictdb_header
  metadata : List pict_metadata
  deriving DecidableEq, Repr

/-- The external parts: the hash function, the JPEG provider, and the sizes and
byte images of the two structures as the compiler lays them out. -/
structure Env where
  /-- The digest `SHA256(image, im_size, ...)`. -/
  SHA256 : List Nat → List Nat
  /-- The decoder behind `get_resolution`: `(height, width)` of a JPEG buffer,
  `none` when `vips_jpegload_buffer` fails. -/
  jpeg_dimensions : List Nat → Option (Nat × Nat)
  /-- The provider behind `resize_and_save_image`: from the original bytes, the
  size recorded for them, the resolution code and `res_resized`, the resized
  JPEG buffer, `none` when a VIPS call fails. -/
  jpeg_resize : List Nat → Nat → Nat → List Nat → Option (List Nat)
  /-- The size `sizeof(struct pictdb_header)`. -/
  sizeof_header : Nat
  /-- The size `sizeof(struct pict_metadata)`. -/
  sizeof_metadata : Nat
  /-- The bytes of a header as `fwrite` stores them. -/
  header_bytes : pictdb_header → List Nat
  /-- The bytes of a row as `fwrite` stores them. -/
  metadata_bytes : pict_metadata → List Nat
  sizeof_header_pos : 0 < sizeof_header
  sizeof_metadata_pos : 0 < sizeof_metadata
  header_bytes_length : ∀ h, (header_bytes h).length = sizeof_header
  metadata_bytes_length : ∀ m, (metadata_bytes m).length = sizeof_metadata

/-! ## File primitives -/

/-- The file after `fseek(f, off, SEEK_SET)` and a successful `fwrite` of the
block `bs`. -/
def write_at (f : List Nat) (off : Nat) (bs : List Nat) : List Nat :=
  f.take off ++ List.replicate (off - f.length) 0 ++ bs ++ f.drop (off + bs.length)

/-- The function `read_disk_image` with the stream `f` positioned at `pos`:
`fread(buf, image_size, 1, f)` must deliver one whole block. -/
def read_disk_image (image_size : Nat) (f : List Nat) (pos : Nat) : Code × List Nat :=
  if image_size = 0 then ( Code.ERR_IO, [])
  else if pos + image_size ≤ f.length then (Code.OK, (f.drop pos).take image_size)
  else ( Code.ERR_IO, [])

/-- The function `read_db_file_image`: seek to `offset[dim]` of row `index`
and read `size[dim]` bytes. -/
def read_db_file_image (index dim : Nat) (db : pictdb_file) : Code × List Nat :=
  match db.metadata[index]? with
  | none => (Code.UNDEFINED, [])
  | some r => read_disk_image (r.size.get dim) db.fpdb (r.offset.get dim)

/-- The function `write_disk_image`: `fwrite(image_buffer, image_size, 1, f)`
at position `pos`. -/
def write_disk_image (image_buffer : List Nat) (image_size : Nat) (f : List Nat)
    (pos : Nat) : Code × List Nat :=
  if image_size = 0 then ( Code.ERR_IO, f)
  else (Code.OK, write_at f pos (image_buffer.take image_size))

/-- The function `write_db_file_image`: the code, the value stored in
`*offset` (the end of the file before the write) and the file. -/
def write_db_file_image (image_buffer : List Nat) (image_size : Nat)
    (db : pictdb_file) : Code × Nat × pictdb_file :=
  let offset := db.fpdb.length
  let w := write_disk_image image_buffer image_size db.fpdb offset
  (w.1, offset, { db with fpdb := w.2 })

/-- The function `write_db_file_header`. -/
def write_db_file_header (env : Env) (db : pictdb_file) : pictdb_file :=
  { db with fpdb := write_at db.fpdb 0 (env.header_bytes db.header) }

/-- The function `write_db_file_one_metadata`; the row written is
`metadata[index]`, `none` when `index` is outside the array. -/
def write_db_file_one_metadata (env : Env) (db : pictdb_file) (index : Nat) :
    Option pictdb_file :=
  match db.metadata[index]? with
  | none => none
  | some r =>
    let pos := env.sizeof_header + index * env.sizeof_metadata
    some { db with fpdb := write_at db.fpdb pos (env.metadata_bytes r) }

/-! ## Lookup by identifier (`db_utils.c`) -/

/-- The loop of `get_image_index`: the state is `(*index, found)`; one unit of
fuel is one turn of the loop; `none` marks a read outside the array. -/
def get_image_index_loop (pictID : List Nat) (db : pictdb_file) :
    Nat → Nat → Nat → Option (Nat × Nat)
  | 0, index, found => some (index, found)
  | fuel + 1, index, found =>
    if index < db.header.max_files ∧ found = 0 then
      match db.metadata[index]? with
      | none => none
      | some r =>
        let found1 := if r.is_valid = NON_EMPTY ∧ r.pict_id = pictID then 1 else found
        get_image_index_loop pictID db fuel (index + 1) found1
    else some (index, found)

/-- The function `get_image_index`: the code and the value left in `*index`.
The loop makes at most `max_files` turns. -/
def get_image_index (pictID : List Nat) (db : pictdb_file) : Code × Nat :=
  match get_image_index_loop pictID db db.header.max_files 0 0 with
  | none => (Code.UNDEFINED, 0)
  | some (index, found) =>
    if found = 0 then (Code.ERR_FILE_NOT_FOUND, index) else (Code.OK, index - 1)

/-! ## Deduplication (`dedup.c`) -/

/-- The loop of `do_name_and_content_dedup` from turn `i` on; `cand` is the
current content of `metadata[index]`, `id` and `SHA` are its identifier and
digest, which the loop does not change. -/
def dedup_loop (db : pictdb_file) (index : Nat) (id SHA : List Nat) :
    Nat → Nat → pict_metadata → Code × pict_metadata
  | 0, _, cand => (Code.OK, cand)
  | fuel + 1, i, cand =>
    if i < db.header.max_files then
      if i ≠ index then
        match db.metadata[i]? with
        | none => (Code.UNDEFINED, cand)
        | some r =>
          if r.is_valid = NON_EMPTY then
            if r.pict_id = id then (Code.ERR_DUPLICATE_ID, cand)
            else if r.SHA = SHA then
              dedup_loop db index id SHA fuel (i + 1)
                { cand with
                  size := { cand.size with thumb := r.size.thumb, small := r.size.small }
                  offset := r.offset
                  res_orig := r.res_orig }
            else dedup_loop db index id SHA fuel (i + 1) cand
          else dedup_loop db index id SHA fuel (i + 1) cand
      else dedup_loop db index id SHA fuel (i + 1) cand
    else (Code.OK, cand)

/-- The function `do_name_and_content_dedup`. -/
def do_name_and_content_dedup (db : pictdb_file) (index : Nat) : Code × pictdb_file :=
  if index > db.header.max_files then (Code.ERR_INVALID_ARGUMENT, db)
  else
    match db.metadata[index]? with
    | none => (Code.UNDEFINED, db)
    | some row =>
      let cand := { row with offset := { row.offset with orig := 0 } }
      let res := dedup_loop db index row.pict_id row.SHA db.header.max_files 0 cand
      (res.1, { db with metadata := db.metadata.set index res.2 })

/-! ## Insertion (`db_insert.c`) -/

/-- The slot scan of `do_insert`,
`while(metadata[index].is_valid != EMPTY) index += 1`; `none` when the scan
leaves the array. -/
def insert_scan (md : List pict_metadata) : Nat → Nat → Option Nat
  | 0, _ => none
  | fuel + 1, index =>
    match md[index]? with
    | none => none
    | some r => if r.is_valid ≠ EMPTY then insert_scan md fuel (index + 1) else some index

/-- The header after `db_version += 1; num_files += 1` on the two `uint32_t`
counters. -/
def header_after_insert (h : pictdb_header) : pictdb_header :=
  { h with
    db_version := (h.db_version + 1) % UINT32_MOD
    num_files := (h.num_files + 1) % UINT32_MOD }

/-- The end of a successful `do_insert` (from `is_valid = NON_EMPTY` to the two
writes of the header and of the row). -/
def insert_commit (env : Env) (db : pictdb_file) (index : Nat) : Code × pictdb_file :=
  match db.metadata[index]? with
  | none => (Code.UNDEFINED, db)
  | some row =>
    let db1 := { db with
      header := header_after_insert db.header
      metadata := db.metadata.set index { row with is_valid := NON_EMPTY } }
    match write_db_file_one_metadata env (write_db_file_header env db1) index with
    | none => (Code.UNDEFINED, db1)
    | some db2 => (Code.OK, db2)

/-- The branch of `do_insert` taken when the deduplication left
`offset[RES_ORIG] == 0`: decode the dimensions, append the blob, reset the
resized variants. -/
def insert_new_blob (env : Env) (image : List Nat) (db : pictdb_file) (index : Nat)
    (row : pict_metadata) : Code × pictdb_file :=
  match env.jpeg_dimensions image with
  | none => (Code.ERR_VIPS, db)
  | some (height, width) =>
    let w := write_db_file_image image (image.length % UINT32_MOD) db
    if w.1 ≠ Code.OK then ( Code.ERR_IO, w.2.2)
    else
      let row1 := { row with
        size := { row.size with thumb := 0, small := 0 }
        offset := { thumb := 0, small := 0, orig := w.2.1 }
        res_orig := (width, height) }
      (Code.OK, { w.2.2 with metadata := db.metadata.set index row1 })

/-- The body of `do_insert` once the scan has stopped at `index`, where it
found the row `row`: fill the digest, the identifier and the original size,
run the deduplication, append the blob if it is new, commit. -/
def insert_at (env : Env) (image : List Nat) (id : List Nat) (db : pictdb_file)
    (index : Nat) (row : pict_metadata) : Code × pictdb_file :=
  let row1 := { row with
    SHA := env.SHA256 image
    pict_id := id.take MAX_PIC_ID
    size := { row.size with orig := image.length % UINT32_MOD } }
  let d := do_name_and_content_dedup { db with metadata := db.metadata.set index row1 } index
  if d.1 ≠ Code.OK then d
  else
    match d.2.metadata[index]? with
    | none => (Code.UNDEFINED, d.2)
    | some row2 =>
      if row2.offset.orig = 0 then
        let b := insert_new_blob env image d.2 index row2
        if b.1 ≠ Code.OK then b else insert_commit env b.2 index
      else insert_commit env d.2 index

/-- The function `do_insert`; `im_size` is the length of `image`. -/
def do_insert (env : Env) (image : List Nat) (id : List Nat) (db : pictdb_file) :
    Code × pictdb_file :=
  if db.header.num_files < db.header.max_files then
    match insert_scan db.metadata (db.metadata.length + 1) 0 with
    | none => (Code.UNDEFINED, db)
    | some index =>
      match db.metadata[index]? with
      | none => (Code.UNDEFINED, db)
      | some row => insert_at env image id db index row
  else (Code.ERR_FULL_DATABASE, db)

/-! ## Deletion (`db_delete.c`) -/

/-- The header after `db_version += 1; num_files -= 1` on the two `uint32_t`
counters. -/
def header_after_delete (h : pictdb_header) : pictdb_header :=
  { h with
    db_version := (h.db_version + 1) % UINT32_MOD
    num_files := (h.num_files + UINT32_MOD - 1) % UINT32_MOD }

/-- The function `do_delete`.  `row_written` says whether
`write_db_file_one_metadata` returns 0 (`db_delete.c:44`) and `header_written`
whether `write_db_file_header` does (`db_delete.c:53`); a write that fails is
taken to leave the file as it was. -/
def do_delete_fwrite (env : Env) (row_written header_written : Bool) (pictID : List Nat)
    (db : pictdb_file) : Code × pictdb_file :=
  if db.header.num_files = 0 then (Code.ERR_FILE_NOT_FOUND, db)
  else
    match get_image_index pictID db with
    | (Code.OK, i) =>
      match db.metadata[i]? with
      | none => (Code.UNDEFINED, db)
      | some row =>
        let db1 := { db with metadata := db.metadata.set i { row with is_valid := EMPTY } }
        if row_written = false then ( Code.ERR_IO, db1)
        else
          match write_db_file_one_metadata env db1 i with
          | none => (Code.UNDEFINED, db1)
          | some db2 =>
            let db3 := { db2 with header := header_after_delete db2.header }
            if header_written = false then ( Code.ERR_IO, db3)
            else (Code.OK, write_db_file_header env db3)
    | (Code.UNDEFINED, _) => (Code.UNDEFINED, db)
    | _ => (Code.ERR_FILE_NOT_FOUND, db)

/-- The function `do_delete` on a stream on which both writes succeed. -/
def do_delete (env : Env) (pictID : List Nat) (db : pictdb_file) : Code × pictdb_file :=
  do_delete_fwrite env true true pictID db

/-! ## Lazy resize (`image_content.c`) -/

/-- The loop of `get_dup_index_and_update` from turn `i` on; `tab` is the
content of `index_tab` so far. -/
def dup_index_loop (db : pictdb_file) (index : Nat) (SHA : List Nat) :
    Nat → Nat → List Nat → Option (List Nat)
  | 0, _, tab => some tab
  | fuel + 1, i, tab =>
    if i < db.header.max_files then
      if i ≠ index then
        match db.metadata[i]? with
        | none => none
        | some r =>
          if NON_EMPTY = r.is_valid then
            if r.SHA = SHA then dup_index_loop db index SHA fuel (i + 1) (tab ++ [i])
            else dup_index_loop db index SHA fuel (i + 1) tab
          else dup_index_loop db index SHA fuel (i + 1) tab
      else dup_index_loop db index SHA fuel (i + 1) tab
    else some tab

/-- The update at the end of `get_dup_index_and_update`: row `index` takes the
small and thumbnail entries of row `g = index_tab[1]` where the sizes differ. -/
def dup_update (row g : pict_metadata) : pict_metadata :=
  let row1 :=
    if row.size.small ≠ g.size.small then
      { row with
        size := { row.size with small := g.size.small }
        offset := { row.offset with small := g.offset.small } }
    else row
  if row1.size.thumb ≠ g.size.thumb then
    { row1 with
      size := { row1.size with thumb := g.size.thumb }
      offset := { row1.offset with thumb := g.offset.thumb } }
  else row1

/-- The function `get_dup_index_and_update`: the array `index_tab` and the
database with row `index` updated; `none` marks a read outside the array. -/
def get_dup_index_and_update (db : pictdb_file) (index : Nat) :
    Option (List Nat × pictdb_file) :=
  match db.metadata[index]? with
  | none => none
  | some row =>
    match dup_index_loop db index row.SHA db.header.max_files 0 [index] with
    | none => none
    | some tab =>
      match tab with
      | _ :: g :: _ =>
        match db.metadata[g]? with
        | none => none
        | some rg => some (tab, { db with metadata := db.metadata.set index (dup_update row rg) })
      | _ => some (tab, db)

/-- A row after `size[dim] = new_size; offset[dim] = offset`. -/
def resized_row (dim new_size offset : Nat) (r : pict_metadata) : pict_metadata :=
  { r with size := r.size.set dim new_size, offset := r.offset.set dim offset }

/-- The last loop of `lazily_resize`: for every entry of `index_tab`, store the
new size and offset in the row and write the row to the file. -/
def resize_update_loop (env : Env) (dim new_size offset : Nat) :
    List Nat → pictdb_file → Option pictdb_file
  | [], db => some db
  | k :: tab, db =>
    match db.metadata[k]? with
    | none => none
    | some r =>
      let r1 := resized_row dim new_size offset r
      match write_db_file_one_metadata env { db with metadata := db.metadata.set k r1 } k with
      | none => none
      | some db1 => resize_update_loop env dim new_size offset tab db1

/-- The function `lazily_resize`. -/
def lazily_resize (env : Env) (dim : Nat) (db : pictdb_file) (index : Nat) :
    Code × pictdb_file :=
  if RES_ORIG = dim then (Code.OK, db)
  else if RES_THUMB ≠ dim ∧ RES_SMALL ≠ dim then (Code.ERR_RESOLUTIONS, db)
  else
    match db.metadata[index]? with
    | none => (Code.UNDEFINED, db)
    | some row0 =>
      if index > db.header.num_files ∧ EMPTY = row0.is_valid then (Code.ERR_INVALID_ARGUMENT, db)
      else
        match get_dup_index_and_update db index with
        | none => (Code.UNDEFINED, db)
        | some (index_tab, db1) =>
          match db1.metadata[index]? with
          | none => (Code.UNDEFINED, db1)
          | some row =>
            if 0 ≠ row.size.get dim then (Code.OK, db1)
            else
              let rd := read_db_file_image index RES_ORIG db1
              if rd.1 ≠ Code.OK then (rd.1, db1)
              else
                match env.jpeg_resize rd.2 row.size.orig dim db1.header.res_resized with
                | none => (Code.ERR_VIPS, db1)
                | some outBuffer =>
                  let new_size := outBuffer.length % UINT32_MOD
                  let w := write_db_file_image outBuffer new_size db1
                  if w.1 ≠ Code.OK then ( Code.ERR_IO, w.2.2)
                  else
                    match resize_update_loop env dim new_size w.2.1 index_tab w.2.2 with
                    | none => (Code.UNDEFINED, w.2.2)
                    | some db2 => (Code.OK, db2)

/-! ## Reading (`db_read.c`) -/

/-- The result of `do_read`: the code, the database, the value stored in
`*image_size` and the bytes of `*image_buffer` (both `none` while the call has
not stored them). -/
structure read_result where
  code : Code
  db : pictdb_file
  image_size : Option Nat
  image_buffer : Option (List Nat)
  deriving DecidableEq, Repr

/-- The function `do_read`. -/
def do_read (env : Env) (pictID : List Nat) (dim : Nat) (db : pictdb_file) : read_result :=
  if RES_THUMB ≠ dim ∧ RES_SMALL ≠ dim ∧ RES_ORIG ≠ dim then
    ⟨Code.ERR_RESOLUTIONS, db, none, none⟩
  else
    let g := get_image_index pictID db
    if g.1 ≠ Code.OK then ⟨g.1, db, none, none⟩
    else
      let i := g.2
      let l := lazily_resize env dim db i
      if l.1 ≠ Code.OK then ⟨l.1, l.2, none, none⟩
      else
        match l.2.metadata[i]? with
        | none => ⟨Code.UNDEFINED, l.2, none, none⟩
        | some row =>
          let rd := read_db_file_image i dim l.2
          if rd.1 ≠ Code.OK then ⟨rd.1, l.2, some (row.size.get dim), none⟩
          else ⟨Code.OK, l.2, some (row.size.get dim), some rd.2⟩

/-! ## Creation (`db_create.c`) -/

/-- A row as `calloc` delivers it. -/
def zero_metadata : pict_metadata :=
  { pict_id := [], SHA := List.replicate 32 0, res_orig := (0, 0),
    size := ⟨0, 0, 0⟩, offset := ⟨0, 0, 0⟩, is_valid := 0, unused_16 := 0 }

/-- The function `do_create`.  The caller has stored `max_files` and
`res_resized` in the header of `db_file`; the file is opened with "wb+", so it
starts empty; `calloc` and `fopen` are taken to succeed. -/
def do_create (env : Env) (max_files : Nat) (res_resized : List Nat) : Code × pictdb_file :=
  let hdr : pictdb_header :=
    { db_name := CAT_TXT.take MAX_DB_NAME, db_version := 0, num_files := 0,
      max_files := max_files, res_resized := res_resized, unused_32 := 0, unused_64 := 0 }
  let md := (List.replicate max_files zero_metadata).map fun r => { r with is_valid := EMPTY }
  let db := write_db_file_header env { fpdb := [], header := hdr, metadata := md }
  (Code.OK, { db with
    fpdb := write_at db.fpdb db.fpdb.length (md.map env.metadata_bytes).flatten })

/-! ## Sequences of calls -/

/-- A call of one of the three operations on an open database. -/
inductive Op where
  | insert (image : List Nat) (id : List Nat)
  | delete (id : List Nat)
  | read (id : List Nat) (dim : Nat)
  deriving DecidableEq, Repr

/-- The database after one call. -/
def step (env : Env) (db : pictdb_file) : Op → pictdb_file
  | Op.insert image id => (do_insert env image id db).2
  | Op.delete id => (do_delete env id db).2
  | Op.read id dim => (do_read env id dim db).db

/-- The database after a sequence of calls. -/
def run (env : Env) (db : pictdb_file) (ops : List Op) : pictdb_file :=
  ops.foldl (step env) db

/-! ## Well-formedness predicates -/

/-- The array `metadata` has exactly `header.max_files` rows, as `calloc`
allocates it in `do_create` and `do_open`. -/
def table_allocated (db : pictdb_file) : Prop :=
  db.metadata.length = db.header.max_files

/-- Every row carries one of the two values of `is_valid`. -/
def valid_flags (db : pictdb_file) : Prop :=
  ∀ r ∈ db.metadata, r.is_valid = EMPTY ∨ r.is_valid = NON_EMPTY

/-- The count invariant: `num_files` is the number of occupied rows. -/
def count_invariant (db : pictdb_file) : Prop :=
  db.header.num_files = db.metadata.countP fun r => r.is_valid = NON_EMPTY

/-- No occupied row of the table holds the identifier `id`. -/
def id_absent (id : List Nat) (db : pictdb_file) : Prop :=
  ∀ r ∈ db.metadata, r.is_valid = NON_EMPTY → r.pict_id ≠ id

instance (db : pictdb_file) : Decidable (table_allocated db) := by
  unfold table_allocated; infer_instance

instance (db : pictdb_file) : Decidable (valid_flags db) := by
  unfold valid_flags; infer_instance

instance (db : pictdb_file) : Decidable (count_invariant db) := by
  unfold count_invariant; infer_instance

instance (id : List Nat) (db : pictdb_file) : Decidable (id_absent id db) := by
  unfold id_absent; infer_instance

/-- The end of the metadata table in the file,
`sizeof(header) + max_files * sizeof(row)`. -/
def table_end (env : Env) (db : pictdb_file) : Nat :=
  env.sizeof_header + db.header.max_files * env.sizeof_metadata

/-- A small environment for concrete runs: a toy digest, a decoder that accepts
the buffers starting with the JPEG marker `FF D8`, four-byte headers and
three-byte rows. -/
def sample_env : Env where
  SHA256 := fun b => [b.sum % 251]
  jpeg_dimensions := fun b =>
    match b with
    | 255 :: 216 :: rest => some (rest.length + 1, 1)
    | _ => none
  jpeg_resize := fun b _ dim _ => some (255 :: 216 :: dim :: b.take 1)
  sizeof_header := 4
  sizeof_metadata := 3
  header_bytes := fun h => [h.db_version % 256, h.num_files % 256, h.max_files % 256, 0]
  metadata_bytes := fun m => [m.is_valid % 256, m.size.orig % 256, m.offset.orig % 256]
  sizeof_header_pos := by decide
  sizeof_metadata_pos := by decide
  header_bytes_length := fun _ => rfl
  metadata_bytes_length := fun _ => rfl

/-- An occupied row for concrete runs. -/
def sample_row (id : List Nat) (sha : List Nat) (size offset : Nat) : pict_metadata :=
  { pict_id := id, SHA := sha, res_orig := (1, 1), size := ⟨0, 0, size⟩,
    offset := ⟨0, 0, offset⟩, is_valid := NON_EMPTY, unused_16 := 0 }

/-- A database with `max_files = 2` created by `do_create`. -/
def sample_db : pictdb_file := (do_create sample_env 2 [64, 64, 256, 256]).2

/-- A database with `max_files = 1` after one insertion under the identifier
`[97]`: a full database. -/
def full_db : pictdb_file :=
  (do_insert sample_env [255, 216, 7] [97] (do_create sample_env 1 [64, 64, 256, 256]).2).2

/-- The database `sample_db` after one insertion under the identifier `[97]`:
one occupied row, one free row. -/
def one_db : pictdb_file := (do_insert sample_env [255, 216, 7] [97] sample_db).2

/-- An empty database with `max_files = 2` whose version counter holds the
largest `uint32_t`. -/
def wrap_db : pictdb_file :=
  { fpdb := [255, 0, 2, 0, 0, 0, 0, 0, 0, 0]
    header := { sample_db.header with db_version := 4294967295 }
    metadata := sample_db.metadata }

/-- Row `j` is another occupied row with the digest `SHA`: the rows from which
`do_name_and_content_dedup` copies into row `index`. -/
def sha_match (db : pictdb_file) (index : Nat) (SHA : List Nat) (j : Nat)
    (r : pict_metadata) : Prop :=
  j ≠ index ∧ db.metadata[j]? = some r ∧ r.is_valid = NON_EMPTY ∧ r.SHA = SHA

/-- The position of row `index` in the file. -/
def row_pos (env : Env) (index : Nat) : Nat :=
  env.sizeof_header + index * env.sizeof_metadata

/-- The file after the two writes that end `do_insert`: the header at 0, then
row `index`. -/
def commit_file (env : Env) (f : List Nat) (hdr : pictdb_header) (index : Nat)
    (row : pict_metadata) : List Nat :=
  write_at (write_at f 0 (env.header_bytes hdr)) (row_pos env index) (env.metadata_bytes row)

/-- The row that `do_insert` prepares in the slot before the deduplication:
digest, identifier and original size filled, `offset[RES_ORIG]` reset by
`do_name_and_content_dedup`. -/
def candidate_row (env : Env) (image id : List Nat) (row : pict_metadata) : pict_metadata :=
  { row with
    SHA := env.SHA256 image
    pict_id := id.take MAX_PIC_ID
    size := { row.size with orig := image.length % UINT32_MOD }
    offset := { row.offset with orig := 0 } }

/-- The outcome of the deduplication loop run by `do_insert` for slot `idx`. -/
def insert_dedup (env : Env) (image id : List Nat) (db : pictdb_file) (idx : Nat)
    (row : pict_metadata) : Code × pict_metadata :=
  dedup_loop db idx (id.take MAX_PIC_ID) (env.SHA256 image) db.header.max_files 0
    (candidate_row env image id row)

/-- The database `one_db` after the thumbnail of `[97]` was built and the image
deleted: row 0 is free and still carries the size and offset of the thumbnail. -/
def deleted_db : pictdb_file :=
  (do_delete sample_env [97] (do_read sample_env [97] RES_THUMB one_db).db).2

/-- No two occupied rows hold the same identifier. -/
def unique_ids (db : pictdb_file) : Prop :=
  db.metadata.Pairwise fun a b =>
    a.is_valid = NON_EMPTY → b.is_valid = NON_EMPTY → a.pict_id ≠ b.pict_id

instance (db : pictdb_file) : Decidable (unique_ids db) := by
  unfold unique_ids; infer_instance

/-- The database `one_db` with the version counter at the largest `uint32_t`. -/
def wrap_one_db : pictdb_file :=
  { fpdb := [255, 1, 2, 0, 1, 3, 10, 0, 0, 0, 255, 216, 7]
    header := { one_db.header with db_version := 4294967295 }
    metadata := one_db.metadata }

/-- The occupied row of `one_db`. -/
def one_db_row : pict_metadata :=
  { pict_id := [97], SHA := [227], res_orig := (1, 2), size := ⟨0, 0, 3⟩,
    offset := ⟨0, 0, 10⟩, is_valid := NON_EMPTY, unused_16 := 0 }

/-- The fields of a row that only `do_insert` and `do_delete` write: the
identifier, the digest and the flag `is_valid`. -/
def row_key (r : pict_metadata) : List Nat × List Nat × Nat :=
  (r.pict_id, r.SHA, r.is_valid)

/-- The invariant carried along a run: the table has `max_files` rows, each
flag is `EMPTY` or `NON_EMPTY`, `num_files` counts the occupied rows, and
`max_files` is a `uint32_t`. -/
def count_inv (db : pictdb_file) : Prop :=
  table_allocated db ∧ valid_flags db ∧ count_invariant db ∧ db.header.max_files < UINT32_MOD

/-- A sequence of calls with successes and failures: two insertions of the same
blob, a read that builds a thumbnail, an insertion into the full table, two
deletions (one of a missing identifier) and the insertion of a buffer that is
not a JPEG image. -/
def sample_ops : List Op :=
  [Op.insert [255, 216, 7] [97], Op.read [97] RES_THUMB, Op.insert [255, 216, 7] [98],
   Op.insert [255, 216, 9] [99], Op.delete [97], Op.delete [100], Op.insert [1, 2] [101]]

/-- The database `one_db` after the same blob was inserted a second time, under
the identifier `[98]`: two occupied rows that share one original. -/
def two_db : pictdb_file := (do_insert sample_env [255, 216, 7] [98] one_db).2

/-- The non-empty blob `B` lies in the file at offset `off`, inside the blob
region. -/
def blob_stored_at (env : Env) (db : pictdb_file) (off : Nat) (B : List Nat) : Prop :=
  table_end env db ≤ off ∧ B ≠ [] ∧ (db.fpdb.drop off).take B.length = B

instance (env : Env) (db : pictdb_file) (off : Nat) (B : List Nat) :
    Decidable (blob_stored_at env db off B) := by
  unfold blob_stored_at; infer_instance

/-! ## Resolution tokens (`db_utils.c`, `pictDBM.c`) -/

/-- The string "thumb". -/
def str_thumb : List Nat := [116, 104, 117, 109, 98]
/-- The string "thumbnail". -/
def str_thumbnail : List Nat := [116, 104, 117, 109, 98, 110, 97, 105, 108]
/-- The string "small". -/
def str_small : List Nat := [115, 109, 97, 108, 108]
/-- The string "orig". -/
def str_orig : List Nat := [111, 114, 105, 103]
/-- The string "original". -/
def str_original : List Nat := [111, 114, 105, 103, 105, 110, 97, 108]

/-- The function `resolution_atoi`; `none` is the null pointer. -/
def resolution_atoi (resolution : Option (List Nat)) : Int :=
  match resolution with
  | none => -1
  | some s =>
    if s = str_thumb ∨ s = str_thumbnail then (RES_THUMB : Int)
    else if s = str_small then (RES_SMALL : Int)
    else if s = str_orig ∨ s = str_original then (RES_ORIG : Int)
    else -1

/-- The start of `do_read_cmd`, up to the call of `do_open`: the code it
returns early, or `OK` with the value of `dim` it goes on with.  `argv` holds
the `args` arguments, `FILENAME_MAX` is the constant of `stdio.h`. -/
def do_read_cmd_dim (FILENAME_MAX : Nat) (argv : List (List Nat)) : Code × Nat :=
  if argv.length < 3 then (Code.ERR_NOT_ENOUGH_ARGUMENTS, 0)
  else
    match argv[1]?, argv[2]? with
    | some db_filename, some pictID =>
      if db_filename.length > FILENAME_MAX ∧ db_filename.length ≠ 0 then
        (Code.ERR_INVALID_FILENAME, 0)
      else if pictID.length > MAX_PIC_ID ∨ pictID.length = 0 then (Code.ERR_INVALID_PICID, 0)
      else if argv.length = 4 then
        if -1 = resolution_atoi argv[3]? then (Code.ERR_INVALID_ARGUMENT, 0)
        else (Code.OK, (resolution_atoi argv[3]?).toNat)
      else (Code.OK, RES_ORIG)
    | _, _ => (Code.UNDEFINED, 0)

/-! ## Invariants of the databases built by the operations -/

/-- The pair `(size[v], offset[v])` of a resized variant: both 0, or a non-empty
range of the file that starts at or after `te`, the end of the metadata table. -/
def variant_ok (te len size off : Nat) : Prop :=
  (size = 0 ∧ off = 0) ∨ (size ≠ 0 ∧ te ≤ off ∧ off + size ≤ len)

/-- The invariant kept by `do_create`, `do_insert`, `do_delete` and
`lazily_resize`, whatever the digest function: the table is allocated and lies
in the file, occupied rows hold distinct identifiers, point into the blob
region, and occupied rows with the same digest carry the same three offsets
and the same sizes of the two resized variants. -/
structure core_inv (env : Env) (db : pictdb_file) : Prop where
  alloc : table_allocated db
  file_ge : table_end env db ≤ db.fpdb.length
  ids : ∀ (i j : Nat) (ri rj : pict_metadata),
    db.metadata[i]? = some ri → db.metadata[j]? = some rj → i ≠ j →
    ri.is_valid = NON_EMPTY → rj.is_valid = NON_EMPTY → ri.pict_id ≠ rj.pict_id
  rows : ∀ (i : Nat) (r : pict_metadata), db.metadata[i]? = some r → r.is_valid = NON_EMPTY →
    table_end env db ≤ r.offset.orig ∧
    variant_ok (table_end env db) db.fpdb.length r.size.thumb r.offset.thumb ∧
    variant_ok (table_end env db) db.fpdb.length r.size.small r.offset.small
  share : ∀ (i j : Nat) (ri rj : pict_metadata),
    db.metadata[i]? = some ri → db.metadata[j]? = some rj →
    ri.is_valid = NON_EMPTY → rj.is_valid = NON_EMPTY → ri.SHA = rj.SHA →
    ri.offset = rj.offset ∧ ri.size.thumb = rj.size.thumb ∧ ri.size.small = rj.size.small

/-- Two occupied rows with the same digest share the original, and each resized
variant that both of them hold. -/
def dup_sharing (db : pictdb_file) : Prop :=
  ∀ a ∈ db.metadata, ∀ b ∈ db.metadata,
    a.is_valid = NON_EMPTY → b.is_valid = NON_EMPTY → a.SHA = b.SHA →
    a.offset.orig = b.offset.orig ∧
    (a.size.thumb ≠ 0 → b.size.thumb ≠ 0 →
      a.offset.thumb = b.offset.thumb ∧ a.size.thumb = b.size.thumb) ∧
    (a.size.small ≠ 0 → b.size.small ≠ 0 →
      a.offset.small = b.offset.small ∧ a.size.small = b.size.small)

instance (db : pictdb_file) : Decidable (dup_sharing db) := by
  unfold dup_sharing; infer_instance

/-- The fields of a row that describe its original: the digest, the flag
`is_valid`, `size[RES_ORIG]` and `offset[RES_ORIG]`. -/
def row_orig (r : pict_metadata) : List Nat × Nat × Nat × Nat :=
  (r.SHA, r.is_valid, r.size.orig, r.offset.orig)

/-- The blobs given to the insertions of a sequence of calls. -/
def inserted : List Op → List (List Nat)
  | [] => []
  | Op.insert image _ :: ops => image :: inserted ops
  | Op.delete _ :: ops => inserted ops
  | Op.read _ _ :: ops => inserted ops

/-- The digest function separates the blobs of the list. -/
def collision_free (env : Env) (blobs : List (List Nat)) : Prop :=
  ∀ B ∈ blobs, ∀ B1 ∈ blobs, env.SHA256 B = env.SHA256 B1 → B = B1

instance (env : Env) (blobs : List (List Nat)) : Decidable (collision_free env blobs) := by
  unfold collision_free; infer_instance

/-- The original of every occupied row is a non-empty range of the file, as
long as one of the blobs of the list, whose digest the row carries. -/
def orig_inv (env : Env) (blobs : List (List Nat)) (db : pictdb_file) : Prop :=
  ∀ (i : Nat) (r : pict_metadata), db.metadata[i]? = some r → r.is_valid = NON_EMPTY →
    r.size.orig ≠ 0 ∧ r.offset.orig + r.size.orig ≤ db.fpdb.length ∧
    ∃ B ∈ blobs, r.SHA = env.SHA256 B ∧ r.size.orig = B.length % UINT32_MOD
/-- For each of the three variants of a row, the size is 0 exactly when the
offset is 0. -/
def size_offset_agree (r : pict_metadata) : Prop :=
  ∀ v ∈ [RES_THUMB, RES_SMALL, RES_ORIG], (r.size.get v = 0 ↔ r.offset.get v = 0)

instance (r : pict_metadata) : Decidable (size_offset_agree r) := by
  unfold size_offset_agree; infer_instance

/-- Every non-zero offset of the row is at or after `te`, and each of its
three ranges `[offset[v], offset[v] + size[v])` ends inside a file of `len`
bytes. -/
def in_blob_region (te len : Nat) (r : pict_metadata) : Prop :=
  ∀ v ∈ [RES_THUMB, RES_SMALL, RES_ORIG],
    (r.offset.get v ≠ 0 → te ≤ r.offset.get v) ∧ r.offset.get v + r.size.get v ≤ len

instance (te len : Nat) (r : pict_metadata) : Decidable (in_blob_region te len r) := by
  unfold in_blob_region; infer_instance

/-! ## Opening (`db_utils.c`) -/

/-- The reading side of the layout of the two structures: the value that
`fread` stores in a `struct pictdb_header` and in a `struct pict_metadata`
from the bytes of the file. -/
structure Codec where
  /-- The writing side, with the digest and the image functions. -/
  env : Env
  /-- The header that `sizeof(struct pictdb_header)` bytes stand for. -/
  header_of_bytes : List Nat → pictdb_header
  /-- The row that `sizeof(struct pict_metadata)` bytes stand for. -/
  metadata_of_bytes : List Nat → pict_metadata

/-- The function `do_open` on a file that holds the bytes `f`; the file name
passes the tests, `fopen` and `calloc` succeed.  The first `fread` needs one
whole header, the second one `max_files` whole rows.  After an error
`do_close` has run and no database is open: `none`. -/
def do_open (c : Codec) (f : List Nat) : Code × Option pictdb_file :=
  if f.length < c.env.sizeof_header then ( Code.ERR_IO, none)
  else
    let header := c.header_of_bytes (f.take c.env.sizeof_header)
    if header.num_files > MAX_MAX_FILES then (Code.ERR_MAX_FILES, none)
    else if f.length < c.env.sizeof_header + header.max_files * c.env.sizeof_metadata then
      ( Code.ERR_IO, none)
    else
      let metadata := (List.range header.max_files).map fun k =>
        c.metadata_of_bytes
          ((f.drop (c.env.sizeof_header + k * c.env.sizeof_metadata)).take c.env.sizeof_metadata)
      (Code.OK, some { fpdb := f, header := header, metadata := metadata })

/-- The `k` bytes of `n` in little-endian order. -/
def le_bytes (k n : Nat) : List Nat :=
  (List.range k).map fun i => n / 256 ^ i % 256

/-- The number whose little-endian bytes are `bs`. -/
def of_le_bytes (bs : List Nat) : Nat :=
  bs.foldr (fun b acc => b + 256 * acc) 0

/-- The array `char[n]` that holds the string `s`, cut to `n - 1` characters
and filled with zeros. -/
def c_string (n : Nat) (s : List Nat) : List Nat :=
  (s.take (n - 1)).map (fun x => x % 256) ++ List.replicate (n - (s.take (n - 1)).length) 0

/-- The string held by an array of characters: the bytes before the first 0. -/
def of_c_string (bs : List Nat) : List Nat :=
  bs.takeWhile fun b => b ≠ 0

/-- The bytes `[off, off + len)` of a block. -/
def bytes_at (bs : List Nat) (off len : Nat) : List Nat :=
  (bs.drop off).take len

/-- The layout of the two structures for a 64-bit little-endian target: a
header of 64 bytes and a row of 216 bytes, with the padding that aligns the
64-bit fields of the row; the digest and the image functions are those of `sample_env`. -/
def layout_env : Env where
  SHA256 := sample_env.SHA256
  jpeg_dimensions := sample_env.jpeg_dimensions
  jpeg_resize := sample_env.jpeg_resize
  sizeof_header := 64
  sizeof_metadata := 216
  header_bytes := fun h =>
    c_string 32 h.db_name ++ le_bytes 4 h.db_version ++ le_bytes 4 h.num_files ++
    le_bytes 4 h.max_files ++
    le_bytes 2 (h.res_resized.getD 0 0) ++ le_bytes 2 (h.res_resized.getD 1 0) ++
    le_bytes 2 (h.res_resized.getD 2 0) ++ le_bytes 2 (h.res_resized.getD 3 0) ++
    le_bytes 4 h.unused_32 ++ le_bytes 8 h.unused_64
  metadata_bytes := fun m =>
    c_string 128 m.pict_id ++ ((List.range 32).map fun i => m.SHA.getD i 0 % 256) ++
    le_bytes 4 m.res_orig.1 ++ le_bytes 4 m.res_orig.2 ++
    le_bytes 4 m.size.thumb ++ le_bytes 4 m.size.small ++ le_bytes 4 m.size.orig ++
    le_bytes 4 0 ++
    le_bytes 8 m.offset.thumb ++ le_bytes 8 m.offset.small ++ le_bytes 8 m.offset.orig ++
    le_bytes 2 m.is_valid ++ le_bytes 2 m.unused_16 ++ le_bytes 4 0
  sizeof_header_pos := by decide
  sizeof_metadata_pos := by decide
  header_bytes_length := by
    intro h
    have hL := List.length_take_le (32 - 1) h.db_name
    simp only [List.length_append, c_string, le_bytes, List.length_map, List.length_range,
      List.length_replicate]
    omega
  metadata_bytes_length := by
    intro m
    have hL := List.length_take_le (128 - 1) m.pict_id
    simp only [List.length_append, c_string, le_bytes, List.length_map, List.length_range,
      List.length_replicate]
    omega

/-- The reading side of `layout_env`. -/
def layout_codec : Codec where
  env := layout_env
  header_of_bytes := fun b =>
    { db_name := of_c_string (bytes_at b 0 32)
      db_version := of_le_bytes (bytes_at b 32 4)
      num_files := of_le_bytes (bytes_at b 36 4)
      max_files := of_le_bytes (bytes_at b 40 4)
      res_resized := [of_le_bytes (bytes_at b 44 2), of_le_bytes (bytes_at b 46 2),
        of_le_bytes (bytes_at b 48 2), of_le_bytes (bytes_at b 50 2)]
      unused_32 := of_le_bytes (bytes_at b 52 4)
      unused_64 := of_le_bytes (bytes_at b 56 8) }
  metadata_of_bytes := fun b =>
    { pict_id := of_c_string (bytes_at b 0 128)
      SHA := bytes_at b 128 32
      res_orig := (of_le_bytes (bytes_at b 160 4), of_le_bytes (bytes_at b 164 4))
      size := ⟨of_le_bytes (bytes_at b 168 4), of_le_bytes (bytes_at b 172 4),
        of_le_bytes (bytes_at b 176 4)⟩
      offset := ⟨of_le_bytes (bytes_at b 184 8), of_le_bytes (bytes_at b 192 8),
        of_le_bytes (bytes_at b 200 8)⟩
      is_valid := of_le_bytes (bytes_at b 208 2)
      unused_16 := of_le_bytes (bytes_at b 210 2) }

/-! ## Garbage collection (`db_gbcollect.c`) -/

/-- One turn of the loop of `do_gbcollect`, for the row `index` of `db_file`;
the state is `(*db_file, tmpdb_file, newIndex)`.  The buffer that `do_read`
delivers holds `image_size` bytes, which `do_insert` receives. -/
def gbcollect_turn (env : Env) (index : Nat) (s : pictdb_file × pictdb_file × Nat) :
    Code × pictdb_file × pictdb_file × Nat :=
  match s.1.metadata[index]? with
  | none => (Code.UNDEFINED, s)
  | some row =>
    if NON_EMPTY = row.is_valid then
      let rd := do_read env row.pict_id RES_ORIG s.1
      if rd.code ≠ Code.OK then (rd.code, rd.db, s.2.1, s.2.2)
      else
        match rd.image_buffer with
        | none => (Code.UNDEFINED, rd.db, s.2.1, s.2.2)
        | some image_buffer =>
          let ins := do_insert env image_buffer row.pict_id s.2.1
          if ins.1 ≠ Code.OK then (ins.1, rd.db, ins.2, s.2.2)
          else
            match rd.db.metadata[index]? with
            | none => (Code.UNDEFINED, rd.db, ins.2, s.2.2)
            | some row1 =>
              let sm :=
                if 0 ≠ row1.size.small then lazily_resize env RES_SMALL ins.2 s.2.2
                else (Code.OK, ins.2)
              if sm.1 ≠ Code.OK then (sm.1, rd.db, sm.2, s.2.2)
              else
                let th :=
                  if 0 ≠ row1.size.thumb then lazily_resize env RES_THUMB sm.2 s.2.2
                  else (Code.OK, sm.2)
                if th.1 ≠ Code.OK then (th.1, rd.db, th.2, s.2.2)
                else (Code.OK, rd.db, th.2, s.2.2 + 1)
    else (Code.OK, s)

/-- The loop of `do_gbcollect` from `index` on; one unit of fuel is one turn. -/
def gbcollect_loop (env : Env) :
    Nat → Nat → pictdb_file × pictdb_file × Nat → Code × pictdb_file × pictdb_file × Nat
  | 0, _, s => (Code.OK, s)
  | fuel + 1, index, s =>
    if index < s.1.header.max_files then
      match gbcollect_turn env index s with
      | (Code.OK, s1) => gbcollect_loop env fuel (index + 1) s1
      | (c, s1) => (c, s1)
    else (Code.OK, s)

/-- The function `do_gbcollect`: the code, `*db_file` at the return and the
temporary database as `do_close` finds it.  When the code is 0 the file of
the temporary database has taken the name of the file of the database
(`remove` and `rename` are taken to succeed). -/
def do_gbcollect (env : Env) (db : pictdb_file) : Code × pictdb_file × pictdb_file :=
  let c := do_create env db.header.max_files db.header.res_resized
  if c.1 ≠ Code.OK then (c.1, db, c.2)
  else
    let l := gbcollect_loop env db.header.max_files 0 (db, c.2, 0)
    (l.1, l.2.1, l.2.2.1)
/-- The indices below `n` of the occupied rows, in ascending order. -/
def occupied (db : pictdb_file) (n : Nat) : List Nat :=
  (List.range n).filter fun i =>
    match db.metadata[i]? with
    | some r => decide (r.is_valid = NON_EMPTY)
    | none => false

/-- The bytes `[off, off + size)` of the file of a database. -/
def blob_at (db : pictdb_file) (off size : Nat) : List Nat :=
  (db.fpdb.drop off).take size

/-- The invariants of the data model that compaction relies on.  The table has
`max_files` rows and no two occupied rows hold the same identifier; every
occupied row has an identifier of at most `MAX_PIC_ID` characters, a 32-bit
`size[RES_ORIG]`, the digest of the bytes at `offset[RES_ORIG]`, and for thumb
and small a size that is 0 exactly when the offset is 0; two occupied rows
with the same digest have the same three offsets, and the same size for each
variant where both sizes are set. -/
def consistent (env : Env) (db : pictdb_file) : Prop :=
  table_allocated db ∧ unique_ids db ∧
  (∀ r ∈ db.metadata, r.is_valid = NON_EMPTY →
    r.pict_id.length ≤ MAX_PIC_ID ∧ r.size.orig < UINT32_MOD ∧
    r.SHA = env.SHA256 (blob_at db r.offset.orig r.size.orig) ∧
    (r.size.thumb = 0 ↔ r.offset.thumb = 0) ∧ (r.size.small = 0 ↔ r.offset.small = 0)) ∧
  (∀ a ∈ db.metadata, ∀ b ∈ db.metadata,
    a.is_valid = NON_EMPTY → b.is_valid = NON_EMPTY → a.SHA = b.SHA →
    a.offset = b.offset ∧
    ∀ v ∈ [RES_THUMB, RES_SMALL, RES_ORIG],
      a.size.get v ≠ 0 → b.size.get v ≠ 0 → a.size.get v = b.size.get v)

instance (env : Env) (db : pictdb_file) : Decidable (consistent env db) := by
  unfold consistent; infer_instance

/-- Byte `p` of the file lies in the range `[offset[v], offset[v] + size[v])`
of a variant `v` of an occupied row. -/
def covered (db : pictdb_file) (p : Nat) : Prop :=
  ∃ r ∈ db.metadata, r.is_valid = NON_EMPTY ∧
    ∃ v ∈ [RES_THUMB, RES_SMALL, RES_ORIG], r.offset.get v ≤ p ∧ p < r.offset.get v + r.size.get v

instance (db : pictdb_file) (p : Nat) : Decidable (covered db p) := by
  unfold covered; infer_instance

/-- Every byte of the file after the metadata table belongs to a variant of an
occupied row. -/
def no_garbage (env : Env) (db : pictdb_file) : Prop :=
  ∀ p, p < db.fpdb.length → table_end env db ≤ p → covered db p

instance (env : Env) (db : pictdb_file) : Decidable (no_garbage env db) := by
  unfold no_garbage; infer_instance

/-- The original of row `t` of the database `T` is the original of the occupied
row `r` of the database `S`, under the same identifier and digest. -/
def orig_copied (S T : pictdb_file) (r t : pict_metadata) : Prop :=
  r.is_valid = NON_EMPTY ∧ t.is_valid = NON_EMPTY ∧ t.pict_id = r.pict_id ∧ t.SHA = r.SHA ∧
  t.size.orig = r.size.orig ∧ r.size.orig ≠ 0 ∧
  r.offset.orig + r.size.orig ≤ S.fpdb.length ∧ t.offset.orig + t.size.orig ≤ T.fpdb.length ∧
  blob_at T t.offset.orig t.size.orig = blob_at S r.offset.orig r.size.orig

/-- Row `t` holds exactly the resized variants that row `r` holds. -/
def same_variants (r t : pict_metadata) : Prop :=
  ∀ v, v = RES_THUMB ∨ v = RES_SMALL → (t.size.get v ≠ 0 ↔ r.size.get v ≠ 0)

/-- The bytes of the header and of the metadata table as `fwrite` stores
them. -/
def table_image (env : Env) (db : pictdb_file) : List Nat :=
  env.header_bytes db.header ++ (db.metadata.map env.metadata_bytes).flatten

/-- The start of the file is the image of the header and of the table in
memory: every change of them has been written. -/
def synced (env : Env) (db : pictdb_file) : Prop :=
  db.fpdb.take (table_end env db) = table_image env db

instance (env : Env) (db : pictdb_file) : Decidable (synced env db) := by
  unfold synced; infer_instance

/-- The invariant of the loop of `do_gbcollect` before the turn of row `n`,
with `newIndex = k`: the temporary database `T` has the core invariant and no
garbage, its file is in step with its table, its rows below `k` stand for the
occupied rows of `S` below `n`, in the same order, and its other rows are
`EMPTY`. -/
structure gc_inv (env : Env) (S T : pictdb_file) (n k : Nat) : Prop where
  core : core_inv env T
  hmax : T.header.max_files = S.header.max_files
  hk : k = (occupied S n).length
  hi : ∀ (j : Nat) (t : pict_metadata), T.metadata[j]? = some t → k ≤ j → t.is_valid = EMPTY
  corr : ∀ (p i : Nat), (occupied S n)[p]? = some i →
    ∃ (r t : pict_metadata), S.metadata[i]? = some r ∧ T.metadata[p]? = some t ∧
      orig_copied S T r t ∧ same_variants r t
  cover : no_garbage env T
  sync : synced env T

/-- The state of the temporary database `T` inside the turn of row `n`, after
the insertion of its original in slot `k` as row `t`: for each resized
variant `v`, row `t` holds `v` exactly when the source row `r` does, or the
call of `lazily_resize` for `v` is still to come (`pend v`), no other occupied
row of `T` has the digest of `t`, and `t` does not hold `v`. -/
structure gc_mid (env : Env) (S T : pictdb_file) (n k : Nat) (r t : pict_metadata)
    (pend : Nat → Prop) : Prop where
  core : core_inv env T
  hmax : T.header.max_files = S.header.max_files
  hk : k = (occupied S n).length
  hi : ∀ (j : Nat) (t1 : pict_metadata), T.metadata[j]? = some t1 → k < j → t1.is_valid = EMPTY
  corr : ∀ (p i : Nat), (occupied S n)[p]? = some i →
    ∃ (r1 t1 : pict_metadata), S.metadata[i]? = some r1 ∧ T.metadata[p]? = some t1 ∧
      orig_copied S T r1 t1 ∧ same_variants r1 t1
  cover : no_garbage env T
  hrow : T.metadata[k]? = some t
  horig : orig_copied S T r t
  hvar : ∀ v, v = RES_THUMB ∨ v = RES_SMALL →
    (t.size.get v ≠ 0 ↔ r.size.get v ≠ 0) ∨
    (pend v ∧ t.size.get v = 0 ∧
      ∀ (j : Nat) (t1 : pict_metadata), j ≠ k → T.metadata[j]? = some t1 →
        t1.is_valid = NON_EMPTY → t1.SHA ≠ t.SHA)
  sync : synced env T

/-- A database with a tombstone: the blob `[255, 216, 7]` is stored once for
the identifiers `[97]` and `[99]`, with a thumbnail; the row of `[98]` is
deleted and its blob `[255, 216, 9]` is left in the file. -/
def gc_db : pictdb_file :=
  run sample_env (do_create sample_env 3 [64, 64, 256, 256]).2
    [Op.insert [255, 216, 7] [97], Op.read [97] RES_THUMB, Op.insert [255, 216, 9] [98],
     Op.insert [255, 216, 7] [99], Op.delete [98]]

/-- A database of one row whose stored thumbnail, the byte `[9]` at offset 10,
is shorter than the thumbnail that `sample_env.jpeg_resize` builds from the
original `[255, 216, 7]` stored at offset 7. -/
def stale_thumb_db : pictdb_file :=
  { fpdb := [1, 1, 1, 0, 1, 3, 7, 255, 216, 7, 9]
    header := { db_name := CAT_TXT, db_version := 1, num_files := 1, max_files := 1,
                res_resized := [64, 64, 256, 256], unused_32 := 0, unused_64 := 0 }
    metadata := [{ pict_id := [97], SHA := [227], res_orig := (1, 2),
                   size := ⟨1, 0, 3⟩, offset := ⟨10, 0, 7⟩, is_valid := NON_EMPTY,
                   unused_16 := 0 }] }

/-- The candidate row after the copy that `do_name_and_content_dedup` makes
from the row `r`: the sizes of thumb and small, the three offsets and the
dimensions of the original. -/
def dedup_copy (cand r : pict_metadata) : pict_metadata :=
  { cand with
    size := { cand.size with thumb := r.size.thumb, small := r.size.small }
    offset := r.offset
    res_orig := r.res_orig }
/-- A table of three rows for the deduplication of row 2: the rows 0 and 1 are
occupied and have the digest of row 2, with different resized variants. -/
def tie_db : pictdb_file :=
  { fpdb := []
    header := { db_name := CAT_TXT, db_version := 2, num_files := 2, max_files := 3,
                res_resized := [64, 64, 256, 256], unused_32 := 0, unused_64 := 0 }
    metadata :=
      [{ pict_id := [97], SHA := [227], res_orig := (1, 2), size := ⟨4, 0, 3⟩,
         offset := ⟨16, 0, 13⟩, is_valid := NON_EMPTY, unused_16 := 0 },
       { pict_id := [98], SHA := [227], res_orig := (1, 2), size := ⟨0, 5, 3⟩,
         offset := ⟨0, 20, 13⟩, is_valid := NON_EMPTY, unused_16 := 0 },
       { pict_id := [99], SHA := [227], res_orig := (0, 0), size := ⟨0, 0, 3⟩,
         offset := ⟨0, 0, 0⟩, is_valid := EMPTY, unused_16 := 0 }] }

/-- A database of three rows after the insertion of `[255, 216, 7]` under
`[97]`, the construction of its thumbnail, and the insertion of
`[255, 216, 9]` under `[98]`. -/
def conflict_base : pictdb_file :=
  run sample_env (do_create sample_env 3 [64, 64, 256, 256]).2
    [Op.insert [255, 216, 7] [97], Op.read [97] RES_THUMB, Op.insert [255, 216, 9] [98]]

/-- The row that `do_insert` prepares for `[255, 216, 7]` under `[98]` in a
free row that `do_create` filled. -/
def conflict_row : pict_metadata :=
  { pict_id := [98], SHA := [227], res_orig := (0, 0), size := ⟨0, 0, 3⟩,
    offset := ⟨0, 0, 0⟩, is_valid := EMPTY, unused_16 := 0 }

/-- The table that `do_insert` hands to `do_name_and_content_dedup` when
`[255, 216, 7]` is inserted into `conflict_base` under `[98]`: row 2 holds the
digest, the identifier and the size of the original. -/
def conflict_db : pictdb_file :=
  { conflict_base with
    metadata := conflict_base.metadata.set 2 conflict_row }

/-- The loop of `get_dup_index_and_update` with the array `index_tab` and its
capacity `size_tab_max`: when the array is full, `realloc` (taken to succeed)
doubles it before the write of `index_tab[size_tab]`; `none` marks a read or a
write outside an array. -/
def dup_index_array_loop (db : pictdb_file) (index : Nat) (SHA : List Nat) :
    Nat → Nat → List Nat → Nat → Option (List Nat × Nat)
  | 0, _, tab, size_tab_max => some (tab, size_tab_max)
  | fuel + 1, i, tab, size_tab_max =>
    if i < db.header.max_files then
      if i ≠ index then
        match db.metadata[i]? with
        | none => none
        | some r =>
          if NON_EMPTY = r.is_valid then
            if r.SHA = SHA then
              let size_tab_max1 := if tab.length ≥ size_tab_max then 2 * size_tab_max
                else size_tab_max
              if tab.length < size_tab_max1 then
                dup_index_array_loop db index SHA fuel (i + 1) (tab ++ [i]) size_tab_max1
              else none
            else dup_index_array_loop db index SHA fuel (i + 1) tab size_tab_max
          else dup_index_array_loop db index SHA fuel (i + 1) tab size_tab_max
      else dup_index_array_loop db index SHA fuel (i + 1) tab size_tab_max
    else some (tab, size_tab_max)

/-- The indices, in ascending order, of the occupied rows other than `index`
whose digest is `SHA`. -/
def dup_group (db : pictdb_file) (index : Nat) (SHA : List Nat) : List Nat :=
  (List.range db.header.max_files).filter fun j =>
    decide (j ≠ index) &&
      match db.metadata[j]? with
      | some r => decide (r.is_valid = NON_EMPTY ∧ r.SHA = SHA)
      | none => false

/-- A table of twelve occupied rows with the same digest, one more than the
initial capacity of `index_tab` plus the row asked for. -/
def twelve_db : pictdb_file :=
  { fpdb := []
    header := { db_name := CAT_TXT, db_version := 12, num_files := 12, max_files := 12,
                res_resized := [64, 64, 256, 256], unused_32 := 0, unused_64 := 0 }
    metadata := (List.range 12).map fun i => sample_row [97 + i] [227] 3 40 }

/-- A table of two occupied rows with the same digest where row 0 holds a
thumbnail and row 1 does not. -/
def uneven_db : pictdb_file :=
  { fpdb := []
    header := { db_name := CAT_TXT, db_version := 2, num_files := 2, max_files := 2,
                res_resized := [64, 64, 256, 256], unused_32 := 0, unused_64 := 0 }
    metadata :=
      [{ pict_id := [97], SHA := [227], res_orig := (1, 2), size := ⟨4, 0, 3⟩,
         offset := ⟨13, 0, 10⟩, is_valid := NON_EMPTY, unused_16 := 0 },
       { pict_id := [98], SHA := [227], res_orig := (1, 2), size := ⟨0, 0, 3⟩,
         offset := ⟨0, 0, 10⟩, is_valid := NON_EMPTY, unused_16 := 0 }] }

/-- The table `uneven_db` after row 1 has taken the thumbnail of row 0. -/
def uneven_shared_db : pictdb_file :=
  { fpdb := []
    header := { db_name := CAT_TXT, db_version := 2, num_files := 2, max_files := 2,
                res_resized := [64, 64, 256, 256], unused_32 := 0, unused_64 := 0 }
    metadata :=
      [{ pict_id := [97], SHA := [227], res_orig := (1, 2), size := ⟨4, 0, 3⟩,
         offset := ⟨13, 0, 10⟩, is_valid := NON_EMPTY, unused_16 := 0 },
       { pict_id := [98], SHA := [227], res_orig := (1, 2), size := ⟨4, 0, 3⟩,
         offset := ⟨13, 0, 10⟩, is_valid := NON_EMPTY, unused_16 := 0 }] }

/-! ## The command `create` (`pictDBM.c`, `pictDBM_tools.c`) -/

def DEFAULT_MAX_FILES : Nat := 10
def DEFAULT_THUMB : Nat := 64
def MAX_THUMB : Nat := 128
def DEFAULT_SMALL : Nat := 256
def MAX_SMALL : Nat := 512

/-- The string "-max_files". -/
def str_max_files : List Nat := [45, 109, 97, 120, 95, 102, 105, 108, 101, 115]
/-- The string "-thumb_res". -/
def str_thumb_res : List Nat := [45, 116, 104, 117, 109, 98, 95, 114, 101, 115]
/-- The string "-small_res". -/
def str_small_res : List Nat := [45, 115, 109, 97, 108, 108, 95, 114, 101, 115]

/-- Modelled from the C standard, `libc` is not among the sources: `isspace`
in the "C" locale, the space and the characters from `\t` to `\r`. -/
def isspace (c : Nat) : Bool :=
  decide (c = 32 ∨ (9 ≤ c ∧ c ≤ 13))

/-- Modelled from the C standard: the decimal digits at the start of a string,
as the number read so far, whether a digit was read, and the rest of the
string. -/
def strtoumax_digits : List Nat → Nat → Bool → Nat × Bool × List Nat
  | [], acc, any => (acc, any, [])
  | c :: s, acc, any =>
    if 48 ≤ c ∧ c ≤ 57 then strtoumax_digits s (10 * acc + (c - 48)) true
    else (acc, any, c :: s)

/-- The outcome of `strtoumax(str, &endptr, 10)`: the value returned, whether
`endptr != str`, the string at `endptr`, and whether `errno` is `ERANGE`. -/
structure strtoumax_result where
  val : Nat
  converted : Bool
  endptr : List Nat
  erange : Bool
  deriving DecidableEq, Repr

/-- Modelled from the C standard, `libc` is not among the sources:
`strtoumax(str, &endptr, 10)` with a 64-bit `uintmax_t`.  White space is
skipped, then an optional sign, then decimal digits.  Without a digit no
conversion is made and `endptr` is `str`; a number that does not fit gives
`UINTMAX_MAX` and `ERANGE`; after a minus sign the number is negated in
`uintmax_t`. -/
def strtoumax (str : List Nat) : strtoumax_result :=
  let s := str.dropWhile isspace
  let neg := s.head? = some 45
  let s1 := if s.head? = some 45 ∨ s.head? = some 43 then s.tail else s
  let d := strtoumax_digits s1 0 false
  if d.2.1 = false then ⟨0, false, str, false⟩
  else if d.1 ≥ 2 ^ 64 then ⟨2 ^ 64 - 1, true, d.2.2, true⟩
  else ⟨if neg then (2 ^ 64 - d.1) % 2 ^ 64 else d.1, true, d.2.2, false⟩

/-- The functions `atouint16` and `atouint32` that `define_atouintN(N)` builds,
for `N` bits. -/
def atouintN (N : Nat) (str : List Nat) : Nat :=
  let r := strtoumax str
  if r.erange = true ∨ r.val > 2 ^ N - 1 ∨ r.converted = false ∨ r.endptr ≠ [] then 0
  else r.val % 2 ^ N

/-- The function `atouint16`. -/
def atouint16 (str : List Nat) : Nat := atouintN 16 str

/-- The function `atouint32`. -/
def atouint32 (str : List Nat) : Nat := atouintN 32 str

/-- The local variables of `do_create_cmd` that the options set. -/
structure create_vars where
  max_files : Nat
  thumb_resX : Nat
  thumb_resY : Nat
  small_resX : Nat
  small_resY : Nat
  deriving DecidableEq, Repr

/-- The loop `while(args > 1)` of `do_create_cmd`; one unit of fuel is one turn.
The list is `argv`, of `args` elements: its head `argv[0]` is the argument read
last, and each `next_arg` drops the head. -/
def do_create_cmd_loop : Nat → List (List Nat) → create_vars → Code × create_vars
  | 0, _, a => (Code.UNDEFINED, a)
  | fuel + 1, _ :: opt :: rest, a =>
    if opt = str_max_files then
      match rest with
      | [] => (Code.ERR_NOT_ENOUGH_ARGUMENTS, a)
      | v :: rest1 =>
        let max_files := atouint32 v
        if max_files > MAX_MAX_FILES ∨ max_files = 0 then
          (Code.ERR_MAX_FILES, { a with max_files := max_files })
        else do_create_cmd_loop fuel (v :: rest1) { a with max_files := max_files }
    else if opt = str_thumb_res then
      match rest with
      | x :: y :: rest2 =>
        let thumb_resX := atouint16 x
        if thumb_resX = 0 ∨ thumb_resX > MAX_THUMB then
          (Code.ERR_RESOLUTIONS, { a with thumb_resX := thumb_resX })
        else
          let thumb_resY := atouint16 y
          if thumb_resY = 0 ∨ thumb_resY > MAX_THUMB then
            (Code.ERR_RESOLUTIONS, { a with thumb_resX := thumb_resX, thumb_resY := thumb_resY })
          else
            do_create_cmd_loop fuel (y :: rest2)
              { a with thumb_resX := thumb_resX, thumb_resY := thumb_resY }
      | _ => (Code.ERR_NOT_ENOUGH_ARGUMENTS, a)
    else if opt = str_small_res then
      match rest with
      | x :: y :: rest2 =>
        let small_resX := atouint16 x
        if small_resX = 0 ∨ small_resX > MAX_SMALL ∨ small_resX < a.thumb_resX then
          (Code.ERR_RESOLUTIONS, { a with small_resX := small_resX })
        else
          let small_resY := atouint16 y
          if small_resY = 0 ∨ small_resY > MAX_SMALL ∨ small_resY < a.thumb_resY then
            (Code.ERR_RESOLUTIONS, { a with small_resX := small_resX, small_resY := small_resY })
          else
            do_create_cmd_loop fuel (y :: rest2)
              { a with small_resX := small_resX, small_resY := small_resY }
      | _ => (Code.ERR_NOT_ENOUGH_ARGUMENTS, a)
    else (Code.ERR_INVALID_ARGUMENT, a)
  | _ + 1, _, a => (Code.OK, a)

/-- The function `do_create_cmd`: the code it returns and, when it has called
`do_create`, the database `db_file` after the call.  `argv` holds the `args`
arguments, `FILENAME_MAX` is the constant of `stdio.h`. -/
def do_create_cmd (env : Env) (FILENAME_MAX : Nat) (argv : List (List Nat)) :
    Code × Option pictdb_file :=
  if argv.length < 2 then (Code.ERR_NOT_ENOUGH_ARGUMENTS, none)
  else
    match argv.tail with
    | [] => (Code.UNDEFINED, none)
    | db_filename :: rest =>
      if db_filename.length > FILENAME_MAX ∧ db_filename.length ≠ 0 then
        (Code.ERR_INVALID_FILENAME, none)
      else
        let l := do_create_cmd_loop argv.length (db_filename :: rest)
          { max_files := DEFAULT_MAX_FILES, thumb_resX := DEFAULT_THUMB,
            thumb_resY := DEFAULT_THUMB, small_resX := DEFAULT_SMALL,
            small_resY := DEFAULT_SMALL }
        if l.1 ≠ Code.OK then (l.1, none)
        else
          let c := do_create env l.2.max_files
            [l.2.thumb_resX, l.2.thumb_resY, l.2.small_resX, l.2.small_resY]
          (c.1, some c.2)

/-- No "-thumb_res" stands behind a "-small_res" in the list. -/
def thumb_res_first (argv : List (List Nat)) : Prop :=
  argv.Pairwise fun a b => ¬ (a = str_small_res ∧ b = str_thumb_res)

instance (argv : List (List Nat)) : Decidable (thumb_res_first argv) := by
  unfold thumb_res_first; infer_instance

/-- The string "create". -/
def str_create : List Nat := [99, 114, 101, 97, 116, 101]

/-- The command line `create db -small_res 100 100 -thumb_res 128 128`. -/
def small_then_thumb_argv : List (List Nat) :=
  [str_create, [100, 98], str_small_res, [49, 48, 48], [49, 48, 48],
   str_thumb_res, [49, 50, 56], [49, 50, 56]]

/-- The command line
`create db -thumb_res 100 120 -small_res 100 200 -max_files 5`. -/
def thumb_then_small_argv : List (List Nat) :=
  [str_create, [100, 98], str_thumb_res, [49, 48, 48], [49, 50, 48],
   str_small_res, [49, 48, 48], [50, 48, 48], str_max_files, [53]]

/-- The ranges that `do_create_cmd` checks on the values of the options. -/
def create_bounds (a : create_vars) : Prop :=
  (1 ≤ a.max_files ∧ a.max_files ≤ MAX_MAX_FILES) ∧
  (1 ≤ a.thumb_resX ∧ a.thumb_resX ≤ MAX_THUMB) ∧
  (1 ≤ a.thumb_resY ∧ a.thumb_resY ≤ MAX_THUMB) ∧
  (1 ≤ a.small_resX ∧ a.small_resX ≤ MAX_SMALL) ∧
  (1 ≤ a.small_resY ∧ a.small_resY ≤ MAX_SMALL)

instance (a : create_vars) : Decidable (create_bounds a) := by
  unfold create_bounds; infer_instance

/-- What the operations keep for an occupied row `r`: the identifier fits its
field, the original is a non-empty range of the file after the table, it is
one of the blobs of the list, the row carries its digest, and each resized
variant that the row holds has the length of the image that the provider
builds from the original for the resolution of the header. -/
def row_stored (env : Env) (blobs : List (List Nat)) (db : pictdb_file)
    (r : pict_metadata) : Prop :=
  r.pict_id.length ≤ MAX_PIC_ID ∧ r.size.orig ≠ 0 ∧
  table_end env db ≤ r.offset.orig ∧ r.offset.orig + r.size.orig ≤ db.fpdb.length ∧
  blob_at db r.offset.orig r.size.orig ∈ blobs ∧
  r.SHA = env.SHA256 (blob_at db r.offset.orig r.size.orig) ∧
  ∀ v, v = RES_THUMB ∨ v = RES_SMALL → r.size.get v ≠ 0 →
    ∃ out, env.jpeg_resize (blob_at db r.offset.orig r.size.orig) r.size.orig v
        db.header.res_resized = some out ∧
      r.size.get v = out.length % UINT32_MOD

/-- The range of the variant `va` of row `a` and that of the variant `vb` of
row `b` are the same variant of rows with the same digest, or they do not
overlap. -/
def ranges_apart (a b : pict_metadata) (va vb : Nat) : Prop :=
  (a.SHA = b.SHA ∧ va = vb) ∨
  a.offset.get va + a.size.get va ≤ b.offset.get vb ∨
  b.offset.get vb + b.size.get vb ≤ a.offset.get va

/-- The ranges of the variants of the occupied rows are apart. -/
def blocks_apart (db : pictdb_file) : Prop :=
  ∀ (i j : Nat) (a b : pict_metadata), db.metadata[i]? = some a → db.metadata[j]? = some b →
    a.is_valid = NON_EMPTY → b.is_valid = NON_EMPTY →
    ∀ va ∈ [RES_THUMB, RES_SMALL, RES_ORIG], ∀ vb ∈ [RES_THUMB, RES_SMALL, RES_ORIG],
      ranges_apart a b va vb

/-- The invariant of the blobs stored by the operations: every occupied row
is stored as `row_stored` says, and the ranges of the variants are apart. -/
structure store_inv (env : Env) (blobs : List (List Nat)) (db : pictdb_file) : Prop where
  rows : ∀ (i : Nat) (r : pict_metadata), db.metadata[i]? = some r → r.is_valid = NON_EMPTY →
    row_stored env blobs db r
  apart : blocks_apart db

/-! ## Sequences of calls with writes that fail -/

/-- A call of one of the three operations; for `do_delete`, with the outcome
of the write of the row and of the write of the header. -/
inductive Call where
  | insert (image : List Nat) (id : List Nat)
  | delete (id : List Nat) (row_written header_written : Bool)
  | read (id : List Nat) (dim : Nat)
  deriving DecidableEq, Repr

/-- The database after one call. -/
def step_fwrite (env : Env) (db : pictdb_file) : Call → pictdb_file
  | Call.insert image id => (do_insert env image id db).2
  | Call.delete id row_written header_written =>
    (do_delete_fwrite env row_written header_written id db).2
  | Call.read id dim => (do_read env id dim db).db

/-- The database after a sequence of calls, whatever each of them returns. -/
def run_fwrite (env : Env) (db : pictdb_file) : List Call → pictdb_file
  | [] => db
  | c :: calls => run_fwrite env (step_fwrite env db c) calls

/-- Whether the call is not a `do_delete` whose write of the row fails. -/
def row_write_succeeds : Call → Bool
  | Call.delete _ row_written _ => row_written
  | _ => true

/-- In every `do_delete` of the sequence the write of the row succeeds. -/
def row_writes_succeed (calls : List Call) : Prop :=
  ∀ c ∈ calls, row_write_succeeds c = true

instance (calls : List Call) : Decidable (row_writes_succeed calls) := by
  unfold row_writes_succeed; infer_instance

/-! ## Lemmas on the file primitives -/

theorem write_at_length (f : List Nat) (off : Nat) (bs : List Nat) :
    (write_at f off bs).length = max f.length (off + bs.length) := by
  simp only [write_at, List.length_append, List.length_take, List.length_replicate,
    List.length_drop]
  omega

theorem write_at_end (f bs : List Nat) : write_at f f.length bs = f ++ bs := by
  simp [write_at]

theorem write_at_drop (f : List Nat) (off : Nat) (bs : List Nat) (n : Nat)
    (h : off + bs.length ≤ n) : (write_at f off bs).drop n = f.drop n := by
  have hlen : (f.take off ++ List.replicate (off - f.length) 0 ++ bs).length
      = off + bs.length := by
    simp only [List.length_append, List.length_take, List.length_replicate]
    omega
  obtain ⟨k, rfl⟩ : ∃ k, n = (off + bs.length) + k := ⟨n - (off + bs.length), by omega⟩
  unfold write_at
  rw [← hlen, ← List.drop_drop, List.drop_left, hlen, List.drop_drop]

/-! ## Lemmas on the lookup loop -/

theorem get_image_index_loop_found_stop (pictID : List Nat) (db : pictdb_file)
    (fuel index : Nat) :
    get_image_index_loop pictID db fuel index 1 = some (index, 1) := by
  cases fuel <;> simp [get_image_index_loop]

theorem get_image_index_loop_absent (pictID : List Nat) (db : pictdb_file)
    (hlen : db.header.max_files ≤ db.metadata.length)
    (habs : id_absent pictID db) :
    ∀ fuel index, index + fuel = db.header.max_files →
      get_image_index_loop pictID db fuel index 0 = some (db.header.max_files, 0) := by
  intro fuel
  induction fuel with
  | zero => intro index h; simp [get_image_index_loop, ← h]
  | succ n ih =>
    intro index h
    have hlt : index < db.header.max_files := by omega
    have hin : index < db.metadata.length := by omega
    simp only [get_image_index_loop, hlt, true_and, if_true]
    rw [List.getElem?_eq_getElem hin]
    have hno := habs _ (List.getElem_mem hin)
    have : ¬ ((db.metadata[index]).is_valid = NON_EMPTY ∧ (db.metadata[index]).pict_id = pictID) :=
      fun hc => hno hc.1 hc.2
    simp only [this, if_false]
    exact ih (index + 1) (by omega)

theorem get_image_index_absent (pictID : List Nat) (db : pictdb_file)
    (hlen : db.header.max_files ≤ db.metadata.length)
    (habs : id_absent pictID db) :
    get_image_index pictID db = (Code.ERR_FILE_NOT_FOUND, db.header.max_files) := by
  unfold get_image_index
  rw [get_image_index_loop_absent pictID db hlen habs db.header.max_files 0 (by omega)]
  simp

theorem do_insert_full_eq (env : Env) (image id : List Nat) (db : pictdb_file)
    (hfull : db.header.max_files ≤ db.header.num_files) :
    do_insert env image id db = (Code.ERR_FULL_DATABASE, db) := by
  unfold do_insert
  rw [if_neg (Nat.not_lt.mpr hfull)]

/-! ## C3: insertion into a full database -/

/-- C3. When `num_files >= max_files`, `do_insert` returns `ERR_FULL_DATABASE`
for every blob and identifier, and the database it leaves (header, rows and
file bytes) is the one it received. -/
theorem do_insert_full_database (env : Env) (image id : List Nat) (db : pictdb_file)
    (hfull : db.header.max_files ≤ db.header.num_files) :
    do_insert env image id db = (Code.ERR_FULL_DATABASE, db) :=
  do_insert_full_eq env image id db hfull

/-- The hypothesis of `do_insert_full_database` holds on `full_db`. -/
theorem do_insert_full_database_witness :
    full_db.header.max_files ≤ full_db.header.num_files ∧
    do_insert sample_env [255, 216, 9] [98] full_db = (Code.ERR_FULL_DATABASE, full_db) :=
  ⟨by decide, do_insert_full_database sample_env [255, 216, 9] [98] full_db (by decide)⟩

theorem do_read_absent (env : Env) (id : List Nat) (dim : Nat) (db : pictdb_file)
    (halloc : table_allocated db) (habs : id_absent id db)
    (hdim : dim = RES_THUMB ∨ dim = RES_SMALL ∨ dim = RES_ORIG) :
    do_read env id dim db = ⟨Code.ERR_FILE_NOT_FOUND, db, none, none⟩ := by
  have hg := get_image_index_absent id db (le_of_eq halloc.symm) habs
  unfold do_read
  rcases hdim with h | h | h <;> subst h <;> simp [hg]

/-! ## Lemmas on the slot scan -/

theorem insert_scan_spec (md : List pict_metadata) :
    ∀ fuel index idx, insert_scan md fuel index = some idx →
      index ≤ idx ∧ (∃ r, md[idx]? = some r ∧ r.is_valid = EMPTY) ∧
      ∀ j, index ≤ j → j < idx → ∃ r, md[j]? = some r ∧ r.is_valid ≠ EMPTY := by
  intro fuel
  induction fuel with
  | zero => intro index idx h; simp [insert_scan] at h
  | succ n ih =>
    intro index idx h
    unfold insert_scan at h
    cases hr : md[index]? with
    | none => simp [hr] at h
    | some r =>
      simp only [hr] at h
      by_cases hv : r.is_valid ≠ EMPTY
      · rw [if_pos hv] at h
        obtain ⟨h1, h2, h3⟩ := ih (index + 1) idx h
        refine ⟨by omega, h2, ?_⟩
        intro j hj1 hj2
        by_cases hji : j = index
        · subst hji; exact ⟨r, hr, hv⟩
        · exact h3 j (by omega) hj2
      · rw [if_neg hv] at h
        have hidx : index = idx := by simpa using h
        subst hidx
        refine ⟨le_refl _, ⟨r, hr, by simpa using hv⟩, ?_⟩
        intro j hj1 hj2
        omega

theorem insert_scan_exists (md : List pict_metadata) :
    ∀ fuel index j, index ≤ j → j < index + fuel →
      (∃ r, md[j]? = some r ∧ r.is_valid = EMPTY) →
      ∃ idx, insert_scan md fuel index = some idx := by
  intro fuel
  induction fuel with
  | zero => intro index j h1 h2; omega
  | succ n ih =>
    intro index j h1 h2 hj
    obtain ⟨rj, hrj, hvj⟩ := hj
    have hjlen : j < md.length := by
      by_contra hc
      rw [List.getElem?_eq_none (by omega)] at hrj
      cases hrj
    have hin : index < md.length := by omega
    unfold insert_scan
    rw [List.getElem?_eq_getElem hin]
    by_cases hv : (md[index]).is_valid ≠ EMPTY
    · simp only [if_pos hv]
      have hne : j ≠ index := by
        intro hc
        subst hc
        rw [List.getElem?_eq_getElem hin] at hrj
        have : md[j] = rj := by simpa using hrj
        rw [this] at hv
        exact hv hvj
      exact ih (index + 1) j (by omega) (by omega) ⟨rj, hrj, hvj⟩
    · simp only [if_neg hv]
      exact ⟨index, rfl⟩

theorem exists_empty_row (md : List pict_metadata)
    (hflags : ∀ r ∈ md, r.is_valid = EMPTY ∨ r.is_valid = NON_EMPTY)
    (hcount : md.countP (fun r => r.is_valid = NON_EMPTY) < md.length) :
    ∃ (j : Nat) (r : pict_metadata), md[j]? = some r ∧ r.is_valid = EMPTY := by
  by_contra hc
  have hall : ∀ r ∈ md, (decide (r.is_valid = NON_EMPTY)) = true := by
    intro r hr
    rcases hflags r hr with h | h
    · exfalso
      obtain ⟨j, hj, hjr⟩ := List.getElem_of_mem hr
      exact hc ⟨j, r, by rw [List.getElem?_eq_getElem hj, hjr], h⟩
    · simpa using h
  have := (List.countP_eq_length (p := fun r : pict_metadata => decide (r.is_valid = NON_EMPTY))).mpr hall
  omega

/-! ## Lemmas on the deduplication loop -/

theorem dedup_loop_keeps (db : pictdb_file) (index : Nat) (id SHA : List Nat) :
    ∀ fuel i cand,
      (dedup_loop db index id SHA fuel i cand).2.pict_id = cand.pict_id ∧
      (dedup_loop db index id SHA fuel i cand).2.SHA = cand.SHA ∧
      (dedup_loop db index id SHA fuel i cand).2.is_valid = cand.is_valid ∧
      (dedup_loop db index id SHA fuel i cand).2.size.orig = cand.size.orig ∧
      (dedup_loop db index id SHA fuel i cand).2.unused_16 = cand.unused_16 := by
  intro fuel
  induction fuel with
  | zero => intro i cand; simp [dedup_loop]
  | succ n ih =>
    intro i cand
    unfold dedup_loop
    split_ifs with h1 h2
    · cases hr : db.metadata[i]? with
      | none => simp
      | some r =>
        simp only
        split_ifs with h3 h4 h5
        · simp
        · have := ih (i + 1) { cand with
              size := { cand.size with thumb := r.size.thumb, small := r.size.small }
              offset := r.offset
              res_orig := r.res_orig }
          simpa using this
        · exact ih (i + 1) cand
        · exact ih (i + 1) cand
    · exact ih (i + 1) cand
    · simp

theorem dedup_loop_congr (db db1 : pictdb_file) (index : Nat) (id SHA : List Nat)
    (hh : db1.header.max_files = db.header.max_files)
    (hm : ∀ j, j ≠ index → db1.metadata[j]? = db.metadata[j]?) :
    ∀ fuel i cand,
      dedup_loop db1 index id SHA fuel i cand = dedup_loop db index id SHA fuel i cand := by
  intro fuel
  induction fuel with
  | zero => intro i cand; simp [dedup_loop]
  | succ n ih =>
    intro i cand
    unfold dedup_loop
    rw [hh]
    by_cases h1 : i < db.header.max_files
    · by_cases h2 : i ≠ index
      · simp only [if_pos h1, if_pos h2, hm i h2, ih]
      · simp only [if_pos h1, if_neg h2, ih]
    · simp only [if_neg h1]

theorem dedup_loop_duplicate (db : pictdb_file) (index : Nat) (id SHA : List Nat)
    (hlen : db.header.max_files ≤ db.metadata.length) :
    ∀ fuel i cand, i + fuel = db.header.max_files →
      (∃ (j : Nat) (r : pict_metadata), i ≤ j ∧ j < db.header.max_files ∧ j ≠ index ∧
        db.metadata[j]? = some r ∧ r.is_valid = NON_EMPTY ∧ r.pict_id = id) →
      (dedup_loop db index id SHA fuel i cand).1 = Code.ERR_DUPLICATE_ID := by
  intro fuel
  induction fuel with
  | zero =>
    intro i cand hi hj
    obtain ⟨j, r, h1, h0, _⟩ := hj
    omega
  | succ n ih =>
    intro i cand hi hj
    obtain ⟨j, r, h1, h0, h2, h3, h4, h5⟩ := hj
    have hlt : i < db.header.max_files := by omega
    have hin : i < db.metadata.length := by omega
    unfold dedup_loop
    simp only [if_pos hlt]
    by_cases hji : j = i
    · subst hji
      simp only [if_pos h2, h3, if_pos h4, if_pos h5]
    · have hnext : ∃ (j : Nat) (r : pict_metadata), i + 1 ≤ j ∧ j < db.header.max_files ∧
          j ≠ index ∧ db.metadata[j]? = some r ∧ r.is_valid = NON_EMPTY ∧ r.pict_id = id :=
        ⟨j, r, by omega, h0, h2, h3, h4, h5⟩
      by_cases hii : i ≠ index
      · simp only [if_pos hii]
        rw [List.getElem?_eq_getElem hin]
        simp only
        split_ifs
        · rfl
        · exact ih (i + 1) _ (by omega) hnext
        · exact ih (i + 1) _ (by omega) hnext
        · exact ih (i + 1) _ (by omega) hnext
      · simp only [if_neg hii]
        exact ih (i + 1) _ (by omega) hnext

theorem dedup_loop_ok (db : pictdb_file) (index : Nat) (id SHA : List Nat)
    (hlen : db.header.max_files ≤ db.metadata.length) :
    ∀ fuel i cand, i + fuel = db.header.max_files →
      (∀ (j : Nat) (r : pict_metadata), i ≤ j → j ≠ index → db.metadata[j]? = some r →
        r.is_valid = NON_EMPTY → r.pict_id ≠ id) →
      (dedup_loop db index id SHA fuel i cand).1 = Code.OK := by
  intro fuel
  induction fuel with
  | zero => intro i cand _ _; simp [dedup_loop]
  | succ n ih =>
    intro i cand hi hno
    have hlt : i < db.header.max_files := by omega
    have hin : i < db.metadata.length := by omega
    have hnext : ∀ (j : Nat) (r : pict_metadata), i + 1 ≤ j → j ≠ index →
        db.metadata[j]? = some r → r.is_valid = NON_EMPTY → r.pict_id ≠ id :=
      fun j r h1 h2 h3 h4 => hno j r (by omega) h2 h3 h4
    unfold dedup_loop
    simp only [if_pos hlt]
    by_cases hii : i ≠ index
    · simp only [if_pos hii]
      rw [List.getElem?_eq_getElem hin]
      simp only
      split_ifs with h3 h4 h5
      · exact absurd h4 (hno i _ (le_refl _) hii (List.getElem?_eq_getElem hin) h3)
      · exact ih (i + 1) _ (by omega) hnext
      · exact ih (i + 1) _ (by omega) hnext
      · exact ih (i + 1) _ (by omega) hnext
    · simp only [if_neg hii]
      exact ih (i + 1) _ (by omega) hnext

theorem dedup_loop_ok_absent (db : pictdb_file) (index : Nat) (id SHA : List Nat) :
    ∀ fuel i cand, i + fuel = db.header.max_files →
      (dedup_loop db index id SHA fuel i cand).1 = Code.OK →
      ∀ (j : Nat) (r : pict_metadata), i ≤ j → j < db.header.max_files → j ≠ index →
        db.metadata[j]? = some r → r.is_valid = NON_EMPTY → r.pict_id ≠ id := by
  intro fuel
  induction fuel with
  | zero => intro i cand hi _ j r h1 h2; omega
  | succ n ih =>
    intro i cand hi hok j r h1 h2 h3 h4 h5
    have hlt : i < db.header.max_files := by omega
    unfold dedup_loop at hok
    simp only [if_pos hlt] at hok
    by_cases hji : j = i
    · subst hji
      simp only [if_pos h3, h4, if_pos h5] at hok
      intro hc
      simp [if_pos hc] at hok
    · by_cases hii : i ≠ index
      · simp only [if_pos hii] at hok
        cases hr : db.metadata[i]? with
        | none => simp [hr] at hok
        | some ri =>
          simp only [hr] at hok
          split_ifs at hok
          · exact ih (i + 1) _ (by omega) hok j r (by omega) h2 h3 h4 h5
          · exact ih (i + 1) _ (by omega) hok j r (by omega) h2 h3 h4 h5
          · exact ih (i + 1) _ (by omega) hok j r (by omega) h2 h3 h4 h5
      · simp only [if_neg hii] at hok
        exact ih (i + 1) _ (by omega) hok j r (by omega) h2 h3 h4 h5

/-- The copy made by the loop: either nothing was copied and no row from turn
`i` on matches the digest, or the candidate carries the sizes, offsets and
dimensions of a matching row. -/
theorem dedup_loop_copy (db : pictdb_file) (index : Nat) (id SHA : List Nat) :
    ∀ fuel i cand, i + fuel = db.header.max_files →
      (dedup_loop db index id SHA fuel i cand).1 = Code.OK →
      ((dedup_loop db index id SHA fuel i cand).2 = cand ∧
        ∀ (j : Nat) (r : pict_metadata), i ≤ j → j < db.header.max_files →
          ¬ sha_match db index SHA j r) ∨
      (∃ (j : Nat) (r : pict_metadata), i ≤ j ∧ j < db.header.max_files ∧
        sha_match db index SHA j r ∧
        (dedup_loop db index id SHA fuel i cand).2.offset = r.offset ∧
        (dedup_loop db index id SHA fuel i cand).2.size.thumb = r.size.thumb ∧
        (dedup_loop db index id SHA fuel i cand).2.size.small = r.size.small ∧
        (dedup_loop db index id SHA fuel i cand).2.res_orig = r.res_orig) := by
  intro fuel
  induction fuel with
  | zero =>
    intro i cand hi _
    left
    refine ⟨by simp [dedup_loop], ?_⟩
    intro j r h1 h2
    omega
  | succ n ih =>
    intro i cand hi hok
    have hlt : i < db.header.max_files := by omega
    -- a step that copies nothing and meets no match
    have hskip : (∀ r, ¬ sha_match db index SHA i r) →
        dedup_loop db index id SHA (n + 1) i cand = dedup_loop db index id SHA n (i + 1) cand →
        ((dedup_loop db index id SHA (n + 1) i cand).2 = cand ∧
          ∀ (j : Nat) (r : pict_metadata), i ≤ j → j < db.header.max_files →
            ¬ sha_match db index SHA j r) ∨
        (∃ (j : Nat) (r : pict_metadata), i ≤ j ∧ j < db.header.max_files ∧
          sha_match db index SHA j r ∧
          (dedup_loop db index id SHA (n + 1) i cand).2.offset = r.offset ∧
          (dedup_loop db index id SHA (n + 1) i cand).2.size.thumb = r.size.thumb ∧
          (dedup_loop db index id SHA (n + 1) i cand).2.size.small = r.size.small ∧
          (dedup_loop db index id SHA (n + 1) i cand).2.res_orig = r.res_orig) := by
      intro hnm heq
      rw [heq] at hok ⊢
      rcases ih (i + 1) cand (by omega) hok with ⟨h1, h2⟩ | ⟨j, r, h1, h2, h3⟩
      · left
        refine ⟨h1, ?_⟩
        intro j r hj1 hj2
        by_cases hji : j = i
        · subst hji; exact hnm r
        · exact h2 j r (by omega) hj2
      · right
        exact ⟨j, r, by omega, h2, h3⟩
    by_cases hii : i ≠ index
    · cases hr : db.metadata[i]? with
      | none =>
        unfold dedup_loop at hok
        simp [hlt, hii, hr] at hok
      | some ri =>
        by_cases h3 : ri.is_valid = NON_EMPTY
        · by_cases h4 : ri.pict_id = id
          · unfold dedup_loop at hok
            simp [hlt, hii, hr, h3, h4] at hok
          · by_cases h5 : ri.SHA = SHA
            · have heq : dedup_loop db index id SHA (n + 1) i cand
                  = dedup_loop db index id SHA n (i + 1)
                    { cand with
                      size := { cand.size with thumb := ri.size.thumb, small := ri.size.small }
                      offset := ri.offset
                      res_orig := ri.res_orig } := by
                conv_lhs => unfold dedup_loop
                simp only [if_pos hlt, if_pos hii, hr, if_pos h3, if_neg h4, if_pos h5]
              rw [heq] at hok ⊢
              right
              rcases ih (i + 1) _ (by omega) hok with ⟨h1, _⟩ | ⟨j, r, h1, h2, h3'⟩
              · exact ⟨i, ri, le_refl _, hlt, ⟨hii, hr, h3, h5⟩, by rw [h1], by rw [h1],
                  by rw [h1], by rw [h1]⟩
              · exact ⟨j, r, by omega, h2, h3'⟩
            · apply hskip
              · intro r hm
                obtain ⟨_, hm2, _, hm4⟩ := hm
                rw [hr] at hm2
                cases hm2
                exact h5 hm4
              · conv_lhs => unfold dedup_loop
                simp only [if_pos hlt, if_pos hii, hr, if_pos h3, if_neg h4, if_neg h5]
        · apply hskip
          · intro r hm
            obtain ⟨_, hm2, hm3, _⟩ := hm
            rw [hr] at hm2
            cases hm2
            exact h3 hm3
          · conv_lhs => unfold dedup_loop
            simp only [if_pos hlt, if_pos hii, hr, if_neg h3]
    · apply hskip
      · intro r hm
        exact hii hm.1
      · conv_lhs => unfold dedup_loop
        simp only [if_pos hlt, if_neg hii]

/-! ## Lemmas on the parts of `do_insert` -/

theorem getElem?_lt_length {α : Type} (l : List α) (i : Nat) (a : α) (h : l[i]? = some a) :
    i < l.length := by
  by_contra hc
  rw [List.getElem?_eq_none (by omega)] at h
  cases h

theorem do_name_and_content_dedup_eq (db : pictdb_file) (index : Nat) (row : pict_metadata)
    (hle : index ≤ db.header.max_files) (hrow : db.metadata[index]? = some row) :
    do_name_and_content_dedup db index =
      ((dedup_loop db index row.pict_id row.SHA db.header.max_files 0
          { row with offset := { row.offset with orig := 0 } }).1,
       { db with metadata := (db.metadata.set index
          (dedup_loop db index row.pict_id row.SHA db.header.max_files 0
            { row with offset := { row.offset with orig := 0 } }).2) }) := by
  unfold do_name_and_content_dedup
  rw [if_neg (by omega)]
  simp only [hrow]

theorem insert_commit_eq (env : Env) (db : pictdb_file) (index : Nat) (row : pict_metadata)
    (hrow : db.metadata[index]? = some row) :
    insert_commit env db index =
      (Code.OK,
       { fpdb := (commit_file env db.fpdb (header_after_insert db.header) index
            { row with is_valid := NON_EMPTY })
         header := header_after_insert db.header
         metadata := db.metadata.set index { row with is_valid := NON_EMPTY } }) := by
  have hlt := getElem?_lt_length _ _ _ hrow
  unfold insert_commit
  simp only [hrow, write_db_file_one_metadata, write_db_file_header,
    List.getElem?_set_self hlt, commit_file, row_pos]

theorem insert_new_blob_ok (env : Env) (image : List Nat) (db : pictdb_file) (index : Nat)
    (row : pict_metadata) (db1 : pictdb_file)
    (h : insert_new_blob env image db index row = (Code.OK, db1)) :
    image.length % UINT32_MOD ≠ 0 ∧
    ∃ hw, env.jpeg_dimensions image = some hw ∧
      db1 = { fpdb := db.fpdb ++ image.take (image.length % UINT32_MOD)
              header := db.header
              metadata := (db.metadata.set index
                { row with
                  size := { row.size with thumb := 0, small := 0 }
                  offset := { thumb := 0, small := 0, orig := db.fpdb.length }
                  res_orig := (hw.2, hw.1) }) } := by
  unfold insert_new_blob at h
  cases hd : env.jpeg_dimensions image with
  | none => simp [hd] at h
  | some hw =>
    obtain ⟨height, width⟩ := hw
    simp only [hd, write_db_file_image, write_disk_image] at h
    by_cases hz : image.length % UINT32_MOD = 0
    · simp [hz] at h
    · refine ⟨hz, (height, width), rfl, ?_⟩
      simp only [if_neg hz, write_at_end] at h
      simp at h
      exact h.symm

theorem insert_new_blob_code (env : Env) (image : List Nat) (db : pictdb_file) (index : Nat)
    (row : pict_metadata) :
    (insert_new_blob env image db index row).1 ≠ Code.OK →
    (insert_new_blob env image db index row).2.fpdb = db.fpdb ∧
    (insert_new_blob env image db index row).2.header = db.header ∧
    (insert_new_blob env image db index row).2.metadata = db.metadata := by
  intro h
  unfold insert_new_blob at h ⊢
  cases hd : env.jpeg_dimensions image with
  | none => simp
  | some hw =>
    obtain ⟨height, width⟩ := hw
    simp only [hd, write_db_file_image, write_disk_image] at h ⊢
    by_cases hz : image.length % UINT32_MOD = 0
    · simp [hz]
    · simp [hz] at h

/-- The function `insert_at` in terms of the deduplication loop on the table
it received. -/
theorem insert_at_eq (env : Env) (image id : List Nat) (db : pictdb_file) (idx : Nat)
    (row : pict_metadata) (hrow : db.metadata[idx]? = some row)
    (hidx : idx ≤ db.header.max_files) :
    insert_at env image id db idx row =
      if (insert_dedup env image id db idx row).1 ≠ Code.OK then
        ((insert_dedup env image id db idx row).1,
          { db with metadata := db.metadata.set idx (insert_dedup env image id db idx row).2 })
      else if (insert_dedup env image id db idx row).2.offset.orig = 0 then
        if (insert_new_blob env image
            { db with metadata := db.metadata.set idx (insert_dedup env image id db idx row).2 }
            idx (insert_dedup env image id db idx row).2).1 ≠ Code.OK then
          insert_new_blob env image
            { db with metadata := db.metadata.set idx (insert_dedup env image id db idx row).2 }
            idx (insert_dedup env image id db idx row).2
        else
          insert_commit env (insert_new_blob env image
            { db with metadata := db.metadata.set idx (insert_dedup env image id db idx row).2 }
            idx (insert_dedup env image id db idx row).2).2 idx
      else
        insert_commit env
          { db with metadata := db.metadata.set idx (insert_dedup env image id db idx row).2 }
          idx := by
  have hlt : idx < db.metadata.length := getElem?_lt_length _ _ _ hrow
  have hset : ∀ (x : pict_metadata), (db.metadata.set idx x)[idx]? = some x :=
    fun x => List.getElem?_set_self hlt
  unfold insert_at
  simp only []
  rw [do_name_and_content_dedup_eq
    { db with metadata := (db.metadata.set idx
        { row with
          SHA := env.SHA256 image
          pict_id := id.take MAX_PIC_ID
          size := { row.size with orig := image.length % UINT32_MOD } }) }
    idx _ hidx (hset _)]
  simp only [List.set_set, hset]
  rw [dedup_loop_congr db
    { db with metadata := (db.metadata.set idx
        { row with
          SHA := env.SHA256 image
          pict_id := id.take MAX_PIC_ID
          size := { row.size with orig := image.length % UINT32_MOD } }) }
    idx _ _ rfl (fun j hj => List.getElem?_set_ne (Ne.symm hj))]
  rfl

theorem insert_dedup_keeps (env : Env) (image id : List Nat) (db : pictdb_file) (idx : Nat)
    (row : pict_metadata) :
    (insert_dedup env image id db idx row).2.pict_id = id.take MAX_PIC_ID ∧
    (insert_dedup env image id db idx row).2.SHA = env.SHA256 image ∧
    (insert_dedup env image id db idx row).2.is_valid = row.is_valid ∧
    (insert_dedup env image id db idx row).2.size.orig = image.length % UINT32_MOD ∧
    (insert_dedup env image id db idx row).2.unused_16 = row.unused_16 := by
  have := dedup_loop_keeps db idx (id.take MAX_PIC_ID) (env.SHA256 image) db.header.max_files 0
    (candidate_row env image id row)
  simpa [insert_dedup, candidate_row] using this

/-- What a successful `do_insert` has done: the slot `idx` it chose, the row
`row` found there and the row `row1` stored there. -/
theorem do_insert_ok (env : Env) (image id : List Nat) (db db1 : pictdb_file)
    (halloc : table_allocated db)
    (h : do_insert env image id db = (Code.OK, db1)) :
    ∃ (idx : Nat) (row row1 : pict_metadata),
      db.header.num_files < db.header.max_files ∧
      insert_scan db.metadata (db.metadata.length + 1) 0 = some idx ∧
      db.metadata[idx]? = some row ∧ row.is_valid = EMPTY ∧
      db1.metadata = db.metadata.set idx row1 ∧
      db1.header = header_after_insert db.header ∧
      row1.is_valid = NON_EMPTY ∧ row1.pict_id = id.take MAX_PIC_ID ∧
      row1.SHA = env.SHA256 image ∧ row1.size.orig = image.length % UINT32_MOD ∧
      row1.unused_16 = row.unused_16 ∧
      (∀ (j : Nat) (r : pict_metadata), j ≠ idx → db.metadata[j]? = some r →
        r.is_valid = NON_EMPTY → r.pict_id ≠ id.take MAX_PIC_ID) ∧
      ((((∀ (j : Nat) (r : pict_metadata), ¬ sha_match db idx (env.SHA256 image) j r) ∨
          (∃ (j : Nat) (r : pict_metadata),
            sha_match db idx (env.SHA256 image) j r ∧ r.offset.orig = 0)) ∧
        image.length % UINT32_MOD ≠ 0 ∧
        (∃ hw, env.jpeg_dimensions image = some hw ∧ row1.res_orig = (hw.2, hw.1)) ∧
        row1.size.thumb = 0 ∧ row1.size.small = 0 ∧
        row1.offset = ⟨0, 0, db.fpdb.length⟩ ∧
        db1.fpdb = commit_file env (db.fpdb ++ image.take (image.length % UINT32_MOD))
          db1.header idx row1) ∨
       (∃ (j : Nat) (r : pict_metadata),
          sha_match db idx (env.SHA256 image) j r ∧ r.offset.orig ≠ 0 ∧
          row1.offset = r.offset ∧ row1.size.thumb = r.size.thumb ∧
          row1.size.small = r.size.small ∧ row1.res_orig = r.res_orig ∧
          db1.fpdb = commit_file env db.fpdb db1.header idx row1)) := by
  unfold do_insert at h
  by_cases hnum : db.header.num_files < db.header.max_files
  swap
  · rw [if_neg hnum] at h; cases h
  rw [if_pos hnum] at h
  cases hscan : insert_scan db.metadata (db.metadata.length + 1) 0 with
  | none => simp [hscan] at h
  | some idx =>
    obtain ⟨_, ⟨row, hrow, hrowv⟩, _⟩ := insert_scan_spec db.metadata _ 0 idx hscan
    have hlt : idx < db.metadata.length := getElem?_lt_length _ _ _ hrow
    have hlen : db.metadata.length = db.header.max_files := halloc
    have hidx : idx ≤ db.header.max_files := by omega
    simp only [hscan, hrow] at h
    rw [insert_at_eq env image id db idx row hrow hidx] at h
    obtain ⟨k1, k2, k3, k4, k5⟩ := insert_dedup_keeps env image id db idx row
    have hset : ∀ (l : List pict_metadata) (x : pict_metadata), l.length = db.metadata.length →
        (l.set idx x)[idx]? = some x :=
      fun l x hl => List.getElem?_set_self (by omega)
    by_cases hD : (insert_dedup env image id db idx row).1 ≠ Code.OK
    · rw [if_pos hD] at h
      exact absurd (congrArg Prod.fst h) hD
    rw [if_neg hD] at h
    have hDok : (insert_dedup env image id db idx row).1 = Code.OK := by
      simpa using hD
    have habs : ∀ (j : Nat) (r : pict_metadata), j ≠ idx → db.metadata[j]? = some r →
        r.is_valid = NON_EMPTY → r.pict_id ≠ id.take MAX_PIC_ID := by
      intro j r hj hr hv
      have hjl := getElem?_lt_length _ _ _ hr
      exact dedup_loop_ok_absent db idx _ _ db.header.max_files 0 _ (by omega) hDok j r
        (Nat.zero_le _) (by omega) hj hr hv
    have hcopy := dedup_loop_copy db idx (id.take MAX_PIC_ID) (env.SHA256 image)
      db.header.max_files 0 (candidate_row env image id row) (by omega) hDok
    change (insert_dedup env image id db idx row).2 = _ ∧ _ ∨
      ∃ (j : Nat) (r : pict_metadata), _ ∧ _ ∧ _ ∧
        (insert_dedup env image id db idx row).2.offset = _ ∧
        (insert_dedup env image id db idx row).2.size.thumb = _ ∧
        (insert_dedup env image id db idx row).2.size.small = _ ∧
        (insert_dedup env image id db idx row).2.res_orig = _ at hcopy
    generalize insert_dedup env image id db idx row = D at *
    obtain ⟨c, cand⟩ := D
    simp only at k1 k2 k3 k4 k5 hDok hcopy h
    by_cases ho : cand.offset.orig = 0
    · rw [if_pos ho] at h
      by_cases hb : (insert_new_blob env image
          { db with metadata := db.metadata.set idx cand } idx cand).1 ≠ Code.OK
      · rw [if_pos hb] at h
        exact absurd (congrArg Prod.fst h) hb
      rw [if_neg hb] at h
      have hbok : insert_new_blob env image
          { db with metadata := db.metadata.set idx cand } idx cand
          = (Code.OK, (insert_new_blob env image
              { db with metadata := db.metadata.set idx cand } idx cand).2) := by
        apply Prod.ext
        · simpa using hb
        · rfl
      obtain ⟨hz, hw, hdim, hb2⟩ := insert_new_blob_ok _ _ _ _ _ _ hbok
      rw [hb2] at h
      rw [insert_commit_eq env _ idx _ (hset _ _ (by simp))] at h
      simp only [List.set_set] at h
      have h1 := (Prod.ext_iff.mp h).2
      simp only at h1
      subst h1
      refine ⟨idx, row, _, hnum, rfl, hrow, hrowv, rfl, rfl, rfl, k1, k2, k4, k5, habs,
        Or.inl ⟨?_, hz, ⟨hw, hdim, rfl⟩, rfl, rfl, rfl, rfl⟩⟩
      rcases hcopy with ⟨_, hno⟩ | ⟨j, r, _, _, hm, hoff, _⟩
      · left
        intro j r hm
        have hjl := getElem?_lt_length _ _ _ hm.2.1
        exact hno j r (Nat.zero_le _) (by omega) hm
      · right
        exact ⟨j, r, hm, by rw [← hoff]; exact ho⟩
    · rw [if_neg ho] at h
      rw [insert_commit_eq env _ idx _ (hset _ _ rfl)] at h
      simp only [List.set_set] at h
      have h1 := (Prod.ext_iff.mp h).2
      simp only at h1
      subst h1
      refine ⟨idx, row, _, hnum, rfl, hrow, hrowv, rfl, rfl, rfl, k1, k2, k4, k5, habs,
        Or.inr ?_⟩
      rcases hcopy with ⟨hc, _⟩ | ⟨j, r, _, _, hm, hoff, hst, hss, hres⟩
      · exfalso
        apply ho
        rw [hc]
        rfl
      · exact ⟨j, r, hm, by rw [← hoff]; exact ho, hoff, hst, hss, hres, rfl⟩

theorem dedup_loop_code (db : pictdb_file) (index : Nat) (id SHA : List Nat)
    (hlen : db.header.max_files ≤ db.metadata.length) :
    ∀ fuel i cand, i + fuel = db.header.max_files →
      (dedup_loop db index id SHA fuel i cand).1 = Code.OK ∨
      (dedup_loop db index id SHA fuel i cand).1 = Code.ERR_DUPLICATE_ID := by
  intro fuel
  induction fuel with
  | zero => intro i cand _; left; simp [dedup_loop]
  | succ n ih =>
    intro i cand hi
    have hlt : i < db.header.max_files := by omega
    have hin : i < db.metadata.length := by omega
    unfold dedup_loop
    simp only [if_pos hlt]
    rw [List.getElem?_eq_getElem hin]
    simp only
    split_ifs
    · right; rfl
    · exact ih (i + 1) _ (by omega)
    · exact ih (i + 1) _ (by omega)
    · exact ih (i + 1) _ (by omega)
    · exact ih (i + 1) _ (by omega)

/-- What a failing `do_insert` leaves: the header and the file as they were,
and a table that differs at most in the fields of the free slot it chose. -/
theorem do_insert_fail (env : Env) (image id : List Nat) (db : pictdb_file)
    (halloc : table_allocated db)
    (h : (do_insert env image id db).1 ≠ Code.OK) :
    (do_insert env image id db).2.header = db.header ∧
    (do_insert env image id db).2.fpdb = db.fpdb ∧
    ((do_insert env image id db).2.metadata = db.metadata ∨
      ∃ (idx : Nat) (row row1 : pict_metadata),
        insert_scan db.metadata (db.metadata.length + 1) 0 = some idx ∧
        db.metadata[idx]? = some row ∧ row.is_valid = EMPTY ∧
        row1.is_valid = EMPTY ∧
        (do_insert env image id db).2.metadata = db.metadata.set idx row1) := by
  unfold do_insert at h ⊢
  by_cases hnum : db.header.num_files < db.header.max_files
  swap
  · simp [if_neg hnum]
  simp only [if_pos hnum] at h ⊢
  cases hscan : insert_scan db.metadata (db.metadata.length + 1) 0 with
  | none => simp
  | some idx =>
    obtain ⟨_, ⟨row, hrow, hrowv⟩, _⟩ := insert_scan_spec db.metadata _ 0 idx hscan
    have hlt : idx < db.metadata.length := getElem?_lt_length _ _ _ hrow
    have hlen : db.metadata.length = db.header.max_files := halloc
    have hidx : idx ≤ db.header.max_files := by omega
    simp only [hscan, hrow] at h ⊢
    rw [insert_at_eq env image id db idx row hrow hidx] at h ⊢
    obtain ⟨k1, k2, k3, k4, k5⟩ := insert_dedup_keeps env image id db idx row
    generalize insert_dedup env image id db idx row = D at *
    obtain ⟨c, cand⟩ := D
    simp only at k1 k2 k3 k4 k5 h ⊢
    have hset : ∀ (l : List pict_metadata) (x : pict_metadata), l.length = db.metadata.length →
        (l.set idx x)[idx]? = some x :=
      fun l x hl => List.getElem?_set_self (by omega)
    by_cases hD : c ≠ Code.OK
    · simp only [if_pos hD]
      exact ⟨trivial, trivial, Or.inr ⟨idx, row, cand, rfl, hrow, hrowv, by rw [k3, hrowv], rfl⟩⟩
    simp only [if_neg hD] at h ⊢
    by_cases ho : cand.offset.orig = 0
    · simp only [if_pos ho] at h ⊢
      by_cases hb : (insert_new_blob env image
          { db with metadata := db.metadata.set idx cand } idx cand).1 ≠ Code.OK
      · simp only [if_pos hb]
        obtain ⟨b1, b2, b3⟩ := insert_new_blob_code env image _ idx cand hb
        exact ⟨b2, b1, Or.inr ⟨idx, row, cand, rfl, hrow, hrowv, by rw [k3, hrowv], b3⟩⟩
      · exfalso
        simp only [if_neg hb] at h
        have hbok : insert_new_blob env image
            { db with metadata := db.metadata.set idx cand } idx cand
            = (Code.OK, (insert_new_blob env image
                { db with metadata := db.metadata.set idx cand } idx cand).2) := by
          apply Prod.ext
          · simpa using hb
          · rfl
        obtain ⟨hz, hw, hdim, hb2⟩ := insert_new_blob_ok _ _ _ _ _ _ hbok
        rw [hb2] at h
        rw [insert_commit_eq env _ idx _ (hset _ _ (by simp))] at h
        exact h rfl
    · exfalso
      simp only [if_neg ho] at h
      rw [insert_commit_eq env _ idx _ (hset _ _ rfl)] at h
      exact h rfl

/-- The codes that `do_insert` returns on an allocated table in which the scan
finds a free row. -/
theorem do_insert_duplicate (env : Env) (image id : List Nat) (db : pictdb_file)
    (halloc : table_allocated db)
    (hnum : db.header.num_files < db.header.max_files)
    (hfree : ∃ (j : Nat) (r : pict_metadata), db.metadata[j]? = some r ∧ r.is_valid = EMPTY)
    (hdup : ∃ (j : Nat) (r : pict_metadata), db.metadata[j]? = some r ∧
      r.is_valid = NON_EMPTY ∧ r.pict_id = id.take MAX_PIC_ID) :
    (do_insert env image id db).1 = Code.ERR_DUPLICATE_ID := by
  obtain ⟨jf, rf, hjf, hvf⟩ := hfree
  have hjfl := getElem?_lt_length _ _ _ hjf
  obtain ⟨idx, hscan⟩ := insert_scan_exists db.metadata (db.metadata.length + 1) 0 jf
    (Nat.zero_le _) (by omega) ⟨rf, hjf, hvf⟩
  obtain ⟨_, ⟨row, hrow, hrowv⟩, _⟩ := insert_scan_spec db.metadata _ 0 idx hscan
  have hlt : idx < db.metadata.length := getElem?_lt_length _ _ _ hrow
  have hlen : db.metadata.length = db.header.max_files := halloc
  obtain ⟨j, r, hj, hv, hid⟩ := hdup
  have hjl := getElem?_lt_length _ _ _ hj
  have hne : j ≠ idx := by
    intro hc
    subst hc
    rw [hrow] at hj
    cases hj
    rw [hrowv] at hv
    cases hv
  have hD : (insert_dedup env image id db idx row).1 = Code.ERR_DUPLICATE_ID :=
    dedup_loop_duplicate db idx _ _ (by omega) db.header.max_files 0 _ (by omega)
      ⟨j, r, Nat.zero_le _, by omega, hne, hj, hv, hid⟩
  unfold do_insert
  simp only [if_pos hnum, hscan, hrow]
  rw [insert_at_eq env image id db idx row hrow (by omega)]
  rw [if_pos (by rw [hD]; decide)]
  exact hD

theorem mem_of_getElem? {α : Type} (l : List α) (i : Nat) (a : α) (h : l[i]? = some a) :
    a ∈ l := by
  obtain ⟨hi, ha⟩ := List.getElem?_eq_some_iff.mp h
  rw [← ha]
  exact List.getElem_mem hi

theorem exists_free_slot (db : pictdb_file) (halloc : table_allocated db)
    (hflags : valid_flags db) (hcount : count_invariant db)
    (hnum : db.header.num_files < db.header.max_files) :
    ∃ (j : Nat) (r : pict_metadata), db.metadata[j]? = some r ∧ r.is_valid = EMPTY := by
  apply exists_empty_row db.metadata hflags
  unfold table_allocated at halloc
  unfold count_invariant at hcount
  omega

/-! ## C2: insertion under an identifier already held -/

/-- C2, as the code has it: when an occupied row holds `id`, `do_insert` leaves
the file bytes (and the header) as they were, and returns `ERR_DUPLICATE_ID`
if the database is not full, `ERR_FULL_DATABASE` if it is full (the test on
`num_files` comes first). -/
theorem do_insert_duplicate_id (env : Env) (image id : List Nat) (db : pictdb_file)
    (halloc : table_allocated db) (hflags : valid_flags db) (hcount : count_invariant db)
    (hid : id.length ≤ MAX_PIC_ID)
    (hheld : ∃ r ∈ db.metadata, r.is_valid = NON_EMPTY ∧ r.pict_id = id) :
    (db.header.num_files < db.header.max_files →
      (do_insert env image id db).1 = Code.ERR_DUPLICATE_ID) ∧
    (db.header.max_files ≤ db.header.num_files →
      (do_insert env image id db).1 = Code.ERR_FULL_DATABASE) ∧
    (do_insert env image id db).2.fpdb = db.fpdb ∧
    (do_insert env image id db).2.header = db.header := by
  have htake : id.take MAX_PIC_ID = id := List.take_of_length_le hid
  have hdup : db.header.num_files < db.header.max_files →
      (do_insert env image id db).1 = Code.ERR_DUPLICATE_ID := by
    intro hnum
    obtain ⟨r, hr, hv, hp⟩ := hheld
    obtain ⟨j, hj, hjr⟩ := List.getElem_of_mem hr
    exact do_insert_duplicate env image id db halloc hnum
      (exists_free_slot db halloc hflags hcount hnum)
      ⟨j, r, by rw [List.getElem?_eq_getElem hj, hjr], hv, by rw [htake]; exact hp⟩
  have hfull : db.header.max_files ≤ db.header.num_files →
      (do_insert env image id db).1 = Code.ERR_FULL_DATABASE := by
    intro h
    rw [do_insert_full_eq env image id db h]
  have hne : (do_insert env image id db).1 ≠ Code.OK := by
    by_cases hnum : db.header.num_files < db.header.max_files
    · rw [hdup hnum]; decide
    · rw [hfull (by omega)]; decide
  obtain ⟨h1, h2, _⟩ := do_insert_fail env image id db halloc hne
  exact ⟨hdup, hfull, h2, h1⟩

/-- The hypotheses of `do_insert_duplicate_id` hold on `one_db`, which is not full and holds `[97]`. -/
theorem do_insert_duplicate_id_witness :
    table_allocated one_db ∧ valid_flags one_db ∧ count_invariant one_db ∧
    [97].length ≤ MAX_PIC_ID ∧
    (∃ r ∈ one_db.metadata, r.is_valid = NON_EMPTY ∧ r.pict_id = [97]) ∧
    one_db.header.num_files < one_db.header.max_files ∧
    (do_insert sample_env [255, 216, 9] [97] one_db).1 = Code.ERR_DUPLICATE_ID ∧
    (do_insert sample_env [255, 216, 9] [97] one_db).2.fpdb = one_db.fpdb ∧
    (do_insert sample_env [255, 216, 9] [97] one_db).2.header = one_db.header :=
  ⟨by decide, by decide, by decide, by decide, by decide, by decide,
    (do_insert_duplicate_id sample_env [255, 216, 9] [97] one_db (by decide) (by decide)
      (by decide) (by decide) (by decide)).1 (by decide),
    (do_insert_duplicate_id sample_env [255, 216, 9] [97] one_db (by decide) (by decide)
      (by decide) (by decide) (by decide)).2.2⟩

/-- C2 as stated fails on a full database: the identifier `[97]` is held by an
occupied row of `full_db`, and `do_insert` under `[97]` returns
`ERR_FULL_DATABASE`, not `ERR_DUPLICATE_ID`. -/
theorem do_insert_duplicate_id_full_counterexample :
    (∃ r ∈ full_db.metadata, r.is_valid = NON_EMPTY ∧ r.pict_id = [97]) ∧
    (do_insert sample_env [255, 216, 9] [97] full_db).1 = Code.ERR_FULL_DATABASE ∧
    (do_insert sample_env [255, 216, 9] [97] full_db).1 ≠ Code.ERR_DUPLICATE_ID := by
  decide

theorem insert_new_blob_defined (env : Env) (image : List Nat) (db : pictdb_file) (index : Nat)
    (row : pict_metadata) :
    (insert_new_blob env image db index row).1 ≠ Code.UNDEFINED := by
  unfold insert_new_blob
  cases hd : env.jpeg_dimensions image with
  | none => simp
  | some hw =>
    obtain ⟨height, width⟩ := hw
    simp only
    split_ifs <;> simp_all [write_db_file_image, write_disk_image]

/-- On an allocated table with a free row, `do_insert` reads no row outside
the array. -/
theorem do_insert_defined (env : Env) (image id : List Nat) (db : pictdb_file)
    (halloc : table_allocated db)
    (hfree : ∃ (j : Nat) (r : pict_metadata), db.metadata[j]? = some r ∧ r.is_valid = EMPTY) :
    (do_insert env image id db).1 ≠ Code.UNDEFINED := by
  obtain ⟨jf, rf, hjf, hvf⟩ := hfree
  have hjfl := getElem?_lt_length _ _ _ hjf
  obtain ⟨idx, hscan⟩ := insert_scan_exists db.metadata (db.metadata.length + 1) 0 jf
    (Nat.zero_le _) (by omega) ⟨rf, hjf, hvf⟩
  obtain ⟨_, ⟨row, hrow, hrowv⟩, _⟩ := insert_scan_spec db.metadata _ 0 idx hscan
  have hlt : idx < db.metadata.length := getElem?_lt_length _ _ _ hrow
  have hlen : db.metadata.length = db.header.max_files := halloc
  have hset : ∀ (l : List pict_metadata) (x : pict_metadata), l.length = db.metadata.length →
      (l.set idx x)[idx]? = some x :=
    fun l x hl => List.getElem?_set_self (by omega)
  unfold do_insert
  by_cases hnum : db.header.num_files < db.header.max_files
  swap
  · simp [if_neg hnum]
  simp only [if_pos hnum, hscan, hrow]
  rw [insert_at_eq env image id db idx row hrow (by omega)]
  have hcode := dedup_loop_code db idx (id.take MAX_PIC_ID) (env.SHA256 image) (by omega)
    db.header.max_files 0 (candidate_row env image id row) (by omega)
  change (insert_dedup env image id db idx row).1 = _ ∨
    (insert_dedup env image id db idx row).1 = _ at hcode
  generalize insert_dedup env image id db idx row = D at *
  obtain ⟨c, cand⟩ := D
  simp only at hcode ⊢
  by_cases hD : c ≠ Code.OK
  · simp only [if_pos hD]
    rcases hcode with hc | hc
    · exact absurd hc hD
    · rw [hc]; decide
  simp only [if_neg hD]
  by_cases ho : cand.offset.orig = 0
  · simp only [if_pos ho]
    by_cases hb : (insert_new_blob env image
        { db with metadata := db.metadata.set idx cand } idx cand).1 ≠ Code.OK
    · simp only [if_pos hb]
      exact insert_new_blob_defined _ _ _ _ _
    · simp only [if_neg hb]
      have hbok : insert_new_blob env image
          { db with metadata := db.metadata.set idx cand } idx cand
          = (Code.OK, (insert_new_blob env image
              { db with metadata := db.metadata.set idx cand } idx cand).2) := by
        apply Prod.ext
        · simpa using hb
        · rfl
      obtain ⟨hz, hw, hdim, hb2⟩ := insert_new_blob_ok _ _ _ _ _ _ hbok
      rw [hb2, insert_commit_eq env _ idx _ (hset _ _ (by simp))]
      simp
  · simp only [if_neg ho]
    rw [insert_commit_eq env _ idx _ (hset _ _ rfl)]
    simp

/-! ## C5: the slot chosen by `do_insert` -/

/-- C5. On a database whose rows are `EMPTY` or `NON_EMPTY`, whose `num_files`
counts the occupied rows and is below `max_files`, the scan of `do_insert`
stops at an index below `max_files`, the lowest index of a free row; no row
outside the array is read, and a successful call leaves the table as it was
except for that row, now `NON_EMPTY`. -/
theorem insert_slot_selection (env : Env) (image id : List Nat) (db : pictdb_file)
    (halloc : table_allocated db) (hflags : valid_flags db) (hcount : count_invariant db)
    (hnum : db.header.num_files < db.header.max_files) :
    ∃ (idx : Nat),
      insert_scan db.metadata (db.metadata.length + 1) 0 = some idx ∧
      idx < db.header.max_files ∧
      (∃ r, db.metadata[idx]? = some r ∧ r.is_valid = EMPTY) ∧
      (∀ j, j < idx → ∃ r, db.metadata[j]? = some r ∧ r.is_valid ≠ EMPTY) ∧
      (do_insert env image id db).1 ≠ Code.UNDEFINED ∧
      ((do_insert env image id db).1 = Code.OK →
        ∃ row1, (do_insert env image id db).2.metadata = db.metadata.set idx row1 ∧
          row1.is_valid = NON_EMPTY) := by
  have hfree := exists_free_slot db halloc hflags hcount hnum
  obtain ⟨jf, rf, hjf, hvf⟩ := hfree
  have hjfl := getElem?_lt_length _ _ _ hjf
  obtain ⟨idx, hscan⟩ := insert_scan_exists db.metadata (db.metadata.length + 1) 0 jf
    (Nat.zero_le _) (by omega) ⟨rf, hjf, hvf⟩
  obtain ⟨_, ⟨row, hrow, hrowv⟩, hbelow⟩ := insert_scan_spec db.metadata _ 0 idx hscan
  have hlt : idx < db.metadata.length := getElem?_lt_length _ _ _ hrow
  have hlen : db.metadata.length = db.header.max_files := halloc
  refine ⟨idx, hscan, by omega, ⟨row, hrow, hrowv⟩, fun j hj => hbelow j (Nat.zero_le _) hj,
    do_insert_defined env image id db halloc ⟨jf, rf, hjf, hvf⟩, ?_⟩
  intro hok
  have heq : do_insert env image id db = (Code.OK, (do_insert env image id db).2) :=
    Prod.ext hok rfl
  obtain ⟨idx1, row0, row1, _, hscan1, _, _, hmd, _, hv, _⟩ :=
    do_insert_ok env image id db _ halloc heq
  rw [hscan] at hscan1
  cases hscan1
  exact ⟨row1, hmd, hv⟩

/-- The hypotheses of `insert_slot_selection` hold on `deleted_db`, whose free rows are rows 0 and 1. -/
theorem insert_slot_selection_witness :
    table_allocated deleted_db ∧ valid_flags deleted_db ∧ count_invariant deleted_db ∧
    deleted_db.header.num_files < deleted_db.header.max_files ∧
    ∃ (idx : Nat),
      insert_scan deleted_db.metadata (deleted_db.metadata.length + 1) 0 = some idx ∧
      idx < deleted_db.header.max_files ∧
      (∃ r, deleted_db.metadata[idx]? = some r ∧ r.is_valid = EMPTY) ∧
      (∀ j, j < idx → ∃ r, deleted_db.metadata[j]? = some r ∧ r.is_valid ≠ EMPTY) ∧
      (do_insert sample_env [255, 216, 8] [98] deleted_db).1 ≠ Code.UNDEFINED ∧
      ((do_insert sample_env [255, 216, 8] [98] deleted_db).1 = Code.OK →
        ∃ row1, (do_insert sample_env [255, 216, 8] [98] deleted_db).2.metadata
            = deleted_db.metadata.set idx row1 ∧
          row1.is_valid = NON_EMPTY) :=
  ⟨by decide, by decide, by decide, by decide,
    insert_slot_selection sample_env [255, 216, 8] [98] deleted_db
      (by decide) (by decide) (by decide) (by decide)⟩

/-! ## C6: the row and the header after the insertion of new content -/

/-- C6, as the code has it: after a successful `do_insert` of a blob whose
digest no occupied row carries, `num_files` is one more than before,
`db_version` is one more than before modulo 2^32 (one more whenever it was
below 4294967295), and the row of the chosen slot, whatever it held before, is
`NON_EMPTY` with `size[RES_ORIG]` the length of the blob, `offset[RES_ORIG]`
the length of the file before the call, and sizes and offsets 0 for
`RES_THUMB` and `RES_SMALL`. -/
theorem do_insert_new_content (env : Env) (image id : List Nat) (db db1 : pictdb_file)
    (halloc : table_allocated db) (hmax : db.header.max_files < UINT32_MOD)
    (hsize : image.length < UINT32_MOD)
    (hnew : ∀ r ∈ db.metadata, r.is_valid = NON_EMPTY → r.SHA ≠ env.SHA256 image)
    (h : do_insert env image id db = (Code.OK, db1)) :
    ∃ (idx : Nat) (row row1 : pict_metadata),
      db.metadata[idx]? = some row ∧ row.is_valid = EMPTY ∧
      db1.metadata = db.metadata.set idx row1 ∧ db1.metadata[idx]? = some row1 ∧
      db1.header.num_files = db.header.num_files + 1 ∧
      db1.header.db_version = (db.header.db_version + 1) % UINT32_MOD ∧
      (db.header.db_version + 1 < UINT32_MOD →
        db1.header.db_version = db.header.db_version + 1) ∧
      row1.is_valid = NON_EMPTY ∧
      row1.size.orig = image.length ∧ row1.offset.orig = db.fpdb.length ∧
      row1.size.thumb = 0 ∧ row1.offset.thumb = 0 ∧
      row1.size.small = 0 ∧ row1.offset.small = 0 := by
  obtain ⟨idx, row, row1, hnum, _, hrow, hrowv, hmd, hhdr, hv, _, _, hso, _, _, hbranch⟩ :=
    do_insert_ok env image id db db1 halloc h
  have hlt : idx < db.metadata.length := getElem?_lt_length _ _ _ hrow
  refine ⟨idx, row, row1, hrow, hrowv, hmd, by rw [hmd]; exact List.getElem?_set_self hlt,
    ?_, by rw [hhdr]; rfl, ?_, hv, ?_⟩
  · rw [hhdr]
    show (db.header.num_files + 1) % UINT32_MOD = db.header.num_files + 1
    exact Nat.mod_eq_of_lt (by omega)
  · intro hlt'
    rw [hhdr]
    show (db.header.db_version + 1) % UINT32_MOD = db.header.db_version + 1
    exact Nat.mod_eq_of_lt hlt'
  · rcases hbranch with ⟨_, _, _, hst, hss, hoff, _⟩ | ⟨j, r, hm, _⟩
    · refine ⟨by rw [hso]; exact Nat.mod_eq_of_lt hsize, ?_, hst, ?_, hss, ?_⟩ <;> rw [hoff]
    · exfalso
      obtain ⟨_, hj, hjv, hjs⟩ := hm
      exact hnew r (mem_of_getElem? _ _ _ hj) hjv hjs

/-- The hypotheses of `do_insert_new_content` hold on `deleted_db`, whose row 0 is free and still carries a thumbnail. -/
theorem do_insert_new_content_witness :
    table_allocated deleted_db ∧ deleted_db.header.max_files < UINT32_MOD ∧
    [255, 216, 8].length < UINT32_MOD ∧
    (∀ r ∈ deleted_db.metadata, r.is_valid = NON_EMPTY →
      r.SHA ≠ sample_env.SHA256 [255, 216, 8]) ∧
    do_insert sample_env [255, 216, 8] [98] deleted_db
      = (Code.OK, (do_insert sample_env [255, 216, 8] [98] deleted_db).2) ∧
    ∃ (idx : Nat) (row row1 : pict_metadata),
      deleted_db.metadata[idx]? = some row ∧ row.is_valid = EMPTY ∧
      (do_insert sample_env [255, 216, 8] [98] deleted_db).2.metadata
        = deleted_db.metadata.set idx row1 ∧
      (do_insert sample_env [255, 216, 8] [98] deleted_db).2.metadata[idx]? = some row1 ∧
      (do_insert sample_env [255, 216, 8] [98] deleted_db).2.header.num_files
        = deleted_db.header.num_files + 1 ∧
      (do_insert sample_env [255, 216, 8] [98] deleted_db).2.header.db_version
        = (deleted_db.header.db_version + 1) % UINT32_MOD ∧
      (deleted_db.header.db_version + 1 < UINT32_MOD →
        (do_insert sample_env [255, 216, 8] [98] deleted_db).2.header.db_version
          = deleted_db.header.db_version + 1) ∧
      row1.is_valid = NON_EMPTY ∧
      row1.size.orig = [255, 216, 8].length ∧ row1.offset.orig = deleted_db.fpdb.length ∧
      row1.size.thumb = 0 ∧ row1.offset.thumb = 0 ∧
      row1.size.small = 0 ∧ row1.offset.small = 0 :=
  ⟨by decide, by decide, by decide, by decide, by decide,
    do_insert_new_content sample_env [255, 216, 8] [98] deleted_db _
      (by decide) (by decide) (by decide) (by decide) (by decide)⟩

/-- C6 as stated fails when the version counter is full: on `wrap_db`, whose
`db_version` is 4294967295, a successful insertion of new content leaves
`db_version = 0`, which is not one more than before. -/
theorem do_insert_version_wrap_counterexample :
    (∀ r ∈ wrap_db.metadata, r.is_valid = NON_EMPTY →
      r.SHA ≠ sample_env.SHA256 [255, 216, 7]) ∧
    (do_insert sample_env [255, 216, 7] [97] wrap_db).1 = Code.OK ∧
    wrap_db.header.db_version = 4294967295 ∧
    (do_insert sample_env [255, 216, 7] [97] wrap_db).2.header.db_version = 0 ∧
    (do_insert sample_env [255, 216, 7] [97] wrap_db).2.header.db_version
      ≠ wrap_db.header.db_version + 1 := by
  decide

/-! ## More lemmas on the lookup -/

/-- The lookup loop from turn `index` on: it ends at `max_files` without a match,
or right after the first occupied row that holds `pictID`. -/
theorem get_image_index_loop_spec (pictID : List Nat) (db : pictdb_file)
    (hlen : db.header.max_files ≤ db.metadata.length) :
    ∀ fuel index, index + fuel = db.header.max_files →
      (get_image_index_loop pictID db fuel index 0 = some (db.header.max_files, 0) ∧
        ∀ (j : Nat) (r : pict_metadata), index ≤ j → j < db.header.max_files →
          db.metadata[j]? = some r → ¬ (r.is_valid = NON_EMPTY ∧ r.pict_id = pictID)) ∨
      (∃ (i : Nat) (ri : pict_metadata), index ≤ i ∧ i < db.header.max_files ∧
        get_image_index_loop pictID db fuel index 0 = some (i + 1, 1) ∧
        db.metadata[i]? = some ri ∧ ri.is_valid = NON_EMPTY ∧ ri.pict_id = pictID ∧
        ∀ (j : Nat) (r : pict_metadata), index ≤ j → j < i →
          db.metadata[j]? = some r → ¬ (r.is_valid = NON_EMPTY ∧ r.pict_id = pictID)) := by
  intro fuel
  induction fuel with
  | zero =>
    intro index h
    left
    refine ⟨by simp [get_image_index_loop, ← h], ?_⟩
    intro j r h1 h2
    omega
  | succ n ih =>
    intro index h
    have hlt : index < db.header.max_files := by omega
    have hin : index < db.metadata.length := by omega
    have hget : db.metadata[index]? = some db.metadata[index] := List.getElem?_eq_getElem hin
    by_cases hm : (db.metadata[index]).is_valid = NON_EMPTY ∧ (db.metadata[index]).pict_id = pictID
    · right
      refine ⟨index, db.metadata[index], le_refl _, hlt, ?_, hget, hm.1, hm.2, ?_⟩
      · unfold get_image_index_loop
        simp only [hlt, true_and, if_true, hget, if_pos hm]
        exact get_image_index_loop_found_stop pictID db n (index + 1)
      · intro j r h1 h2
        omega
    · have hstep : get_image_index_loop pictID db (n + 1) index 0
          = get_image_index_loop pictID db n (index + 1) 0 := by
        conv_lhs => unfold get_image_index_loop
        simp only [hlt, true_and, if_true, hget, if_neg hm]
      rw [hstep]
      rcases ih (index + 1) (by omega) with ⟨h1, h2⟩ | ⟨i, ri, h1, h2, h3, h4, h5, h6, h7⟩
      · left
        refine ⟨h1, ?_⟩
        intro j r hj1 hj2 hjr
        by_cases hji : j = index
        · subst hji
          rw [hget] at hjr
          cases hjr
          exact hm
        · exact h2 j r (by omega) hj2 hjr
      · right
        refine ⟨i, ri, by omega, h2, h3, h4, h5, h6, ?_⟩
        intro j r hj1 hj2 hjr
        by_cases hji : j = index
        · subst hji
          rw [hget] at hjr
          cases hjr
          exact hm
        · exact h7 j r (by omega) hj2 hjr

/-- The result of `get_image_index` on an allocated table: either no occupied
row holds `pictID`, or the index returned is the lowest of such a row. -/
theorem get_image_index_spec (pictID : List Nat) (db : pictdb_file)
    (hlen : db.header.max_files ≤ db.metadata.length) :
    (get_image_index pictID db = (Code.ERR_FILE_NOT_FOUND, db.header.max_files) ∧
      ∀ (j : Nat) (r : pict_metadata), j < db.header.max_files →
        db.metadata[j]? = some r → ¬ (r.is_valid = NON_EMPTY ∧ r.pict_id = pictID)) ∨
    (∃ (i : Nat) (ri : pict_metadata), i < db.header.max_files ∧
      get_image_index pictID db = (Code.OK, i) ∧
      db.metadata[i]? = some ri ∧ ri.is_valid = NON_EMPTY ∧ ri.pict_id = pictID ∧
      ∀ (j : Nat) (r : pict_metadata), j < i →
        db.metadata[j]? = some r → ¬ (r.is_valid = NON_EMPTY ∧ r.pict_id = pictID)) := by
  rcases get_image_index_loop_spec pictID db hlen db.header.max_files 0 (by omega) with
    ⟨h1, h2⟩ | ⟨i, ri, _, h2, h3, h4, h5, h6, h7⟩
  · left
    refine ⟨?_, fun j r hj hr => h2 j r (Nat.zero_le _) hj hr⟩
    unfold get_image_index
    rw [h1]
    simp
  · right
    refine ⟨i, ri, h2, ?_, h4, h5, h6, fun j r hj hr => h7 j r (Nat.zero_le _) hj hr⟩
    unfold get_image_index
    rw [h3]
    simp

/-- The lookup finds the only occupied row that holds `pictID`. -/
theorem get_image_index_found (pictID : List Nat) (db : pictdb_file) (i : Nat)
    (ri : pict_metadata) (halloc : table_allocated db)
    (hrow : db.metadata[i]? = some ri) (hv : ri.is_valid = NON_EMPTY)
    (hid : ri.pict_id = pictID)
    (hfirst : ∀ (j : Nat) (r : pict_metadata), j < i → db.metadata[j]? = some r →
      ¬ (r.is_valid = NON_EMPTY ∧ r.pict_id = pictID)) :
    get_image_index pictID db = (Code.OK, i) := by
  have hlen : db.metadata.length = db.header.max_files := halloc
  have hil := getElem?_lt_length _ _ _ hrow
  rcases get_image_index_spec pictID db (by omega) with ⟨_, h2⟩ | ⟨k, rk, h1, h2, h3, h4, h5, h6⟩
  · exact absurd ⟨hv, hid⟩ (h2 i ri (by omega) hrow)
  · have hki : k = i := by
      rcases Nat.lt_trichotomy k i with hlt | heq | hgt
      · exact absurd ⟨h4, h5⟩ (hfirst k rk hlt h3)
      · exact heq
      · exact absurd ⟨hv, hid⟩ (h6 i ri hgt hrow)
    rw [h2, hki]

/-! ## Lemmas on `do_delete` -/

theorem row_end_le_table_end (env : Env) (db : pictdb_file) (i : Nat)
    (hi : i < db.header.max_files) :
    row_pos env i + env.sizeof_metadata ≤ table_end env db := by
  unfold row_pos table_end
  have : (i + 1) * env.sizeof_metadata ≤ db.header.max_files * env.sizeof_metadata :=
    Nat.mul_le_mul_right _ hi
  rw [Nat.add_mul] at this
  omega

theorem header_end_le_table_end (env : Env) (db : pictdb_file) :
    0 + env.sizeof_header ≤ table_end env db := by
  unfold table_end
  omega

theorem do_delete_eq (env : Env) (pictID : List Nat) (db : pictdb_file) (i : Nat)
    (row : pict_metadata) (hnum : db.header.num_files ≠ 0)
    (hidx : get_image_index pictID db = (Code.OK, i))
    (hrow : db.metadata[i]? = some row) :
    do_delete env pictID db =
      (Code.OK,
       { fpdb := (write_at (write_at db.fpdb (row_pos env i)
            (env.metadata_bytes { row with is_valid := EMPTY })) 0
            (env.header_bytes (header_after_delete db.header)))
         header := header_after_delete db.header
         metadata := (db.metadata.set i { row with is_valid := EMPTY }) }) := by
  have hlt := getElem?_lt_length _ _ _ hrow
  unfold do_delete do_delete_fwrite
  simp only [if_neg hnum, hidx, hrow, write_db_file_one_metadata, write_db_file_header,
    List.getElem?_set_self hlt, row_pos, Bool.true_eq_false, if_false]

/-- What a successful `do_delete` has done. -/
theorem do_delete_ok (env : Env) (pictID : List Nat) (db db1 : pictdb_file)
    (halloc : table_allocated db)
    (h : do_delete env pictID db = (Code.OK, db1)) :
    ∃ (i : Nat) (row : pict_metadata),
      db.header.num_files ≠ 0 ∧ i < db.header.max_files ∧
      get_image_index pictID db = (Code.OK, i) ∧
      db.metadata[i]? = some row ∧ row.is_valid = NON_EMPTY ∧ row.pict_id = pictID ∧
      (∀ (j : Nat) (r : pict_metadata), j < i → db.metadata[j]? = some r →
        ¬ (r.is_valid = NON_EMPTY ∧ r.pict_id = pictID)) ∧
      db1 = { fpdb := (write_at (write_at db.fpdb (row_pos env i)
                (env.metadata_bytes { row with is_valid := EMPTY })) 0
                (env.header_bytes (header_after_delete db.header)))
              header := header_after_delete db.header
              metadata := (db.metadata.set i { row with is_valid := EMPTY }) } := by
  have hlen : db.metadata.length = db.header.max_files := halloc
  by_cases hnum : db.header.num_files = 0
  · unfold do_delete do_delete_fwrite at h
    rw [if_pos hnum] at h
    cases h
  rcases get_image_index_spec pictID db (by omega) with ⟨h1, _⟩ | ⟨i, ri, h1, h2, h3, h4, h5, h6⟩
  · unfold do_delete do_delete_fwrite at h
    simp [if_neg hnum, h1] at h
  · rw [do_delete_eq env pictID db i ri hnum h2 h3] at h
    refine ⟨i, ri, hnum, h1, h2, h3, h4, h5, h6, ?_⟩
    exact ((Prod.ext_iff.mp h).2).symm

/-- What a failing `do_delete` leaves: the database it received. -/
theorem do_delete_fail (env : Env) (pictID : List Nat) (db : pictdb_file)
    (halloc : table_allocated db)
    (h : (do_delete env pictID db).1 ≠ Code.OK) :
    (do_delete env pictID db).2 = db := by
  have hlen : db.metadata.length = db.header.max_files := halloc
  by_cases hnum : db.header.num_files = 0
  · unfold do_delete do_delete_fwrite
    rw [if_pos hnum]
  rcases get_image_index_spec pictID db (by omega) with ⟨h1, _⟩ | ⟨i, ri, h1, h2, h3, h4, h5, h6⟩
  · unfold do_delete do_delete_fwrite
    simp [if_neg hnum, h1]
  · rw [do_delete_eq env pictID db i ri hnum h2 h3] at h
    exact absurd rfl h

theorem unique_ids_first (db : pictdb_file) (huniq : unique_ids db) (i : Nat)
    (ri : pict_metadata) (hrow : db.metadata[i]? = some ri) (hv : ri.is_valid = NON_EMPTY) :
    ∀ (j : Nat) (r : pict_metadata), j < i → db.metadata[j]? = some r →
      ¬ (r.is_valid = NON_EMPTY ∧ r.pict_id = ri.pict_id) := by
  intro j r hji hr hc
  obtain ⟨hi, hri⟩ := List.getElem?_eq_some_iff.mp hrow
  obtain ⟨hj, hrj⟩ := List.getElem?_eq_some_iff.mp hr
  have := (List.pairwise_iff_getElem.mp huniq) j i hj hi hji
  rw [hri, hrj] at this
  exact this hc.1 hv hc.2

/-! ## C7: the effect of `do_delete` -/

/-- C7, as the code has it: when the occupied row `i` holds `id`, `do_delete`
returns 0, sets `is_valid` of row `i` to `EMPTY`, subtracts 1 from `num_files`
and adds 1 to `db_version` modulo 2^32 (one more whenever it was below
4294967295); every other row, every other field of row `i`, every other field
of the header and every byte of the file from the end of the metadata table on
are as before. -/
theorem do_delete_effect (env : Env) (id : List Nat) (db : pictdb_file) (i : Nat)
    (row : pict_metadata)
    (halloc : table_allocated db) (hcount : count_invariant db) (huniq : unique_ids db)
    (hmax : db.header.max_files < UINT32_MOD)
    (hrow : db.metadata[i]? = some row) (hv : row.is_valid = NON_EMPTY)
    (hid : row.pict_id = id) :
    (do_delete env id db).1 = Code.OK ∧
    (do_delete env id db).2.metadata = db.metadata.set i { row with is_valid := EMPTY } ∧
    0 < db.header.num_files ∧
    (do_delete env id db).2.header =
      { db.header with
        db_version := (db.header.db_version + 1) % UINT32_MOD
        num_files := db.header.num_files - 1 } ∧
    (db.header.db_version + 1 < UINT32_MOD →
      (do_delete env id db).2.header.db_version = db.header.db_version + 1) ∧
    (do_delete env id db).2.fpdb.drop (table_end env db) = db.fpdb.drop (table_end env db) := by
  have hlen : db.metadata.length = db.header.max_files := halloc
  have hil := getElem?_lt_length _ _ _ hrow
  have hpos : 0 < db.header.num_files := by
    rw [hcount]
    exact List.countP_pos_iff.mpr ⟨row, mem_of_getElem? _ _ _ hrow, by simpa using hv⟩
  have hle : db.header.num_files ≤ db.metadata.length := by
    rw [hcount]
    exact List.countP_le_length _
  have hfirst := unique_ids_first db huniq i row hrow hv
  rw [hid] at hfirst
  have hidx := get_image_index_found id db i row halloc hrow hv hid hfirst
  rw [do_delete_eq env id db i row (by omega) hidx hrow]
  have hnf : (db.header.num_files + UINT32_MOD - 1) % UINT32_MOD = db.header.num_files - 1 := by
    have : db.header.num_files + UINT32_MOD - 1 = (db.header.num_files - 1) + UINT32_MOD := by
      omega
    rw [this, Nat.add_mod_right]
    exact Nat.mod_eq_of_lt (by omega)
  refine ⟨rfl, rfl, hpos, ?_, ?_, ?_⟩
  · simp only [header_after_delete, hnf]
  · intro hlt
    show (db.header.db_version + 1) % UINT32_MOD = db.header.db_version + 1
    exact Nat.mod_eq_of_lt hlt
  · show (write_at (write_at db.fpdb (row_pos env i) _) 0 _).drop (table_end env db) = _
    rw [write_at_drop _ _ _ _ (by
        rw [env.header_bytes_length]; exact header_end_le_table_end env db),
      write_at_drop _ _ _ _ (by
        rw [env.metadata_bytes_length]; exact row_end_le_table_end env db i (by omega))]

/-- The hypotheses of `do_delete_effect` hold on `one_db` for row 0. -/
theorem do_delete_effect_witness :
    table_allocated one_db ∧ count_invariant one_db ∧ unique_ids one_db ∧
    one_db.header.max_files < UINT32_MOD ∧
    one_db.metadata[0]? = some one_db_row ∧ one_db_row.is_valid = NON_EMPTY ∧
    one_db_row.pict_id = [97] ∧
    (do_delete sample_env [97] one_db).1 = Code.OK ∧
    (do_delete sample_env [97] one_db).2.metadata
      = one_db.metadata.set 0 { one_db_row with is_valid := EMPTY } ∧
    0 < one_db.header.num_files ∧
    (do_delete sample_env [97] one_db).2.header =
      { one_db.header with
        db_version := (one_db.header.db_version + 1) % UINT32_MOD
        num_files := one_db.header.num_files - 1 } ∧
    (one_db.header.db_version + 1 < UINT32_MOD →
      (do_delete sample_env [97] one_db).2.header.db_version
        = one_db.header.db_version + 1) ∧
    (do_delete sample_env [97] one_db).2.fpdb.drop (table_end sample_env one_db)
      = one_db.fpdb.drop (table_end sample_env one_db) :=
  ⟨by decide, by decide, by decide, by decide, by decide, by decide, by decide,
    do_delete_effect sample_env [97] one_db 0 one_db_row (by decide) (by decide) (by decide)
      (by decide) (by decide) (by decide) (by decide)⟩

/-- C7 as stated fails when the version counter is full: on `wrap_one_db`,
whose `db_version` is 4294967295, `do_delete` of the identifier held by row 0
returns 0 and leaves `db_version = 0`, which is not the old value plus 1. -/
theorem do_delete_version_wrap_counterexample :
    wrap_one_db.metadata[0]? = some one_db_row ∧ one_db_row.is_valid = NON_EMPTY ∧
    one_db_row.pict_id = [97] ∧
    (do_delete sample_env [97] wrap_one_db).1 = Code.OK ∧
    wrap_one_db.header.db_version = 4294967295 ∧
    (do_delete sample_env [97] wrap_one_db).2.header.db_version = 0 ∧
    (do_delete sample_env [97] wrap_one_db).2.header.db_version
      ≠ wrap_one_db.header.db_version + 1 := by
  decide

/-! ## C8: reading an identifier that no occupied row holds -/

/-- C8. When no occupied row holds `id`, `do_read` returns `ERR_FILE_NOT_FOUND`
for the three resolutions, stores neither output and leaves the database as it
was; this is the case in particular after `id` was inserted and then deleted. -/
theorem do_read_missing_id (env : Env) (id : List Nat) (db : pictdb_file)
    (halloc : table_allocated db) :
    (id_absent id db → ∀ dim, dim = RES_THUMB ∨ dim = RES_SMALL ∨ dim = RES_ORIG →
      do_read env id dim db = ⟨Code.ERR_FILE_NOT_FOUND, db, none, none⟩) ∧
    (id.length ≤ MAX_PIC_ID → ∀ (image : List Nat) (db1 db2 : pictdb_file),
      do_insert env image id db = (Code.OK, db1) →
      do_delete env id db1 = (Code.OK, db2) →
      ∀ dim, dim = RES_THUMB ∨ dim = RES_SMALL ∨ dim = RES_ORIG →
        do_read env id dim db2 = ⟨Code.ERR_FILE_NOT_FOUND, db2, none, none⟩) := by
  refine ⟨fun habs dim hdim => do_read_absent env id dim db halloc habs hdim, ?_⟩
  intro hid image db1 db2 hins hdel dim hdim
  have htake : id.take MAX_PIC_ID = id := List.take_of_length_le hid
  obtain ⟨idx, row, row1, _, _, hrow, _, hmd, hhdr, hv1, hp1, _, _, _, habs, _⟩ :=
    do_insert_ok env image id db db1 halloc hins
  rw [htake] at habs hp1
  have hlt : idx < db.metadata.length := getElem?_lt_length _ _ _ hrow
  have halloc1 : table_allocated db1 := by
    unfold table_allocated at halloc ⊢
    rw [hmd, hhdr, List.length_set]
    exact halloc
  obtain ⟨i, rowd, _, _, _, hrowd, hvd, hpd, _, hdb2⟩ := do_delete_ok env id db1 db2 halloc1 hdel
  have hi : i = idx := by
    by_contra hne
    rw [hmd, List.getElem?_set_ne (Ne.symm hne)] at hrowd
    exact habs i rowd hne hrowd hvd hpd
  subst hi
  have hmd2 : db2.metadata = db.metadata.set i { rowd with is_valid := EMPTY } := by
    rw [hdb2]
    show db1.metadata.set i _ = _
    rw [hmd, List.set_set]
  have halloc2 : table_allocated db2 := by
    unfold table_allocated at halloc ⊢
    rw [hmd2, List.length_set, hdb2]
    show _ = (header_after_delete db1.header).max_files
    rw [hhdr]
    exact halloc
  apply do_read_absent env id dim db2 halloc2 _ hdim
  intro r hr hrv hrp
  obtain ⟨j, hj, hjr⟩ := List.getElem_of_mem hr
  have hjr' : db2.metadata[j]? = some r := by rw [List.getElem?_eq_getElem hj, hjr]
  rw [hmd2] at hjr'
  by_cases hji : j = i
  · subst hji
    rw [List.getElem?_set_self hlt] at hjr'
    cases hjr'
    cases hrv
  · rw [List.getElem?_set_ne (Ne.symm hji)] at hjr'
    exact habs j r hji hjr' hrv hrp

/-- The hypotheses of `do_read_missing_id` hold on `sample_db`: `[97]` is absent before the insertion and after the deletion. -/
theorem do_read_missing_id_witness :
    table_allocated sample_db ∧ id_absent [97] sample_db ∧
    do_read sample_env [97] RES_THUMB sample_db
      = ⟨Code.ERR_FILE_NOT_FOUND, sample_db, none, none⟩ ∧
    [97].length ≤ MAX_PIC_ID ∧
    do_insert sample_env [255, 216, 7] [97] sample_db = (Code.OK, one_db) ∧
    do_delete sample_env [97] one_db = (Code.OK, (do_delete sample_env [97] one_db).2) ∧
    do_read sample_env [97] RES_ORIG (do_delete sample_env [97] one_db).2
      = ⟨Code.ERR_FILE_NOT_FOUND, (do_delete sample_env [97] one_db).2, none, none⟩ :=
  ⟨by decide, by decide,
    (do_read_missing_id sample_env [97] sample_db (by decide)).1 (by decide) RES_THUMB
      (by decide),
    by decide, by decide, by decide,
    (do_read_missing_id sample_env [97] sample_db (by decide)).2 (by decide) [255, 216, 7]
      one_db _ (by decide) (by decide) RES_ORIG (by decide)⟩

/-! ## The frame of `lazily_resize` and `do_read` -/

theorem map_set_same {α β : Type} (f : α → β) (l : List α) (i : Nat) (a b : α)
    (h : l[i]? = some a) (hf : f b = f a) : (l.set i b).map f = l.map f := by
  have hi := getElem?_lt_length l i a h
  apply List.ext_getElem?
  intro n
  simp only [List.getElem?_map, List.getElem?_set]
  by_cases hn : i = n
  · subst hn
    simp [hi, h, hf]
  · simp [hn]

theorem dup_update_key (row g : pict_metadata) : row_key (dup_update row g) = row_key row := by
  unfold dup_update row_key
  by_cases h1 : row.size.small ≠ g.size.small <;> by_cases h2 : row.size.thumb ≠ g.size.thumb <;>
    simp [h1, h2]

theorem get_dup_index_and_update_frame (db : pictdb_file) (index : Nat) (tab : List Nat)
    (db1 : pictdb_file) (h : get_dup_index_and_update db index = some (tab, db1)) :
    db1.header = db.header ∧ db1.fpdb = db.fpdb ∧
    db1.metadata.map row_key = db.metadata.map row_key := by
  unfold get_dup_index_and_update at h
  cases hrow : db.metadata[index]? with
  | none => simp [hrow] at h
  | some row =>
    simp only [hrow] at h
    cases hl : dup_index_loop db index row.SHA db.header.max_files 0 [index] with
    | none => simp [hl] at h
    | some t =>
      simp only [hl] at h
      match t, h with
      | [], h =>
        simp only [Option.some.injEq, Prod.mk.injEq] at h
        rw [← h.2]
        exact ⟨rfl, rfl, rfl⟩
      | [_], h =>
        simp only [Option.some.injEq, Prod.mk.injEq] at h
        rw [← h.2]
        exact ⟨rfl, rfl, rfl⟩
      | _ :: g :: _, h =>
        simp only at h
        cases hg : db.metadata[g]? with
        | none => simp [hg] at h
        | some rg =>
          simp only [hg, Option.some.injEq, Prod.mk.injEq] at h
          rw [← h.2]
          exact ⟨rfl, rfl, map_set_same row_key _ _ _ _ hrow (dup_update_key row rg)⟩

theorem resize_update_loop_frame (env : Env) (dim new_size offset : Nat) :
    ∀ (tab : List Nat) (db db1 : pictdb_file),
      resize_update_loop env dim new_size offset tab db = some db1 →
      db1.header = db.header ∧ db1.metadata.map row_key = db.metadata.map row_key := by
  intro tab
  induction tab with
  | nil =>
    intro db db1 h
    simp only [resize_update_loop, Option.some.injEq] at h
    rw [← h]
    exact ⟨rfl, rfl⟩
  | cons k tab ih =>
    intro db db1 h
    unfold resize_update_loop at h
    cases hk : db.metadata[k]? with
    | none => simp [hk] at h
    | some r =>
      have hkl := getElem?_lt_length _ _ _ hk
      simp only [hk, write_db_file_one_metadata, List.getElem?_set_self hkl] at h
      obtain ⟨h1, h2⟩ := ih _ _ h
      refine ⟨h1, ?_⟩
      rw [h2]
      exact map_set_same row_key _ _ _ _ hk rfl

theorem lazily_resize_frame (env : Env) (dim : Nat) (db : pictdb_file) (index : Nat) :
    (lazily_resize env dim db index).2.header = db.header ∧
    (lazily_resize env dim db index).2.metadata.map row_key = db.metadata.map row_key := by
  unfold lazily_resize
  split_ifs with h1 h2
  · exact ⟨rfl, rfl⟩
  · exact ⟨rfl, rfl⟩
  · cases hrow0 : db.metadata[index]? with
    | none => exact ⟨rfl, rfl⟩
    | some row0 =>
      simp only
      split_ifs with h3
      · exact ⟨rfl, rfl⟩
      · cases hg : get_dup_index_and_update db index with
        | none => exact ⟨rfl, rfl⟩
        | some p =>
          obtain ⟨tab, db1⟩ := p
          obtain ⟨g1, _, g3⟩ := get_dup_index_and_update_frame db index tab db1 hg
          simp only
          cases hrow : db1.metadata[index]? with
          | none => exact ⟨g1, g3⟩
          | some row =>
            simp only
            split_ifs with h4 h5
            · exact ⟨g1, g3⟩
            · exact ⟨g1, g3⟩
            · cases hj : env.jpeg_resize (read_db_file_image index RES_ORIG db1).2 row.size.orig
                  dim db1.header.res_resized with
              | none => exact ⟨g1, g3⟩
              | some outBuffer =>
                simp only
                split_ifs with h6
                · exact ⟨g1, g3⟩
                · cases hu : resize_update_loop env dim (outBuffer.length % UINT32_MOD)
                      (write_db_file_image outBuffer (outBuffer.length % UINT32_MOD) db1).2.1
                      tab
                      (write_db_file_image outBuffer (outBuffer.length % UINT32_MOD) db1).2.2 with
                  | none => exact ⟨g1, g3⟩
                  | some db2 =>
                    obtain ⟨u1, u2⟩ := resize_update_loop_frame env dim _ _ tab _ db2 hu
                    exact ⟨u1.trans g1, u2.trans g3⟩

theorem do_read_frame (env : Env) (id : List Nat) (dim : Nat) (db : pictdb_file) :
    (do_read env id dim db).db.header = db.header ∧
    (do_read env id dim db).db.metadata.map row_key = db.metadata.map row_key := by
  have hl := lazily_resize_frame env dim db (get_image_index id db).2
  unfold do_read
  dsimp only
  split_ifs <;> first | exact ⟨rfl, rfl⟩ | exact hl | (split <;> exact hl)

/-! ## The count invariant along a run -/

theorem countP_set_flag (md : List pict_metadata) (i : Nat) (row row1 : pict_metadata)
    (hrow : md[i]? = some row) :
    (md.set i row1).countP (fun r => r.is_valid = NON_EMPTY)
      = md.countP (fun r => r.is_valid = NON_EMPTY)
        - (if row.is_valid = NON_EMPTY then 1 else 0)
        + (if row1.is_valid = NON_EMPTY then 1 else 0) := by
  obtain ⟨hi, hri⟩ := List.getElem?_eq_some_iff.mp hrow
  rw [List.countP_set _ _ _ _ hi, hri]
  simp

theorem valid_flags_set (db : pictdb_file) (md1 : List pict_metadata) (i : Nat)
    (row1 : pict_metadata) (hflags : valid_flags db)
    (hmd : md1 = db.metadata.set i row1)
    (hv : row1.is_valid = EMPTY ∨ row1.is_valid = NON_EMPTY) :
    ∀ r ∈ md1, r.is_valid = EMPTY ∨ r.is_valid = NON_EMPTY := by
  intro r hr
  rw [hmd] at hr
  rcases List.mem_or_eq_of_mem_set hr with h | h
  · exact hflags r h
  · rw [h]; exact hv

theorem count_inv_of_keys (db db1 : pictdb_file) (hh : db1.header = db.header)
    (hk : db1.metadata.map row_key = db.metadata.map row_key) (hinv : count_inv db) :
    count_inv db1 := by
  obtain ⟨h1, h2, h3, h4⟩ := hinv
  have hlen : db1.metadata.length = db.metadata.length := by
    have := congrArg List.length hk
    simpa using this
  have hflag : db1.metadata.map (fun r => r.is_valid) = db.metadata.map (fun r => r.is_valid) := by
    have := congrArg (List.map fun k : List Nat × List Nat × Nat => k.2.2) hk
    simpa [List.map_map, Function.comp_def, row_key] using this
  refine ⟨?_, ?_, ?_, by rw [hh]; exact h4⟩
  · unfold table_allocated at h1 ⊢
    rw [hlen, hh]; exact h1
  · intro r hr
    have hm : r.is_valid ∈ db1.metadata.map (fun r => r.is_valid) :=
      List.mem_map_of_mem _ hr
    rw [hflag] at hm
    obtain ⟨r0, hr0, he⟩ := List.mem_map.mp hm
    rw [← he]
    exact h2 r0 hr0
  · unfold count_invariant at h3 ⊢
    have hc : ∀ md : List pict_metadata,
        md.countP (fun r => r.is_valid = NON_EMPTY)
          = (md.map (fun r => r.is_valid)).countP (fun v => v = NON_EMPTY) := by
      intro md
      rw [List.countP_map]
      rfl
    rw [hh, h3, hc db1.metadata, hc db.metadata, hflag]

theorem count_inv_insert (env : Env) (image id : List Nat) (db : pictdb_file)
    (hinv : count_inv db) : count_inv (do_insert env image id db).2 := by
  obtain ⟨h1, h2, h3, h4⟩ := hinv
  have hlen : db.metadata.length = db.header.max_files := h1
  by_cases hok : (do_insert env image id db).1 = Code.OK
  · have heq : do_insert env image id db = (Code.OK, (do_insert env image id db).2) :=
      Prod.ext hok rfl
    obtain ⟨idx, row, row1, hnum, _, hrow, hrowv, hmd, hhdr, hv, _⟩ :=
      do_insert_ok env image id db _ h1 heq
    refine ⟨?_, valid_flags_set db _ idx row1 h2 hmd (Or.inr hv), ?_, by rw [hhdr]; exact h4⟩
    · unfold table_allocated
      rw [hmd, hhdr, List.length_set]
      exact h1
    · unfold count_invariant at h3 ⊢
      rw [hmd, hhdr, countP_set_flag _ _ _ _ hrow, hrowv, hv, ← h3]
      show (db.header.num_files + 1) % UINT32_MOD = _
      rw [Nat.mod_eq_of_lt (by omega)]
      simp
  · obtain ⟨f1, _, f3⟩ := do_insert_fail env image id db h1 hok
    rcases f3 with f3 | ⟨idx, row, row1, _, hrow, hrowv, hv, hmd⟩
    · refine ⟨?_, ?_, ?_, by rw [f1]; exact h4⟩
      · unfold table_allocated; rw [f3, f1]; exact h1
      · unfold valid_flags; rw [f3]; exact h2
      · unfold count_invariant; rw [f3, f1]; exact h3
    · refine ⟨?_, valid_flags_set db _ idx row1 h2 hmd (Or.inl hv), ?_, by rw [f1]; exact h4⟩
      · unfold table_allocated
        rw [hmd, f1, List.length_set]
        exact h1
      · unfold count_invariant at h3 ⊢
        rw [hmd, f1, countP_set_flag _ _ _ _ hrow, hrowv, hv, ← h3]
        simp

theorem count_inv_delete (env : Env) (id : List Nat) (db : pictdb_file)
    (hinv : count_inv db) : count_inv (do_delete env id db).2 := by
  obtain ⟨h1, h2, h3, h4⟩ := hinv
  have hlen : db.metadata.length = db.header.max_files := h1
  by_cases hok : (do_delete env id db).1 = Code.OK
  · have heq : do_delete env id db = (Code.OK, (do_delete env id db).2) := Prod.ext hok rfl
    obtain ⟨i, row, hnum, _, _, hrow, hv, _, _, hdb⟩ := do_delete_ok env id db _ h1 heq
    have hle : db.header.num_files ≤ db.metadata.length := by
      rw [h3]
      exact List.countP_le_length _
    rw [hdb]
    refine ⟨?_, valid_flags_set db _ i _ h2 rfl (Or.inl rfl), ?_, h4⟩
    · unfold table_allocated
      show (db.metadata.set i _).length = db.header.max_files
      rw [List.length_set]
      exact h1
    · unfold count_invariant at h3 ⊢
      show (db.header.num_files + UINT32_MOD - 1) % UINT32_MOD
        = (db.metadata.set i _).countP _
      rw [countP_set_flag _ _ _ _ hrow, hv, ← h3]
      have : db.header.num_files + UINT32_MOD - 1 = (db.header.num_files - 1) + UINT32_MOD := by
        omega
      rw [this, Nat.add_mod_right, Nat.mod_eq_of_lt (by omega)]
      simp
  · rw [do_delete_fail env id db h1 hok]
    exact ⟨h1, h2, h3, h4⟩

theorem count_inv_read (env : Env) (id : List Nat) (dim : Nat) (db : pictdb_file)
    (hinv : count_inv db) : count_inv (do_read env id dim db).db := by
  obtain ⟨h1, h2⟩ := do_read_frame env id dim db
  exact count_inv_of_keys db _ h1 h2 hinv

theorem count_inv_step (env : Env) (db : pictdb_file) (op : Op) (hinv : count_inv db) :
    count_inv (step env db op) := by
  cases op with
  | insert image id => exact count_inv_insert env image id db hinv
  | delete id => exact count_inv_delete env id db hinv
  | read id dim => exact count_inv_read env id dim db hinv

theorem count_inv_run (env : Env) (ops : List Op) :
    ∀ db, count_inv db → count_inv (run env db ops) := by
  induction ops with
  | nil => intro db h; exact h
  | cons op ops ih =>
    intro db h
    exact ih _ (count_inv_step env db op h)

theorem count_inv_create (env : Env) (max_files : Nat) (res_resized : List Nat)
    (hmax : max_files < UINT32_MOD) : count_inv (do_create env max_files res_resized).2 := by
  refine ⟨?_, ?_, ?_, hmax⟩
  · simp [table_allocated, do_create, write_db_file_header]
  · intro r hr
    left
    simp [do_create, write_db_file_header] at hr
    rw [hr.2]
  · simp only [count_invariant, do_create, write_db_file_header, List.map_replicate]
    symm
    rw [List.countP_eq_zero]
    intro r hr
    rw [List.eq_of_mem_replicate hr]
    decide

/-! ## C10: the count invariant -/

/-- The count invariant on a stream whose writes succeed: from a database
produced by `do_create` (with `max_files` a `uint32_t`), after every sequence
of `do_insert`, `do_delete` and `do_read` calls, whatever each returns,
`num_files` is the number of rows whose `is_valid` is `NON_EMPTY` and lies
between 0 and `max_files`. -/
theorem count_invariant_reachable (env : Env) (max_files : Nat) (res_resized : List Nat)
    (ops : List Op) (hmax : max_files < UINT32_MOD) :
    (run env (do_create env max_files res_resized).2 ops).header.num_files
      = (run env (do_create env max_files res_resized).2 ops).metadata.countP
          (fun r => r.is_valid = NON_EMPTY) ∧
    0 ≤ (run env (do_create env max_files res_resized).2 ops).header.num_files ∧
    (run env (do_create env max_files res_resized).2 ops).header.num_files
      ≤ (run env (do_create env max_files res_resized).2 ops).header.max_files := by
  obtain ⟨h1, _, h3, _⟩ := count_inv_run env ops _ (count_inv_create env max_files res_resized hmax)
  refine ⟨h3, Nat.zero_le _, ?_⟩
  rw [h3, ← h1]
  exact List.countP_le_length _

/-- The hypothesis of `count_invariant_reachable` holds for `max_files = 2`,
here with the calls of `sample_ops`. -/
theorem count_invariant_reachable_witness :
    2 < UINT32_MOD ∧
    (run sample_env (do_create sample_env 2 [64, 64, 256, 256]).2 sample_ops).header.num_files
      = (run sample_env (do_create sample_env 2 [64, 64, 256, 256]).2 sample_ops).metadata.countP
          (fun r => r.is_valid = NON_EMPTY) ∧
    0 ≤ (run sample_env (do_create sample_env 2 [64, 64, 256, 256]).2
      sample_ops).header.num_files ∧
    (run sample_env (do_create sample_env 2 [64, 64, 256, 256]).2 sample_ops).header.num_files
      ≤ (run sample_env (do_create sample_env 2 [64, 64, 256, 256]).2
        sample_ops).header.max_files :=
  ⟨by decide, count_invariant_reachable sample_env 2 [64, 64, 256, 256] sample_ops (by decide)⟩

/-- When the write of the row succeeds, `do_delete` leaves the same header and
table in memory whether the write of the header succeeds or not. -/
theorem do_delete_fwrite_table (env : Env) (header_written : Bool) (pictID : List Nat)
    (db : pictdb_file) :
    (do_delete_fwrite env true header_written pictID db).2.header
      = (do_delete env pictID db).2.header ∧
    (do_delete_fwrite env true header_written pictID db).2.metadata
      = (do_delete env pictID db).2.metadata := by
  cases header_written with
  | true => exact ⟨rfl, rfl⟩
  | false =>
    unfold do_delete do_delete_fwrite
    by_cases h0 : db.header.num_files = 0
    · simp only [if_pos h0, and_self]
    · simp only [if_neg h0, Bool.true_eq_false, Bool.false_eq_true, if_false, if_true]
      rcases hg : get_image_index pictID db with ⟨c, i⟩
      cases c <;> try exact ⟨rfl, rfl⟩
      dsimp only
      cases hr : db.metadata[i]? with
      | none => exact ⟨rfl, rfl⟩
      | some row =>
        dsimp only
        cases hw : write_db_file_one_metadata env
            { db with metadata := db.metadata.set i { row with is_valid := EMPTY } } i with
        | none => exact ⟨rfl, rfl⟩
        | some db2 => exact ⟨rfl, rfl⟩

/-- The count invariant is kept by every `do_delete` whose write of the row
succeeds, whatever it returns. -/
theorem count_inv_delete_fwrite (env : Env) (header_written : Bool) (id : List Nat)
    (db : pictdb_file) (hinv : count_inv db) :
    count_inv (do_delete_fwrite env true header_written id db).2 := by
  obtain ⟨e1, e2⟩ := do_delete_fwrite_table env header_written id db
  exact count_inv_of_keys _ _ e1 (by rw [e2]) (count_inv_delete env id db hinv)

theorem count_inv_step_fwrite (env : Env) (db : pictdb_file) (c : Call)
    (hrow : row_write_succeeds c = true)
    (hinv : count_inv db) : count_inv (step_fwrite env db c) := by
  cases c with
  | insert image id => exact count_inv_insert env image id db hinv
  | read id dim => exact count_inv_read env id dim db hinv
  | delete id rw hw =>
    cases rw with
    | true => exact count_inv_delete_fwrite env hw id db hinv
    | false => exact absurd hrow (by show ¬ (false = true); decide)

theorem count_inv_run_fwrite (env : Env) (calls : List Call) :
    ∀ db, row_writes_succeed calls → count_inv db → count_inv (run_fwrite env db calls) := by
  induction calls with
  | nil => intro db _ h; exact h
  | cons c calls ih =>
    intro db hrow h
    exact ih _ (fun c1 hc1 => hrow c1 (List.mem_cons_of_mem _ hc1))
      (count_inv_step_fwrite env db c (hrow c (List.mem_cons_self _ _)) h)

/-- C10, the claim as stated fails: after `do_create` with `max_files = 2` and
the `do_insert` of a blob under the identifier "a", a `do_delete` of "a" whose
write of the row fails returns `ERR_IO` after it has set the flag of row 0 to
`EMPTY` and before `num_files -= 1`: `num_files` is 1 and no row is
`NON_EMPTY`. -/
theorem count_invariant_failed_write_counterexample :
    (do_delete_fwrite sample_env false true [97]
      (run_fwrite sample_env (do_create sample_env 2 [64, 64, 256, 256]).2
        [Call.insert [255, 216, 7] [97]])).1 = Code.ERR_IO ∧
    (run_fwrite sample_env (do_create sample_env 2 [64, 64, 256, 256]).2
      [Call.insert [255, 216, 7] [97], Call.delete [97] false true]).header.num_files = 1 ∧
    (run_fwrite sample_env (do_create sample_env 2 [64, 64, 256, 256]).2
      [Call.insert [255, 216, 7] [97], Call.delete [97] false true]).metadata.countP
        (fun r => r.is_valid = NON_EMPTY) = 0 := by
  decide

/-- C10, amended. From a database produced by `do_create` (with `max_files` a
`uint32_t`), after every sequence of `do_insert`, `do_delete` and `do_read`
calls, whatever each returns, in which the write of the row in `do_delete`
does not fail, `num_files` is the number of rows whose `is_valid` is
`NON_EMPTY` and lies between 0 and `max_files`. -/
theorem count_invariant_fwrite (env : Env) (max_files : Nat) (res_resized : List Nat)
    (calls : List Call) (hmax : max_files < UINT32_MOD) (hrow : row_writes_succeed calls) :
    (run_fwrite env (do_create env max_files res_resized).2 calls).header.num_files
      = (run_fwrite env (do_create env max_files res_resized).2 calls).metadata.countP
          (fun r => r.is_valid = NON_EMPTY) ∧
    0 ≤ (run_fwrite env (do_create env max_files res_resized).2 calls).header.num_files ∧
    (run_fwrite env (do_create env max_files res_resized).2 calls).header.num_files
      ≤ (run_fwrite env (do_create env max_files res_resized).2 calls).header.max_files := by
  obtain ⟨h1, _, h3, _⟩ := count_inv_run_fwrite env calls _ hrow
    (count_inv_create env max_files res_resized hmax)
  refine ⟨h3, Nat.zero_le _, ?_⟩
  rw [h3, ← h1]
  exact List.countP_le_length _

/-- The hypotheses of `count_invariant_fwrite` hold for `max_files = 2` and a
sequence with an insertion into a full database, a read of an absent
identifier and a `do_delete` whose write of the header fails: the calls
return 0, 0, `ERR_FULL_DATABASE`, `ERR_FILE_NOT_FOUND` and `ERR_IO`, and leave
one occupied row. -/
theorem count_invariant_fwrite_witness :
    2 < UINT32_MOD ∧
    row_writes_succeed [Call.insert [255, 216, 7] [97], Call.insert [255, 216, 9] [98],
      Call.insert [255, 216, 5] [99], Call.read [100] RES_THUMB, Call.delete [97] true false] ∧
    (do_delete_fwrite sample_env true false [97]
      (run_fwrite sample_env (do_create sample_env 2 [64, 64, 256, 256]).2
        [Call.insert [255, 216, 7] [97], Call.insert [255, 216, 9] [98],
         Call.insert [255, 216, 5] [99], Call.read [100] RES_THUMB])).1 = Code.ERR_IO ∧
    (run_fwrite sample_env (do_create sample_env 2 [64, 64, 256, 256]).2
      [Call.insert [255, 216, 7] [97], Call.insert [255, 216, 9] [98],
       Call.insert [255, 216, 5] [99], Call.read [100] RES_THUMB,
       Call.delete [97] true false]).header.num_files = 1 ∧
    (run_fwrite sample_env (do_create sample_env 2 [64, 64, 256, 256]).2
        [Call.insert [255, 216, 7] [97], Call.insert [255, 216, 9] [98],
         Call.insert [255, 216, 5] [99], Call.read [100] RES_THUMB,
         Call.delete [97] true false]).header.num_files
      = (run_fwrite sample_env (do_create sample_env 2 [64, 64, 256, 256]).2
          [Call.insert [255, 216, 7] [97], Call.insert [255, 216, 9] [98],
           Call.insert [255, 216, 5] [99], Call.read [100] RES_THUMB,
           Call.delete [97] true false]).metadata.countP
          (fun r => r.is_valid = NON_EMPTY) :=
  ⟨by decide, by decide, by decide, by decide,
    (count_invariant_fwrite sample_env 2 [64, 64, 256, 256]
      [Call.insert [255, 216, 7] [97], Call.insert [255, 216, 9] [98],
       Call.insert [255, 216, 5] [99], Call.read [100] RES_THUMB,
       Call.delete [97] true false] (by decide) (by decide)).1⟩

/-! ## Lemmas for the second call of `lazily_resize` -/

theorem getElem?_key_of_map (md md1 : List pict_metadata)
    (hk : md1.map row_key = md.map row_key) (j : Nat) :
    (md1[j]?).map row_key = (md[j]?).map row_key := by
  rw [← List.getElem?_map, ← List.getElem?_map, hk]

theorem getElem?_none_of_map (md md1 : List pict_metadata)
    (hk : md1.map row_key = md.map row_key) (j : Nat) (h : md[j]? = none) :
    md1[j]? = none := by
  have := getElem?_key_of_map md md1 hk j
  rw [h] at this
  simpa using this

theorem getElem?_some_of_map (md md1 : List pict_metadata)
    (hk : md1.map row_key = md.map row_key) (j : Nat) (r : pict_metadata)
    (h : md[j]? = some r) :
    ∃ r1, md1[j]? = some r1 ∧ r1.pict_id = r.pict_id ∧ r1.SHA = r.SHA ∧
      r1.is_valid = r.is_valid := by
  have := getElem?_key_of_map md md1 hk j
  rw [h] at this
  cases h1 : md1[j]? with
  | none => rw [h1] at this; simp at this
  | some r1 =>
    rw [h1] at this
    simp only [Option.map_some', Option.some.injEq, row_key, Prod.mk.injEq] at this
    exact ⟨r1, rfl, this.1, this.2.1, this.2.2⟩

theorem get_image_index_loop_congr (pictID : List Nat) (db db1 : pictdb_file)
    (hh : db1.header = db.header)
    (hk : db1.metadata.map row_key = db.metadata.map row_key) :
    ∀ fuel index found,
      get_image_index_loop pictID db1 fuel index found
        = get_image_index_loop pictID db fuel index found := by
  intro fuel
  induction fuel with
  | zero => intro index found; simp [get_image_index_loop]
  | succ n ih =>
    intro index found
    unfold get_image_index_loop
    rw [hh]
    cases hr : db.metadata[index]? with
    | none => rw [getElem?_none_of_map _ _ hk index hr]
    | some r =>
      obtain ⟨r1, h1, h2, _, h4⟩ := getElem?_some_of_map _ _ hk index r hr
      rw [h1]
      simp only [h2, h4, ih]

theorem get_image_index_congr (pictID : List Nat) (db db1 : pictdb_file)
    (hh : db1.header = db.header)
    (hk : db1.metadata.map row_key = db.metadata.map row_key) :
    get_image_index pictID db1 = get_image_index pictID db := by
  unfold get_image_index
  rw [get_image_index_loop_congr pictID db db1 hh hk, hh]

theorem dup_index_loop_congr (db db1 : pictdb_file) (index : Nat) (SHA : List Nat)
    (hh : db1.header = db.header)
    (hk : db1.metadata.map row_key = db.metadata.map row_key) :
    ∀ fuel i tab,
      dup_index_loop db1 index SHA fuel i tab = dup_index_loop db index SHA fuel i tab := by
  intro fuel
  induction fuel with
  | zero => intro i tab; simp [dup_index_loop]
  | succ n ih =>
    intro i tab
    unfold dup_index_loop
    rw [hh]
    cases hr : db.metadata[i]? with
    | none => rw [getElem?_none_of_map _ _ hk i hr]; simp only [ih]
    | some r =>
      obtain ⟨r1, h1, _, h3, h4⟩ := getElem?_some_of_map _ _ hk i r hr
      rw [h1]
      simp only [h3, h4, ih]

/-- The array `index_tab`: the entries added by the loop differ from `index`
and are indices of rows of the table. -/
theorem dup_index_loop_tab (db : pictdb_file) (index : Nat) (SHA : List Nat) :
    ∀ fuel i tab0 tab, dup_index_loop db index SHA fuel i tab0 = some tab →
      ∃ rest, tab = tab0 ++ rest ∧
        ∀ k ∈ rest, k ≠ index ∧ ∃ r, db.metadata[k]? = some r := by
  intro fuel
  induction fuel with
  | zero =>
    intro i tab0 tab h
    simp only [dup_index_loop, Option.some.injEq] at h
    exact ⟨[], by simp [h], by simp⟩
  | succ n ih =>
    intro i tab0 tab h
    unfold dup_index_loop at h
    split_ifs at h with h1 h2
    · cases hr : db.metadata[i]? with
      | none => simp [hr] at h
      | some r =>
        simp only [hr] at h
        split_ifs at h with h3 h4
        · obtain ⟨rest, e1, e2⟩ := ih _ _ _ h
          refine ⟨i :: rest, by simp [e1], ?_⟩
          intro k hk
          rcases List.mem_cons.mp hk with hk | hk
          · subst hk; exact ⟨h2, r, hr⟩
          · exact e2 k hk
        · exact ih _ _ _ h
        · exact ih _ _ _ h
    · exact ih _ _ _ h
    · simp only [Option.some.injEq] at h
      exact ⟨[], by simp [h], by simp⟩

theorem dup_update_sizes (row g : pict_metadata) :
    (dup_update row g).size.small = g.size.small ∧
    (dup_update row g).size.thumb = g.size.thumb := by
  unfold dup_update
  by_cases h1 : row.size.small ≠ g.size.small <;> by_cases h2 : row.size.thumb ≠ g.size.thumb <;>
    simp [h1, h2] <;> simp_all

theorem dup_update_eq_self (row g : pict_metadata) (h1 : row.size.small = g.size.small)
    (h2 : row.size.thumb = g.size.thumb) : dup_update row g = row := by
  unfold dup_update
  simp [h1, h2]

theorem set_getElem?_self {α : Type} (l : List α) (i : Nat) (a : α) (h : l[i]? = some a) :
    l.set i a = l := by
  apply List.ext_getElem?
  intro n
  rw [List.getElem?_set]
  by_cases hn : i = n
  · subst hn
    simp [getElem?_lt_length l i a h, h]
  · simp [hn]

theorem resized_row_idem (dim ns off : Nat) (r : pict_metadata) :
    resized_row dim ns off (resized_row dim ns off r) = resized_row dim ns off r := by
  unfold resized_row res_array.set
  split_ifs <;> rfl

theorem resize_update_loop_rows (env : Env) (dim ns off : Nat) :
    ∀ (tab : List Nat) (db db1 : pictdb_file),
      resize_update_loop env dim ns off tab db = some db1 →
      ∀ k, db1.metadata[k]? =
        if k ∈ tab then (db.metadata[k]?).map (resized_row dim ns off) else db.metadata[k]? := by
  intro tab
  induction tab with
  | nil =>
    intro db db1 h k
    simp only [resize_update_loop, Option.some.injEq] at h
    simp [h]
  | cons k0 tab ih =>
    intro db db1 h k
    unfold resize_update_loop at h
    cases hk : db.metadata[k0]? with
    | none => simp [hk] at h
    | some r =>
      have hkl := getElem?_lt_length _ _ _ hk
      simp only [hk, write_db_file_one_metadata, List.getElem?_set_self hkl] at h
      have := ih _ _ h k
      rw [this]
      simp only [List.getElem?_set, List.mem_cons]
      by_cases hkk : k0 = k
      · subst hkk
        simp [hkl, hk, resized_row_idem]
      · have hkk' : ¬ k = k0 := fun hc => hkk hc.symm
        simp [hkk, hkk']

/-- What a successful `get_dup_index_and_update` has done. -/
theorem get_dup_index_and_update_ok (db : pictdb_file) (index : Nat) (tab : List Nat)
    (db1 : pictdb_file) (h : get_dup_index_and_update db index = some (tab, db1)) :
    ∃ (row0 : pict_metadata) (rest : List Nat),
      db.metadata[index]? = some row0 ∧
      dup_index_loop db index row0.SHA db.header.max_files 0 [index] = some tab ∧
      tab = index :: rest ∧
      (∀ k ∈ rest, k ≠ index ∧ ∃ r, db.metadata[k]? = some r) ∧
      ((rest = [] ∧ db1 = db) ∨
        (∃ (g : Nat) (rest1 : List Nat) (rg : pict_metadata),
          rest = g :: rest1 ∧ db.metadata[g]? = some rg ∧
          db1 = { db with metadata := db.metadata.set index (dup_update row0 rg) })) := by
  unfold get_dup_index_and_update at h
  cases hrow : db.metadata[index]? with
  | none => simp [hrow] at h
  | some row =>
    simp only [hrow] at h
    cases hl : dup_index_loop db index row.SHA db.header.max_files 0 [index] with
    | none => simp [hl] at h
    | some t =>
      simp only [hl] at h
      obtain ⟨rest, e1, e2⟩ := dup_index_loop_tab db index row.SHA _ _ _ _ hl
      simp only [List.singleton_append] at e1
      subst e1
      cases rest with
      | nil =>
        simp only [Option.some.injEq, Prod.mk.injEq] at h
        exact ⟨row, [], rfl, by rw [← h.1]; exact hl, h.1.symm, e2, Or.inl ⟨rfl, h.2.symm⟩⟩
      | cons g rest1 =>
        simp only at h
        cases hg : db.metadata[g]? with
        | none => simp [hg] at h
        | some rg =>
          simp only [hg, Option.some.injEq, Prod.mk.injEq] at h
          exact ⟨row, g :: rest1, rfl, by rw [← h.1]; exact hl, h.1.symm, e2,
            Or.inr ⟨g, rest1, rg, rfl, hg, h.2.symm⟩⟩

/-- A table on which `get_dup_index_and_update` changes nothing: row `index`
already carries the sizes of the small and thumbnail variants of row
`index_tab[1]`. -/
theorem get_dup_index_and_update_stable (db : pictdb_file) (index : Nat) (row : pict_metadata)
    (rest : List Nat) (hrow : db.metadata[index]? = some row)
    (hl : dup_index_loop db index row.SHA db.header.max_files 0 [index] = some (index :: rest))
    (hg : ∀ g rest1, rest = g :: rest1 → ∃ rg, db.metadata[g]? = some rg ∧
      row.size.small = rg.size.small ∧ row.size.thumb = rg.size.thumb) :
    get_dup_index_and_update db index = some (index :: rest, db) := by
  unfold get_dup_index_and_update
  simp only [hrow, hl]
  cases rest with
  | nil => rfl
  | cons g rest1 =>
    obtain ⟨rg, h1, h2, h3⟩ := hg g rest1 rfl
    simp only [h1, dup_update_eq_self row rg h2 h3, set_getElem?_self _ _ _ hrow]

theorem lazily_resize_noop (env : Env) (dim : Nat) (db : pictdb_file) (index : Nat)
    (row : pict_metadata) (tab : List Nat)
    (hdim : dim = RES_THUMB ∨ dim = RES_SMALL)
    (hrow : db.metadata[index]? = some row)
    (hguard : ¬ (index > db.header.num_files ∧ EMPTY = row.is_valid))
    (hdup : get_dup_index_and_update db index = some (tab, db))
    (hsize : row.size.get dim ≠ 0) :
    lazily_resize env dim db index = (Code.OK, db) := by
  unfold lazily_resize
  have h1 : ¬ RES_ORIG = dim := by rcases hdim with h | h <;> subst h <;> decide
  have h2 : ¬ (RES_THUMB ≠ dim ∧ RES_SMALL ≠ dim) := by
    rcases hdim with h | h <;> subst h <;> decide
  simp only [if_neg h1, if_neg h2, hrow, if_neg hguard, hdup]
  rw [if_pos (fun hc => hsize hc.symm)]

/-- What a successful `lazily_resize` for the thumbnail or the small variant has
done: either the variant was there after the update from `index_tab[1]`, or it
was built from the original, appended and recorded in the rows of `index_tab`. -/
theorem lazily_resize_ok (env : Env) (dim : Nat) (db : pictdb_file) (index : Nat)
    (dbL : pictdb_file) (hdim : dim = RES_THUMB ∨ dim = RES_SMALL)
    (h : lazily_resize env dim db index = (Code.OK, dbL)) :
    ∃ (row0 row : pict_metadata) (tab : List Nat) (db1 : pictdb_file),
      db.metadata[index]? = some row0 ∧
      ¬ (index > db.header.num_files ∧ EMPTY = row0.is_valid) ∧
      get_dup_index_and_update db index = some (tab, db1) ∧
      db1.metadata[index]? = some row ∧
      ((row.size.get dim ≠ 0 ∧ dbL = db1) ∨
        (row.size.get dim = 0 ∧ ∃ (buf out : List Nat),
          read_db_file_image index RES_ORIG db1 = (Code.OK, buf) ∧
          env.jpeg_resize buf row.size.orig dim db1.header.res_resized = some out ∧
          out.length % UINT32_MOD ≠ 0 ∧
          resize_update_loop env dim (out.length % UINT32_MOD) db1.fpdb.length tab
            { db1 with fpdb := db1.fpdb ++ out.take (out.length % UINT32_MOD) }
            = some dbL)) := by
  unfold lazily_resize at h
  have h1 : ¬ RES_ORIG = dim := by rcases hdim with h | h <;> subst h <;> decide
  have h2 : ¬ (RES_THUMB ≠ dim ∧ RES_SMALL ≠ dim) := by
    rcases hdim with h | h <;> subst h <;> decide
  simp only [if_neg h1, if_neg h2] at h
  cases hrow0 : db.metadata[index]? with
  | none => simp [hrow0] at h
  | some row0 =>
    simp only [hrow0] at h
    by_cases hguard : index > db.header.num_files ∧ EMPTY = row0.is_valid
    · simp [if_pos hguard] at h
    simp only [if_neg hguard] at h
    cases hg : get_dup_index_and_update db index with
    | none => simp [hg] at h
    | some p =>
      obtain ⟨tab, db1⟩ := p
      simp only [hg] at h
      cases hrow : db1.metadata[index]? with
      | none => simp [hrow] at h
      | some row =>
        simp only [hrow] at h
        refine ⟨row0, row, tab, db1, rfl, hguard, rfl, hrow, ?_⟩
        by_cases hs : 0 ≠ row.size.get dim
        · left
          simp only [if_pos hs, Prod.mk.injEq, true_and] at h
          exact ⟨fun hc => hs hc.symm, h.symm⟩
        · right
          have hs0 : row.size.get dim = 0 := by
            by_contra hc
            exact hs (fun hz => hc hz.symm)
          simp only [if_neg hs] at h
          by_cases hrd : (read_db_file_image index RES_ORIG db1).1 ≠ Code.OK
          · simp only [if_pos hrd, Prod.mk.injEq] at h
            exact absurd h.1 hrd
          simp only [if_neg hrd] at h
          cases hj : env.jpeg_resize (read_db_file_image index RES_ORIG db1).2 row.size.orig
              dim db1.header.res_resized with
          | none => simp [hj] at h
          | some out =>
            simp only [hj, write_db_file_image, write_disk_image] at h
            by_cases hz : out.length % UINT32_MOD = 0
            · simp [hz] at h
            simp only [if_neg hz, write_at_end] at h
            simp only [ne_eq, not_true_eq_false, if_false] at h
            cases hu : resize_update_loop env dim (out.length % UINT32_MOD) db1.fpdb.length tab
                { db1 with fpdb := db1.fpdb ++ out.take (out.length % UINT32_MOD) } with
            | none => simp [hu] at h
            | some db2 =>
              simp only [hu, Prod.mk.injEq, true_and] at h
              refine ⟨hs0, (read_db_file_image index RES_ORIG db1).2, out, ?_, hj, hz, ?_⟩
              · apply Prod.ext
                · simpa using hrd
                · rfl
              · rw [← h]
                exact hu

theorem res_array_get_set (a : res_array) (dim v : Nat) : (a.set dim v).get dim = v := by
  unfold res_array.set res_array.get
  split_ifs <;> rfl

theorem resized_row_sizes (dim ns off : Nat) (r g : pict_metadata)
    (h1 : r.size.small = g.size.small) (h2 : r.size.thumb = g.size.thumb) :
    (resized_row dim ns off r).size.small = (resized_row dim ns off g).size.small ∧
    (resized_row dim ns off r).size.thumb = (resized_row dim ns off g).size.thumb := by
  unfold resized_row res_array.set
  split_ifs <;> simp [h1, h2]

/-- After a successful `lazily_resize` for the thumbnail or the small variant, a
second call on the resulting database, with any image provider, returns 0 and
changes nothing. -/
theorem lazily_resize_twice (env env1 : Env) (dim : Nat) (db : pictdb_file) (index : Nat)
    (dbL : pictdb_file) (hdim : dim = RES_THUMB ∨ dim = RES_SMALL)
    (h : lazily_resize env dim db index = (Code.OK, dbL)) :
    lazily_resize env1 dim dbL index = (Code.OK, dbL) := by
  obtain ⟨row0, row, tab, db1, hrow0, hguard, hdup, hrow, hcase⟩ :=
    lazily_resize_ok env dim db index dbL hdim h
  obtain ⟨row0', rest, hrow0', hl, htab, hrest, hupd⟩ :=
    get_dup_index_and_update_ok db index tab db1 hdup
  rw [hrow0] at hrow0'
  cases hrow0'
  obtain ⟨f1, _, f3⟩ := get_dup_index_and_update_frame db index tab db1 hdup
  obtain ⟨row', hrow', _, k2, k3⟩ := getElem?_some_of_map _ _ f3 index row0 hrow0
  rw [hrow] at hrow'
  cases hrow'
  -- the table after the update from `index_tab[1]`
  have hl1 : dup_index_loop db1 index row.SHA db1.header.max_files 0 [index]
      = some (index :: rest) := by
    rw [dup_index_loop_congr db db1 index _ f1 f3, k2, f1, hl, htab]
  have hpair : ∀ g rest1, rest = g :: rest1 → ∃ rg, db1.metadata[g]? = some rg ∧
      row.size.small = rg.size.small ∧ row.size.thumb = rg.size.thumb := by
    intro g rest1 hr
    rcases hupd with ⟨hnil, _⟩ | ⟨g', rest1', rg, hr', hg, hdb1⟩
    · rw [hnil] at hr; cases hr
    · rw [hr] at hr'
      cases hr'
      have hgi : g ≠ index := (hrest g (by rw [hr]; exact List.mem_cons_self _ _)).1
      have hil := getElem?_lt_length _ _ _ hrow0
      refine ⟨rg, ?_, ?_⟩
      · rw [hdb1]
        show (db.metadata.set index _)[g]? = _
        rw [List.getElem?_set_ne (Ne.symm hgi)]
        exact hg
      · rw [hdb1] at hrow
        have : (db.metadata.set index (dup_update row0 rg))[index]? = some row := hrow
        rw [List.getElem?_set_self hil] at this
        cases this
        exact dup_update_sizes row0 rg
  have hguard1 : ¬ (index > db1.header.num_files ∧ EMPTY = row.is_valid) := by
    rw [f1, k3]; exact hguard
  rcases hcase with ⟨hs, hdbL⟩ | ⟨_, buf, out, _, _, hz, hu⟩
  · subst hdbL
    exact lazily_resize_noop env1 dim dbL index row (index :: rest) hdim hrow hguard1
      (get_dup_index_and_update_stable dbL index row rest hrow hl1 hpair) hs
  · obtain ⟨u1, u2⟩ := resize_update_loop_frame env dim _ _ tab _ dbL hu
    have hrows := resize_update_loop_rows env dim _ _ tab _ dbL hu
    have u1' : dbL.header = db1.header := u1
    have u2' : dbL.metadata.map row_key = db1.metadata.map row_key := u2
    have hmem : index ∈ tab := by rw [htab]; exact List.mem_cons_self _ _
    have hrowL : dbL.metadata[index]?
        = some (resized_row dim (out.length % UINT32_MOD) db1.fpdb.length row) := by
      rw [hrows index, if_pos hmem]
      show (db1.metadata[index]?).map _ = _
      rw [hrow]
      rfl
    apply lazily_resize_noop env1 dim dbL index _ (index :: rest) hdim hrowL
    · rw [u1']
      exact hguard1
    · apply get_dup_index_and_update_stable dbL index _ rest hrowL
      · rw [dup_index_loop_congr db1 dbL index _ u1' u2', u1']
        exact hl1
      · intro g rest1 hr
        obtain ⟨rg, hg1, hg2, hg3⟩ := hpair g rest1 hr
        have hgm : g ∈ tab := by
          rw [htab, hr]
          exact List.mem_cons_of_mem _ (List.mem_cons_self _ _)
        refine ⟨resized_row dim (out.length % UINT32_MOD) db1.fpdb.length rg, ?_,
          resized_row_sizes _ _ _ row rg hg2 hg3⟩
        rw [hrows g, if_pos hgm]
        show (db1.metadata[g]?).map _ = _
        rw [hg1]
        rfl
    · show ((row.size.set dim (out.length % UINT32_MOD)).get dim) ≠ 0
      rw [res_array_get_set]
      exact hz

/-- What a successful `do_read` has done. -/
theorem do_read_ok (env : Env) (id : List Nat) (dim : Nat) (db : pictdb_file)
    (h : (do_read env id dim db).code = Code.OK) :
    ∃ (i : Nat) (dbL : pictdb_file) (row : pict_metadata) (buf : List Nat),
      ¬ (RES_THUMB ≠ dim ∧ RES_SMALL ≠ dim ∧ RES_ORIG ≠ dim) ∧
      get_image_index id db = (Code.OK, i) ∧
      lazily_resize env dim db i = (Code.OK, dbL) ∧
      dbL.metadata[i]? = some row ∧
      read_db_file_image i dim dbL = (Code.OK, buf) ∧
      do_read env id dim db = ⟨Code.OK, dbL, some (row.size.get dim), some buf⟩ := by
  unfold do_read at h ⊢
  dsimp only at h ⊢
  by_cases h1 : RES_THUMB ≠ dim ∧ RES_SMALL ≠ dim ∧ RES_ORIG ≠ dim
  · simp [if_pos h1] at h
  simp only [if_neg h1] at h ⊢
  by_cases h2 : (get_image_index id db).1 ≠ Code.OK
  · simp only [if_pos h2] at h
    exact absurd h h2
  simp only [if_neg h2] at h ⊢
  by_cases h3 : (lazily_resize env dim db (get_image_index id db).2).1 ≠ Code.OK
  · simp only [if_pos h3] at h
    exact absurd h h3
  simp only [if_neg h3] at h ⊢
  cases hrow : (lazily_resize env dim db (get_image_index id db).2).2.metadata[
      (get_image_index id db).2]? with
  | none => simp [hrow] at h
  | some row =>
    simp only [hrow] at h ⊢
    by_cases h4 : (read_db_file_image (get_image_index id db).2 dim
        (lazily_resize env dim db (get_image_index id db).2).2).1 ≠ Code.OK
    · simp only [if_pos h4] at h
      exact absurd h h4
    simp only [if_neg h4]
    refine ⟨(get_image_index id db).2, (lazily_resize env dim db (get_image_index id db).2).2,
      row, (read_db_file_image (get_image_index id db).2 dim
        (lazily_resize env dim db (get_image_index id db).2).2).2, h1, ?_, ?_, hrow, ?_, rfl⟩
    · exact Prod.ext (by simpa using h2) rfl
    · exact Prod.ext (by simpa using h3) rfl
    · exact Prod.ext (by simpa using h4) rfl

theorem do_read_eq (env : Env) (id : List Nat) (dim : Nat) (db : pictdb_file) (i : Nat)
    (dbL : pictdb_file) (row : pict_metadata) (buf : List Nat)
    (h1 : ¬ (RES_THUMB ≠ dim ∧ RES_SMALL ≠ dim ∧ RES_ORIG ≠ dim))
    (h2 : get_image_index id db = (Code.OK, i))
    (h3 : lazily_resize env dim db i = (Code.OK, dbL))
    (h4 : dbL.metadata[i]? = some row)
    (h5 : read_db_file_image i dim dbL = (Code.OK, buf)) :
    do_read env id dim db = ⟨Code.OK, dbL, some (row.size.get dim), some buf⟩ := by
  unfold do_read
  simp [h1, h2, h3, h4, h5]

theorem read_db_file_image_length (i dim : Nat) (db : pictdb_file) (row : pict_metadata)
    (buf : List Nat) (hrow : db.metadata[i]? = some row)
    (h : read_db_file_image i dim db = (Code.OK, buf)) :
    buf.length = row.size.get dim := by
  unfold read_db_file_image read_disk_image at h
  simp only [hrow] at h
  by_cases h1 : row.size.get dim = 0
  · simp [if_pos h1] at h
  by_cases h2 : row.offset.get dim + row.size.get dim ≤ db.fpdb.length
  · simp only [if_neg h1, if_pos h2, Prod.mk.injEq, true_and] at h
    rw [← h, List.length_take, List.length_drop]
    omega
  · simp [if_neg h1, if_neg h2] at h

/-! ## C9: a second read of a resized variant -/

/-- C9. When `do_read` of the thumbnail or of the small variant of `id`
succeeds, the same call on the database it leaves succeeds for any image
provider `env1` (the provider is not asked), leaves that database as it is
(file bytes, header and every row) and stores the same size and the same
buffer, whose length is that size. -/
theorem do_read_twice (env : Env) (id : List Nat) (dim : Nat) (db : pictdb_file)
    (hdim : dim = RES_THUMB ∨ dim = RES_SMALL)
    (hok : (do_read env id dim db).code = Code.OK) :
    (∀ env1 : Env,
      do_read env1 id dim (do_read env id dim db).db = do_read env id dim db) ∧
    (do_read env id dim (do_read env id dim db).db).code = Code.OK ∧
    (do_read env id dim (do_read env id dim db).db).db = (do_read env id dim db).db ∧
    ∃ buf, (do_read env id dim db).image_buffer = some buf ∧
      (do_read env id dim (do_read env id dim db).db).image_buffer = some buf ∧
      (do_read env id dim db).image_size = some buf.length ∧
      (do_read env id dim (do_read env id dim db).db).image_size = some buf.length := by
  obtain ⟨i, dbL, row, buf, h1, h2, h3, h4, h5, h6⟩ := do_read_ok env id dim db hok
  have hall : ∀ env1 : Env,
      do_read env1 id dim (do_read env id dim db).db = do_read env id dim db := by
    intro env1
    obtain ⟨f1, f2⟩ := lazily_resize_frame env dim db i
    rw [h3] at f1 f2
    rw [h6]
    exact do_read_eq env1 id dim dbL i dbL row buf h1
      (by rw [get_image_index_congr id db dbL f1 f2]; exact h2)
      (lazily_resize_twice env env1 dim db i dbL hdim h3) h4 h5
  have hlen := read_db_file_image_length i dim dbL row buf h4 h5
  refine ⟨hall, by rw [hall env]; exact hok, by rw [hall env], buf, ?_, ?_, ?_, ?_⟩
  · rw [h6]
  · rw [hall env, h6]
  · rw [h6, hlen]
  · rw [hall env, h6, hlen]

/-- The hypotheses of `do_read_twice` hold on `two_db`, where the first read builds the thumbnail shared by the two rows. -/
theorem do_read_twice_witness :
    (RES_THUMB = RES_THUMB ∨ RES_THUMB = RES_SMALL) ∧
    (do_read sample_env [98] RES_THUMB two_db).code = Code.OK ∧
    (∀ env1 : Env,
      do_read env1 [98] RES_THUMB (do_read sample_env [98] RES_THUMB two_db).db
        = do_read sample_env [98] RES_THUMB two_db) ∧
    (do_read sample_env [98] RES_THUMB (do_read sample_env [98] RES_THUMB two_db).db).code
      = Code.OK ∧
    (do_read sample_env [98] RES_THUMB (do_read sample_env [98] RES_THUMB two_db).db).db
      = (do_read sample_env [98] RES_THUMB two_db).db ∧
    ∃ buf, (do_read sample_env [98] RES_THUMB two_db).image_buffer = some buf ∧
      (do_read sample_env [98] RES_THUMB
        (do_read sample_env [98] RES_THUMB two_db).db).image_buffer = some buf ∧
      (do_read sample_env [98] RES_THUMB two_db).image_size = some buf.length ∧
      (do_read sample_env [98] RES_THUMB
        (do_read sample_env [98] RES_THUMB two_db).db).image_size = some buf.length :=
  ⟨by decide, by decide,
    do_read_twice sample_env [98] RES_THUMB two_db (by decide) (by decide)⟩

/-! ## Lemmas on the file after a commit -/

theorem commit_file_drop (env : Env) (f : List Nat) (hdr : pictdb_header) (idx : Nat)
    (row : pict_metadata) (n : Nat) (h1 : env.sizeof_header ≤ n)
    (h2 : row_pos env idx + env.sizeof_metadata ≤ n) :
    (commit_file env f hdr idx row).drop n = f.drop n := by
  unfold commit_file
  rw [write_at_drop _ _ _ _ (by rw [env.metadata_bytes_length]; exact h2),
    write_at_drop _ _ _ _ (by rw [env.header_bytes_length]; omega)]

theorem commit_file_length (env : Env) (f : List Nat) (hdr : pictdb_header) (idx : Nat)
    (row : pict_metadata) (h1 : env.sizeof_header ≤ f.length)
    (h2 : row_pos env idx + env.sizeof_metadata ≤ f.length) :
    (commit_file env f hdr idx row).length = f.length := by
  unfold commit_file
  rw [write_at_length, write_at_length, env.metadata_bytes_length, env.header_bytes_length]
  omega

theorem commit_file_length_ge (env : Env) (f : List Nat) (hdr : pictdb_header) (idx : Nat)
    (row : pict_metadata) : f.length ≤ (commit_file env f hdr idx row).length := by
  unfold commit_file
  rw [write_at_length, write_at_length]
  omega

theorem sizeof_header_le_table_end (env : Env) (db : pictdb_file) :
    env.sizeof_header ≤ table_end env db := by
  unfold table_end
  omega

theorem res_array_get_orig (a : res_array) : a.get RES_ORIG = a.orig := by
  unfold res_array.get
  simp

theorem table_allocated_insert (db db1 : pictdb_file) (idx : Nat) (row1 : pict_metadata)
    (halloc : table_allocated db) (hmd : db1.metadata = db.metadata.set idx row1)
    (hhdr : db1.header = header_after_insert db.header) : table_allocated db1 := by
  unfold table_allocated at halloc ⊢
  rw [hmd, hhdr, List.length_set]
  exact halloc

/-! ## C1: reading back what was inserted -/

/-- C1. On an open database (allocated table, file at least as long as header
and table), for an identifier of at most `MAX_PIC_ID` characters and a blob
`B` of a length that fits a `uint32_t`: when `do_insert` of `B` under `id`
returns 0, `do_read` of the original of `id` returns 0, stores `len(B)` in
`image_size` and delivers the bytes of `B`.  This covers the blob that is
appended and the blob that is shared, where an occupied row carries the digest
of `B`: such rows are taken to hold `B` in the blob region. -/
theorem insert_read_round_trip (env : Env) (B id : List Nat) (db db1 : pictdb_file)
    (halloc : table_allocated db) (hopen : table_end env db ≤ db.fpdb.length)
    (hid : id.length ≤ MAX_PIC_ID) (hsize : B.length < UINT32_MOD)
    (hdup : ∀ r ∈ db.metadata, r.is_valid = NON_EMPTY → r.SHA = env.SHA256 B →
      r.offset.orig ≠ 0 → blob_stored_at env db r.offset.orig B)
    (h : do_insert env B id db = (Code.OK, db1)) :
    do_read env id RES_ORIG db1 = ⟨Code.OK, db1, some B.length, some B⟩ := by
  have htake : id.take MAX_PIC_ID = id := List.take_of_length_le hid
  have hmod : B.length % UINT32_MOD = B.length := Nat.mod_eq_of_lt hsize
  obtain ⟨idx, row, row1, _, _, hrow, _, hmd, hhdr, hv, hp, _, hso, _, habs, hbranch⟩ :=
    do_insert_ok env B id db db1 halloc h
  rw [htake] at habs hp
  rw [hmod] at hso
  have hlen : db.metadata.length = db.header.max_files := halloc
  have hlt : idx < db.metadata.length := getElem?_lt_length _ _ _ hrow
  have halloc1 := table_allocated_insert db db1 idx row1 halloc hmd hhdr
  have hrow1 : db1.metadata[idx]? = some row1 := by
    rw [hmd]; exact List.getElem?_set_self hlt
  have hend := row_end_le_table_end env db idx (by omega)
  have hhe := sizeof_header_le_table_end env db
  -- the lookup finds the slot
  have hidx : get_image_index id db1 = (Code.OK, idx) := by
    apply get_image_index_found id db1 idx row1 halloc1 hrow1 hv hp
    intro j r hj hr hc
    rw [hmd, List.getElem?_set_ne (by omega)] at hr
    exact habs j r (by omega) hr hc.1 hc.2
  have hlazy : lazily_resize env RES_ORIG db1 idx = (Code.OK, db1) := by
    unfold lazily_resize
    simp
  -- the bytes read
  have hread : read_db_file_image idx RES_ORIG db1 = (Code.OK, B) := by
    unfold read_db_file_image read_disk_image
    simp only [hrow1, res_array_get_orig, hso]
    rcases hbranch with ⟨_, hz, _, _, _, hoff, hfile⟩ | ⟨j, r, hm, hnz, hoff, _, _, _, hfile⟩
    · rw [hmod] at hz hfile
      rw [List.take_of_length_le (le_refl _)] at hfile
      have hL : row1.offset.orig = db.fpdb.length := by rw [hoff]
      have hfl : db1.fpdb.length = db.fpdb.length + B.length := by
        rw [hfile, commit_file_length _ _ _ _ _ (by rw [List.length_append]; omega)
          (by rw [List.length_append]; omega), List.length_append]
      have hdrop : db1.fpdb.drop db.fpdb.length = B := by
        rw [hfile, commit_file_drop _ _ _ _ _ _ (by omega) (by omega), List.drop_left]
      rw [if_neg hz, hL, if_pos (by omega), hdrop, List.take_of_length_le (le_refl _)]
    · obtain ⟨_, hjr, hjv, hjs⟩ := hm
      obtain ⟨s1, s2, s3⟩ := hdup r (mem_of_getElem? _ _ _ hjr) hjv hjs hnz
      have hB : B.length ≠ 0 := fun hc => s2 (List.length_eq_zero.mp hc)
      have hfit : r.offset.orig + B.length ≤ db.fpdb.length := by
        have := congrArg List.length s3
        rw [List.length_take, List.length_drop] at this
        omega
      have hge := commit_file_length_ge env db.fpdb db1.header idx row1
      have hdrop : db1.fpdb.drop r.offset.orig = db.fpdb.drop r.offset.orig := by
        rw [hfile, commit_file_drop _ _ _ _ _ _ (by omega) (by omega)]
      rw [if_neg hB, hoff, if_pos (by rw [hfile]; omega), hdrop, s3]
  rw [do_read_eq env id RES_ORIG db1 idx db1 row1 B (by decide) hidx hlazy hrow1 hread,
    res_array_get_orig, hso]

/-- The hypotheses of `insert_read_round_trip` hold on `one_db` for a blob that row 0 already stores. -/
theorem insert_read_round_trip_witness :
    table_allocated one_db ∧ table_end sample_env one_db ≤ one_db.fpdb.length ∧
    [98].length ≤ MAX_PIC_ID ∧ [255, 216, 7].length < UINT32_MOD ∧
    (∀ r ∈ one_db.metadata, r.is_valid = NON_EMPTY → r.SHA = sample_env.SHA256 [255, 216, 7] →
      r.offset.orig ≠ 0 → blob_stored_at sample_env one_db r.offset.orig [255, 216, 7]) ∧
    do_insert sample_env [255, 216, 7] [98] one_db = (Code.OK, two_db) ∧
    do_read sample_env [98] RES_ORIG two_db
      = ⟨Code.OK, two_db, some [255, 216, 7].length, some [255, 216, 7]⟩ :=
  ⟨by decide, by decide, by decide, by decide, by decide, by decide,
    insert_read_round_trip sample_env [255, 216, 7] [98] one_db two_db (by decide) (by decide)
      (by decide) (by decide) (by decide) (by decide)⟩

/-! ## C4: two insertions of the same blob -/

/-- C4. On an open database that holds no occupied row with the digest of `B`,
when `do_insert` of `B` under `id1` and then under `id2` both return 0
(identifiers of at most `MAX_PIC_ID` characters, length of `B` fitting a
`uint32_t`), the rows found for `id1` and `id2` are distinct and have the same
`offset[RES_ORIG]`, the length of the file before the calls; the file has
grown by `len(B)` after the first call and by nothing more after the second. -/
theorem insert_twice_shares_blob (env : Env) (B id1 id2 : List Nat)
    (db db1 db2 : pictdb_file)
    (halloc : table_allocated db) (hopen : table_end env db ≤ db.fpdb.length)
    (hid1 : id1.length ≤ MAX_PIC_ID) (hid2 : id2.length ≤ MAX_PIC_ID)
    (hsize : B.length < UINT32_MOD)
    (hnew : ∀ r ∈ db.metadata, r.is_valid = NON_EMPTY → r.SHA ≠ env.SHA256 B)
    (h1 : do_insert env B id1 db = (Code.OK, db1))
    (h2 : do_insert env B id2 db1 = (Code.OK, db2)) :
    ∃ (i1 i2 : Nat) (r1 r2 : pict_metadata),
      i1 ≠ i2 ∧
      get_image_index id1 db2 = (Code.OK, i1) ∧ get_image_index id2 db2 = (Code.OK, i2) ∧
      db2.metadata[i1]? = some r1 ∧ db2.metadata[i2]? = some r2 ∧
      r1.offset.orig = r2.offset.orig ∧ r1.offset.orig = db.fpdb.length ∧
      db1.fpdb.length = db.fpdb.length + B.length ∧
      db2.fpdb.length = db.fpdb.length + B.length := by
  have htake1 : id1.take MAX_PIC_ID = id1 := List.take_of_length_le hid1
  have htake2 : id2.take MAX_PIC_ID = id2 := List.take_of_length_le hid2
  have hmod : B.length % UINT32_MOD = B.length := Nat.mod_eq_of_lt hsize
  have hlen : db.metadata.length = db.header.max_files := halloc
  have hhe := sizeof_header_le_table_end env db
  have hpos := env.sizeof_header_pos
  -- the first insertion appends the blob
  obtain ⟨idx1, row, row1, _, _, hrow, _, hmd1, hhdr1, hv1, hp1, hs1, _, _, habs1, hbr1⟩ :=
    do_insert_ok env B id1 db db1 halloc h1
  rw [htake1] at habs1 hp1
  have hlt1 : idx1 < db.metadata.length := getElem?_lt_length _ _ _ hrow
  have hend1 := row_end_le_table_end env db idx1 (by omega)
  have halloc1 := table_allocated_insert db db1 idx1 row1 halloc hmd1 hhdr1
  have hrow1 : db1.metadata[idx1]? = some row1 := by
    rw [hmd1]; exact List.getElem?_set_self hlt1
  have hnomatch : ∀ (i j : Nat) (r : pict_metadata), ¬ sha_match db i (env.SHA256 B) j r := by
    intro i j r hm
    exact hnew r (mem_of_getElem? _ _ _ hm.2.1) hm.2.2.1 hm.2.2.2
  have hfirst : row1.offset.orig = db.fpdb.length ∧
      db1.fpdb.length = db.fpdb.length + B.length := by
    rcases hbr1 with ⟨_, _, _, _, _, hoff, hfile⟩ | ⟨j, r, hm, _⟩
    · rw [hmod, List.take_of_length_le (le_refl _)] at hfile
      refine ⟨by rw [hoff], ?_⟩
      rw [hfile, commit_file_length _ _ _ _ _ (by rw [List.length_append]; omega)
        (by rw [List.length_append]; omega), List.length_append]
    · exact absurd hm (hnomatch idx1 j r)
  -- the second insertion finds the row of the first one
  obtain ⟨idx2, rowb, row2, _, _, hrowb, hrowbv, hmd2, hhdr2, hv2, hp2, _, _, _, habs2, hbr2⟩ :=
    do_insert_ok env B id2 db1 db2 halloc1 h2
  rw [htake2] at habs2 hp2
  have hlt2 : idx2 < db1.metadata.length := getElem?_lt_length _ _ _ hrowb
  have hne : idx1 ≠ idx2 := by
    intro hc
    rw [← hc, hrow1] at hrowb
    cases hrowb
    rw [hv1] at hrowbv
    cases hrowbv
  have hmax1 : db1.header.max_files = db.header.max_files := by rw [hhdr1]; rfl
  have hend2 : row_pos env idx2 + env.sizeof_metadata ≤ table_end env db := by
    have := row_end_le_table_end env db1 idx2 (by
      have : db1.metadata.length = db1.header.max_files := halloc1
      omega)
    unfold table_end at this ⊢
    rw [hmax1] at this
    exact this
  have hsame : ∀ (j : Nat) (r : pict_metadata), sha_match db1 idx2 (env.SHA256 B) j r →
      r = row1 := by
    intro j r hm
    obtain ⟨_, hjr, hjv, hjs⟩ := hm
    by_cases hj : j = idx1
    · subst hj
      rw [hrow1] at hjr
      cases hjr
      rfl
    · rw [hmd1, List.getElem?_set_ne (Ne.symm hj)] at hjr
      exact absurd hjs (hnew r (mem_of_getElem? _ _ _ hjr) hjv)
  have hmatch1 : sha_match db1 idx2 (env.SHA256 B) idx1 row1 := ⟨hne, hrow1, hv1, hs1⟩
  have hL0 : db.fpdb.length ≠ 0 := by omega
  have hsecond : row2.offset.orig = row1.offset.orig ∧ db2.fpdb.length = db1.fpdb.length := by
    rcases hbr2 with ⟨hnone, _⟩ | ⟨j, r, hm, _, hoff, _, _, _, hfile⟩
    · exfalso
      rcases hnone with hno | ⟨j, r, hm, hz⟩
      · exact hno idx1 row1 hmatch1
      · rw [hsame j r hm, hfirst.1] at hz
        exact hL0 hz
    · rw [hsame j r hm] at hoff
      refine ⟨by rw [hoff], ?_⟩
      rw [hfile, commit_file_length _ _ _ _ _ (by omega) (by omega)]
  have hrow2 : db2.metadata[idx2]? = some row2 := by
    rw [hmd2]; exact List.getElem?_set_self hlt2
  have hrow1' : db2.metadata[idx1]? = some row1 := by
    rw [hmd2, List.getElem?_set_ne (Ne.symm hne)]; exact hrow1
  have halloc2 := table_allocated_insert db1 db2 idx2 row2 halloc1 hmd2 hhdr2
  have hids : id1 ≠ id2 := by
    intro hc
    exact habs2 idx1 row1 hne hrow1 hv1 (by rw [hp1, hc])
  refine ⟨idx1, idx2, row1, row2, hne, ?_, ?_, hrow1', hrow2, hsecond.1.symm, hfirst.1,
    hfirst.2, by rw [hsecond.2, hfirst.2]⟩
  · apply get_image_index_found id1 db2 idx1 row1 halloc2 hrow1' hv1 hp1
    intro j r hj hr hc
    by_cases hj2 : j = idx2
    · subst hj2
      rw [hrow2] at hr
      cases hr
      exact hids (by rw [← hc.2, hp2])
    · rw [hmd2, List.getElem?_set_ne (Ne.symm hj2), hmd1,
        List.getElem?_set_ne (by omega)] at hr
      exact habs1 j r (by omega) hr hc.1 hc.2
  · apply get_image_index_found id2 db2 idx2 row2 halloc2 hrow2 hv2 hp2
    intro j r hj hr hc
    rw [hmd2, List.getElem?_set_ne (by omega)] at hr
    exact habs2 j r (by omega) hr hc.1 hc.2

/-- The hypotheses of `insert_twice_shares_blob` hold on `sample_db`. -/
theorem insert_twice_shares_blob_witness :
    table_allocated sample_db ∧ table_end sample_env sample_db ≤ sample_db.fpdb.length ∧
    [97].length ≤ MAX_PIC_ID ∧ [98].length ≤ MAX_PIC_ID ∧
    [255, 216, 7].length < UINT32_MOD ∧
    (∀ r ∈ sample_db.metadata, r.is_valid = NON_EMPTY →
      r.SHA ≠ sample_env.SHA256 [255, 216, 7]) ∧
    do_insert sample_env [255, 216, 7] [97] sample_db = (Code.OK, one_db) ∧
    do_insert sample_env [255, 216, 7] [98] one_db = (Code.OK, two_db) ∧
    ∃ (i1 i2 : Nat) (r1 r2 : pict_metadata),
      i1 ≠ i2 ∧
      get_image_index [97] two_db = (Code.OK, i1) ∧
      get_image_index [98] two_db = (Code.OK, i2) ∧
      two_db.metadata[i1]? = some r1 ∧ two_db.metadata[i2]? = some r2 ∧
      r1.offset.orig = r2.offset.orig ∧ r1.offset.orig = sample_db.fpdb.length ∧
      one_db.fpdb.length = sample_db.fpdb.length + [255, 216, 7].length ∧
      two_db.fpdb.length = sample_db.fpdb.length + [255, 216, 7].length :=
  ⟨by decide, by decide, by decide, by decide, by decide, by decide, by decide, by decide,
    insert_twice_shares_blob sample_env [255, 216, 7] [97] [98] sample_db one_db two_db
      (by decide) (by decide) (by decide) (by decide) (by decide) (by decide) (by decide)
      (by decide)⟩

/-! ## C14: the version counter after a successful mutation -/

/-- C14, as the code has it: after a `do_insert` or a `do_delete` that returns
0, `db_version` is the old value plus 1 modulo 2^32: strictly greater than
before whenever the old value was below 4294967295, and 0 after 4294967295. -/
theorem db_version_after_mutation (env : Env) (db db1 : pictdb_file)
    (halloc : table_allocated db) :
    (∀ image id, do_insert env image id db = (Code.OK, db1) →
      db1.header.db_version = (db.header.db_version + 1) % UINT32_MOD ∧
      (db.header.db_version + 1 < UINT32_MOD →
        db.header.db_version < db1.header.db_version) ∧
      (db.header.db_version + 1 = UINT32_MOD → db1.header.db_version = 0)) ∧
    (∀ id, do_delete env id db = (Code.OK, db1) →
      db1.header.db_version = (db.header.db_version + 1) % UINT32_MOD ∧
      (db.header.db_version + 1 < UINT32_MOD →
        db.header.db_version < db1.header.db_version) ∧
      (db.header.db_version + 1 = UINT32_MOD → db1.header.db_version = 0)) := by
  have key : ∀ v w : Nat, w = (v + 1) % UINT32_MOD →
      w = (v + 1) % UINT32_MOD ∧ (v + 1 < UINT32_MOD → v < w) ∧
      (v + 1 = UINT32_MOD → w = 0) := by
    intro v w hw
    refine ⟨hw, ?_, ?_⟩
    · intro hlt
      rw [hw, Nat.mod_eq_of_lt hlt]
      omega
    · intro he
      rw [hw, he]
      exact Nat.mod_self _
  constructor
  · intro image id h
    obtain ⟨_, _, _, _, _, _, _, _, hhdr, _⟩ := do_insert_ok env image id db db1 halloc h
    apply key
    rw [hhdr]
    rfl
  · intro id h
    obtain ⟨_, _, _, _, _, _, _, _, _, hdb⟩ := do_delete_ok env id db db1 halloc h
    apply key
    rw [hdb]
    rfl

/-- The hypotheses of `db_version_after_mutation` hold on `one_db` for an
insertion and for a deletion. -/
theorem db_version_after_mutation_witness :
    table_allocated one_db ∧
    do_insert sample_env [255, 216, 8] [98] one_db
      = (Code.OK, (do_insert sample_env [255, 216, 8] [98] one_db).2) ∧
    one_db.header.db_version
      < (do_insert sample_env [255, 216, 8] [98] one_db).2.header.db_version ∧
    do_delete sample_env [97] one_db = (Code.OK, (do_delete sample_env [97] one_db).2) ∧
    one_db.header.db_version < (do_delete sample_env [97] one_db).2.header.db_version :=
  ⟨by decide, by decide,
    ((db_version_after_mutation sample_env one_db _ (by decide)).1 [255, 216, 8] [98]
      (by decide)).2.1 (by decide),
    by decide,
    ((db_version_after_mutation sample_env one_db _ (by decide)).2 [97]
      (by decide)).2.1 (by decide)⟩

/-- C14 as stated fails when the version counter is full: on `wrap_one_db`,
whose `db_version` is 4294967295, a `do_insert` and a `do_delete` return 0 and
leave `db_version = 0`, which is not greater than before. -/
theorem db_version_wrap_counterexample :
    wrap_one_db.header.db_version = 4294967295 ∧
    (do_insert sample_env [255, 216, 8] [98] wrap_one_db).1 = Code.OK ∧
    ¬ (wrap_one_db.header.db_version
        < (do_insert sample_env [255, 216, 8] [98] wrap_one_db).2.header.db_version) ∧
    (do_delete sample_env [97] wrap_one_db).1 = Code.OK ∧
    ¬ (wrap_one_db.header.db_version
        < (do_delete sample_env [97] wrap_one_db).2.header.db_version) := by
  decide

/-! ## C16: the resolution tokens -/

/-- C16. `resolution_atoi` returns `RES_THUMB` exactly for "thumb" and
"thumbnail", `RES_SMALL` exactly for "small", `RES_ORIG` exactly for "orig" and
"original", and -1 for every other string and for the null pointer; a call of
`do_read_cmd` with four arguments that passes the tests on the file name and
on the identifier returns `ERR_INVALID_ARGUMENT` exactly when
`resolution_atoi` returns -1 for the fourth argument, and otherwise goes on
with the code that `resolution_atoi` returned. -/
theorem resolution_token_mapping :
    (∀ s : Option (List Nat),
      (resolution_atoi s = (RES_THUMB : Int) ↔ s = some str_thumb ∨ s = some str_thumbnail) ∧
      (resolution_atoi s = (RES_SMALL : Int) ↔ s = some str_small) ∧
      (resolution_atoi s = (RES_ORIG : Int) ↔ s = some str_orig ∨ s = some str_original) ∧
      (resolution_atoi s = -1 ↔
        s ≠ some str_thumb ∧ s ≠ some str_thumbnail ∧ s ≠ some str_small ∧
        s ≠ some str_orig ∧ s ≠ some str_original)) ∧
    resolution_atoi none = -1 ∧
    (∀ (FILENAME_MAX : Nat) (a0 db_filename pictID res : List Nat),
      ¬ (db_filename.length > FILENAME_MAX ∧ db_filename.length ≠ 0) →
      ¬ (pictID.length > MAX_PIC_ID ∨ pictID.length = 0) →
      (resolution_atoi (some res) = -1 →
        (do_read_cmd_dim FILENAME_MAX [a0, db_filename, pictID, res]).1
          = Code.ERR_INVALID_ARGUMENT) ∧
      (resolution_atoi (some res) ≠ -1 →
        do_read_cmd_dim FILENAME_MAX [a0, db_filename, pictID, res]
          = (Code.OK, (resolution_atoi (some res)).toNat))) := by
  refine ⟨?_, rfl, ?_⟩
  · intro s
    cases s with
    | none => simp [resolution_atoi]
    | some s =>
      simp only [resolution_atoi, Option.some.injEq]
      by_cases h1 : s = str_thumb
      · subst h1; decide
      by_cases h2 : s = str_thumbnail
      · subst h2; decide
      by_cases h3 : s = str_small
      · subst h3; decide
      by_cases h4 : s = str_orig
      · subst h4; decide
      by_cases h5 : s = str_original
      · subst h5; decide
      simp [h1, h2, h3, h4, h5]
  · intro FILENAME_MAX a0 db_filename pictID res hname hid
    have hstep : do_read_cmd_dim FILENAME_MAX [a0, db_filename, pictID, res]
        = if -1 = resolution_atoi (some res) then (Code.ERR_INVALID_ARGUMENT, 0)
          else (Code.OK, (resolution_atoi (some res)).toNat) := by
      unfold do_read_cmd_dim
      rw [if_neg (by simp)]
      show (if db_filename.length > FILENAME_MAX ∧ db_filename.length ≠ 0 then _ else _) = _
      rw [if_neg hname]
      show (if pictID.length > MAX_PIC_ID ∨ pictID.length = 0 then _ else _) = _
      rw [if_neg hid]
      rfl
    constructor
    · intro h
      rw [hstep, if_pos h.symm]
    · intro h
      rw [hstep, if_neg (fun hc => h hc.symm)]

/-- The tests of `do_read_cmd` pass for "test.db" and "pic1"; the token "huge"
is refused and the token "small" is accepted. -/
theorem resolution_token_mapping_witness :
    ¬ ([116, 101, 115, 116, 46, 100, 98].length > 4096 ∧
        [116, 101, 115, 116, 46, 100, 98].length ≠ 0) ∧
    ¬ ([112, 105, 99, 49].length > MAX_PIC_ID ∨ [112, 105, 99, 49].length = 0) ∧
    resolution_atoi (some [104, 117, 103, 101]) = -1 ∧
    (do_read_cmd_dim 4096 [[], [116, 101, 115, 116, 46, 100, 98], [112, 105, 99, 49],
      [104, 117, 103, 101]]).1 = Code.ERR_INVALID_ARGUMENT ∧
    resolution_atoi (some str_small) ≠ -1 ∧
    do_read_cmd_dim 4096 [[], [116, 101, 115, 116, 46, 100, 98], [112, 105, 99, 49], str_small]
      = (Code.OK, (resolution_atoi (some str_small)).toNat) :=
  ⟨by decide, by decide, by decide,
    (resolution_token_mapping.2.2 4096 [] [116, 101, 115, 116, 46, 100, 98] [112, 105, 99, 49]
      [104, 117, 103, 101] (by decide) (by decide)).1 (by decide),
    by decide,
    (resolution_token_mapping.2.2 4096 [] [116, 101, 115, 116, 46, 100, 98] [112, 105, 99, 49]
      str_small (by decide) (by decide)).2 (by decide)⟩

/-! ## The core invariant under `do_insert` and `do_delete` -/

theorem variant_ok_mono (te len len1 size off : Nat) (h : len ≤ len1)
    (hv : variant_ok te len size off) : variant_ok te len1 size off := by
  rcases hv with hv | ⟨h1, h2, h3⟩
  · exact Or.inl hv
  · exact Or.inr ⟨h1, h2, by omega⟩

theorem getElem?_set_cases {α : Type} (l : List α) (idx i : Nat) (a r : α)
    (h : (l.set idx a)[i]? = some r) :
    (i = idx ∧ r = a) ∨ (i ≠ idx ∧ l[i]? = some r) := by
  by_cases hi : i = idx
  · subst hi
    have hlt : i < l.length := by
      have := getElem?_lt_length _ _ _ h
      simpa using this
    rw [List.getElem?_set_self hlt] at h
    exact Or.inl ⟨rfl, by cases h; rfl⟩
  · rw [List.getElem?_set_ne (Ne.symm hi)] at h
    exact Or.inr ⟨hi, h⟩

/-- The core invariant passes to a database whose table differs from the old
one by a row that is not occupied, and whose file is at least as long. -/
theorem core_inv_set_empty (env : Env) (db db1 : pictdb_file) (idx : Nat)
    (row1 : pict_metadata) (hinv : core_inv env db)
    (hmax : db1.header.max_files = db.header.max_files)
    (hlen : db.fpdb.length ≤ db1.fpdb.length)
    (hmd : db1.metadata = db.metadata.set idx row1) (hv : row1.is_valid ≠ NON_EMPTY) :
    core_inv env db1 := by
  have hte : table_end env db1 = table_end env db := by unfold table_end; rw [hmax]
  have hold : ∀ (i : Nat) (r : pict_metadata), db1.metadata[i]? = some r →
      r.is_valid = NON_EMPTY → db.metadata[i]? = some r := by
    intro i r hr hrv
    rw [hmd] at hr
    rcases getElem?_set_cases _ _ _ _ _ hr with ⟨_, h2⟩ | ⟨_, h2⟩
    · rw [h2] at hrv; exact absurd hrv hv
    · exact h2
  refine ⟨?_, ?_, ?_, ?_, ?_⟩
  · unfold table_allocated
    rw [hmd, List.length_set, hmax]
    exact hinv.alloc
  · rw [hte]
    exact le_trans hinv.file_ge hlen
  · intro i j ri rj hi hj hij hvi hvj
    exact hinv.ids i j ri rj (hold i ri hi hvi) (hold j rj hj hvj) hij hvi hvj
  · intro i r hr hrv
    obtain ⟨h1, h2, h3⟩ := hinv.rows i r (hold i r hr hrv) hrv
    rw [hte]
    exact ⟨h1, variant_ok_mono _ _ _ _ _ hlen h2, variant_ok_mono _ _ _ _ _ hlen h3⟩
  · intro i j ri rj hi hj hvi hvj
    exact hinv.share i j ri rj (hold i ri hi hvi) (hold j rj hj hvj) hvi hvj

theorem core_inv_same_table (env : Env) (db db1 : pictdb_file) (hinv : core_inv env db)
    (hmax : db1.header.max_files = db.header.max_files)
    (hlen : db.fpdb.length ≤ db1.fpdb.length)
    (hmd : db1.metadata = db.metadata) : core_inv env db1 := by
  have hte : table_end env db1 = table_end env db := by unfold table_end; rw [hmax]
  refine ⟨?_, ?_, ?_, ?_, ?_⟩
  · unfold table_allocated
    rw [hmd, hmax]
    exact hinv.alloc
  · rw [hte]
    exact le_trans hinv.file_ge hlen
  · rw [hmd]; exact hinv.ids
  · intro i r hr hrv
    rw [hmd] at hr
    obtain ⟨h1, h2, h3⟩ := hinv.rows i r hr hrv
    rw [hte]
    exact ⟨h1, variant_ok_mono _ _ _ _ _ hlen h2, variant_ok_mono _ _ _ _ _ hlen h3⟩
  · rw [hmd]; exact hinv.share

theorem core_inv_insert (env : Env) (image id : List Nat) (db : pictdb_file)
    (hinv : core_inv env db) : core_inv env (do_insert env image id db).2 := by
  have halloc := hinv.alloc
  have hlen : db.metadata.length = db.header.max_files := halloc
  by_cases hok : (do_insert env image id db).1 = Code.OK
  · have heq : do_insert env image id db = (Code.OK, (do_insert env image id db).2) :=
      Prod.ext hok rfl
    obtain ⟨idx, row, row1, _, _, hrow, hrowv, hmd, hhdr, hv, hp, hs, _, _, habs, hbr⟩ :=
      do_insert_ok env image id db _ halloc heq
    generalize (do_insert env image id db).2 = db1 at *
    have hmax : db1.header.max_files = db.header.max_files := by rw [hhdr]; rfl
    have hte : table_end env db1 = table_end env db := by unfold table_end; rw [hmax]
    have hlt : idx < db.metadata.length := getElem?_lt_length _ _ _ hrow
    have hpos := env.sizeof_header_pos
    have hhe := sizeof_header_le_table_end env db
    have hfile := hinv.file_ge
    have hflen : db.fpdb.length ≤ db1.fpdb.length := by
      rcases hbr with ⟨_, _, _, _, _, _, hf⟩ | ⟨_, _, _, _, _, _, _, _, hf⟩
      · rw [hf]
        refine le_trans ?_ (commit_file_length_ge _ _ _ _ _)
        rw [List.length_append]
        omega
      · rw [hf]
        exact commit_file_length_ge _ _ _ _ _
    -- the rows of the new table
    have hrows : ∀ (i : Nat) (r : pict_metadata), db1.metadata[i]? = some r →
        (i = idx ∧ r = row1) ∨ (i ≠ idx ∧ db.metadata[i]? = some r) := by
      intro i r hr
      rw [hmd] at hr
      exact getElem?_set_cases _ _ _ _ _ hr
    -- what the new row shares with the occupied rows of the same digest
    have hnew : ∀ (j : Nat) (rj : pict_metadata), j ≠ idx → db.metadata[j]? = some rj →
        rj.is_valid = NON_EMPTY → rj.SHA = row1.SHA →
        row1.offset = rj.offset ∧ row1.size.thumb = rj.size.thumb ∧
        row1.size.small = rj.size.small := by
      intro j rj hj hrj hvj hsj
      have hmj : sha_match db idx (env.SHA256 image) j rj := ⟨hj, hrj, hvj, by rw [hsj, hs]⟩
      rcases hbr with ⟨hnone, _⟩ | ⟨k, rk, hmk, _, hoff, hst, hss, _, _⟩
      · exfalso
        rcases hnone with hno | ⟨k, rk, hmk, hz⟩
        · exact hno j rj hmj
        · have := (hinv.rows k rk hmk.2.1 hmk.2.2.1).1
          omega
      · obtain ⟨e1, e2, e3⟩ := hinv.share k j rk rj hmk.2.1 hrj hmk.2.2.1 hvj
          (by rw [hmk.2.2.2, hsj, hs])
        exact ⟨by rw [hoff, e1], by rw [hst, e2], by rw [hss, e3]⟩
    refine ⟨table_allocated_insert db db1 idx row1 halloc hmd hhdr, ?_, ?_, ?_, ?_⟩
    · rw [hte]; omega
    · intro i j ri rj hi hj hij hvi hvj
      rcases hrows i ri hi with ⟨h1, h2⟩ | ⟨h1, h2⟩ <;>
        rcases hrows j rj hj with ⟨h3, h4⟩ | ⟨h3, h4⟩
      · omega
      · rw [h2, hp]
        exact fun hc => habs j rj h3 h4 hvj hc.symm
      · rw [h4, hp]
        exact habs i ri h1 h2 hvi
      · exact hinv.ids i j ri rj h2 h4 hij hvi hvj
    · intro i r hr hrv
      rw [hte]
      rcases hrows i r hr with ⟨_, h2⟩ | ⟨_, h2⟩
      · subst h2
        rcases hbr with ⟨_, _, _, hst, hss, hoff, _⟩ | ⟨k, rk, hmk, _, hoff, hst, hss, _, _⟩
        · rw [hoff, hst, hss]
          exact ⟨hfile, Or.inl ⟨rfl, rfl⟩, Or.inl ⟨rfl, rfl⟩⟩
        · obtain ⟨g1, g2, g3⟩ := hinv.rows k rk hmk.2.1 hmk.2.2.1
          rw [hoff, hst, hss]
          exact ⟨g1, variant_ok_mono _ _ _ _ _ hflen g2, variant_ok_mono _ _ _ _ _ hflen g3⟩
      · obtain ⟨g1, g2, g3⟩ := hinv.rows i r h2 hrv
        exact ⟨g1, variant_ok_mono _ _ _ _ _ hflen g2, variant_ok_mono _ _ _ _ _ hflen g3⟩
    · intro i j ri rj hi hj hvi hvj hsha
      rcases hrows i ri hi with ⟨h1, h2⟩ | ⟨h1, h2⟩ <;>
        rcases hrows j rj hj with ⟨h3, h4⟩ | ⟨h3, h4⟩
      · rw [h2, h4]; exact ⟨rfl, rfl, rfl⟩
      · rw [h2] at hsha ⊢
        exact hnew j rj h3 h4 hvj hsha.symm
      · rw [h4] at hsha ⊢
        obtain ⟨e1, e2, e3⟩ := hnew i ri h1 h2 hvi hsha
        exact ⟨e1.symm, e2.symm, e3.symm⟩
      · exact hinv.share i j ri rj h2 h4 hvi hvj hsha
  · obtain ⟨f1, f2, f3⟩ := do_insert_fail env image id db halloc hok
    rcases f3 with f3 | ⟨idx, row, row1, _, _, _, hv, hmd⟩
    · exact core_inv_same_table env db _ hinv (by rw [f1]) (by rw [f2]) f3
    · exact core_inv_set_empty env db _ idx row1 hinv (by rw [f1]) (by rw [f2]) hmd
        (by rw [hv]; decide)

theorem core_inv_delete (env : Env) (id : List Nat) (db : pictdb_file)
    (hinv : core_inv env db) : core_inv env (do_delete env id db).2 := by
  by_cases hok : (do_delete env id db).1 = Code.OK
  · have heq : do_delete env id db = (Code.OK, (do_delete env id db).2) := Prod.ext hok rfl
    obtain ⟨i, row, _, _, _, _, _, _, _, hdb⟩ := do_delete_ok env id db _ hinv.alloc heq
    rw [hdb]
    refine core_inv_set_empty env db _ i { row with is_valid := EMPTY } hinv rfl ?_ rfl
      (by show EMPTY ≠ NON_EMPTY; decide)
    show db.fpdb.length ≤ (write_at (write_at db.fpdb _ _) 0 _).length
    rw [write_at_length, write_at_length]
    omega
  · rw [do_delete_fail env id db hinv.alloc hok]
    exact hinv

/-! ## The core invariant under `lazily_resize` and `do_read` -/

/-- The array `index_tab` at the end of the loop of `get_dup_index_and_update`:
its entries are the initial ones and the indices of the occupied rows, other
than `index`, whose digest is `SHA`. -/
theorem dup_index_loop_mem (db : pictdb_file) (index : Nat) (SHA : List Nat) :
    ∀ fuel i tab0 tab, db.header.max_files ≤ i + fuel →
      dup_index_loop db index SHA fuel i tab0 = some tab →
      ∀ k, k ∈ tab ↔ k ∈ tab0 ∨ (i ≤ k ∧ k < db.header.max_files ∧ k ≠ index ∧
        ∃ r, db.metadata[k]? = some r ∧ r.is_valid = NON_EMPTY ∧ r.SHA = SHA) := by
  intro fuel
  induction fuel with
  | zero =>
    intro i tab0 tab hf h k
    simp only [dup_index_loop, Option.some.injEq] at h
    subst h
    constructor
    · exact fun hk => Or.inl hk
    · rintro (hk | ⟨h1, h2, _⟩)
      · exact hk
      · omega
  | succ n ih =>
    intro i tab0 tab hf h k
    unfold dup_index_loop at h
    have hskip : (¬ (i ≠ index ∧ ∃ r, db.metadata[i]? = some r ∧ r.is_valid = NON_EMPTY ∧
        r.SHA = SHA)) → dup_index_loop db index SHA n (i + 1) tab0 = some tab →
        (k ∈ tab ↔ k ∈ tab0 ∨ (i ≤ k ∧ k < db.header.max_files ∧ k ≠ index ∧
        ∃ r, db.metadata[k]? = some r ∧ r.is_valid = NON_EMPTY ∧ r.SHA = SHA)) := by
      intro hno h
      rw [ih _ _ _ (by omega) h k]
      constructor
      · rintro (hk | ⟨h1, h2, h3, h4⟩)
        · exact Or.inl hk
        · exact Or.inr ⟨by omega, h2, h3, h4⟩
      · rintro (hk | ⟨h1, h2, h3, h4⟩)
        · exact Or.inl hk
        · by_cases hki : k = i
          · subst hki; exact absurd ⟨h3, h4⟩ hno
          · exact Or.inr ⟨by omega, h2, h3, h4⟩
    split_ifs at h with h1 h2
    · cases hr : db.metadata[i]? with
      | none => simp [hr] at h
      | some r =>
        simp only [hr] at h
        split_ifs at h with h3 h4
        · rw [ih _ _ _ (by omega) h k]
          constructor
          · rintro (hk | ⟨h5, h6, h7, h8⟩)
            · rcases List.mem_append.mp hk with hk | hk
              · exact Or.inl hk
              · have : k = i := by simpa using hk
                subst this
                exact Or.inr ⟨le_refl _, h1, h2, r, hr, h3.symm, h4⟩
            · exact Or.inr ⟨by omega, h6, h7, h8⟩
          · rintro (hk | ⟨h5, h6, h7, h8⟩)
            · exact Or.inl (List.mem_append.mpr (Or.inl hk))
            · by_cases hki : k = i
              · subst hki; exact Or.inl (by simp)
              · exact Or.inr ⟨by omega, h6, h7, h8⟩
        · apply hskip _ h
          rintro ⟨_, r1, hr1, hv1, hs1⟩
          rw [hr] at hr1; cases hr1
          exact h4 hs1
        · apply hskip _ h
          rintro ⟨_, r1, hr1, hv1, hs1⟩
          rw [hr] at hr1; cases hr1
          exact h3 hv1.symm
    · apply hskip _ h
      rintro ⟨hne, _⟩
      exact h2 hne
    · simp only [Option.some.injEq] at h
      subst h
      constructor
      · exact fun hk => Or.inl hk
      · rintro (hk | ⟨h3, h4, _⟩)
        · exact hk
        · omega

/-- Under the core invariant `get_dup_index_and_update` on an occupied row
leaves the database as it is, and `index_tab` lists that row and the occupied
rows with its digest. -/
theorem get_dup_index_and_update_core (env : Env) (db : pictdb_file) (index : Nat)
    (row0 : pict_metadata) (tab : List Nat) (db1 : pictdb_file) (hinv : core_inv env db)
    (hrow : db.metadata[index]? = some row0) (hv : row0.is_valid = NON_EMPTY)
    (h : get_dup_index_and_update db index = some (tab, db1)) :
    db1 = db ∧ ∀ k, k ∈ tab ↔ k = index ∨ (k < db.header.max_files ∧ k ≠ index ∧
      ∃ r, db.metadata[k]? = some r ∧ r.is_valid = NON_EMPTY ∧ r.SHA = row0.SHA) := by
  obtain ⟨row, rest, h1, h2, h3, h4, h5⟩ := get_dup_index_and_update_ok db index tab db1 h
  rw [hrow] at h1; cases h1
  have hmem := dup_index_loop_mem db index row0.SHA _ _ _ _ (by omega) h2
  have hmem1 : ∀ k, k ∈ tab ↔ k = index ∨ (k < db.header.max_files ∧ k ≠ index ∧
      ∃ r, db.metadata[k]? = some r ∧ r.is_valid = NON_EMPTY ∧ r.SHA = row0.SHA) := by
    intro k
    rw [hmem k]
    simp
  refine ⟨?_, hmem1⟩
  rcases h5 with ⟨_, h5⟩ | ⟨g, rest1, rg, h5, h6, h7⟩
  · exact h5
  · have hg : g ∈ tab := by rw [h3, h5]; simp
    have hgne : g ≠ index := (h4 g (by rw [h5]; simp)).1
    rcases (hmem1 g).mp hg with hg1 | ⟨_, _, r, hr, hrv, hrs⟩
    · exact absurd hg1 hgne
    · rw [h6] at hr; cases hr
      obtain ⟨_, e2, e3⟩ := hinv.share index g row0 rg hrow h6 hv hrv hrs.symm
      rw [h7, dup_update_eq_self row0 rg e3 e2, set_getElem?_self _ _ _ hrow]

/-- The last loop of `lazily_resize` writes inside the metadata table only. -/
theorem resize_update_loop_file (env : Env) (dim ns off : Nat) :
    ∀ (tab : List Nat) (db db1 : pictdb_file),
      table_allocated db → table_end env db ≤ db.fpdb.length →
      resize_update_loop env dim ns off tab db = some db1 →
      db1.fpdb.length = db.fpdb.length ∧
      db1.fpdb.drop (table_end env db) = db.fpdb.drop (table_end env db) := by
  intro tab
  induction tab with
  | nil =>
    intro db db1 _ _ h
    simp only [resize_update_loop, Option.some.injEq] at h
    subst h
    exact ⟨rfl, rfl⟩
  | cons k0 tab ih =>
    intro db db1 halloc hte h
    unfold resize_update_loop at h
    cases hk : db.metadata[k0]? with
    | none => simp [hk] at h
    | some r =>
      have hkl := getElem?_lt_length _ _ _ hk
      have hk0 : k0 < db.header.max_files := by
        have : db.metadata.length = db.header.max_files := halloc
        omega
      have hend := row_end_le_table_end env db k0 hk0
      have hpos : row_pos env k0 = env.sizeof_header + k0 * env.sizeof_metadata := rfl
      simp only [hk, write_db_file_one_metadata, List.getElem?_set_self hkl] at h
      have hlen1 : (write_at db.fpdb (env.sizeof_header + k0 * env.sizeof_metadata)
          (env.metadata_bytes (resized_row dim ns off r))).length = db.fpdb.length := by
        rw [write_at_length, env.metadata_bytes_length]
        omega
      obtain ⟨e1, e2⟩ := ih _ _
        (by show (db.metadata.set k0 _).length = db.header.max_files
            rw [List.length_set]; exact halloc)
        (by show table_end env db ≤ (write_at db.fpdb _ _).length
            rw [hlen1]; exact hte) h
      refine ⟨by rw [e1]; exact hlen1, ?_⟩
      have e3 : table_end env
          { fpdb := write_at db.fpdb (env.sizeof_header + k0 * env.sizeof_metadata)
              (env.metadata_bytes (resized_row dim ns off r)),
            header := db.header,
            metadata := db.metadata.set k0 (resized_row dim ns off r) } = table_end env db := rfl
      rw [e3] at e2
      rw [e2]
      exact write_at_drop _ _ _ _ (by rw [env.metadata_bytes_length]; omega)

/-- The core invariant after the rows listed in `index_tab` received a new
variant stored at the end of the file. -/
theorem core_inv_resized (env : Env) (dim ns off : Nat) (db db2 : pictdb_file) (index : Nat)
    (row0 : pict_metadata) (tab : List Nat) (hinv : core_inv env db)
    (hdim : dim = RES_THUMB ∨ dim = RES_SMALL)
    (hrow : db.metadata[index]? = some row0)
    (htab : ∀ k, k ∈ tab ↔ k = index ∨ (k < db.header.max_files ∧ k ≠ index ∧
      ∃ r, db.metadata[k]? = some r ∧ r.is_valid = NON_EMPTY ∧ r.SHA = row0.SHA))
    (hhdr : db2.header = db.header)
    (hkeys : db2.metadata.map row_key = db.metadata.map row_key)
    (hrows : ∀ k, db2.metadata[k]? =
      if k ∈ tab then (db.metadata[k]?).map (resized_row dim ns off) else db.metadata[k]?)
    (hns : ns ≠ 0) (hoff : table_end env db ≤ off) (hend : off + ns ≤ db2.fpdb.length)
    (hlen : db.fpdb.length ≤ db2.fpdb.length) : core_inv env db2 := by
  have hte : table_end env db2 = table_end env db := by unfold table_end; rw [hhdr]
  have halloc : db.metadata.length = db.header.max_files := hinv.alloc
  -- an occupied row is listed exactly when it carries the digest of row `index`
  have hin : ∀ (k : Nat) (r : pict_metadata), db.metadata[k]? = some r →
      r.is_valid = NON_EMPTY → (k ∈ tab ↔ r.SHA = row0.SHA) := by
    intro k r hr hrv
    rw [htab k]
    have hk := getElem?_lt_length _ _ _ hr
    constructor
    · rintro (h | ⟨_, _, r1, hr1, _, hs1⟩)
      · subst h; rw [hrow] at hr; cases hr; rfl
      · rw [hr] at hr1; cases hr1; exact hs1
    · intro hs
      by_cases hki : k = index
      · exact Or.inl hki
      · exact Or.inr ⟨by omega, hki, r, hr, hrv, hs⟩
  -- every new row is an old row, resized when it is listed
  have hold : ∀ (k : Nat) (r1 : pict_metadata), db2.metadata[k]? = some r1 →
      ∃ r, db.metadata[k]? = some r ∧ r1.is_valid = r.is_valid ∧ r1.SHA = r.SHA ∧
        r1.pict_id = r.pict_id ∧
        ((k ∈ tab ∧ r1 = resized_row dim ns off r) ∨ (k ∉ tab ∧ r1 = r)) := by
    intro k r1 hr1
    rw [hrows k] at hr1
    by_cases hk : k ∈ tab
    · rw [if_pos hk] at hr1
      cases hr : db.metadata[k]? with
      | none => rw [hr] at hr1; cases hr1
      | some r =>
        rw [hr] at hr1
        simp only [Option.map_some', Option.some.injEq] at hr1
        subst hr1
        exact ⟨r, rfl, rfl, rfl, rfl, Or.inl ⟨hk, rfl⟩⟩
    · rw [if_neg hk] at hr1
      exact ⟨r1, hr1, rfl, rfl, rfl, Or.inr ⟨hk, rfl⟩⟩
  refine ⟨?_, ?_, ?_, ?_, ?_⟩
  · unfold table_allocated
    have := congrArg List.length hkeys
    simp only [List.length_map] at this
    rw [this, hhdr]
    exact halloc
  · rw [hte]; exact le_trans hinv.file_ge hlen
  · intro i j ri rj hi hj hij hvi hvj
    obtain ⟨ri0, hi0, e1, _, e3, _⟩ := hold i ri hi
    obtain ⟨rj0, hj0, f1, _, f3, _⟩ := hold j rj hj
    rw [e3, f3]
    exact hinv.ids i j ri0 rj0 hi0 hj0 hij (by rw [← e1]; exact hvi) (by rw [← f1]; exact hvj)
  · intro i r hr hrv
    obtain ⟨r0, hr0, e1, _, _, hcase⟩ := hold i r hr
    obtain ⟨g1, g2, g3⟩ := hinv.rows i r0 hr0 (by rw [← e1]; exact hrv)
    have g2' := variant_ok_mono _ _ _ _ _ hlen g2
    have g3' := variant_ok_mono _ _ _ _ _ hlen g3
    rw [hte]
    rcases hcase with ⟨_, hc⟩ | ⟨_, hc⟩
    · subst hc
      rcases hdim with hd | hd <;> subst hd
      · exact ⟨g1, Or.inr ⟨hns, hoff, hend⟩, g3'⟩
      · exact ⟨g1, g2', Or.inr ⟨hns, hoff, hend⟩⟩
    · subst hc
      exact ⟨g1, g2', g3'⟩
  · intro i j ri rj hi hj hvi hvj hsha
    obtain ⟨ri0, hi0, e1, e2, _, hci⟩ := hold i ri hi
    obtain ⟨rj0, hj0, f1, f2, _, hcj⟩ := hold j rj hj
    have hvi0 : ri0.is_valid = NON_EMPTY := by rw [← e1]; exact hvi
    have hvj0 : rj0.is_valid = NON_EMPTY := by rw [← f1]; exact hvj
    have hsha0 : ri0.SHA = rj0.SHA := by rw [← e2, ← f2]; exact hsha
    obtain ⟨s1, s2, s3⟩ := hinv.share i j ri0 rj0 hi0 hj0 hvi0 hvj0 hsha0
    have hiff : i ∈ tab ↔ j ∈ tab := by
      rw [hin i ri0 hi0 hvi0, hin j rj0 hj0 hvj0, hsha0]
    rcases hci with ⟨hi1, hc⟩ | ⟨hi1, hc⟩ <;> rcases hcj with ⟨hj1, hd⟩ | ⟨hj1, hd⟩
    · subst hc; subst hd
      unfold resized_row
      simp only [s1]
      rcases hdim with hd | hd <;> subst hd <;>
        simp [res_array.set, RES_THUMB, RES_SMALL, s2, s3]
    · exact absurd (hiff.mp hi1) hj1
    · exact absurd (hiff.mpr hj1) hi1
    · subst hc; subst hd
      exact ⟨s1, s2, s3⟩

/-- The core invariant is kept by `lazily_resize` on an occupied row. -/
theorem core_inv_lazily_resize (env : Env) (dim : Nat) (db : pictdb_file) (index : Nat)
    (row0 : pict_metadata) (hinv : core_inv env db)
    (hrow : db.metadata[index]? = some row0) (hv : row0.is_valid = NON_EMPTY) :
    core_inv env (lazily_resize env dim db index).2 := by
  unfold lazily_resize
  by_cases h1 : RES_ORIG = dim
  · rw [if_pos h1]; exact hinv
  rw [if_neg h1]
  by_cases h2 : RES_THUMB ≠ dim ∧ RES_SMALL ≠ dim
  · rw [if_pos h2]; exact hinv
  rw [if_neg h2]
  simp only [hrow]
  split_ifs with h3
  · exact hinv
  cases hd : get_dup_index_and_update db index with
  | none => exact hinv
  | some p =>
    obtain ⟨tab, db1⟩ := p
    obtain ⟨e1, htab⟩ := get_dup_index_and_update_core env db index row0 tab db1 hinv hrow hv hd
    subst e1
    simp only [hrow]
    split_ifs with h4 h5
    · exact hinv
    · exact hinv
    · cases hj : env.jpeg_resize (read_db_file_image index RES_ORIG db1).2 row0.size.orig dim
          db1.header.res_resized with
      | none => exact hinv
      | some out =>
        simp only []
        have hw2 : ∀ ns, (write_db_file_image out ns db1).2.2.fpdb.length ≥ db1.fpdb.length := by
          intro ns
          unfold write_db_file_image write_disk_image
          by_cases hns : ns = 0
          · simp [hns]
          · simp only [if_neg hns, write_at_end, List.length_append]
            omega
        split_ifs with h6
        · exact core_inv_same_table env db1 _ hinv rfl (hw2 _) rfl
        · cases hl : resize_update_loop env dim (out.length % UINT32_MOD)
              (write_db_file_image out (out.length % UINT32_MOD) db1).2.1 tab
              (write_db_file_image out (out.length % UINT32_MOD) db1).2.2 with
          | none => exact core_inv_same_table env db1 _ hinv rfl (hw2 _) rfl
          | some db2 =>
            simp only []
            have hdim : dim = RES_THUMB ∨ dim = RES_SMALL := by
              by_cases hd : RES_THUMB = dim
              · exact Or.inl hd.symm
              · by_cases hd1 : RES_SMALL = dim
                · exact Or.inr hd1.symm
                · exact absurd ⟨hd, hd1⟩ h2
            have hns : out.length % UINT32_MOD ≠ 0 := by
              intro hc
              apply h6
              unfold write_db_file_image write_disk_image
              simp [hc]
            have hw : write_db_file_image out (out.length % UINT32_MOD) db1 =
                (Code.OK, db1.fpdb.length,
                  { db1 with fpdb := db1.fpdb ++ out.take (out.length % UINT32_MOD) }) := by
              unfold write_db_file_image write_disk_image
              simp only [if_neg hns, write_at_end]
            rw [hw] at hl
            simp only [] at hl
            obtain ⟨f1, f2⟩ := resize_update_loop_frame env dim _ _ _ _ _ hl
            have f3 := resize_update_loop_rows env dim _ _ _ _ _ hl
            have hlen0 : (db1.fpdb ++ out.take (out.length % UINT32_MOD)).length =
                db1.fpdb.length + out.length % UINT32_MOD := by
              rw [List.length_append, List.length_take]
              have := Nat.mod_le out.length UINT32_MOD
              omega
            obtain ⟨f4, _⟩ := resize_update_loop_file env dim _ _ _
              { db1 with fpdb := db1.fpdb ++ out.take (out.length % UINT32_MOD) } _ hinv.alloc
              (by show table_end env db1 ≤
                    (db1.fpdb ++ out.take (out.length % UINT32_MOD)).length
                  rw [hlen0]; have := hinv.file_ge; omega) hl
            have f5 : db2.fpdb.length = db1.fpdb.length + out.length % UINT32_MOD := by
              rw [f4]; exact hlen0
            exact core_inv_resized env dim _ _ db1 db2 index row0 tab hinv hdim hrow htab f1 f2 f3
              hns hinv.file_ge (by omega) (by omega)
theorem core_inv_read (env : Env) (id : List Nat) (dim : Nat) (db : pictdb_file)
    (hinv : core_inv env db) : core_inv env (do_read env id dim db).db := by
  have halloc : db.metadata.length = db.header.max_files := hinv.alloc
  have hl : (get_image_index id db).1 = Code.OK →
      core_inv env (lazily_resize env dim db (get_image_index id db).2).2 := by
    intro h2
    rcases get_image_index_spec id db (by omega) with ⟨e, _⟩ | ⟨i, ri, _, e, hr, hv, _⟩
    · rw [e] at h2
      cases h2
    · rw [e]
      exact core_inv_lazily_resize env dim db i ri hinv hr hv
  unfold do_read
  by_cases h1 : RES_THUMB ≠ dim ∧ RES_SMALL ≠ dim ∧ RES_ORIG ≠ dim
  · rw [if_pos h1]; exact hinv
  rw [if_neg h1]
  dsimp only
  by_cases h2 : (get_image_index id db).1 ≠ Code.OK
  · rw [if_pos h2]; exact hinv
  rw [if_neg h2]
  have hl1 := hl (not_not.mp h2)
  repeat' split
  all_goals exact hl1

theorem core_inv_step (env : Env) (db : pictdb_file) (op : Op) (hinv : core_inv env db) :
    core_inv env (step env db op) := by
  cases op with
  | insert image id => exact core_inv_insert env image id db hinv
  | delete id => exact core_inv_delete env id db hinv
  | read id dim => exact core_inv_read env id dim db hinv

theorem core_inv_run (env : Env) (ops : List Op) :
    ∀ db, core_inv env db → core_inv env (run env db ops) := by
  induction ops with
  | nil => intro db h; exact h
  | cons op ops ih =>
    intro db h
    exact ih _ (core_inv_step env db op h)

/-- The rows of a database made by `do_create` are all `EMPTY`. -/
theorem do_create_rows (env : Env) (max_files : Nat) (res_resized : List Nat) (i : Nat)
    (r : pict_metadata) (h : (do_create env max_files res_resized).2.metadata[i]? = some r) :
    r = { zero_metadata with is_valid := EMPTY } := by
  have hm := mem_of_getElem? _ _ _ h
  simp [do_create, write_db_file_header] at hm
  exact hm.2

/-- The file made by `do_create`: the header, then `max_files` rows. -/
theorem do_create_fpdb (env : Env) (max_files : Nat) (res_resized : List Nat) :
    (do_create env max_files res_resized).2.fpdb =
      env.header_bytes (do_create env max_files res_resized).2.header ++
        (List.replicate max_files
          (env.metadata_bytes { zero_metadata with is_valid := EMPTY })).flatten := by
  simp [do_create, write_db_file_header, write_at]

theorem length_flatten_replicate {α : Type} (n : Nat) (l : List α) :
    (List.replicate n l).flatten.length = n * l.length := by
  induction n with
  | zero => simp
  | succ n ih => rw [List.replicate_succ, List.flatten_cons, List.length_append, ih]; ring

theorem do_create_fpdb_length (env : Env) (max_files : Nat) (res_resized : List Nat) :
    (do_create env max_files res_resized).2.fpdb.length =
      table_end env (do_create env max_files res_resized).2 := by
  rw [do_create_fpdb, List.length_append, length_flatten_replicate, env.header_bytes_length,
    env.metadata_bytes_length]
  rfl

theorem core_inv_create (env : Env) (max_files : Nat) (res_resized : List Nat) :
    core_inv env (do_create env max_files res_resized).2 := by
  have hE : ∀ (i : Nat) (r : pict_metadata),
      (do_create env max_files res_resized).2.metadata[i]? = some r → r.is_valid ≠ NON_EMPTY := by
    intro i r h
    rw [do_create_rows env max_files res_resized i r h]
    decide
  refine ⟨?_, ?_, ?_, ?_, ?_⟩
  · simp [table_allocated, do_create, write_db_file_header]
  · rw [do_create_fpdb_length]
  · intro i j ri rj hi _ _ hvi
    exact absurd hvi (hE i ri hi)
  · intro i r hi hvi
    exact absurd hvi (hE i r hi)
  · intro i j ri rj hi _ hvi
    exact absurd hvi (hE i ri hi)
/-! ## C11: identifiers are unique -/

/-- C11. From a database produced by `do_create`, after every sequence of
`do_insert`, `do_delete` and `do_read` calls, whatever each returns, no two
distinct rows whose `is_valid` is `NON_EMPTY` hold the same `pict_id`. -/
theorem unique_ids_reachable (env : Env) (max_files : Nat) (res_resized : List Nat)
    (ops : List Op) : unique_ids (run env (do_create env max_files res_resized).2 ops) := by
  have hinv := core_inv_run env ops _ (core_inv_create env max_files res_resized)
  unfold unique_ids
  rw [List.pairwise_iff_getElem]
  intro i j hi hj hij hvi hvj
  exact hinv.ids i j _ _ (List.getElem?_eq_getElem hi) (List.getElem?_eq_getElem hj)
    (by omega) hvi hvj

/-! ## C13: rows with the same digest share their blobs -/

/-- C13. From a database produced by `do_create`, after every sequence of
`do_insert`, `do_delete` and `do_read` calls, any two `NON_EMPTY` rows with
equal `SHA` have equal `offset[RES_ORIG]`, and for each of the variants thumb
and small for which both rows have a non-zero size, equal `offset[v]` and
equal `size[v]`. -/
theorem dup_sharing_reachable (env : Env) (max_files : Nat) (res_resized : List Nat)
    (ops : List Op) : dup_sharing (run env (do_create env max_files res_resized).2 ops) := by
  have hinv := core_inv_run env ops _ (core_inv_create env max_files res_resized)
  intro a ha b hb hva hvb hsha
  obtain ⟨i, hi, e1⟩ := List.getElem_of_mem ha
  obtain ⟨j, hj, e2⟩ := List.getElem_of_mem hb
  obtain ⟨s1, s2, s3⟩ := hinv.share i j a b (by rw [← e1]; exact List.getElem?_eq_getElem hi)
    (by rw [← e2]; exact List.getElem?_eq_getElem hj) hva hvb hsha
  rw [s1, s2, s3]
  exact ⟨rfl, fun _ _ => ⟨rfl, rfl⟩, fun _ _ => ⟨rfl, rfl⟩⟩

/-! ## The originals along a run -/

theorem getElem?_of_map_eq {α β : Type} (f : α → β) (l l1 : List α)
    (h : l1.map f = l.map f) (i : Nat) (r1 : α) (h1 : l1[i]? = some r1) :
    ∃ r, l[i]? = some r ∧ f r1 = f r := by
  have h2 : (l1.map f)[i]? = (l.map f)[i]? := by rw [h]
  simp only [List.getElem?_map, h1, Option.map_some'] at h2
  cases hr : l[i]? with
  | none => rw [hr] at h2; cases h2
  | some r =>
    rw [hr] at h2
    simp only [Option.map_some', Option.some.injEq] at h2
    exact ⟨r, rfl, h2⟩

theorem dup_update_orig (row g : pict_metadata) : row_orig (dup_update row g) = row_orig row := by
  unfold dup_update row_orig
  by_cases h1 : row.size.small ≠ g.size.small <;> by_cases h2 : row.size.thumb ≠ g.size.thumb <;>
    simp [h1, h2]

theorem get_dup_index_and_update_orig (db : pictdb_file) (index : Nat) (tab : List Nat)
    (db1 : pictdb_file) (h : get_dup_index_and_update db index = some (tab, db1)) :
    db1.metadata.map row_orig = db.metadata.map row_orig := by
  obtain ⟨row0, rest, h1, _, _, _, h5⟩ := get_dup_index_and_update_ok db index tab db1 h
  rcases h5 with ⟨_, h5⟩ | ⟨g, rest1, rg, _, _, h7⟩
  · rw [h5]
  · rw [h7]
    exact map_set_same row_orig _ _ _ _ h1 (dup_update_orig row0 rg)

theorem resized_row_orig (dim ns off : Nat) (r : pict_metadata)
    (hdim : dim = RES_THUMB ∨ dim = RES_SMALL) :
    row_orig (resized_row dim ns off r) = row_orig r := by
  rcases hdim with hd | hd <;> subst hd <;> rfl

theorem resize_update_loop_orig (env : Env) (dim new_size offset : Nat)
    (hdim : dim = RES_THUMB ∨ dim = RES_SMALL) :
    ∀ (tab : List Nat) (db db1 : pictdb_file),
      resize_update_loop env dim new_size offset tab db = some db1 →
      db1.metadata.map row_orig = db.metadata.map row_orig ∧
      db.fpdb.length ≤ db1.fpdb.length := by
  intro tab
  induction tab with
  | nil =>
    intro db db1 h
    simp only [resize_update_loop, Option.some.injEq] at h
    rw [← h]
    exact ⟨rfl, le_refl _⟩
  | cons k tab ih =>
    intro db db1 h
    unfold resize_update_loop at h
    cases hk : db.metadata[k]? with
    | none => simp [hk] at h
    | some r =>
      have hkl := getElem?_lt_length _ _ _ hk
      simp only [hk, write_db_file_one_metadata, List.getElem?_set_self hkl] at h
      obtain ⟨h1, h2⟩ := ih _ _ h
      refine ⟨?_, le_trans ?_ h2⟩
      · rw [h1]
        exact map_set_same row_orig _ _ _ _ hk (resized_row_orig dim _ _ r hdim)
      · show db.fpdb.length ≤ (write_at db.fpdb _ _).length
        rw [write_at_length]
        exact le_max_left _ _

theorem lazily_resize_orig (env : Env) (dim : Nat) (db : pictdb_file) (index : Nat) :
    (lazily_resize env dim db index).2.metadata.map row_orig = db.metadata.map row_orig ∧
    db.fpdb.length ≤ (lazily_resize env dim db index).2.fpdb.length := by
  unfold lazily_resize
  split_ifs with h1 h2
  · exact ⟨rfl, le_refl _⟩
  · exact ⟨rfl, le_refl _⟩
  · have hdim : dim = RES_THUMB ∨ dim = RES_SMALL := by
      by_cases hd : RES_THUMB = dim
      · exact Or.inl hd.symm
      · by_cases hd1 : RES_SMALL = dim
        · exact Or.inr hd1.symm
        · exact absurd ⟨hd, hd1⟩ h2
    cases hrow0 : db.metadata[index]? with
    | none => exact ⟨rfl, le_refl _⟩
    | some row0 =>
      simp only
      split_ifs with h3
      · exact ⟨rfl, le_refl _⟩
      · cases hg : get_dup_index_and_update db index with
        | none => exact ⟨rfl, le_refl _⟩
        | some p =>
          obtain ⟨tab, db1⟩ := p
          obtain ⟨_, g2, _⟩ := get_dup_index_and_update_frame db index tab db1 hg
          have g3 := get_dup_index_and_update_orig db index tab db1 hg
          have g4 : db.fpdb.length ≤ db1.fpdb.length := by rw [g2]
          simp only
          cases hrow : db1.metadata[index]? with
          | none => exact ⟨g3, g4⟩
          | some row =>
            simp only
            split_ifs with h4 h5
            · exact ⟨g3, g4⟩
            · exact ⟨g3, g4⟩
            · cases hj : env.jpeg_resize (read_db_file_image index RES_ORIG db1).2 row.size.orig
                  dim db1.header.res_resized with
              | none => exact ⟨g3, g4⟩
              | some outBuffer =>
                simp only
                have hw2 : ∀ ns, db1.fpdb.length ≤
                    (write_db_file_image outBuffer ns db1).2.2.fpdb.length := by
                  intro ns
                  unfold write_db_file_image write_disk_image
                  by_cases hns : ns = 0
                  · simp [hns]
                  · simp only [if_neg hns, write_at_end, List.length_append]
                    omega
                split_ifs with h6
                · exact ⟨g3, le_trans g4 (hw2 _)⟩
                · cases hu : resize_update_loop env dim (outBuffer.length % UINT32_MOD)
                      (write_db_file_image outBuffer (outBuffer.length % UINT32_MOD) db1).2.1
                      tab
                      (write_db_file_image outBuffer (outBuffer.length % UINT32_MOD) db1).2.2 with
                  | none => exact ⟨g3, le_trans g4 (hw2 _)⟩
                  | some db2 =>
                    obtain ⟨u1, u2⟩ := resize_update_loop_orig env dim _ _ hdim tab _ db2 hu
                    exact ⟨u1.trans g3, le_trans g4 (le_trans (hw2 _) u2)⟩

theorem do_read_orig (env : Env) (id : List Nat) (dim : Nat) (db : pictdb_file) :
    (do_read env id dim db).db.metadata.map row_orig = db.metadata.map row_orig ∧
    db.fpdb.length ≤ (do_read env id dim db).db.fpdb.length := by
  have hl := lazily_resize_orig env dim db (get_image_index id db).2
  unfold do_read
  dsimp only
  split_ifs <;> first | exact ⟨rfl, le_refl _⟩ | exact hl | (split <;> exact hl)

theorem orig_inv_of_orig (env : Env) (blobs : List (List Nat)) (db db1 : pictdb_file)
    (hk : db1.metadata.map row_orig = db.metadata.map row_orig)
    (hlen : db.fpdb.length ≤ db1.fpdb.length) (hinv : orig_inv env blobs db) :
    orig_inv env blobs db1 := by
  intro i r1 hr1 hv1
  obtain ⟨r, hr, e⟩ := getElem?_of_map_eq row_orig _ _ hk i r1 hr1
  simp only [row_orig, Prod.mk.injEq] at e
  obtain ⟨e1, e2, e3, e4⟩ := e
  obtain ⟨g1, g2, g3⟩ := hinv i r hr (by rw [← e2]; exact hv1)
  rw [e1, e3, e4]
  exact ⟨g1, by omega, g3⟩

theorem orig_inv_set_empty (env : Env) (blobs : List (List Nat)) (db db1 : pictdb_file)
    (idx : Nat) (row1 : pict_metadata) (hinv : orig_inv env blobs db)
    (hlen : db.fpdb.length ≤ db1.fpdb.length)
    (hmd : db1.metadata = db.metadata.set idx row1) (hv : row1.is_valid ≠ NON_EMPTY) :
    orig_inv env blobs db1 := by
  intro i r hr hrv
  rw [hmd] at hr
  rcases getElem?_set_cases _ _ _ _ _ hr with ⟨_, h2⟩ | ⟨_, h2⟩
  · rw [h2] at hrv; exact absurd hrv hv
  · obtain ⟨g1, g2, g3⟩ := hinv i r h2 hrv
    exact ⟨g1, by omega, g3⟩

theorem orig_inv_delete (env : Env) (blobs : List (List Nat)) (id : List Nat)
    (db : pictdb_file) (halloc : table_allocated db) (hinv : orig_inv env blobs db) :
    orig_inv env blobs (do_delete env id db).2 := by
  by_cases hok : (do_delete env id db).1 = Code.OK
  · have heq : do_delete env id db = (Code.OK, (do_delete env id db).2) := Prod.ext hok rfl
    obtain ⟨i, row, _, _, _, _, _, _, _, hdb⟩ := do_delete_ok env id db _ halloc heq
    rw [hdb]
    refine orig_inv_set_empty env blobs db _ i { row with is_valid := EMPTY } hinv ?_ rfl
      (by show EMPTY ≠ NON_EMPTY; decide)
    show db.fpdb.length ≤ (write_at (write_at db.fpdb _ _) 0 _).length
    rw [write_at_length, write_at_length]
    omega
  · rw [do_delete_fail env id db halloc hok]
    exact hinv

theorem orig_inv_insert (env : Env) (blobs : List (List Nat)) (image id : List Nat)
    (db : pictdb_file) (halloc : table_allocated db) (hfree : collision_free env blobs)
    (himg : image ∈ blobs) (hinv : orig_inv env blobs db) :
    orig_inv env blobs (do_insert env image id db).2 := by
  by_cases hok : (do_insert env image id db).1 = Code.OK
  · have heq : do_insert env image id db = (Code.OK, (do_insert env image id db).2) :=
      Prod.ext hok rfl
    obtain ⟨idx, row, row1, _, _, hrow, hrowv, hmd, hhdr, hv, hp, hs, hsz, _, habs, hbr⟩ :=
      do_insert_ok env image id db _ halloc heq
    generalize (do_insert env image id db).2 = db1 at *
    have hflen : db.fpdb.length ≤ db1.fpdb.length := by
      rcases hbr with ⟨_, _, _, _, _, _, hf⟩ | ⟨_, _, _, _, _, _, _, _, hf⟩
      · rw [hf]
        refine le_trans ?_ (commit_file_length_ge _ _ _ _ _)
        rw [List.length_append]
        omega
      · rw [hf]
        exact commit_file_length_ge _ _ _ _ _
    intro i r hr hrv
    rw [hmd] at hr
    rcases getElem?_set_cases _ _ _ _ _ hr with ⟨_, h2⟩ | ⟨_, h2⟩
    · subst h2
      rcases hbr with ⟨_, hne, _, _, _, hoff, hf⟩ | ⟨j, rj, hm, _, hoff, _, _, _, hf⟩
      · refine ⟨by rw [hsz]; exact hne, ?_, image, himg, hs, hsz⟩
        have h1 := commit_file_length_ge env
          (db.fpdb ++ image.take (image.length % UINT32_MOD)) db1.header idx r
        rw [List.length_append, List.length_take] at h1
        have := Nat.mod_le image.length UINT32_MOD
        rw [hoff, hsz, hf]
        show db.fpdb.length + image.length % UINT32_MOD ≤ _
        omega
      · obtain ⟨g1, g2, B, hB, g3, g4⟩ := hinv j rj hm.2.1 hm.2.2.1
        have hBi : B = image := hfree B hB image himg (by rw [← g3]; exact hm.2.2.2)
        have hsame : r.size.orig = rj.size.orig := by rw [hsz, g4, hBi]
        refine ⟨by rw [hsame]; exact g1, ?_, image, himg, hs, hsz⟩
        rw [hoff, hsame]
        omega
    · obtain ⟨g1, g2, g3⟩ := hinv i r h2 hrv
      exact ⟨g1, by omega, g3⟩
  · obtain ⟨_, f2, f3⟩ := do_insert_fail env image id db halloc hok
    rcases f3 with f3 | ⟨idx, row, row1, _, _, _, hv, hmd⟩
    · intro i r hr hrv
      rw [f3] at hr
      rw [f2]
      exact hinv i r hr hrv
    · exact orig_inv_set_empty env blobs db _ idx row1 hinv (by rw [f2]) hmd
        (by rw [hv]; decide)
theorem orig_inv_step (env : Env) (blobs : List (List Nat)) (db : pictdb_file) (op : Op)
    (halloc : table_allocated db) (hfree : collision_free env blobs)
    (hop : ∀ B ∈ inserted [op], B ∈ blobs) (hinv : orig_inv env blobs db) :
    orig_inv env blobs (step env db op) := by
  cases op with
  | insert image id =>
    exact orig_inv_insert env blobs image id db halloc hfree
      (hop image (by simp [inserted])) hinv
  | delete id => exact orig_inv_delete env blobs id db halloc hinv
  | read id dim =>
    obtain ⟨h1, h2⟩ := do_read_orig env id dim db
    exact orig_inv_of_orig env blobs db _ h1 h2 hinv

theorem step_max_files (env : Env) (db : pictdb_file) (op : Op) (halloc : table_allocated db) :
    (step env db op).header.max_files = db.header.max_files := by
  cases op with
  | insert image id =>
    show (do_insert env image id db).2.header.max_files = _
    by_cases hok : (do_insert env image id db).1 = Code.OK
    · have heq : do_insert env image id db = (Code.OK, (do_insert env image id db).2) :=
        Prod.ext hok rfl
      obtain ⟨_, _, _, _, _, _, _, _, hhdr, _⟩ := do_insert_ok env image id db _ halloc heq
      rw [hhdr]; rfl
    · rw [(do_insert_fail env image id db halloc hok).1]
  | delete id =>
    show (do_delete env id db).2.header.max_files = _
    by_cases hok : (do_delete env id db).1 = Code.OK
    · have heq : do_delete env id db = (Code.OK, (do_delete env id db).2) := Prod.ext hok rfl
      obtain ⟨_, _, _, _, _, _, _, _, _, hdb⟩ := do_delete_ok env id db _ halloc heq
      rw [hdb]; rfl
    · rw [do_delete_fail env id db halloc hok]
  | read id dim =>
    show (do_read env id dim db).db.header.max_files = _
    rw [(do_read_frame env id dim db).1]

theorem inserted_cons (op : Op) (ops : List Op) :
    inserted (op :: ops) = inserted [op] ++ inserted ops := by
  cases op <;> simp [inserted]

/-- Along a run whose inserted blobs are separated by the digest function, the
core invariant and the invariant of the originals are kept, and so is
`max_files`. -/
theorem run_inv (env : Env) (blobs : List (List Nat)) (hfree : collision_free env blobs)
    (ops : List Op) :
    ∀ db, (∀ B ∈ inserted ops, B ∈ blobs) → core_inv env db → orig_inv env blobs db →
      core_inv env (run env db ops) ∧ orig_inv env blobs (run env db ops) ∧
      (run env db ops).header.max_files = db.header.max_files := by
  induction ops with
  | nil => intro db _ h1 h2; exact ⟨h1, h2, rfl⟩
  | cons op ops ih =>
    intro db hops h1 h2
    rw [inserted_cons] at hops
    obtain ⟨g1, g2, g3⟩ := ih (step env db op)
      (fun B hB => hops B (List.mem_append.mpr (Or.inr hB)))
      (core_inv_step env db op h1)
      (orig_inv_step env blobs db op h1.alloc hfree
        (fun B hB => hops B (List.mem_append.mpr (Or.inl hB))) h2)
    exact ⟨g1, g2, g3.trans (step_max_files env db op h1.alloc)⟩

theorem orig_inv_create (env : Env) (blobs : List (List Nat)) (max_files : Nat)
    (res_resized : List Nat) : orig_inv env blobs (do_create env max_files res_resized).2 := by
  intro i r hr hv
  rw [do_create_rows env max_files res_resized i r hr] at hv
  exact absurd hv (by decide)

/-- The state reached from `do_create` by a sequence of calls. -/
theorem reachable_inv (env : Env) (max_files : Nat) (res_resized : List Nat) (ops : List Op)
    (hfree : collision_free env (inserted ops)) :
    core_inv env (run env (do_create env max_files res_resized).2 ops) ∧
    orig_inv env (inserted ops) (run env (do_create env max_files res_resized).2 ops) ∧
    table_end env (run env (do_create env max_files res_resized).2 ops) =
      env.sizeof_header + max_files * env.sizeof_metadata := by
  obtain ⟨h1, h2, h3⟩ := run_inv env (inserted ops) hfree ops _ (fun _ h => h)
    (core_inv_create env max_files res_resized)
    (orig_inv_create env (inserted ops) max_files res_resized)
  refine ⟨h1, h2, ?_⟩
  unfold table_end
  rw [h3]
  rfl

/-! ## C12: sizes and offsets -/

/-- C12, the claim as stated fails: a `do_insert` that returns `ERR_VIPS` (the
buffer `[1, 2]` is not a JPEG image) has stored `size[RES_ORIG] = 2` in the
slot it chose and `do_name_and_content_dedup` has set `offset[RES_ORIG] = 0`
there; the slot stays `EMPTY` with a non-zero size and a zero offset. -/
theorem size_offset_empty_slot_counterexample :
    (do_insert sample_env [1, 2] [101] (do_create sample_env 2 [64, 64, 256, 256]).2).1
      = Code.ERR_VIPS ∧
    ∃ r ∈ (run sample_env (do_create sample_env 2 [64, 64, 256, 256]).2
        [Op.insert [1, 2] [101]]).metadata,
      r.is_valid = EMPTY ∧ r.size.get RES_ORIG = 2 ∧ r.offset.get RES_ORIG = 0 ∧
      ¬ size_offset_agree r := by
  decide

/-- C12, amended to the occupied rows. From a database produced by `do_create`,
after every sequence of `do_insert`, `do_delete` and `do_read` calls
(successful or failing) in which the digest function separates the inserted
blobs, every `NON_EMPTY` row has, for each variant `v` of thumb, small and
orig, `size[v] = 0` if and only if `offset[v] = 0`. -/
theorem size_offset_agree_reachable (env : Env) (max_files : Nat) (res_resized : List Nat)
    (ops : List Op) (hfree : collision_free env (inserted ops)) :
    ∀ r ∈ (run env (do_create env max_files res_resized).2 ops).metadata,
      r.is_valid = NON_EMPTY → size_offset_agree r := by
  obtain ⟨h1, h2, _⟩ := reachable_inv env max_files res_resized ops hfree
  intro r hr hv
  obtain ⟨i, hi, e⟩ := List.getElem_of_mem hr
  have hri : (run env (do_create env max_files res_resized).2 ops).metadata[i]? = some r := by
    rw [← e]; exact List.getElem?_eq_getElem hi
  obtain ⟨g1, g2, g3⟩ := h1.rows i r hri hv
  obtain ⟨g4, _, _⟩ := h2 i r hri hv
  have hpos := env.sizeof_header_pos
  have hte := sizeof_header_le_table_end env (run env (do_create env max_files res_resized).2 ops)
  intro v hvm
  simp only [List.mem_cons, List.mem_singleton, List.not_mem_nil, or_false] at hvm
  rcases hvm with hvm | hvm | hvm <;> subst hvm
  · show r.size.thumb = 0 ↔ r.offset.thumb = 0
    rcases g2 with ⟨a, b⟩ | ⟨a, b, _⟩
    · simp [a, b]
    · constructor <;> intro h <;> omega
  · show r.size.small = 0 ↔ r.offset.small = 0
    rcases g3 with ⟨a, b⟩ | ⟨a, b, _⟩
    · simp [a, b]
    · constructor <;> intro h <;> omega
  · show r.size.orig = 0 ↔ r.offset.orig = 0
    constructor <;> intro h <;> omega

/-- The hypothesis of `size_offset_agree_reachable` holds for the calls of
`sample_ops`, which end with one occupied row that holds a thumbnail. -/
theorem size_offset_agree_reachable_witness :
    collision_free sample_env (inserted sample_ops) ∧
    ∀ r ∈ (run sample_env (do_create sample_env 2 [64, 64, 256, 256]).2 sample_ops).metadata,
      r.is_valid = NON_EMPTY → size_offset_agree r :=
  ⟨by decide,
    size_offset_agree_reachable sample_env 2 [64, 64, 256, 256] sample_ops (by decide)⟩

/-! ## C20: the rows point into the blob region -/

/-- C20. From a database produced by `do_create`, after every sequence of
`do_insert`, `do_delete` and `do_read` calls in which the digest function
separates the inserted blobs, every non-zero `offset[v]` of every `NON_EMPTY`
row is at least `sizeof(header) + max_files * sizeof(row)`, and
`offset[v] + size[v]` does not exceed the length of the file. -/
theorem blob_region_bound_reachable (env : Env) (max_files : Nat) (res_resized : List Nat)
    (ops : List Op) (hfree : collision_free env (inserted ops)) :
    ∀ r ∈ (run env (do_create env max_files res_resized).2 ops).metadata,
      r.is_valid = NON_EMPTY →
      in_blob_region (env.sizeof_header + max_files * env.sizeof_metadata)
        (run env (do_create env max_files res_resized).2 ops).fpdb.length r := by
  obtain ⟨h1, h2, h3⟩ := reachable_inv env max_files res_resized ops hfree
  intro r hr hv
  obtain ⟨i, hi, e⟩ := List.getElem_of_mem hr
  have hri : (run env (do_create env max_files res_resized).2 ops).metadata[i]? = some r := by
    rw [← e]; exact List.getElem?_eq_getElem hi
  obtain ⟨g1, g2, g3⟩ := h1.rows i r hri hv
  obtain ⟨_, g5, _⟩ := h2 i r hri hv
  rw [h3] at g1 g2 g3
  intro v hvm
  simp only [List.mem_cons, List.mem_singleton, List.not_mem_nil, or_false] at hvm
  rcases hvm with hvm | hvm | hvm <;> subst hvm
  · show (r.offset.thumb ≠ 0 → _ ≤ r.offset.thumb) ∧ r.offset.thumb + r.size.thumb ≤ _
    rcases g2 with ⟨a, b⟩ | ⟨_, b, c⟩
    · rw [a, b]; exact ⟨fun h => absurd rfl h, Nat.zero_le _⟩
    · exact ⟨fun _ => b, c⟩
  · show (r.offset.small ≠ 0 → _ ≤ r.offset.small) ∧ r.offset.small + r.size.small ≤ _
    rcases g3 with ⟨a, b⟩ | ⟨_, b, c⟩
    · rw [a, b]; exact ⟨fun h => absurd rfl h, Nat.zero_le _⟩
    · exact ⟨fun _ => b, c⟩
  · show (r.offset.orig ≠ 0 → _ ≤ r.offset.orig) ∧ r.offset.orig + r.size.orig ≤ _
    exact ⟨fun _ => g1, g5⟩

/-- The hypothesis of `blob_region_bound_reachable` holds for the calls of
`sample_ops`; the table of `sample_env` ends at byte 10. -/
theorem blob_region_bound_reachable_witness :
    collision_free sample_env (inserted sample_ops) ∧
    ∀ r ∈ (run sample_env (do_create sample_env 2 [64, 64, 256, 256]).2 sample_ops).metadata,
      r.is_valid = NON_EMPTY →
      in_blob_region 10
        (run sample_env (do_create sample_env 2 [64, 64, 256, 256]).2 sample_ops).fpdb.length r :=
  ⟨by decide,
    blob_region_bound_reachable sample_env 2 [64, 64, 256, 256] sample_ops (by decide)⟩

/-! ## C15: a created database can be opened -/

theorem replicate_flatten_chunk {α : Type} (l : List α) :
    ∀ (k m : Nat), k < m →
      ((List.replicate m l).flatten.drop (k * l.length)).take l.length = l := by
  intro k
  induction k with
  | zero =>
    intro m hm
    obtain ⟨m1, rfl⟩ : ∃ m1, m = m1 + 1 := ⟨m - 1, by omega⟩
    rw [List.replicate_succ, List.flatten_cons, Nat.zero_mul, List.drop_zero, List.take_left']
    rfl
  | succ k ih =>
    intro m hm
    obtain ⟨m1, rfl⟩ : ∃ m1, m = m1 + 1 := ⟨m - 1, by omega⟩
    rw [List.replicate_succ, List.flatten_cons]
    have : (k + 1) * l.length = l.length + k * l.length := by ring
    rw [this, List.drop_append]
    exact ih m1 (by omega)

theorem do_create_header (env : Env) (max_files : Nat) (res_resized : List Nat) :
    (do_create env max_files res_resized).2.header =
      { db_name := CAT_TXT, db_version := 0, num_files := 0, max_files := max_files,
        res_resized := res_resized, unused_32 := 0, unused_64 := 0 } := by
  rfl

theorem do_create_metadata (env : Env) (max_files : Nat) (res_resized : List Nat) :
    (do_create env max_files res_resized).2.metadata =
      List.replicate max_files { zero_metadata with is_valid := EMPTY } := by
  simp [do_create, write_db_file_header]

/-- C15. For every `max_files` and `res_resized` given to `do_create`, when
`fread` gives back the header and the empty row that `fwrite` stored,
`do_create` returns 0 and `do_open` on the file it wrote returns 0 with the
database `do_create` built: the header with `db_name` "EPFL PictDB binary",
`db_version` 0, `num_files` 0, the caller's `max_files` and `res_resized` and
the reserved fields 0, and a table of exactly `max_files` rows, all `EMPTY`. -/
theorem create_open_round_trip (c : Codec) (max_files : Nat) (res_resized : List Nat)
    (hh : c.header_of_bytes
        (c.env.header_bytes (do_create c.env max_files res_resized).2.header)
      = (do_create c.env max_files res_resized).2.header)
    (hm : c.metadata_of_bytes (c.env.metadata_bytes { zero_metadata with is_valid := EMPTY })
      = { zero_metadata with is_valid := EMPTY }) :
    (do_create c.env max_files res_resized).1 = Code.OK ∧
    ∃ db, do_open c (do_create c.env max_files res_resized).2.fpdb = (Code.OK, some db) ∧
      db = (do_create c.env max_files res_resized).2 ∧
      db.header =
        { db_name := CAT_TXT, db_version := 0, num_files := 0, max_files := max_files,
          res_resized := res_resized, unused_32 := 0, unused_64 := 0 } ∧
      db.metadata.length = max_files ∧ ∀ r ∈ db.metadata, r.is_valid = EMPTY := by
  refine ⟨rfl, _, ?_, rfl, do_create_header c.env max_files res_resized, ?_, ?_⟩
  · have hf := do_create_fpdb c.env max_files res_resized
    have hlen := do_create_fpdb_length c.env max_files res_resized
    have hhl := c.env.header_bytes_length (do_create c.env max_files res_resized).2.header
    have hml := c.env.metadata_bytes_length { zero_metadata with is_valid := EMPTY }
    have hte : table_end c.env (do_create c.env max_files res_resized).2 =
        c.env.sizeof_header + max_files * c.env.sizeof_metadata := rfl
    have htake : (do_create c.env max_files res_resized).2.fpdb.take c.env.sizeof_header =
        c.env.header_bytes (do_create c.env max_files res_resized).2.header := by
      rw [hf, ← hhl, List.take_left']
      rfl
    have hmax : (do_create c.env max_files res_resized).2.header.max_files = max_files := rfl
    have hnum : (do_create c.env max_files res_resized).2.header.num_files = 0 := rfl
    unfold do_open
    rw [if_neg (by rw [hlen, hte]; omega)]
    simp only [htake, hh]
    rw [if_neg (by rw [hnum]; decide), if_neg (by rw [hlen, hte, hmax]; omega)]
    have hrows : (List.range (do_create c.env max_files res_resized).2.header.max_files).map
        (fun k => c.metadata_of_bytes
          (((do_create c.env max_files res_resized).2.fpdb.drop
            (c.env.sizeof_header + k * c.env.sizeof_metadata)).take c.env.sizeof_metadata)) =
        (do_create c.env max_files res_resized).2.metadata := by
      rw [do_create_metadata, hmax]
      apply List.ext_getElem
      · simp
      · intro k h1 h2
        simp only [List.length_map, List.length_range] at h1
        simp only [List.getElem_map, List.getElem_range, List.getElem_replicate]
        rw [hf, ← hhl, List.drop_append, ← hml, replicate_flatten_chunk _ k max_files h1, hm]
    rw [hrows]
  · rw [do_create_metadata, List.length_replicate]
  · intro r hr
    rw [do_create_metadata] at hr
    rw [List.eq_of_mem_replicate hr]

/-- The hypotheses of `create_open_round_trip` hold for the layout
`layout_codec`, here with `max_files = 2` and the resolutions 64 x 64 and
256 x 256. -/
theorem create_open_round_trip_witness :
    layout_codec.header_of_bytes
        (layout_codec.env.header_bytes (do_create layout_codec.env 2 [64, 64, 256, 256]).2.header)
      = (do_create layout_codec.env 2 [64, 64, 256, 256]).2.header ∧
    layout_codec.metadata_of_bytes
        (layout_codec.env.metadata_bytes { zero_metadata with is_valid := EMPTY })
      = { zero_metadata with is_valid := EMPTY } ∧
    (do_create layout_codec.env 2 [64, 64, 256, 256]).1 = Code.OK ∧
    ∃ db, do_open layout_codec (do_create layout_codec.env 2 [64, 64, 256, 256]).2.fpdb
        = (Code.OK, some db) ∧
      db = (do_create layout_codec.env 2 [64, 64, 256, 256]).2 ∧
      db.header =
        { db_name := CAT_TXT, db_version := 0, num_files := 0, max_files := 2,
          res_resized := [64, 64, 256, 256], unused_32 := 0, unused_64 := 0 } ∧
      db.metadata.length = 2 ∧ ∀ r ∈ db.metadata, r.is_valid = EMPTY :=
  ⟨by decide, by decide,
    create_open_round_trip layout_codec 2 [64, 64, 256, 256] (by decide) (by decide)⟩

/-! ## Reading an original -/

theorem lazily_resize_orig_eq (env : Env) (db : pictdb_file) (index : Nat) :
    lazily_resize env RES_ORIG db index = (Code.OK, db) := by
  unfold lazily_resize
  rw [if_pos rfl]

theorem read_db_file_image_orig (db : pictdb_file) (i : Nat) (r : pict_metadata)
    (hrow : db.metadata[i]? = some r) :
    read_db_file_image i RES_ORIG db =
      if r.size.orig = 0 then ( Code.ERR_IO, [])
      else if r.offset.orig + r.size.orig ≤ db.fpdb.length then
        (Code.OK, (db.fpdb.drop r.offset.orig).take r.size.orig)
      else ( Code.ERR_IO, []) := by
  unfold read_db_file_image read_disk_image
  simp only [hrow, res_array_get_orig]

/-- Reading the original of an occupied row of a database with unique
identifiers: the call succeeds exactly when the range of the original is not
empty and lies in the file, and delivers the bytes of that range. -/
theorem do_read_orig_spec (env : Env) (db : pictdb_file) (i : Nat) (r : pict_metadata)
    (halloc : table_allocated db) (huniq : unique_ids db)
    (hrow : db.metadata[i]? = some r) (hv : r.is_valid = NON_EMPTY) :
    (do_read env r.pict_id RES_ORIG db).db = db ∧
    ((do_read env r.pict_id RES_ORIG db).code = Code.OK ↔
      (r.size.orig ≠ 0 ∧ r.offset.orig + r.size.orig ≤ db.fpdb.length)) ∧
    ((do_read env r.pict_id RES_ORIG db).code = Code.OK →
      do_read env r.pict_id RES_ORIG db =
        ⟨Code.OK, db, some r.size.orig,
          some ((db.fpdb.drop r.offset.orig).take r.size.orig)⟩) := by
  have hidx : get_image_index r.pict_id db = (Code.OK, i) :=
    get_image_index_found r.pict_id db i r halloc hrow hv rfl
      (unique_ids_first db huniq i r hrow hv)
  have hrd := read_db_file_image_orig db i r hrow
  have hunf : do_read env r.pict_id RES_ORIG db =
      if (read_db_file_image i RES_ORIG db).1 ≠ Code.OK then
        ⟨(read_db_file_image i RES_ORIG db).1, db, some r.size.orig, none⟩
      else ⟨Code.OK, db, some r.size.orig, some (read_db_file_image i RES_ORIG db).2⟩ := by
    unfold do_read
    rw [if_neg (by decide)]
    simp only [hidx, lazily_resize_orig_eq, hrow, res_array_get_orig]
    rw [if_neg (by decide), if_neg (by decide)]
  rw [hunf, hrd]
  by_cases h1 : r.size.orig = 0
  · simp [h1]
  · by_cases h2 : r.offset.orig + r.size.orig ≤ db.fpdb.length
    · simp [h1, h2]
    · simp [h1, h2]

theorem slice_of_drop_eq {α : Type} (f f1 : List α) (te off n : Nat)
    (h : f1.drop te = f.drop te) (hoff : te ≤ off) :
    (f1.drop off).take n = (f.drop off).take n := by
  have e : off = te + (off - te) := by omega
  rw [e, ← List.drop_drop, ← List.drop_drop, h]

theorem slice_append {α : Type} (f x : List α) (off n : Nat) (h : off + n ≤ f.length) :
    ((f ++ x).drop off).take n = (f.drop off).take n := by
  rw [List.drop_append_of_le_length (by omega), List.take_append_of_le_length]
  rw [List.length_drop]
  omega
/-- A successful `lazily_resize` on an occupied row of a database with the
core invariant: nothing changes when the variant is there; otherwise a block
of `ns` bytes is appended and the row and the occupied rows with its digest take
it as their variant. -/
theorem lazily_resize_core_ok (env : Env) (dim : Nat) (db dbL : pictdb_file) (index : Nat)
    (row0 : pict_metadata) (hinv : core_inv env db)
    (hdim : dim = RES_THUMB ∨ dim = RES_SMALL)
    (hrow : db.metadata[index]? = some row0) (hv : row0.is_valid = NON_EMPTY)
    (h : lazily_resize env dim db index = (Code.OK, dbL)) :
    (row0.size.get dim ≠ 0 ∧ dbL = db) ∨
    (row0.size.get dim = 0 ∧ ∃ (ns : Nat) (x : List Nat), ns ≠ 0 ∧ x.length = ns ∧
      dbL.header = db.header ∧
      dbL.fpdb.length = db.fpdb.length + ns ∧
      dbL.fpdb.drop (table_end env db) = (db.fpdb ++ x).drop (table_end env db) ∧
      (∀ (k : Nat) (r : pict_metadata), db.metadata[k]? = some r →
        (k = index ∨ (r.is_valid = NON_EMPTY ∧ r.SHA = row0.SHA)) →
        dbL.metadata[k]? = some (resized_row dim ns db.fpdb.length r)) ∧
      (∀ (k : Nat) (r : pict_metadata), db.metadata[k]? = some r →
        ¬ (k = index ∨ (r.is_valid = NON_EMPTY ∧ r.SHA = row0.SHA)) →
        dbL.metadata[k]? = some r)) := by
  obtain ⟨r0, row, tab, db1, h1, _, h3, h4, h5⟩ := lazily_resize_ok env dim db index dbL hdim h
  rw [hrow] at h1; cases h1
  obtain ⟨e1, htab⟩ := get_dup_index_and_update_core env db index row0 tab db1 hinv hrow hv h3
  subst e1
  rw [hrow] at h4; cases h4
  have halloc : db1.metadata.length = db1.header.max_files := hinv.alloc
  rcases h5 with ⟨h5, h6⟩ | ⟨h5, buf, out, _, _, hns, hl⟩
  · exact Or.inl ⟨h5, h6⟩
  · right
    refine ⟨h5, out.length % UINT32_MOD, out.take (out.length % UINT32_MOD), hns, ?_, ?_⟩
    · rw [List.length_take]
      have := Nat.mod_le out.length UINT32_MOD
      omega
    obtain ⟨f1, _⟩ := resize_update_loop_frame env dim _ _ _ _ _ hl
    have f3 := resize_update_loop_rows env dim _ _ _ _ _ hl
    have hlen0 : (db1.fpdb ++ out.take (out.length % UINT32_MOD)).length =
        db1.fpdb.length + out.length % UINT32_MOD := by
      rw [List.length_append, List.length_take]
      have := Nat.mod_le out.length UINT32_MOD
      omega
    obtain ⟨f4, f5⟩ := resize_update_loop_file env dim _ _ _
      { db1 with fpdb := db1.fpdb ++ out.take (out.length % UINT32_MOD) } _ hinv.alloc
      (by show table_end env db1 ≤
            (db1.fpdb ++ out.take (out.length % UINT32_MOD)).length
          rw [hlen0]; have := hinv.file_ge; omega) hl
    have hin : ∀ (k : Nat) (r : pict_metadata), db1.metadata[k]? = some r →
        (k ∈ tab ↔ (k = index ∨ (r.is_valid = NON_EMPTY ∧ r.SHA = row0.SHA))) := by
      intro k r hr
      rw [htab k]
      have hk := getElem?_lt_length _ _ _ hr
      constructor
      · rintro (hk1 | ⟨_, _, r1, hr1, hv1, hs1⟩)
        · exact Or.inl hk1
        · rw [hr] at hr1; cases hr1
          exact Or.inr ⟨hv1, hs1⟩
      · rintro (hk1 | ⟨hv1, hs1⟩)
        · exact Or.inl hk1
        · by_cases hki : k = index
          · exact Or.inl hki
          · exact Or.inr ⟨by omega, hki, r, hr, hv1, hs1⟩
    refine ⟨f1, by rw [f4]; exact hlen0, f5, ?_, ?_⟩
    · intro k r hr hc
      rw [f3 k, if_pos ((hin k r hr).mpr hc)]
      show (db1.metadata[k]?).map _ = _
      rw [hr]; rfl
    · intro k r hr hc
      rw [f3 k, if_neg (fun hm => hc ((hin k r hr).mp hm))]
      exact hr
/-! ## The table in the file -/

theorem flatten_chunks {α : Type} (sz : Nat) :
    ∀ (L : List (List α)) (k : Nat), (∀ l ∈ L, l.length = sz) → k ≤ L.length →
      L.flatten.take (k * sz) = (L.take k).flatten ∧
      L.flatten.drop (k * sz) = (L.drop k).flatten := by
  intro L
  induction L with
  | nil =>
    intro k _ hk
    simp at hk
    subst hk
    simp
  | cons a L ih =>
    intro k hL hk
    cases k with
    | zero => simp
    | succ k =>
      have ha : a.length = sz := hL a (by simp)
      obtain ⟨e1, e2⟩ := ih k (fun l hl => hL l (by simp [hl])) (by simpa using hk)
      have hk1 : (k + 1) * sz = a.length + k * sz := by rw [ha]; ring
      constructor
      · rw [List.flatten_cons, hk1, List.take_append, e1, List.take_succ_cons, List.flatten_cons]
      · rw [List.flatten_cons, hk1, List.drop_append, e2, List.drop_succ_cons]

theorem write_at_append (A B : List Nat) (off : Nat) (bs : List Nat)
    (h : off + bs.length ≤ A.length) :
    write_at (A ++ B) off bs = write_at A off bs ++ B := by
  unfold write_at
  have e1 : off - (A ++ B).length = 0 := by rw [List.length_append]; omega
  have e2 : off - A.length = 0 := by omega
  rw [e1, e2, List.take_append_of_le_length (by omega), List.drop_append_of_le_length h]
  simp only [List.replicate_zero, List.append_nil, List.append_assoc]

theorem write_at_take (f : List Nat) (off : Nat) (bs : List Nat) (n : Nat)
    (h1 : off + bs.length ≤ n) (h2 : n ≤ f.length) :
    (write_at f off bs).take n = write_at (f.take n) off bs := by
  have hn : (f.take n).length = n := by rw [List.length_take]; omega
  have hw : (write_at (f.take n) off bs).length = n := by
    rw [write_at_length, hn]; omega
  conv_lhs => rw [← List.take_append_drop n f]
  rw [write_at_append _ _ _ _ (by rw [hn]; exact h1)]
  exact List.take_left' hw

theorem flatten_length_chunks {α : Type} (sz : Nat) :
    ∀ (L : List (List α)), (∀ l ∈ L, l.length = sz) → L.flatten.length = L.length * sz := by
  intro L
  induction L with
  | nil => intro _; simp
  | cons a L ih =>
    intro hL
    rw [List.flatten_cons, List.length_append, ih (fun l hl => hL l (by simp [hl])),
      hL a (by simp), List.length_cons]
    ring

theorem write_at_header (H H1 R : List Nat) (h : H1.length = H.length) :
    write_at (H ++ R) 0 H1 = H1 ++ R := by
  unfold write_at
  simp only [List.take_zero, Nat.zero_sub, List.replicate_zero, List.nil_append, Nat.zero_add]
  rw [h, List.drop_left]

theorem write_at_row (env : Env) (H : List Nat) (md : List pict_metadata) (k : Nat)
    (t : pict_metadata) (hH : H.length = env.sizeof_header) (hk : k < md.length) :
    write_at (H ++ (md.map env.metadata_bytes).flatten)
        (env.sizeof_header + k * env.sizeof_metadata) (env.metadata_bytes t) =
      H ++ ((md.set k t).map env.metadata_bytes).flatten := by
  have hL : ∀ l ∈ md.map env.metadata_bytes, l.length = env.sizeof_metadata := by
    intro l hl
    obtain ⟨m, _, e⟩ := List.mem_map.mp hl
    rw [← e]; exact env.metadata_bytes_length m
  obtain ⟨e1, _⟩ := flatten_chunks env.sizeof_metadata (md.map env.metadata_bytes) k hL
    (by rw [List.length_map]; omega)
  obtain ⟨_, e2⟩ := flatten_chunks env.sizeof_metadata (md.map env.metadata_bytes) (k + 1) hL
    (by rw [List.length_map]; omega)
  have hflen : (md.map env.metadata_bytes).flatten.length = md.length * env.sizeof_metadata := by
    rw [flatten_length_chunks env.sizeof_metadata _ hL, List.length_map]
  have hkl : k * env.sizeof_metadata + env.sizeof_metadata ≤ md.length * env.sizeof_metadata := by
    have : (k + 1) * env.sizeof_metadata ≤ md.length * env.sizeof_metadata :=
      Nat.mul_le_mul_right _ (by omega)
    rw [Nat.add_mul, Nat.one_mul] at this
    exact this
  unfold write_at
  have z : env.sizeof_header + k * env.sizeof_metadata -
      (H ++ (md.map env.metadata_bytes).flatten).length = 0 := by
    rw [List.length_append, hH, hflen]; omega
  rw [z]
  simp only [List.replicate_zero, List.append_nil]
  rw [← hH, List.take_append, e1, env.metadata_bytes_length, Nat.add_assoc, List.drop_append,
    ← Nat.add_one_mul, e2]
  have hset : (md.set k t).map env.metadata_bytes =
      (md.map env.metadata_bytes).take k ++ env.metadata_bytes t ::
        (md.map env.metadata_bytes).drop (k + 1) := by
    rw [List.map_set, List.set_eq_take_append_cons_drop]
    rw [if_pos (by rw [List.length_map]; exact hk)]
  rw [hset, List.flatten_append, List.flatten_cons]
  simp only [List.append_assoc]
theorem table_take_row (env : Env) (f : List Nat) (hdr : pictdb_header)
    (md : List pict_metadata) (k : Nat) (t : pict_metadata) (te : Nat)
    (hte : te = env.sizeof_header + md.length * env.sizeof_metadata) (hf : te ≤ f.length)
    (hs : f.take te = env.header_bytes hdr ++ (md.map env.metadata_bytes).flatten)
    (hk : k < md.length) :
    (write_at f (row_pos env k) (env.metadata_bytes t)).take te =
      env.header_bytes hdr ++ ((md.set k t).map env.metadata_bytes).flatten := by
  have hend : row_pos env k + (env.metadata_bytes t).length ≤ te := by
    rw [env.metadata_bytes_length, hte]
    unfold row_pos
    have : (k + 1) * env.sizeof_metadata ≤ md.length * env.sizeof_metadata :=
      Nat.mul_le_mul_right _ (by omega)
    rw [Nat.add_mul, Nat.one_mul] at this
    omega
  rw [write_at_take _ _ _ _ hend hf, hs]
  exact write_at_row env _ md k t (env.header_bytes_length hdr) hk

theorem table_take_header (env : Env) (f : List Nat) (hdr hdr1 : pictdb_header)
    (md : List pict_metadata) (te : Nat)
    (hte : te = env.sizeof_header + md.length * env.sizeof_metadata) (hf : te ≤ f.length)
    (hs : f.take te = env.header_bytes hdr ++ (md.map env.metadata_bytes).flatten) :
    (write_at f 0 (env.header_bytes hdr1)).take te =
      env.header_bytes hdr1 ++ (md.map env.metadata_bytes).flatten := by
  rw [write_at_take _ _ _ _ (by rw [env.header_bytes_length, hte]; omega) hf, hs]
  exact write_at_header _ _ _ (by rw [env.header_bytes_length, env.header_bytes_length])

theorem table_end_alloc (env : Env) (db : pictdb_file) (halloc : table_allocated db) :
    table_end env db = env.sizeof_header + db.metadata.length * env.sizeof_metadata := by
  have : db.metadata.length = db.header.max_files := halloc
  unfold table_end
  rw [this]

/-- The two writes that end `do_insert`, after a block was appended, leave the
file in step with the header and the table. -/
theorem synced_commit (env : Env) (T Ti : pictdb_file) (k : Nat) (row t : pict_metadata)
    (x : List Nat) (halloc : table_allocated T) (hfg : table_end env T ≤ T.fpdb.length)
    (hs : synced env T) (hmax : Ti.header.max_files = T.header.max_files)
    (hrow : T.metadata[k]? = some row) (hmd : Ti.metadata = T.metadata.set k t)
    (hf : Ti.fpdb = commit_file env (T.fpdb ++ x) Ti.header k t) : synced env Ti := by
  have hte := table_end_alloc env T halloc
  have hteI : table_end env Ti = table_end env T := by unfold table_end; rw [hmax]
  have hk := getElem?_lt_length _ _ _ hrow
  unfold synced table_image
  rw [hteI, hf, hmd]
  unfold commit_file
  have h0 : (T.fpdb ++ x).take (table_end env T) =
      env.header_bytes T.header ++ (T.metadata.map env.metadata_bytes).flatten := by
    rw [List.take_append_of_le_length hfg]
    exact hs
  have h1 := table_take_header env (T.fpdb ++ x) T.header Ti.header T.metadata _ hte
    (by rw [List.length_append]; omega) h0
  exact table_take_row env _ Ti.header T.metadata k t _ hte
    (by rw [write_at_length, List.length_append]; omega) h1 hk

theorem synced_resize_update_loop (env : Env) (dim ns off : Nat) :
    ∀ (tab : List Nat) (db db1 : pictdb_file),
      table_allocated db → table_end env db ≤ db.fpdb.length → synced env db →
      resize_update_loop env dim ns off tab db = some db1 → synced env db1 := by
  intro tab
  induction tab with
  | nil =>
    intro db db1 _ _ hs h
    simp only [resize_update_loop, Option.some.injEq] at h
    subst h
    exact hs
  | cons k0 tab ih =>
    intro db db1 halloc hfg hs h
    unfold resize_update_loop at h
    cases hk : db.metadata[k0]? with
    | none => simp [hk] at h
    | some r =>
      have hkl := getElem?_lt_length _ _ _ hk
      have hte := table_end_alloc env db halloc
      simp only [hk, write_db_file_one_metadata, List.getElem?_set_self hkl] at h
      have hrow := table_take_row env db.fpdb db.header db.metadata k0
        (resized_row dim ns off r) _ hte hfg hs hkl
      have hlen1 : (write_at db.fpdb (env.sizeof_header + k0 * env.sizeof_metadata)
          (env.metadata_bytes (resized_row dim ns off r))).length = db.fpdb.length := by
        have hk0 : k0 < db.header.max_files := by
          have : db.metadata.length = db.header.max_files := halloc
          omega
        have hend := row_end_le_table_end env db k0 hk0
        have hpos : row_pos env k0 = env.sizeof_header + k0 * env.sizeof_metadata := rfl
        rw [write_at_length, env.metadata_bytes_length]
        omega
      exact ih
        { fpdb := write_at db.fpdb (env.sizeof_header + k0 * env.sizeof_metadata)
            (env.metadata_bytes (resized_row dim ns off r)),
          header := db.header,
          metadata := db.metadata.set k0 (resized_row dim ns off r) } db1
        (by show (db.metadata.set k0 _).length = db.header.max_files
            rw [List.length_set]; exact halloc)
        (by show table_end env db ≤ (write_at db.fpdb _ _).length
            rw [hlen1]; exact hfg)
        hrow h

/-- A successful `lazily_resize` on an occupied row keeps the file in step with
the table. -/
theorem lazily_resize_synced (env : Env) (dim : Nat) (db dbL : pictdb_file) (index : Nat)
    (row0 : pict_metadata) (hinv : core_inv env db) (hs : synced env db)
    (hdim : dim = RES_THUMB ∨ dim = RES_SMALL)
    (hrow : db.metadata[index]? = some row0) (hv : row0.is_valid = NON_EMPTY)
    (h : lazily_resize env dim db index = (Code.OK, dbL)) : synced env dbL := by
  obtain ⟨r0, row, tab, db1, h1, _, h3, h4, h5⟩ := lazily_resize_ok env dim db index dbL hdim h
  rw [hrow] at h1; cases h1
  obtain ⟨e1, _⟩ := get_dup_index_and_update_core env db index row0 tab db1 hinv hrow hv h3
  subst e1
  rcases h5 with ⟨_, h6⟩ | ⟨_, buf, out, _, _, _, hl⟩
  · rw [h6]; exact hs
  · have hfg := hinv.file_ge
    refine synced_resize_update_loop env dim _ _ tab
      { db1 with fpdb := db1.fpdb ++ out.take (out.length % UINT32_MOD) } dbL hinv.alloc
      (by show table_end env db1 ≤ (db1.fpdb ++ _).length
          rw [List.length_append]; omega) ?_ hl
    show (db1.fpdb ++ _).take (table_end env db1) = table_image env db1
    rw [List.take_append_of_le_length hfg]
    exact hs

theorem synced_create (env : Env) (max_files : Nat) (res_resized : List Nat) :
    synced env (do_create env max_files res_resized).2 := by
  unfold synced
  rw [← do_create_fpdb_length, List.take_length, do_create_fpdb]
  unfold table_image
  rw [do_create_metadata, List.map_replicate]

/-! ## The loop of `do_gbcollect` -/

theorem occupied_succ (db : pictdb_file) (n : Nat) :
    occupied db (n + 1) = occupied db n ++
      (match db.metadata[n]? with
        | some r => if r.is_valid = NON_EMPTY then [n] else []
        | none => []) := by
  unfold occupied
  rw [List.range_succ, List.filter_append]
  congr 1
  cases h : db.metadata[n]? with
  | none => simp [List.filter, h]
  | some r =>
    by_cases hv : r.is_valid = NON_EMPTY
    · simp [List.filter, h, hv]
    · simp [List.filter, h, hv]

theorem occupied_mem (db : pictdb_file) (n i : Nat) (h : i ∈ occupied db n) :
    i < n ∧ ∃ r, db.metadata[i]? = some r ∧ r.is_valid = NON_EMPTY := by
  unfold occupied at h
  rw [List.mem_filter, List.mem_range] at h
  refine ⟨h.1, ?_⟩
  cases hr : db.metadata[i]? with
  | none => rw [hr] at h; simp at h
  | some r =>
    rw [hr] at h
    exact ⟨r, rfl, by simpa using h.2⟩

/-- What a turn of the loop that returns 0 has called. -/
theorem gbcollect_turn_ok (env : Env) (S T S1 T1 : pictdb_file) (n k k1 : Nat)
    (r : pict_metadata) (hr : S.metadata[n]? = some r)
    (h : gbcollect_turn env n (S, T, k) = (Code.OK, S1, T1, k1)) :
    (r.is_valid ≠ NON_EMPTY ∧ S1 = S ∧ T1 = T ∧ k1 = k) ∨
    (r.is_valid = NON_EMPTY ∧ k1 = k + 1 ∧
      S1 = (do_read env r.pict_id RES_ORIG S).db ∧
      (do_read env r.pict_id RES_ORIG S).code = Code.OK ∧
      ∃ (buf : List Nat) (r1 : pict_metadata) (Ti Ts : pictdb_file),
        (do_read env r.pict_id RES_ORIG S).image_buffer = some buf ∧
        do_insert env buf r.pict_id T = (Code.OK, Ti) ∧
        S1.metadata[n]? = some r1 ∧
        (r1.size.small ≠ 0 → lazily_resize env RES_SMALL Ti k = (Code.OK, Ts)) ∧
        (r1.size.small = 0 → Ts = Ti) ∧
        (r1.size.thumb ≠ 0 → lazily_resize env RES_THUMB Ts k = (Code.OK, T1)) ∧
        (r1.size.thumb = 0 → T1 = Ts)) := by
  unfold gbcollect_turn at h
  simp only [hr] at h
  by_cases hv : NON_EMPTY = r.is_valid
  · right
    rw [if_pos hv] at h
    try dsimp only at h
    by_cases h1 : (do_read env r.pict_id RES_ORIG S).code ≠ Code.OK
    · rw [if_pos h1] at h
      simp only [Prod.mk.injEq] at h
      exact absurd h.1 h1
    rw [if_neg h1] at h
    cases hb : (do_read env r.pict_id RES_ORIG S).image_buffer with
    | none => rw [hb] at h; simp at h
    | some buf =>
      rw [hb] at h
      try dsimp only at h
      by_cases h2 : (do_insert env buf r.pict_id T).1 ≠ Code.OK
      · rw [if_pos h2] at h
        simp only [Prod.mk.injEq] at h
        exact absurd h.1 h2
      rw [if_neg h2] at h
      cases hm : (do_read env r.pict_id RES_ORIG S).db.metadata[n]? with
      | none => rw [hm] at h; simp at h
      | some r1 =>
        rw [hm] at h
        try dsimp only at h
        by_cases h3 : (if 0 ≠ r1.size.small then
            lazily_resize env RES_SMALL (do_insert env buf r.pict_id T).2 k
            else (Code.OK, (do_insert env buf r.pict_id T).2)).1 ≠ Code.OK
        · rw [if_pos h3] at h
          simp only [Prod.mk.injEq] at h
          exact absurd h.1 h3
        rw [if_neg h3] at h
        by_cases h4 : (if 0 ≠ r1.size.thumb then
            lazily_resize env RES_THUMB (if 0 ≠ r1.size.small then
              lazily_resize env RES_SMALL (do_insert env buf r.pict_id T).2 k
              else (Code.OK, (do_insert env buf r.pict_id T).2)).2 k
            else (Code.OK, (if 0 ≠ r1.size.small then
              lazily_resize env RES_SMALL (do_insert env buf r.pict_id T).2 k
              else (Code.OK, (do_insert env buf r.pict_id T).2)).2)).1 ≠ Code.OK
        · rw [if_pos h4] at h
          simp only [Prod.mk.injEq] at h
          exact absurd h.1 h4
        rw [if_neg h4] at h
        simp only [Prod.mk.injEq, true_and] at h
        obtain ⟨e1, e2, e3⟩ := h
        refine ⟨hv.symm, e3.symm, e1.symm, not_not.mp h1, buf, r1,
          (do_insert env buf r.pict_id T).2,
          (if 0 ≠ r1.size.small then
              lazily_resize env RES_SMALL (do_insert env buf r.pict_id T).2 k
              else (Code.OK, (do_insert env buf r.pict_id T).2)).2, rfl,
          Prod.ext (not_not.mp h2) rfl, by rw [← e1]; exact hm, ?_, ?_, ?_, ?_⟩
        · intro hs
          have hs' : 0 ≠ r1.size.small := fun hc => hs hc.symm
          rw [if_pos hs'] at h3 ⊢
          exact Prod.ext (not_not.mp h3) rfl
        · intro hs
          rw [if_neg (by rw [hs]; simp)]
        · intro ht
          have ht' : 0 ≠ r1.size.thumb := fun hc => ht hc.symm
          rw [if_pos ht'] at h4 e2
          rw [← e2]
          exact Prod.ext (not_not.mp h4) rfl
        · intro ht
          rw [if_neg (by rw [ht]; simp)] at e2
          exact e2.symm
  · left
    rw [if_neg hv] at h
    simp only [Prod.mk.injEq, true_and] at h
    exact ⟨fun hc => hv hc.symm, h.1.symm, h.2.1.symm, h.2.2.symm⟩
theorem blob_at_length (db : pictdb_file) (off size : Nat) (h : off + size ≤ db.fpdb.length) :
    (blob_at db off size).length = size := by
  unfold blob_at
  rw [List.length_take, List.length_drop]
  omega

/-- The file of `T1` keeps the bytes of the file of `T` after the table. -/
theorem blob_at_ext (T T1 : pictdb_file) (te off size : Nat) (x : List Nat)
    (hf : T1.fpdb.drop te = (T.fpdb ++ x).drop te) (hte : te ≤ off)
    (hin : off + size ≤ T.fpdb.length) :
    blob_at T1 off size = blob_at T off size := by
  unfold blob_at
  rw [slice_of_drop_eq _ _ te off size hf hte, slice_append _ _ _ _ hin]

theorem orig_copied_ext (env : Env) (S T T1 : pictdb_file) (r t t1 : pict_metadata)
    (x : List Nat) (hte : table_end env T ≤ t.offset.orig)
    (hf : T1.fpdb.drop (table_end env T) = (T.fpdb ++ x).drop (table_end env T))
    (hlen : T.fpdb.length ≤ T1.fpdb.length)
    (hv : t1.is_valid = t.is_valid) (hp : t1.pict_id = t.pict_id) (hs : t1.SHA = t.SHA)
    (hsz : t1.size.orig = t.size.orig) (hoff : t1.offset.orig = t.offset.orig)
    (h : orig_copied S T r t) : orig_copied S T1 r t1 := by
  obtain ⟨h1, h2, h3, h4, h5, h6, h7, h8, h9⟩ := h
  refine ⟨h1, by rw [hv]; exact h2, by rw [hp]; exact h3, by rw [hs]; exact h4,
    by rw [hsz]; exact h5, h6, h7, by rw [hoff, hsz]; omega, ?_⟩
  rw [hoff, hsz, blob_at_ext T T1 _ _ _ x hf hte h8]
  exact h9

theorem covered_of_row (db : pictdb_file) (p j : Nat) (t : pict_metadata) (v : Nat)
    (ht : db.metadata[j]? = some t) (hv : t.is_valid = NON_EMPTY)
    (hvm : v ∈ [RES_THUMB, RES_SMALL, RES_ORIG])
    (h1 : t.offset.get v ≤ p) (h2 : p < t.offset.get v + t.size.get v) : covered db p :=
  ⟨t, mem_of_getElem? _ _ _ ht, hv, v, hvm, h1, h2⟩

theorem covered_row (db : pictdb_file) (p : Nat) (h : covered db p) :
    ∃ (j : Nat) (t : pict_metadata) (v : Nat), db.metadata[j]? = some t ∧
      t.is_valid = NON_EMPTY ∧ v ∈ [RES_THUMB, RES_SMALL, RES_ORIG] ∧
      t.offset.get v ≤ p ∧ p < t.offset.get v + t.size.get v := by
  obtain ⟨t, ht, hv, v, hvm, h1, h2⟩ := h
  obtain ⟨j, hj, e⟩ := List.getElem_of_mem ht
  exact ⟨j, t, v, by rw [← e]; exact List.getElem?_eq_getElem hj, hv, hvm, h1, h2⟩

/-- The slot that `do_insert` takes in the temporary database is `newIndex`. -/
theorem gc_slot (env : Env) (S T : pictdb_file) (n k idx : Nat) (row : pict_metadata)
    (hinv : gc_inv env S T n k)
    (hscan : insert_scan T.metadata (T.metadata.length + 1) 0 = some idx)
    (hrow : T.metadata[idx]? = some row) (hrowv : row.is_valid = EMPTY) : idx = k := by
  obtain ⟨_, _, hmin⟩ := insert_scan_spec T.metadata _ 0 idx hscan
  have h1 : k ≤ idx := by
    by_contra hc
    have hlt : idx < (occupied S n).length := by rw [← hinv.hk]; omega
    obtain ⟨_, t, _, ht, hoc, _⟩ := hinv.corr idx _ (List.getElem?_eq_getElem hlt)
    rw [hrow] at ht; cases ht
    rw [hoc.2.1] at hrowv
    exact absurd hrowv (by decide)
  have h2 : idx ≤ k := by
    by_contra hc
    obtain ⟨t, ht, hne⟩ := hmin k (Nat.zero_le _) (by omega)
    exact hne (hinv.hi k t ht (le_refl _))
  omega
theorem res_array_get_thumb (a : res_array) : a.get RES_THUMB = a.thumb := rfl

theorem res_array_get_small (a : res_array) : a.get RES_SMALL = a.small := rfl

/-- The state inside a turn, from the effect of the insertion on the temporary
database: slot `k` filled with `t`, the file extended by the block `x`. -/
theorem gc_mid_of_insert (env : Env) (S T Ti : pictdb_file) (n k : Nat)
    (r row t : pict_metadata) (x : List Nat) (pend : Nat → Prop)
    (hinv : gc_inv env S T n k) (hcoreI : core_inv env Ti)
    (hmaxI : Ti.header.max_files = T.header.max_files)
    (hrow : T.metadata[k]? = some row)
    (hmd : Ti.metadata = T.metadata.set k t)
    (hf : Ti.fpdb.drop (table_end env T) = (T.fpdb ++ x).drop (table_end env T))
    (hlen : Ti.fpdb.length = T.fpdb.length + x.length) (hsync : synced env Ti)
    (horig : orig_copied S Ti r t)
    (hnew : ∀ p, T.fpdb.length ≤ p → p < Ti.fpdb.length → covered Ti p)
    (hvar : ∀ v, v = RES_THUMB ∨ v = RES_SMALL →
      (t.size.get v ≠ 0 ↔ r.size.get v ≠ 0) ∨
      (pend v ∧ t.size.get v = 0 ∧
        ∀ (j : Nat) (t1 : pict_metadata), j ≠ k → Ti.metadata[j]? = some t1 →
          t1.is_valid = NON_EMPTY → t1.SHA ≠ t.SHA)) :
    gc_mid env S Ti n k r t pend := by
  have hteI : table_end env Ti = table_end env T := by unfold table_end; rw [hmaxI]
  have hklt : k < T.metadata.length := getElem?_lt_length _ _ _ hrow
  have hother : ∀ j, j ≠ k → Ti.metadata[j]? = T.metadata[j]? := by
    intro j hj
    rw [hmd, List.getElem?_set_ne (Ne.symm hj)]
  have hrowE : row.is_valid = EMPTY := hinv.hi k row hrow (le_refl _)
  refine ⟨hcoreI, hmaxI.trans hinv.hmax, hinv.hk, ?_, ?_, ?_, ?_, horig, hvar, hsync⟩
  · intro j t1 h1 hj
    rw [hother j (by omega)] at h1
    exact hinv.hi j t1 h1 (by omega)
  · intro p i hp
    have hpk : p < k := by
      have := getElem?_lt_length _ _ _ hp
      rw [hinv.hk]; exact this
    obtain ⟨r1, t1, h1, h2, h3, h4⟩ := hinv.corr p i hp
    refine ⟨r1, t1, h1, by rw [hother p (by omega)]; exact h2, ?_, h4⟩
    exact orig_copied_ext env S T Ti r1 t1 t1 x (hinv.core.rows p t1 h2 h3.2.1).1 hf
      (by omega) rfl rfl rfl rfl rfl h3
  · intro p hp hte
    rw [hteI] at hte
    by_cases hpT : p < T.fpdb.length
    · obtain ⟨j, t1, v, h1, h2, h3, h4, h5⟩ := covered_row T p (hinv.cover p hpT hte)
      have hjk : j ≠ k := by
        intro hc
        subst hc
        rw [hrow] at h1; cases h1
        rw [hrowE] at h2
        exact absurd h2 (by decide)
      exact covered_of_row Ti p j t1 v (by rw [hother j hjk]; exact h1) h2 h3 h4 h5
    · exact hnew p (by omega) hp
  · rw [hmd]
    exact List.getElem?_set_self hklt

/-- The turn of an occupied row, after `do_insert`: the original of the row is
in slot `newIndex` of the temporary database. -/
theorem gc_insert_step (env : Env) (S T Ti : pictdb_file) (n k : Nat) (r : pict_metadata)
    (buf : List Nat) (hcons : consistent env S) (hinv : gc_inv env S T n k)
    (hr : S.metadata[n]? = some r) (hv : r.is_valid = NON_EMPTY)
    (hrd : (do_read env r.pict_id RES_ORIG S).code = Code.OK)
    (hbuf : (do_read env r.pict_id RES_ORIG S).image_buffer = some buf)
    (hins : do_insert env buf r.pict_id T = (Code.OK, Ti)) :
    ∃ t, gc_mid env S Ti n k r t (fun _ => True) := by
  obtain ⟨hallocS, huniqS, hrowsS, hshareS⟩ := hcons
  have hrm := mem_of_getElem? _ _ _ hr
  obtain ⟨hidlen, hsz32, hsha, hth, hsm⟩ := hrowsS r hrm hv
  obtain ⟨_, hiff, heq⟩ := do_read_orig_spec env S n r hallocS huniqS hr hv
  obtain ⟨hsz0, hrange⟩ := hiff.mp hrd
  have hbufeq : buf = blob_at S r.offset.orig r.size.orig := by
    have := heq hrd
    rw [this] at hbuf
    simp only [Option.some.injEq] at hbuf
    exact hbuf.symm
  have hbuflen : buf.length = r.size.orig := by
    rw [hbufeq]; exact blob_at_length S _ _ hrange
  have hcore := hinv.core
  have halloc := hcore.alloc
  obtain ⟨idx, row, t, _, hscan, hrow, hrowv, hmd, hhdr, htv, htp, hts, htsz, _, _, hbr⟩ :=
    do_insert_ok env buf r.pict_id T Ti halloc hins
  have hidx := gc_slot env S T n k idx row hinv hscan hrow hrowv
  subst hidx
  have hcoreI : core_inv env Ti := by
    have := core_inv_insert env buf r.pict_id T hcore
    rw [hins] at this
    exact this
  have hmaxI : Ti.header.max_files = T.header.max_files := by rw [hhdr]; rfl
  have htp1 : t.pict_id = r.pict_id := by rw [htp, List.take_of_length_le hidlen]
  have hts1 : t.SHA = r.SHA := by rw [hts, hsha, hbufeq]
  have hmod : buf.length % UINT32_MOD = r.size.orig := by
    rw [hbuflen, Nat.mod_eq_of_lt hsz32]
  have htsz1 : t.size.orig = r.size.orig := by rw [htsz, hmod]
  have hklt : idx < T.metadata.length := getElem?_lt_length _ _ _ hrow
  have hkmax : idx < T.header.max_files := by
    have : T.metadata.length = T.header.max_files := halloc
    omega
  have hother : ∀ j, j ≠ idx → Ti.metadata[j]? = T.metadata[j]? := by
    intro j hj
    rw [hmd, List.getElem?_set_ne (Ne.symm hj)]
  have hfg := hcore.file_ge
  have hte_pos : 0 < table_end env T :=
    lt_of_lt_of_le env.sizeof_header_pos (sizeof_header_le_table_end env T)
  have hhe := sizeof_header_le_table_end env T
  have hre := row_end_le_table_end env T idx hkmax
  refine ⟨t, ?_⟩
  rcases hbr with ⟨hnone, _, _, hst, hss, hoff, hf⟩ | ⟨j, rj, hm, _, hoff, hst, hss, _, hf⟩
  · -- the original is new in the temporary database
    have htake : buf.take (buf.length % UINT32_MOD) = buf := by
      rw [hmod, ← hbuflen, List.take_length]
    rw [htake] at hf
    have hdrop : Ti.fpdb.drop (table_end env T) = (T.fpdb ++ buf).drop (table_end env T) := by
      rw [hf]
      exact commit_file_drop env _ _ _ _ _ hhe hre
    have hlen : Ti.fpdb.length = T.fpdb.length + buf.length := by
      rw [hf, commit_file_length env _ _ _ _ (by rw [List.length_append]; omega)
        (by rw [List.length_append]; omega), List.length_append]
    have hoo : t.offset.orig = T.fpdb.length := by rw [hoff]
    refine gc_mid_of_insert env S T Ti n idx r row t buf _ hinv hcoreI hmaxI hrow hmd hdrop hlen
      (synced_commit env T Ti idx row t buf halloc hfg hinv.sync hmaxI hrow hmd hf) ?_ ?_ ?_
    · refine ⟨hv, htv, htp1, hts1, htsz1, hsz0, hrange, by rw [hoo, htsz1]; omega, ?_⟩
      rw [hoo, htsz1, ← hbufeq]
      unfold blob_at
      rw [slice_of_drop_eq _ _ _ _ _ hdrop hfg, List.drop_left, ← hbuflen, List.take_length]
    · intro p hp1 hp2
      refine covered_of_row Ti p idx t RES_ORIG
        (by rw [hmd]; exact List.getElem?_set_self hklt) htv (by simp) ?_ ?_
      · rw [res_array_get_orig, hoo]; exact hp1
      · rw [res_array_get_orig, res_array_get_orig, hoo, htsz1]; omega
    · intro v hvv
      right
      refine ⟨trivial, ?_, ?_⟩
      · rcases hvv with hvv | hvv <;> subst hvv
        · rw [res_array_get_thumb]; exact hst
        · rw [res_array_get_small]; exact hss
      · intro j t1 hj h1 h2 h3
        rw [hother j hj] at h1
        have hmatch : sha_match T idx (env.SHA256 buf) j t1 := ⟨hj, h1, h2, by rw [h3, hts]⟩
        rcases hnone with hno | ⟨j1, r1, hm1, hz⟩
        · exact hno j t1 hmatch
        · have := (hcore.rows j1 r1 hm1.2.1 hm1.2.2.1).1
          omega
  · -- the original is already in the temporary database
    obtain ⟨hjk, hrj, hrjv, hrjs⟩ := hm
    have hjlt : j < idx := by
      by_contra hc
      have := hinv.hi j rj hrj (by omega)
      rw [this] at hrjv
      exact absurd hrjv (by decide)
    have hjocc : j < (occupied S n).length := by rw [← hinv.hk]; exact hjlt
    obtain ⟨r1, t1, hr1, ht1, hoc1, hsv1⟩ := hinv.corr j _ (List.getElem?_eq_getElem hjocc)
    rw [hrj] at ht1; cases ht1
    obtain ⟨c1, c2, c3, c4, c5, c6, c7, c8, c9⟩ := hoc1
    have hr1m := mem_of_getElem? _ _ _ hr1
    have hsame : r1.SHA = r.SHA := by rw [← c4, hrjs, hsha, hbufeq]
    obtain ⟨s1, s2⟩ := hshareS r1 hr1m r hrm c1 hv hsame
    have s3 : r1.size.orig = r.size.orig := by
      have := s2 RES_ORIG (by simp) (by rw [res_array_get_orig]; exact c6)
        (by rw [res_array_get_orig]; exact hsz0)
      rw [res_array_get_orig, res_array_get_orig] at this
      exact this
    obtain ⟨_, _, _, hth1, hsm1⟩ := hrowsS r1 hr1m c1
    have hdrop : Ti.fpdb.drop (table_end env T) = (T.fpdb ++ []).drop (table_end env T) := by
      rw [hf, List.append_nil]
      exact commit_file_drop env _ _ _ _ _ hhe hre
    have hlen : Ti.fpdb.length = T.fpdb.length + ([] : List Nat).length := by
      rw [hf, commit_file_length env _ _ _ _ (by omega) (by omega)]
      rfl
    have hoo : t.offset.orig = rj.offset.orig := by rw [hoff]
    have hss1 : t.size.orig = rj.size.orig := by rw [htsz1, c5, s3]
    have hrjte := (hcore.rows j rj hrj hrjv).1
    refine gc_mid_of_insert env S T Ti n idx r row t [] _ hinv hcoreI hmaxI hrow hmd hdrop hlen
      (synced_commit env T Ti idx row t [] halloc hfg hinv.sync hmaxI hrow hmd
        (by rw [List.append_nil]; exact hf)) ?_ ?_ ?_
    · refine ⟨hv, htv, htp1, hts1, htsz1, hsz0, hrange, ?_, ?_⟩
      · rw [hoo, hss1, hlen]
        simp only [List.length_nil, Nat.add_zero]
        exact c8
      · rw [hoo, hss1, blob_at_ext T Ti _ _ _ [] hdrop hrjte c8, c9, s1, s3]
    · intro p hp1 hp2
      rw [hlen] at hp2
      simp only [List.length_nil, Nat.add_zero] at hp2
      omega
    · intro v hvv
      left
      rcases hvv with hvv | hvv <;> subst hvv
      · have e1 := hsv1 RES_THUMB (Or.inl rfl)
        rw [res_array_get_thumb, res_array_get_thumb] at e1 ⊢
        rw [hst, e1]
        have : r1.offset.thumb = r.offset.thumb := by rw [s1]
        constructor
        · intro h1 h2
          exact h1 (hth1.mpr (by rw [this]; exact hth.mp h2))
        · intro h1 h2
          exact h1 (hth.mpr (by rw [← this]; exact hth1.mp h2))
      · have e1 := hsv1 RES_SMALL (Or.inr rfl)
        rw [res_array_get_small, res_array_get_small] at e1 ⊢
        rw [hss, e1]
        have : r1.offset.small = r.offset.small := by rw [s1]
        constructor
        · intro h1 h2
          exact h1 (hsm1.mpr (by rw [this]; exact hsm.mp h2))
        · intro h1 h2
          exact h1 (hsm.mpr (by rw [← this]; exact hsm1.mp h2))

theorem resized_row_get_same (dim ns off : Nat) (t : pict_metadata) :
    (resized_row dim ns off t).size.get dim = ns ∧
    (resized_row dim ns off t).offset.get dim = off :=
  ⟨res_array_get_set _ _ _, res_array_get_set _ _ _⟩

theorem resized_row_get_other (dim ns off v : Nat) (t : pict_metadata)
    (hdim : dim = RES_THUMB ∨ dim = RES_SMALL) (hv : v ≠ dim) :
    (resized_row dim ns off t).size.get v = t.size.get v ∧
    (resized_row dim ns off t).offset.get v = t.offset.get v := by
  rcases hdim with hd | hd <;> subst hd
  · have h0 : ¬ v = RES_THUMB := hv
    simp [resized_row, res_array.set, res_array.get, h0]
  · have h1 : ¬ v = RES_SMALL := hv
    by_cases h0 : v = RES_THUMB
    · subst h0
      simp [resized_row, res_array.set, res_array.get, RES_SMALL, RES_THUMB]
    · simp [resized_row, res_array.set, res_array.get, h0, h1, RES_SMALL, RES_THUMB]

/-- The turn of an occupied row, after the call of `lazily_resize` for the
variant `dim` (made when the source row holds that variant): row `newIndex` of
the temporary database holds `dim` exactly when the source row does. -/
theorem gc_resize_step (env : Env) (S T T2 : pictdb_file) (n k : Nat) (r t : pict_metadata)
    (pend : Nat → Prop) (dim : Nat) (hdim : dim = RES_THUMB ∨ dim = RES_SMALL)
    (hmid : gc_mid env S T n k r t pend)
    (hcall : r.size.get dim ≠ 0 → lazily_resize env dim T k = (Code.OK, T2))
    (hskip : r.size.get dim = 0 → T2 = T) :
    ∃ t2, gc_mid env S T2 n k r t2 (fun v => pend v ∧ v ≠ dim) := by
  -- the case where the temporary database is not changed
  have hsame : (t.size.get dim ≠ 0 ↔ r.size.get dim ≠ 0) →
      gc_mid env S T n k r t (fun v => pend v ∧ v ≠ dim) := by
    intro hiff
    refine ⟨hmid.core, hmid.hmax, hmid.hk, hmid.hi, hmid.corr, hmid.cover, hmid.hrow,
      hmid.horig, ?_, hmid.sync⟩
    intro v hv
    by_cases hvd : v = dim
    · subst hvd; exact Or.inl hiff
    · rcases hmid.hvar v hv with h1 | ⟨h1, h2, h3⟩
      · exact Or.inl h1
      · exact Or.inr ⟨⟨h1, hvd⟩, h2, h3⟩
  by_cases hz : r.size.get dim = 0
  · rw [hskip hz]
    refine ⟨t, hsame ?_⟩
    rcases hmid.hvar dim hdim with h1 | ⟨_, h2, _⟩
    · exact h1
    · rw [h2, hz]
  have hl := hcall hz
  have htv : t.is_valid = NON_EMPTY := hmid.horig.2.1
  rcases lazily_resize_core_ok env dim T T2 k t hmid.core hdim hmid.hrow htv hl with
    ⟨h1, h2⟩ | ⟨h1, ns, x, hns, hx, hhdr, hlen, hdrop, hmod, hkeep⟩
  · rw [h2]
    exact ⟨t, hsame ⟨fun _ => hz, fun _ => h1⟩⟩
  · -- the variant is built and stored at the end of the file
    have hnosib : ∀ (j : Nat) (t1 : pict_metadata), j ≠ k → T.metadata[j]? = some t1 →
        t1.is_valid = NON_EMPTY → t1.SHA ≠ t.SHA := by
      rcases hmid.hvar dim hdim with h3 | ⟨_, _, h3⟩
      · exact absurd h1 (h3.mpr hz)
      · exact h3
    have hcore2 : core_inv env T2 := by
      have := core_inv_lazily_resize env dim T k t hmid.core hmid.hrow htv
      rw [hl] at this
      exact this
    have hmax2 : T2.header.max_files = T.header.max_files := by rw [hhdr]
    have hte2 : table_end env T2 = table_end env T := by unfold table_end; rw [hmax2]
    have hlen2 : T2.metadata.length = T.metadata.length := by
      have a1 : T2.metadata.length = T2.header.max_files := hcore2.alloc
      have a2 : T.metadata.length = T.header.max_files := hmid.core.alloc
      rw [a1, a2, hmax2]
    have hother : ∀ j, j ≠ k → T2.metadata[j]? = T.metadata[j]? := by
      intro j hj
      cases hj1 : T.metadata[j]? with
      | none =>
        rw [List.getElem?_eq_none_iff] at hj1 ⊢
        omega
      | some t1 =>
        apply hkeep j t1 hj1
        rintro (hc | ⟨hc1, hc2⟩)
        · exact hj hc
        · exact hnosib j t1 hj hj1 hc1 hc2
    have hrow2 : T2.metadata[k]? = some (resized_row dim ns T.fpdb.length t) :=
      hmod k t hmid.hrow (Or.inl rfl)
    obtain ⟨g1, g2⟩ := resized_row_get_same dim ns T.fpdb.length t
    have hfg := hmid.core.file_ge
    have hdimo : RES_ORIG ≠ dim := by rcases hdim with hd | hd <;> subst hd <;> decide
    have horig2 : (resized_row dim ns T.fpdb.length t).size.orig = t.size.orig ∧
        (resized_row dim ns T.fpdb.length t).offset.orig = t.offset.orig := by
      have := resized_row_get_other dim ns T.fpdb.length RES_ORIG t hdim hdimo
      rw [res_array_get_orig, res_array_get_orig, res_array_get_orig, res_array_get_orig] at this
      exact this
    refine ⟨resized_row dim ns T.fpdb.length t, hcore2, hmax2.trans hmid.hmax, hmid.hk, ?_, ?_,
      ?_, hrow2, ?_, ?_,
      lazily_resize_synced env dim T T2 k t hmid.core hmid.sync hdim hmid.hrow htv hl⟩
    · intro j t1 hj1 hj
      rw [hother j (by omega)] at hj1
      exact hmid.hi j t1 hj1 hj
    · intro p i hp
      have hpk : p < k := by
        have := getElem?_lt_length _ _ _ hp
        rw [hmid.hk]; exact this
      obtain ⟨r1, t1, e1, e2, e3, e4⟩ := hmid.corr p i hp
      refine ⟨r1, t1, e1, by rw [hother p (by omega)]; exact e2, ?_, e4⟩
      exact orig_copied_ext env S T T2 r1 t1 t1 x (hmid.core.rows p t1 e2 e3.2.1).1 hdrop
        (by omega) rfl rfl rfl rfl rfl e3
    · intro p hp hte
      rw [hte2] at hte
      by_cases hpT : p < T.fpdb.length
      · obtain ⟨j, t1, v, c1, c2, c3, c4, c5⟩ := covered_row T p (hmid.cover p hpT hte)
        by_cases hjk : j = k
        · subst hjk
          rw [hmid.hrow] at c1; cases c1
          have hvd : v ≠ dim := by
            intro hc
            subst hc
            rw [h1] at c5
            omega
          obtain ⟨q1, q2⟩ := resized_row_get_other dim ns T.fpdb.length v t hdim hvd
          exact covered_of_row T2 p j _ v hrow2 c2 c3 (by rw [q2]; exact c4)
            (by rw [q1, q2]; exact c5)
        · exact covered_of_row T2 p j t1 v (by rw [hother j hjk]; exact c1) c2 c3 c4 c5
      · have hdm : dim ∈ [RES_THUMB, RES_SMALL, RES_ORIG] := by
          rcases hdim with hd | hd <;> subst hd <;> simp
        exact covered_of_row T2 p k _ dim hrow2 htv hdm (by rw [g2]; omega)
          (by rw [g1, g2]; omega)
    · exact orig_copied_ext env S T T2 r t _ x (hmid.core.rows k t hmid.hrow htv).1 hdrop
        (by omega) rfl rfl rfl horig2.1 horig2.2 hmid.horig
    · intro v hv
      by_cases hvd : v = dim
      · subst hvd
        left
        rw [g1]
        exact ⟨fun _ => hz, fun _ => hns⟩
      · obtain ⟨q1, _⟩ := resized_row_get_other dim ns T.fpdb.length v t hdim hvd
        rw [q1]
        rcases hmid.hvar v hv with h3 | ⟨h3, h4, h5⟩
        · exact Or.inl h3
        · refine Or.inr ⟨⟨h3, hvd⟩, h4, ?_⟩
          intro j t1 hj hj1
          rw [hother j hj] at hj1
          exact hnosib j t1 hj hj1
/-- A turn of the loop that returns 0 keeps the invariant and the database. -/
theorem gc_turn_inv (env : Env) (S T S1 T1 : pictdb_file) (n k k1 : Nat)
    (hcons : consistent env S) (hinv : gc_inv env S T n k) (hn : n < S.header.max_files)
    (h : gbcollect_turn env n (S, T, k) = (Code.OK, S1, T1, k1)) :
    S1 = S ∧ gc_inv env S T1 (n + 1) k1 := by
  have hallocS : S.metadata.length = S.header.max_files := hcons.1
  have hnl : n < S.metadata.length := by omega
  have hr : S.metadata[n]? = some (S.metadata[n]) := List.getElem?_eq_getElem hnl
  generalize S.metadata[n] = r at hr
  have hocc := occupied_succ S n
  rw [hr] at hocc
  simp only at hocc
  rcases gbcollect_turn_ok env S T S1 T1 n k k1 r hr h with
    ⟨hv, e1, e2, e3⟩ | ⟨hv, e1, e2, hrd, buf, r1, Ti, Ts, hbuf, hins, hr1, hs1, hs2, ht1, ht2⟩
  · subst e1; subst e2; subst e3
    rw [if_neg hv, List.append_nil] at hocc
    refine ⟨rfl, hinv.core, hinv.hmax, by rw [hocc]; exact hinv.hk, hinv.hi, ?_, hinv.cover,
      hinv.sync⟩
    rw [hocc]
    exact hinv.corr
  · have hS1 : S1 = S := by
      rw [e2]
      exact (do_read_orig_spec env S n r hcons.1 hcons.2.1 hr hv).1
    subst hS1
    rw [hr] at hr1; cases hr1
    rw [if_pos hv] at hocc
    obtain ⟨t0, hmid0⟩ := gc_insert_step env S1 T Ti n k r buf hcons hinv hr hv hrd hbuf hins
    obtain ⟨t1, hmid1⟩ := gc_resize_step env S1 Ti Ts n k r t0 _ RES_SMALL (Or.inr rfl) hmid0
      (fun hc => hs1 (by rw [← res_array_get_small]; exact hc))
      (fun hc => hs2 (by rw [← res_array_get_small]; exact hc))
    obtain ⟨t2, hmid2⟩ := gc_resize_step env S1 Ts T1 n k r t1 _ RES_THUMB (Or.inl rfl) hmid1
      (fun hc => ht1 (by rw [← res_array_get_thumb]; exact hc))
      (fun hc => ht2 (by rw [← res_array_get_thumb]; exact hc))
    have hsv : same_variants r t2 := by
      intro v hvv
      rcases hmid2.hvar v hvv with h1 | ⟨⟨⟨_, h1⟩, h2⟩, _⟩
      · exact h1
      · rcases hvv with hvv | hvv
        · exact absurd hvv h2
        · exact absurd hvv h1
    subst e1
    have hklen : k = (occupied S1 n).length := hmid2.hk
    refine ⟨rfl, hmid2.core, hmid2.hmax, ?_, ?_, ?_, hmid2.cover, hmid2.sync⟩
    · rw [hocc, List.length_append, ← hklen]; rfl
    · intro j t hj hjk
      exact hmid2.hi j t hj (by omega)
    · intro p i hp
      rw [hocc] at hp
      by_cases hpk : p < (occupied S1 n).length
      · rw [List.getElem?_append_left hpk] at hp
        exact hmid2.corr p i hp
      · rw [List.getElem?_append_right (by omega)] at hp
        have hp0 : p - (occupied S1 n).length = 0 := by
          by_contra hc
          have := getElem?_lt_length _ _ _ hp
          simp only [List.length_singleton] at this
          omega
        rw [hp0] at hp
        simp only [List.getElem?_cons_zero, Option.some.injEq] at hp
        subst hp
        have hpe : p = k := by omega
        subst hpe
        exact ⟨r, t2, hr, hmid2.hrow, hmid2.horig, hsv⟩

/-- The loop of `do_gbcollect`, when it returns 0, has kept the invariant up to
the last row and has left the database as it was. -/
theorem gc_loop_inv (env : Env) (S : pictdb_file) (hcons : consistent env S) :
    ∀ (fuel n : Nat) (T : pictdb_file) (k : Nat) (S1 T1 : pictdb_file) (k1 : Nat),
      n + fuel = S.header.max_files → gc_inv env S T n k →
      gbcollect_loop env fuel n (S, T, k) = (Code.OK, S1, T1, k1) →
      S1 = S ∧ gc_inv env S T1 S.header.max_files k1 := by
  intro fuel
  induction fuel with
  | zero =>
    intro n T k S1 T1 k1 hn hinv h
    simp only [gbcollect_loop, Prod.mk.injEq, true_and] at h
    obtain ⟨e1, e2, e3⟩ := h
    subst e1; subst e2; subst e3
    have : n = S.header.max_files := by omega
    subst this
    exact ⟨rfl, hinv⟩
  | succ f ih =>
    intro n T k S1 T1 k1 hn hinv h
    unfold gbcollect_loop at h
    have hlt : n < S.header.max_files := by omega
    simp only [if_pos hlt] at h
    rcases ht : gbcollect_turn env n (S, T, k) with ⟨c, S2, T2, k2⟩
    rw [ht] at h
    cases c <;> simp only [Prod.mk.injEq, false_and, reduceCtorEq] at h
    obtain ⟨e, hinv2⟩ := gc_turn_inv env S T S2 T2 n k k2 hcons hinv hlt ht
    subst e
    exact ih (n + 1) T2 k2 S1 T1 k1 (by omega) hinv2 h

theorem gc_inv_create (env : Env) (S : pictdb_file) :
    gc_inv env S (do_create env S.header.max_files S.header.res_resized).2 0 0 := by
  refine ⟨core_inv_create env _ _, rfl, rfl, ?_, ?_, ?_, synced_create env _ _⟩
  · intro j t hj _
    rw [do_create_rows env _ _ j t hj]
  · intro p i hp
    simp [occupied] at hp
  · intro p hp hte
    rw [do_create_fpdb_length] at hp
    omega

/-- A call of `do_gbcollect` that returns 0 on a consistent database leaves it
as it was and ends with a temporary database that satisfies the invariant of
the loop for the whole table. -/
theorem do_gbcollect_inv (env : Env) (S S1 T : pictdb_file) (hcons : consistent env S)
    (h : do_gbcollect env S = (Code.OK, S1, T)) :
    S1 = S ∧ ∃ k, gc_inv env S T S.header.max_files k := by
  unfold do_gbcollect at h
  rw [if_neg (by simp [do_create])] at h
  simp only [Prod.mk.injEq] at h
  obtain ⟨h1, h2, h3⟩ := h
  rcases hl : gbcollect_loop env S.header.max_files 0
    (S, (do_create env S.header.max_files S.header.res_resized).2, 0) with ⟨c, S2, T2, k2⟩
  rw [hl] at h1 h2 h3
  simp only at h1 h2 h3
  subst h1; subst h2; subst h3
  obtain ⟨e, hinv⟩ := gc_loop_inv env S hcons _ 0 _ 0 _ _ _ (by omega)
    (gc_inv_create env S) hl
  exact ⟨e, k2, hinv⟩

/-! ## C17, C18, C19: what `do_gbcollect` leaves -/

theorem unique_ids_of_core (env : Env) (db : pictdb_file) (hinv : core_inv env db) :
    unique_ids db := by
  unfold unique_ids
  rw [List.pairwise_iff_getElem]
  intro i j hi hj hij hvi hvj
  exact hinv.ids i j _ _ (List.getElem?_eq_getElem hi) (List.getElem?_eq_getElem hj)
    (by omega) hvi hvj

theorem occupied_complete (db : pictdb_file) (n i : Nat) (r : pict_metadata) (hi : i < n)
    (hr : db.metadata[i]? = some r) (hv : r.is_valid = NON_EMPTY) : i ∈ occupied db n := by
  unfold occupied
  rw [List.mem_filter, List.mem_range]
  refine ⟨hi, ?_⟩
  rw [hr]
  simpa using hv

theorem occupied_length (db : pictdb_file) :
    ∀ n, (occupied db n).length =
      (db.metadata.take n).countP (fun r => r.is_valid = NON_EMPTY) := by
  intro n
  induction n with
  | zero => simp [occupied]
  | succ n ih =>
    rw [occupied_succ, List.length_append, ih, List.take_succ, List.countP_append]
    congr 1
    cases h : db.metadata[n]? with
    | none => simp
    | some r =>
      by_cases hv : r.is_valid = NON_EMPTY
      · simp [hv]
      · simp [hv]

theorem countP_of_flags (md : List pict_metadata) :
    ∀ (k : Nat), k ≤ md.length →
      (∀ (j : Nat) (t : pict_metadata), md[j]? = some t → j < k → t.is_valid = NON_EMPTY) →
      (∀ (j : Nat) (t : pict_metadata), md[j]? = some t → k ≤ j → t.is_valid = EMPTY) →
      md.countP (fun r => r.is_valid = NON_EMPTY) = k := by
  induction md with
  | nil =>
    intro k hk _ _
    simp at hk
    simp [hk]
  | cons a md ih =>
    intro k hk hlo hhi
    cases k with
    | zero =>
      rw [List.countP_eq_zero]
      intro t ht
      obtain ⟨j, hj, e⟩ := List.getElem_of_mem ht
      have := hhi j t (by rw [← e]; exact List.getElem?_eq_getElem hj) (Nat.zero_le _)
      simp [this]
    | succ k =>
      have ha : a.is_valid = NON_EMPTY := hlo 0 a (by simp) (by omega)
      rw [List.countP_cons, if_pos (by simpa using ha)]
      congr 1
      apply ih k (by simpa using hk)
      · intro j t hj hjk
        exact hlo (j + 1) t (by simpa using hj) (by omega)
      · intro j t hj hjk
        exact hhi (j + 1) t (by simpa using hj) (by omega)

/-- The link between a database and its compacted copy: the rows of the copy
below `k` stand for the occupied rows of the database, in ascending order. -/
theorem gc_inv_rows (env : Env) (S T : pictdb_file) (k : Nat) (hcons : consistent env S)
    (hinv : gc_inv env S T S.header.max_files k) :
    (∀ (i : Nat) (r : pict_metadata), S.metadata[i]? = some r → r.is_valid = NON_EMPTY →
      ∃ (p : Nat) (t : pict_metadata), (occupied S S.header.max_files)[p]? = some i ∧
        T.metadata[p]? = some t ∧ orig_copied S T r t ∧ same_variants r t) ∧
    (∀ (j : Nat) (t : pict_metadata), T.metadata[j]? = some t → t.is_valid = NON_EMPTY →
      ∃ (i : Nat) (r : pict_metadata), (occupied S S.header.max_files)[j]? = some i ∧
        S.metadata[i]? = some r ∧ orig_copied S T r t ∧ same_variants r t) := by
  have hallocS : S.metadata.length = S.header.max_files := hcons.1
  constructor
  · intro i r hr hv
    have hi : i < S.header.max_files := by
      have := getElem?_lt_length _ _ _ hr
      omega
    obtain ⟨p, hp, e⟩ := List.getElem_of_mem (occupied_complete S _ i r hi hr hv)
    have hp1 : (occupied S S.header.max_files)[p]? = some i := by
      rw [← e]; exact List.getElem?_eq_getElem hp
    obtain ⟨r1, t, h1, h2, h3, h4⟩ := hinv.corr p i hp1
    rw [hr] at h1; cases h1
    exact ⟨p, t, hp1, h2, h3, h4⟩
  · intro j t ht hv
    have hjk : j < k := by
      by_contra hc
      have := hinv.hi j t ht (by omega)
      rw [this] at hv
      exact absurd hv (by decide)
    have hj : j < (occupied S S.header.max_files).length := by rw [← hinv.hk]; exact hjk
    obtain ⟨r, t1, h1, h2, h3, h4⟩ := hinv.corr j _ (List.getElem?_eq_getElem hj)
    rw [ht] at h2; cases h2
    exact ⟨_, r, List.getElem?_eq_getElem hj, h1, h3, h4⟩

/-- C17. For every consistent database on which `do_gbcollect` returns 0, the
resulting file starts with the image of the header and of the table of the
temporary database, of the same `max_files`; that table has as many
`NON_EMPTY` rows as the source and the same set of identifiers, and for each
of them `do_read` of the original succeeds on both and delivers the same
bytes. -/
theorem gbcollect_preserves_content (env : Env) (db db1 tmp : pictdb_file)
    (hcons : consistent env db) (h : do_gbcollect env db = (Code.OK, db1, tmp)) :
    synced env tmp ∧ tmp.header.max_files = db.header.max_files ∧
    tmp.metadata.countP (fun r => r.is_valid = NON_EMPTY)
      = db.metadata.countP (fun r => r.is_valid = NON_EMPTY) ∧
    (∀ id, (∃ t ∈ tmp.metadata, t.is_valid = NON_EMPTY ∧ t.pict_id = id) ↔
      (∃ r ∈ db.metadata, r.is_valid = NON_EMPTY ∧ r.pict_id = id)) ∧
    (∀ r ∈ db.metadata, r.is_valid = NON_EMPTY →
      ∃ buf, do_read env r.pict_id RES_ORIG db = ⟨Code.OK, db, some r.size.orig, some buf⟩ ∧
        do_read env r.pict_id RES_ORIG tmp = ⟨Code.OK, tmp, some r.size.orig, some buf⟩) := by
  obtain ⟨_, k, hinv⟩ := do_gbcollect_inv env db db1 tmp hcons h
  obtain ⟨hfwd, hbwd⟩ := gc_inv_rows env db tmp k hcons hinv
  have hallocS : db.metadata.length = db.header.max_files := hcons.1
  have hallocT : tmp.metadata.length = tmp.header.max_files := hinv.core.alloc
  refine ⟨hinv.sync, hinv.hmax, ?_, ?_, ?_⟩
  · have hk1 : k ≤ tmp.metadata.length := by
      rw [hinv.hk, occupied_length, hallocT, hinv.hmax, ← hallocS]
      exact le_trans (List.countP_le_length _) (List.length_take_le _ _)
    rw [countP_of_flags tmp.metadata k hk1
      (fun j t ht hj => by
        have hj1 : j < (occupied db db.header.max_files).length := by rw [← hinv.hk]; exact hj
        obtain ⟨_, t1, _, h2, h3, _⟩ := hinv.corr j _ (List.getElem?_eq_getElem hj1)
        rw [ht] at h2; cases h2
        exact h3.2.1)
      hinv.hi, hinv.hk, occupied_length, ← hallocS, List.take_length]
  · intro id
    constructor
    · rintro ⟨t, ht, hv, hid⟩
      obtain ⟨j, hj, e⟩ := List.getElem_of_mem ht
      obtain ⟨i, r, _, hr, hoc, _⟩ := hbwd j t (by rw [← e]; exact List.getElem?_eq_getElem hj) hv
      exact ⟨r, mem_of_getElem? _ _ _ hr, hoc.1, by rw [← hoc.2.2.1]; exact hid⟩
    · rintro ⟨r, hr, hv, hid⟩
      obtain ⟨i, hi, e⟩ := List.getElem_of_mem hr
      obtain ⟨p, t, _, ht, hoc, _⟩ := hfwd i r (by rw [← e]; exact List.getElem?_eq_getElem hi) hv
      exact ⟨t, mem_of_getElem? _ _ _ ht, hoc.2.1, by rw [hoc.2.2.1]; exact hid⟩
  · intro r hr hv
    obtain ⟨i, hi, e⟩ := List.getElem_of_mem hr
    have hri : db.metadata[i]? = some r := by rw [← e]; exact List.getElem?_eq_getElem hi
    obtain ⟨p, t, _, ht, hoc, _⟩ := hfwd i r hri hv
    obtain ⟨_, c2, c3, _, c5, c6, c7, c8, c9⟩ := hoc
    obtain ⟨_, s1, s2⟩ := do_read_orig_spec env db i r hcons.1 hcons.2.1 hri hv
    obtain ⟨_, t1, t2⟩ := do_read_orig_spec env tmp p t hinv.core.alloc
      (unique_ids_of_core env tmp hinv.core) ht c2
    refine ⟨blob_at db r.offset.orig r.size.orig, s2 (s1.mpr ⟨c6, c7⟩), ?_⟩
    have := t2 (t1.mpr ⟨by rw [c5]; exact c6, c8⟩)
    rw [c3, c5] at this
    rw [this, ← c9, c5]
    rfl
/-- The hypotheses of `gbcollect_preserves_content` hold for `gc_db`, a
database with two occupied rows that share one blob and one tombstone. -/
theorem gbcollect_preserves_content_witness :
    consistent sample_env gc_db ∧
    do_gbcollect sample_env gc_db = (Code.OK, gc_db, (do_gbcollect sample_env gc_db).2.2) ∧
    synced sample_env (do_gbcollect sample_env gc_db).2.2 ∧
    (do_gbcollect sample_env gc_db).2.2.header.max_files = gc_db.header.max_files ∧
    (do_gbcollect sample_env gc_db).2.2.metadata.countP (fun r => r.is_valid = NON_EMPTY)
      = gc_db.metadata.countP (fun r => r.is_valid = NON_EMPTY) ∧
    (∀ id, (∃ t ∈ (do_gbcollect sample_env gc_db).2.2.metadata,
        t.is_valid = NON_EMPTY ∧ t.pict_id = id) ↔
      (∃ r ∈ gc_db.metadata, r.is_valid = NON_EMPTY ∧ r.pict_id = id)) ∧
    (∀ r ∈ gc_db.metadata, r.is_valid = NON_EMPTY →
      ∃ buf, do_read sample_env r.pict_id RES_ORIG gc_db
          = ⟨Code.OK, gc_db, some r.size.orig, some buf⟩ ∧
        do_read sample_env r.pict_id RES_ORIG (do_gbcollect sample_env gc_db).2.2
          = ⟨Code.OK, (do_gbcollect sample_env gc_db).2.2, some r.size.orig, some buf⟩) :=
  ⟨by decide, by decide,
    gbcollect_preserves_content sample_env gc_db gc_db (do_gbcollect sample_env gc_db).2.2
      (by decide) (by decide)⟩

/-- C18. For every consistent database on which `do_gbcollect` returns 0, the
`p`-th occupied row of the source (in ascending order of the indices) is
stored at index `p` of the resulting database, the index that `do_gbcollect`
passes to `lazily_resize`, under the same `pict_id`; and for every `NON_EMPTY`
source row and each variant `v` of thumb and small, the `NON_EMPTY` row with
the same `pict_id` in the result, which exists, has `size[v] != 0` if and only
if the source row has `size[v] != 0`. -/
theorem gbcollect_preserves_variants (env : Env) (db db1 tmp : pictdb_file)
    (hcons : consistent env db) (h : do_gbcollect env db = (Code.OK, db1, tmp)) :
    (∀ (p i : Nat), (occupied db db.header.max_files)[p]? = some i →
      ∃ (r t : pict_metadata), db.metadata[i]? = some r ∧ tmp.metadata[p]? = some t ∧
        r.is_valid = NON_EMPTY ∧ t.is_valid = NON_EMPTY ∧ t.pict_id = r.pict_id ∧
        same_variants r t) ∧
    (∀ r ∈ db.metadata, r.is_valid = NON_EMPTY →
      (∃ t ∈ tmp.metadata, t.is_valid = NON_EMPTY ∧ t.pict_id = r.pict_id) ∧
      ∀ t ∈ tmp.metadata, t.is_valid = NON_EMPTY → t.pict_id = r.pict_id →
        same_variants r t) := by
  obtain ⟨_, k, hinv⟩ := do_gbcollect_inv env db db1 tmp hcons h
  obtain ⟨hfwd, _⟩ := gc_inv_rows env db tmp k hcons hinv
  constructor
  · intro p i hp
    obtain ⟨r, t, h1, h2, h3, h4⟩ := hinv.corr p i hp
    exact ⟨r, t, h1, h2, h3.1, h3.2.1, h3.2.2.1, h4⟩
  · intro r hr hv
    obtain ⟨i, hi, e⟩ := List.getElem_of_mem hr
    obtain ⟨p, t, _, ht, hoc, hsv⟩ :=
      hfwd i r (by rw [← e]; exact List.getElem?_eq_getElem hi) hv
    refine ⟨⟨t, mem_of_getElem? _ _ _ ht, hoc.2.1, hoc.2.2.1⟩, ?_⟩
    intro t1 ht1 hv1 hid1
    obtain ⟨j, hj, e1⟩ := List.getElem_of_mem ht1
    have htj : tmp.metadata[j]? = some t1 := by rw [← e1]; exact List.getElem?_eq_getElem hj
    have hjp : j = p := by
      by_contra hc
      exact hinv.core.ids j p t1 t htj ht hc hv1 hoc.2.1 (by rw [hid1, hoc.2.2.1])
    subst hjp
    rw [ht] at htj; cases htj
    exact hsv

/-- The hypotheses of `gbcollect_preserves_variants` hold for `gc_db`, whose two
occupied rows, at the indices 0 and 2, hold a thumbnail and no small variant. -/
theorem gbcollect_preserves_variants_witness :
    consistent sample_env gc_db ∧
    do_gbcollect sample_env gc_db = (Code.OK, gc_db, (do_gbcollect sample_env gc_db).2.2) ∧
    (∀ (p i : Nat), (occupied gc_db gc_db.header.max_files)[p]? = some i →
      ∃ (r t : pict_metadata), gc_db.metadata[i]? = some r ∧
        (do_gbcollect sample_env gc_db).2.2.metadata[p]? = some t ∧
        r.is_valid = NON_EMPTY ∧ t.is_valid = NON_EMPTY ∧ t.pict_id = r.pict_id ∧
        same_variants r t) ∧
    (∀ r ∈ gc_db.metadata, r.is_valid = NON_EMPTY →
      (∃ t ∈ (do_gbcollect sample_env gc_db).2.2.metadata,
        t.is_valid = NON_EMPTY ∧ t.pict_id = r.pict_id) ∧
      ∀ t ∈ (do_gbcollect sample_env gc_db).2.2.metadata, t.is_valid = NON_EMPTY →
        t.pict_id = r.pict_id → same_variants r t) :=
  ⟨by decide, by decide,
    gbcollect_preserves_variants sample_env gc_db gc_db (do_gbcollect sample_env gc_db).2.2
      (by decide) (by decide)⟩

/-- C19, the claim as stated fails in its last clause: `stale_thumb_db` is
consistent (its row count, flags, sizes and offsets obey the data model, and
its file holds the table, the original and a thumbnail of one byte, with no
garbage), `do_gbcollect` returns 0 on it, and the resulting file has 14 bytes
where the source has 11: the thumbnail is built again by `lazily_resize`, not
copied, and the one that the provider builds has four bytes. -/
theorem gbcollect_longer_file_counterexample :
    consistent sample_env stale_thumb_db ∧
    table_allocated stale_thumb_db ∧ valid_flags stale_thumb_db ∧
    count_invariant stale_thumb_db ∧
    (∀ r ∈ stale_thumb_db.metadata, size_offset_agree r ∧
      in_blob_region (table_end sample_env stale_thumb_db) stale_thumb_db.fpdb.length r) ∧
    no_garbage sample_env stale_thumb_db ∧
    (do_gbcollect sample_env stale_thumb_db).1 = Code.OK ∧
    stale_thumb_db.fpdb.length = 11 ∧
    (do_gbcollect sample_env stale_thumb_db).2.2.fpdb.length = 14 := by
  decide

/-! ## C25: lookup by identifier -/

/-- C25. For every table of `max_files` rows and every identifier,
`get_image_index` returns 0 with the lowest index below `max_files` of a
`NON_EMPTY` row that holds the identifier when there is such a row, and
`ERR_FILE_NOT_FOUND` when there is none, whatever the `EMPTY` rows hold; a
match in row 0 is reported as success with index 0. -/
theorem get_image_index_lookup (pictID : List Nat) (db : pictdb_file)
    (halloc : table_allocated db) :
    ((∃ r ∈ db.metadata, r.is_valid = NON_EMPTY ∧ r.pict_id = pictID) →
      ∃ (i : Nat) (ri : pict_metadata),
        get_image_index pictID db = (Code.OK, i) ∧ i < db.header.max_files ∧
        db.metadata[i]? = some ri ∧ ri.is_valid = NON_EMPTY ∧ ri.pict_id = pictID ∧
        ∀ (j : Nat) (r : pict_metadata), j < i → db.metadata[j]? = some r →
          ¬ (r.is_valid = NON_EMPTY ∧ r.pict_id = pictID)) ∧
    ((¬ ∃ r ∈ db.metadata, r.is_valid = NON_EMPTY ∧ r.pict_id = pictID) →
      (get_image_index pictID db).1 = Code.ERR_FILE_NOT_FOUND) ∧
    (∀ (r : pict_metadata), db.metadata[0]? = some r → r.is_valid = NON_EMPTY →
      r.pict_id = pictID → get_image_index pictID db = (Code.OK, 0)) := by
  have hlen : db.metadata.length = db.header.max_files := halloc
  have hfound : (∃ r ∈ db.metadata, r.is_valid = NON_EMPTY ∧ r.pict_id = pictID) →
      ∃ (i : Nat) (ri : pict_metadata),
        get_image_index pictID db = (Code.OK, i) ∧ i < db.header.max_files ∧
        db.metadata[i]? = some ri ∧ ri.is_valid = NON_EMPTY ∧ ri.pict_id = pictID ∧
        ∀ (j : Nat) (r : pict_metadata), j < i → db.metadata[j]? = some r →
          ¬ (r.is_valid = NON_EMPTY ∧ r.pict_id = pictID) := by
    rintro ⟨r, hr, hv, hid⟩
    rcases get_image_index_spec pictID db (by omega) with ⟨_, h2⟩ | ⟨i, ri, h1, h2, h3, h4, h5, h6⟩
    · obtain ⟨j, hj, e⟩ := List.getElem_of_mem hr
      exact absurd ⟨hv, hid⟩
        (h2 j r (by omega) (by rw [← e]; exact List.getElem?_eq_getElem hj))
    · exact ⟨i, ri, h2, h1, h3, h4, h5, h6⟩
  refine ⟨hfound, ?_, ?_⟩
  · intro hno
    rcases get_image_index_spec pictID db (by omega) with ⟨h1, _⟩ | ⟨i, ri, _, _, h3, h4, h5, _⟩
    · rw [h1]
    · exact absurd ⟨ri, mem_of_getElem? _ _ _ h3, h4, h5⟩ hno
  · intro r hr hv hid
    obtain ⟨i, ri, h1, _, _, _, _, h6⟩ := hfound ⟨r, mem_of_getElem? _ _ _ hr, hv, hid⟩
    have hi : i = 0 := by
      by_contra hc
      exact h6 0 r (by omega) hr ⟨hv, hid⟩
    rw [h1, hi]

/-- The hypothesis of `get_image_index_lookup` holds for `deleted_db`, whose row
0 is `EMPTY` and still holds the identifier `[97]`: the lookup of `[97]`
returns `ERR_FILE_NOT_FOUND`. -/
theorem get_image_index_lookup_witness :
    table_allocated deleted_db ∧
    (get_image_index [97] deleted_db).1 = Code.ERR_FILE_NOT_FOUND ∧
    (∀ (r : pict_metadata), two_db.metadata[0]? = some r → r.is_valid = NON_EMPTY →
      r.pict_id = [97] → get_image_index [97] two_db = (Code.OK, 0)) :=
  ⟨by decide, (get_image_index_lookup [97] deleted_db (by decide)).2.1 (by decide),
    (get_image_index_lookup [97] two_db (by decide)).2.2⟩

/-! ## C29: a failed insertion -/

/-- C29. For every database with a table of `max_files` rows and every call of
`do_insert` that returns `ERR_FULL_DATABASE`, `ERR_DUPLICATE_ID` or `ERR_VIPS`
(the image cannot be decoded), the header and the file are as before the
call, the table has as many rows, every row keeps its flag `is_valid`, and
every row is as before except, at most, the first `EMPTY` row, the slot that
the call chose. -/
theorem do_insert_failure_frame (env : Env) (image id : List Nat) (db : pictdb_file)
    (halloc : table_allocated db)
    (hcode : (do_insert env image id db).1 = Code.ERR_FULL_DATABASE ∨
      (do_insert env image id db).1 = Code.ERR_DUPLICATE_ID ∨
      (do_insert env image id db).1 = Code.ERR_VIPS) :
    (do_insert env image id db).2.header = db.header ∧
    (do_insert env image id db).2.fpdb = db.fpdb ∧
    (do_insert env image id db).2.metadata.length = db.metadata.length ∧
    (∀ (i : Nat) (r : pict_metadata), db.metadata[i]? = some r →
      ∃ r1, (do_insert env image id db).2.metadata[i]? = some r1 ∧
        r1.is_valid = r.is_valid ∧
        (r.is_valid ≠ EMPTY → r1 = r) ∧
        ((∃ (j : Nat) (rj : pict_metadata), j < i ∧ db.metadata[j]? = some rj ∧
          rj.is_valid = EMPTY) → r1 = r)) := by
  have hne : (do_insert env image id db).1 ≠ Code.OK := by
    rcases hcode with h | h | h <;> rw [h] <;> decide
  obtain ⟨f1, f2, f3⟩ := do_insert_fail env image id db halloc hne
  refine ⟨f1, f2, ?_, ?_⟩
  · rcases f3 with f3 | ⟨idx, row, row1, _, _, _, _, hmd⟩
    · rw [f3]
    · rw [hmd, List.length_set]
  · intro i r hr
    rcases f3 with f3 | ⟨idx, row, row1, hscan, hrow, hrowv, hv1, hmd⟩
    · rw [f3]
      exact ⟨r, hr, rfl, fun _ => rfl, fun _ => rfl⟩
    · by_cases hi : i = idx
      · subst hi
        rw [hrow] at hr; cases hr
        have hlt := getElem?_lt_length _ _ _ hrow
        refine ⟨row1, by rw [hmd]; exact List.getElem?_set_self hlt, by rw [hv1, hrowv],
          fun hc => absurd hrowv hc, ?_⟩
        rintro ⟨j, rj, hj, hrj, hrjv⟩
        obtain ⟨_, _, hmin⟩ := insert_scan_spec db.metadata _ 0 i hscan
        obtain ⟨r2, hr2, hne2⟩ := hmin j (Nat.zero_le _) hj
        rw [hrj] at hr2; cases hr2
        exact absurd hrjv hne2
      · refine ⟨r, by rw [hmd, List.getElem?_set_ne (Ne.symm hi)]; exact hr, rfl,
          fun _ => rfl, fun _ => rfl⟩

/-- The hypotheses of `do_insert_failure_frame` hold for `one_db` and an
insertion under the identifier `[97]`, which row 0 holds: the call returns
`ERR_DUPLICATE_ID` and has written the identifier into the free row 1. -/
theorem do_insert_failure_frame_witness :
    table_allocated one_db ∧
    (do_insert sample_env [255, 216, 9] [97] one_db).1 = Code.ERR_DUPLICATE_ID ∧
    (do_insert sample_env [255, 216, 9] [97] one_db).2.metadata ≠ one_db.metadata ∧
    (do_insert sample_env [255, 216, 9] [97] one_db).2.header = one_db.header ∧
    (do_insert sample_env [255, 216, 9] [97] one_db).2.fpdb = one_db.fpdb ∧
    (do_insert sample_env [255, 216, 9] [97] one_db).2.metadata.length
      = one_db.metadata.length ∧
    (∀ (i : Nat) (r : pict_metadata), one_db.metadata[i]? = some r →
      ∃ r1, (do_insert sample_env [255, 216, 9] [97] one_db).2.metadata[i]? = some r1 ∧
        r1.is_valid = r.is_valid ∧
        (r.is_valid ≠ EMPTY → r1 = r) ∧
        ((∃ (j : Nat) (rj : pict_metadata), j < i ∧ one_db.metadata[j]? = some rj ∧
          rj.is_valid = EMPTY) → r1 = r)) :=
  ⟨by decide, by decide, by decide,
    do_insert_failure_frame sample_env [255, 216, 9] [97] one_db (by decide)
      (Or.inr (Or.inl (by decide)))⟩

/-! ## C21: the blob region is append-only -/

theorem drop_append_blob (f f1 x : List Nat) (te : Nat) (hte : te ≤ f.length)
    (h : f1.drop te = (f ++ x).drop te) : f1.drop te = f.drop te ++ x := by
  rw [h, List.drop_append_of_le_length hte]

/-- Whatever it returns, `lazily_resize` keeps the bytes of the file after the
table and adds bytes at the end only. -/
theorem lazily_resize_blob (env : Env) (dim : Nat) (db : pictdb_file) (index : Nat)
    (halloc : table_allocated db) (hfg : table_end env db ≤ db.fpdb.length) :
    ∃ x, (lazily_resize env dim db index).2.fpdb.drop (table_end env db) =
      db.fpdb.drop (table_end env db) ++ x := by
  have hnil : ∃ x, db.fpdb.drop (table_end env db) = db.fpdb.drop (table_end env db) ++ x :=
    ⟨[], by rw [List.append_nil]⟩
  unfold lazily_resize
  split_ifs with h1 h2
  · exact hnil
  · exact hnil
  · cases hrow0 : db.metadata[index]? with
    | none => exact hnil
    | some row0 =>
      simp only
      split_ifs with h3
      · exact hnil
      · cases hg : get_dup_index_and_update db index with
        | none => exact hnil
        | some p =>
          obtain ⟨tab, db1⟩ := p
          obtain ⟨g1, g2, g3⟩ := get_dup_index_and_update_frame db index tab db1 hg
          have hte1 : table_end env db1 = table_end env db := by unfold table_end; rw [g1]
          have halloc1 : table_allocated db1 := by
            unfold table_allocated
            have := congrArg List.length g3
            simp only [List.length_map] at this
            rw [this, g1]
            exact halloc
          have hnil1 : ∃ x, db1.fpdb.drop (table_end env db) =
              db.fpdb.drop (table_end env db) ++ x := by rw [g2]; exact hnil
          simp only
          cases hrow : db1.metadata[index]? with
          | none => exact hnil1
          | some row =>
            simp only
            split_ifs with h4 h5
            · exact hnil1
            · exact hnil1
            · cases hj : env.jpeg_resize (read_db_file_image index RES_ORIG db1).2 row.size.orig
                  dim db1.header.res_resized with
              | none => exact hnil1
              | some out =>
                simp only
                have hw : ∀ ns, ∃ x,
                    (write_db_file_image out ns db1).2.2 = { db1 with fpdb := db1.fpdb ++ x } := by
                  intro ns
                  unfold write_db_file_image write_disk_image
                  by_cases hns : ns = 0
                  · exact ⟨[], by simp [hns]⟩
                  · exact ⟨out.take ns, by simp only [if_neg hns, write_at_end]⟩
                obtain ⟨x, hx⟩ := hw (out.length % UINT32_MOD)
                have hwx : (write_db_file_image out (out.length % UINT32_MOD) db1).2.2.fpdb.drop
                    (table_end env db) = db.fpdb.drop (table_end env db) ++ x := by
                  rw [hx]
                  show (db1.fpdb ++ x).drop _ = _
                  rw [g2, List.drop_append_of_le_length hfg]
                split_ifs with h6
                · exact ⟨x, hwx⟩
                · cases hu : resize_update_loop env dim (out.length % UINT32_MOD)
                      (write_db_file_image out (out.length % UINT32_MOD) db1).2.1 tab
                      (write_db_file_image out (out.length % UINT32_MOD) db1).2.2 with
                  | none => exact ⟨x, hwx⟩
                  | some db2 =>
                    simp only
                    rw [hx] at hu
                    obtain ⟨_, u2⟩ := resize_update_loop_file env dim _ _ tab
                      { db1 with fpdb := db1.fpdb ++ x } db2 halloc1
                      (by show table_end env db1 ≤ (db1.fpdb ++ x).length
                          rw [List.length_append, hte1, g2]; omega) hu
                    refine ⟨x, ?_⟩
                    have u3 : db2.fpdb.drop (table_end env db) =
                        (db1.fpdb ++ x).drop (table_end env db) := by
                      rw [← hte1]; exact u2
                    rw [u3, g2, List.drop_append_of_le_length hfg]

/-- C21. For every database with a table of `max_files` rows whose file holds
the header and the table, and every call of `do_insert`, `do_delete`,
`do_read` or `lazily_resize`, whatever it returns, the bytes of the file from
the end of the table on are after the call the bytes they were before,
followed by the bytes that the call added at the end of the file. -/
theorem blob_region_append_only (env : Env) (db : pictdb_file)
    (halloc : table_allocated db) (hfg : table_end env db ≤ db.fpdb.length) :
    (∀ image id, ∃ x, (do_insert env image id db).2.fpdb.drop (table_end env db) =
      db.fpdb.drop (table_end env db) ++ x) ∧
    (∀ id, ∃ x, (do_delete env id db).2.fpdb.drop (table_end env db) =
      db.fpdb.drop (table_end env db) ++ x) ∧
    (∀ id dim, ∃ x, (do_read env id dim db).db.fpdb.drop (table_end env db) =
      db.fpdb.drop (table_end env db) ++ x) ∧
    (∀ dim index, ∃ x, (lazily_resize env dim db index).2.fpdb.drop (table_end env db) =
      db.fpdb.drop (table_end env db) ++ x) := by
  have hlen : db.metadata.length = db.header.max_files := halloc
  have hnil : ∃ x, db.fpdb.drop (table_end env db) = db.fpdb.drop (table_end env db) ++ x :=
    ⟨[], by rw [List.append_nil]⟩
  have hhe := sizeof_header_le_table_end env db
  refine ⟨?_, ?_, ?_, fun dim index => lazily_resize_blob env dim db index halloc hfg⟩
  · intro image id
    by_cases hok : (do_insert env image id db).1 = Code.OK
    · have heq : do_insert env image id db = (Code.OK, (do_insert env image id db).2) :=
        Prod.ext hok rfl
      obtain ⟨idx, row, row1, _, _, hrow, _, _, _, _, _, _, _, _, _, hbr⟩ :=
        do_insert_ok env image id db _ halloc heq
      have hidx : idx < db.header.max_files := by
        have := getElem?_lt_length _ _ _ hrow
        omega
      have hre := row_end_le_table_end env db idx hidx
      rcases hbr with ⟨_, _, _, _, _, _, hf⟩ | ⟨_, _, _, _, _, _, _, _, hf⟩
      · refine ⟨image.take (image.length % UINT32_MOD), ?_⟩
        rw [hf, commit_file_drop env _ _ _ _ _ hhe hre, List.drop_append_of_le_length hfg]
      · refine ⟨[], ?_⟩
        rw [hf, commit_file_drop env _ _ _ _ _ hhe hre, List.append_nil]
    · rw [(do_insert_fail env image id db halloc hok).2.1]
      exact hnil
  · intro id
    by_cases hok : (do_delete env id db).1 = Code.OK
    · have heq : do_delete env id db = (Code.OK, (do_delete env id db).2) := Prod.ext hok rfl
      obtain ⟨i, row, _, hi, _, _, _, _, _, hdb⟩ := do_delete_ok env id db _ halloc heq
      have hre := row_end_le_table_end env db i hi
      refine ⟨[], ?_⟩
      rw [hdb, List.append_nil]
      show (write_at (write_at db.fpdb _ _) 0 _).drop _ = _
      rw [write_at_drop _ _ _ _ (by rw [env.header_bytes_length]; omega),
        write_at_drop _ _ _ _ (by rw [env.metadata_bytes_length]; exact hre)]
    · rw [do_delete_fail env id db halloc hok]
      exact hnil
  · intro id dim
    have hl := lazily_resize_blob env dim db (get_image_index id db).2 halloc hfg
    unfold do_read
    dsimp only
    split_ifs <;> first | exact hnil | exact hl | (split <;> exact hl)

/-- The hypotheses of `blob_region_append_only` hold for `one_db`, whose table
ends at byte 10; the four calls here add three bytes, none, four and four. -/
theorem blob_region_append_only_witness :
    table_allocated one_db ∧ table_end sample_env one_db ≤ one_db.fpdb.length ∧
    (do_insert sample_env [255, 216, 9] [98] one_db).2.fpdb.drop 10
      = one_db.fpdb.drop 10 ++ [255, 216, 9] ∧
    (do_delete sample_env [97] one_db).2.fpdb.drop 10 = one_db.fpdb.drop 10 ∧
    (do_read sample_env [97] RES_THUMB one_db).db.fpdb.drop 10
      = one_db.fpdb.drop 10 ++ [255, 216, 0, 255] ∧
    (lazily_resize sample_env RES_SMALL one_db 0).2.fpdb.drop 10
      = one_db.fpdb.drop 10 ++ [255, 216, 1, 255] ∧
    (∀ image id, ∃ x, (do_insert sample_env image id one_db).2.fpdb.drop
        (table_end sample_env one_db) = one_db.fpdb.drop (table_end sample_env one_db) ++ x) ∧
    (∀ id, ∃ x, (do_delete sample_env id one_db).2.fpdb.drop (table_end sample_env one_db) =
      one_db.fpdb.drop (table_end sample_env one_db) ++ x) ∧
    (∀ id dim, ∃ x, (do_read sample_env id dim one_db).db.fpdb.drop
        (table_end sample_env one_db) = one_db.fpdb.drop (table_end sample_env one_db) ++ x) ∧
    (∀ dim index, ∃ x, (lazily_resize sample_env dim one_db index).2.fpdb.drop
        (table_end sample_env one_db) = one_db.fpdb.drop (table_end sample_env one_db) ++ x) :=
  ⟨by decide, by decide, by decide, by decide, by decide, by decide,
    blob_region_append_only sample_env one_db (by decide) (by decide)⟩

/-! ## The outcome of the deduplication loop -/

/-- The loop of `do_name_and_content_dedup` stops at `stop`, the first row that
holds the identifier of the candidate, or runs to `max_files` when there is no
such row; the candidate then carries the copy from the last row before `stop`
with its digest, or is as it entered the loop when there is none. -/
theorem dedup_loop_result (db : pictdb_file) (index : Nat) (id SHA : List Nat)
    (hlen : db.header.max_files ≤ db.metadata.length) (stop : Nat)
    (hstop : stop ≤ db.header.max_files)
    (hno : ∀ (j : Nat) (r : pict_metadata), j < stop → j ≠ index → db.metadata[j]? = some r →
      r.is_valid = NON_EMPTY → r.pict_id ≠ id)
    (hend : stop = db.header.max_files ∨
      (stop ≠ index ∧ ∃ r, db.metadata[stop]? = some r ∧ r.is_valid = NON_EMPTY ∧
        r.pict_id = id)) :
    ∀ fuel i cand, i + fuel = db.header.max_files → i ≤ stop →
      (dedup_loop db index id SHA fuel i cand).1 =
        (if stop = db.header.max_files then Code.OK else Code.ERR_DUPLICATE_ID) ∧
      ((∀ (j : Nat) (r : pict_metadata), i ≤ j → j < stop → ¬ sha_match db index SHA j r) →
        (dedup_loop db index id SHA fuel i cand).2 = cand) ∧
      (∀ (j : Nat) (r : pict_metadata), i ≤ j → j < stop → sha_match db index SHA j r →
        (∀ (j1 : Nat) (r1 : pict_metadata), j < j1 → j1 < stop →
          ¬ sha_match db index SHA j1 r1) →
        (dedup_loop db index id SHA fuel i cand).2 = dedup_copy cand r) := by
  intro fuel
  induction fuel with
  | zero =>
    intro i cand hi his
    have hs : stop = db.header.max_files := by omega
    unfold dedup_loop
    rw [if_pos hs]
    exact ⟨rfl, fun _ => rfl, fun j r h1 h2 => by omega⟩
  | succ n ih =>
    intro i cand hi his
    have hlt : i < db.header.max_files := by omega
    unfold dedup_loop
    rw [if_pos hlt]
    by_cases hsi : i = stop
    · -- the row at `stop` holds the identifier
      subst hsi
      rcases hend with hend | ⟨h1, r, h2, h3, h4⟩
      · omega
      · rw [if_pos h1]
        rw [h2]
        dsimp only
        rw [if_pos h3, if_pos h4, if_neg (by omega)]
        exact ⟨rfl, fun _ => rfl, fun j r1 h5 h6 => by omega⟩
    have his1 : i + 1 ≤ stop := by omega
    -- the turns that leave the candidate as it is
    have hskip : (∀ (r : pict_metadata), ¬ sha_match db index SHA i r) →
        (dedup_loop db index id SHA n (i + 1) cand).1 =
          (if stop = db.header.max_files then Code.OK else Code.ERR_DUPLICATE_ID) ∧
        ((∀ (j : Nat) (r : pict_metadata), i ≤ j → j < stop → ¬ sha_match db index SHA j r) →
          (dedup_loop db index id SHA n (i + 1) cand).2 = cand) ∧
        (∀ (j : Nat) (r : pict_metadata), i ≤ j → j < stop → sha_match db index SHA j r →
          (∀ (j1 : Nat) (r1 : pict_metadata), j < j1 → j1 < stop →
            ¬ sha_match db index SHA j1 r1) →
          (dedup_loop db index id SHA n (i + 1) cand).2 = dedup_copy cand r) := by
      intro hnm
      obtain ⟨e1, e2, e3⟩ := ih (i + 1) cand (by omega) his1
      refine ⟨e1, fun h => e2 (fun j r h1 h2 => h j r (by omega) h2), ?_⟩
      intro j r h1 h2 h3 h4
      have hji : j ≠ i := by
        intro hc
        subst hc
        exact hnm r h3
      exact e3 j r (by omega) h2 h3 h4
    by_cases hidx : i ≠ index
    · rw [if_pos hidx]
      have hil : i < db.metadata.length := by omega
      have hr : db.metadata[i]? = some (db.metadata[i]) := List.getElem?_eq_getElem hil
      generalize db.metadata[i] = r at hr
      rw [hr]
      dsimp only
      by_cases hv : r.is_valid = NON_EMPTY
      · rw [if_pos hv, if_neg (hno i r (by omega) hidx hr hv)]
        by_cases hs : r.SHA = SHA
        · rw [if_pos hs]
          obtain ⟨e1, e2, e3⟩ := ih (i + 1) (dedup_copy cand r) (by omega) his1
          refine ⟨e1, ?_, ?_⟩
          · intro h
            exact absurd ⟨hidx, hr, hv, hs⟩ (h i r (le_refl _) (by omega))
          · intro j rj h1 h2 h3 h4
            by_cases hji : j = i
            · subst hji
              obtain ⟨_, h5, _, _⟩ := h3
              rw [hr] at h5; cases h5
              exact e2 (fun j1 r1 h6 h7 => h4 j1 r1 (by omega) h7)
            · exact e3 j rj (by omega) h2 h3 h4
        · rw [if_neg hs]
          apply hskip
          rintro r1 ⟨_, h5, _, h6⟩
          rw [hr] at h5; cases h5
          exact hs h6
      · rw [if_neg hv]
        apply hskip
        rintro r1 ⟨_, h5, h6, _⟩
        rw [hr] at h5; cases h5
        exact hv h6
    · rw [if_neg hidx]
      apply hskip
      rintro r1 ⟨h5, _⟩
      exact hidx h5
theorem do_name_and_content_dedup_code (db : pictdb_file) (index : Nat) (c : Code)
    (db1 : pictdb_file) (h : do_name_and_content_dedup db index = (c, db1))
    (hc : c = Code.OK ∨ c = Code.ERR_DUPLICATE_ID) :
    index ≤ db.header.max_files ∧ ∃ row, db.metadata[index]? = some row := by
  unfold do_name_and_content_dedup at h
  by_cases hi : index > db.header.max_files
  · rw [if_pos hi] at h
    simp only [Prod.mk.injEq] at h
    rcases hc with hc | hc <;> rw [hc] at h <;> exact absurd h.1 (by decide)
  · rw [if_neg hi] at h
    cases hr : db.metadata[index]? with
    | none =>
      rw [hr] at h
      simp only [Prod.mk.injEq] at h
      rcases hc with hc | hc <;> rw [hc] at h <;> exact absurd h.1 (by decide)
    | some row => exact ⟨by omega, row, rfl⟩

/-! ## C23: what the deduplication copies -/

/-- C23. For every table of `max_files` rows and every candidate index for
which `do_name_and_content_dedup` returns 0, only the candidate row changes,
and it keeps its identifier, digest, `size[RES_ORIG]` and flag.  If another
`NON_EMPTY` row has the digest of the candidate, the candidate's
`size[thumb]`, `size[small]`, three offsets and `res_orig` are those of the
row of highest index among them; if there is none, the candidate is as on
entry with `offset[RES_ORIG]` 0. -/
theorem dedup_copy_tie_break (db db1 : pictdb_file) (index : Nat)
    (halloc : table_allocated db)
    (h : do_name_and_content_dedup db index = (Code.OK, db1)) :
    ∃ (row cand : pict_metadata), db.metadata[index]? = some row ∧
      db1 = { db with metadata := db.metadata.set index cand } ∧
      cand.pict_id = row.pict_id ∧ cand.SHA = row.SHA ∧ cand.size.orig = row.size.orig ∧
      cand.is_valid = row.is_valid ∧
      (∀ (j : Nat) (r : pict_metadata), sha_match db index row.SHA j r →
        (∀ (j1 : Nat) (r1 : pict_metadata), j < j1 → ¬ sha_match db index row.SHA j1 r1) →
        cand.size.thumb = r.size.thumb ∧ cand.size.small = r.size.small ∧
        cand.offset.orig = r.offset.orig ∧ cand.offset.thumb = r.offset.thumb ∧
        cand.offset.small = r.offset.small ∧ cand.res_orig = r.res_orig) ∧
      ((∀ (j : Nat) (r : pict_metadata), ¬ sha_match db index row.SHA j r) →
        cand = { row with offset := { row.offset with orig := 0 } }) := by
  have hlen : db.metadata.length = db.header.max_files := halloc
  obtain ⟨hle, row, hrow⟩ := do_name_and_content_dedup_code db index _ db1 h (Or.inl rfl)
  rw [do_name_and_content_dedup_eq db index row hle hrow] at h
  simp only [Prod.mk.injEq] at h
  obtain ⟨hcode, hdb⟩ := h
  have hno := dedup_loop_ok_absent db index row.pict_id row.SHA db.header.max_files 0
    { row with offset := { row.offset with orig := 0 } } (by omega) hcode
  obtain ⟨_, e2, e3⟩ := dedup_loop_result db index row.pict_id row.SHA (by omega)
    db.header.max_files (le_refl _)
    (fun j r hj hji hr hv => hno j r (Nat.zero_le _) hj hji hr hv) (Or.inl rfl)
    db.header.max_files 0 { row with offset := { row.offset with orig := 0 } } (by omega)
    (Nat.zero_le _)
  obtain ⟨k1, k2, k3, k4, _⟩ := dedup_loop_keeps db index row.pict_id row.SHA
    db.header.max_files 0 { row with offset := { row.offset with orig := 0 } }
  refine ⟨row, _, hrow, hdb.symm, k1, k2, k4, k3, ?_, ?_⟩
  · intro j r hm hlast
    have hj : j < db.header.max_files := by
      have := getElem?_lt_length _ _ _ hm.2.1
      omega
    rw [e3 j r (Nat.zero_le _) hj hm (fun j1 r1 h1 _ => hlast j1 r1 h1)]
    exact ⟨rfl, rfl, rfl, rfl, rfl, rfl⟩
  · intro hnone
    exact e2 (fun j r _ _ => hnone j r)

/-- The hypotheses of `dedup_copy_tie_break` hold for `tie_db` and its row 2:
the rows 0 and 1 have its digest, and the values copied are those of row 1. -/
theorem dedup_copy_tie_break_witness :
    table_allocated tie_db ∧
    (do_name_and_content_dedup tie_db 2).1 = Code.OK ∧
    (do_name_and_content_dedup tie_db 2).2.metadata[2]? =
      some { pict_id := [99], SHA := [227], res_orig := (1, 2), size := ⟨0, 5, 3⟩,
             offset := ⟨0, 20, 13⟩, is_valid := EMPTY, unused_16 := 0 } ∧
    ∃ (row cand : pict_metadata), tie_db.metadata[2]? = some row ∧
      (do_name_and_content_dedup tie_db 2).2 =
        { tie_db with metadata := tie_db.metadata.set 2 cand } ∧
      cand.pict_id = row.pict_id ∧ cand.SHA = row.SHA ∧ cand.size.orig = row.size.orig ∧
      cand.is_valid = row.is_valid ∧
      (∀ (j : Nat) (r : pict_metadata), sha_match tie_db 2 row.SHA j r →
        (∀ (j1 : Nat) (r1 : pict_metadata), j < j1 → ¬ sha_match tie_db 2 row.SHA j1 r1) →
        cand.size.thumb = r.size.thumb ∧ cand.size.small = r.size.small ∧
        cand.offset.orig = r.offset.orig ∧ cand.offset.thumb = r.offset.thumb ∧
        cand.offset.small = r.offset.small ∧ cand.res_orig = r.res_orig) ∧
      ((∀ (j : Nat) (r : pict_metadata), ¬ sha_match tie_db 2 row.SHA j r) →
        cand = { row with offset := { row.offset with orig := 0 } }) :=
  ⟨by decide, by decide, by decide,
    dedup_copy_tie_break tie_db (do_name_and_content_dedup tie_db 2).2 2 (by decide)
      (by decide)⟩

/-! ## C24: a name conflict -/

/-- C24, the claim as stated fails in its second part: in `conflict_db` row 0
has the digest of the candidate row 2 and a thumbnail, row 1 has its
identifier.  `do_name_and_content_dedup` copies from row 0 before it meets row
1 and returns `ERR_DUPLICATE_ID`: the candidate entered with `size[thumb]` 0
and leaves with the size 4 and the offset 16 of the thumbnail of row 0, and
with `offset[RES_ORIG]` 13.  This is the table of the call
`do_insert([255, 216, 7], "b")` on `conflict_base`, which leaves its row 2 so. -/
theorem dedup_name_conflict_copy_counterexample :
    (do_name_and_content_dedup conflict_db 2).1 = Code.ERR_DUPLICATE_ID ∧
    (conflict_db.metadata[2]?).map (fun r => (r.size.thumb, r.offset.thumb, r.offset.orig))
      = some (0, 0, 0) ∧
    ((do_name_and_content_dedup conflict_db 2).2.metadata[2]?).map
      (fun r => (r.size.thumb, r.offset.thumb, r.offset.orig)) = some (4, 16, 13) ∧
    (do_insert sample_env [255, 216, 7] [98] conflict_base).1 = Code.ERR_DUPLICATE_ID ∧
    (do_insert sample_env [255, 216, 7] [98] conflict_base).2.metadata
      = (do_name_and_content_dedup conflict_db 2).2.metadata := by
  decide

/-- C24, amended. For every table of `max_files` rows and every candidate row,
`do_name_and_content_dedup` returns `ERR_DUPLICATE_ID` if and only if another
`NON_EMPTY` row holds the identifier of the candidate.  It then changes the
candidate row only: with `c` the lowest index of such a row, the candidate
carries the copy from the row of highest index below `c` that has its digest,
and is as on entry with `offset[RES_ORIG]` 0 when no row below `c` has its
digest. -/
theorem dedup_name_conflict (db : pictdb_file) (index : Nat) (row : pict_metadata)
    (halloc : table_allocated db) (hrow : db.metadata[index]? = some row) :
    ((do_name_and_content_dedup db index).1 = Code.ERR_DUPLICATE_ID ↔
      ∃ (j : Nat) (r : pict_metadata), j ≠ index ∧ db.metadata[j]? = some r ∧
        r.is_valid = NON_EMPTY ∧ r.pict_id = row.pict_id) ∧
    (∀ (c : Nat) (rc : pict_metadata), c ≠ index → db.metadata[c]? = some rc →
      rc.is_valid = NON_EMPTY → rc.pict_id = row.pict_id →
      (∀ (j : Nat) (r : pict_metadata), j < c → j ≠ index → db.metadata[j]? = some r →
        r.is_valid = NON_EMPTY → r.pict_id ≠ row.pict_id) →
      ∃ cand, do_name_and_content_dedup db index =
          (Code.ERR_DUPLICATE_ID, { db with metadata := db.metadata.set index cand }) ∧
        ((∀ (j : Nat) (r : pict_metadata), j < c → ¬ sha_match db index row.SHA j r) →
          cand = { row with offset := { row.offset with orig := 0 } }) ∧
        (∀ (j : Nat) (r : pict_metadata), j < c → sha_match db index row.SHA j r →
          (∀ (j1 : Nat) (r1 : pict_metadata), j < j1 → j1 < c →
            ¬ sha_match db index row.SHA j1 r1) →
          cand = dedup_copy { row with offset := { row.offset with orig := 0 } } r)) := by
  have hlen : db.metadata.length = db.header.max_files := halloc
  have hidx : index < db.header.max_files := by
    have := getElem?_lt_length _ _ _ hrow
    omega
  have heq := do_name_and_content_dedup_eq db index row (by omega) hrow
  constructor
  · rw [heq]
    constructor
    · intro hc
      by_contra hno
      have := dedup_loop_ok db index row.pict_id row.SHA (by omega) db.header.max_files 0
        { row with offset := { row.offset with orig := 0 } } (by omega)
        (fun j r _ hj hr hv hid => hno ⟨j, r, hj, hr, hv, hid⟩)
      rw [this] at hc
      exact absurd hc (by decide)
    · rintro ⟨j, r, hj, hr, hv, hid⟩
      have hjl := getElem?_lt_length _ _ _ hr
      exact dedup_loop_duplicate db index row.pict_id row.SHA (by omega) db.header.max_files 0
        _ (by omega) ⟨j, r, Nat.zero_le _, by omega, hj, hr, hv, hid⟩
  · intro c rc hc hrc hv hid hfirst
    have hcl : c < db.header.max_files := by
      have := getElem?_lt_length _ _ _ hrc
      omega
    obtain ⟨e1, e2, e3⟩ := dedup_loop_result db index row.pict_id row.SHA (by omega) c
      (by omega) hfirst (Or.inr ⟨hc, rc, hrc, hv, hid⟩) db.header.max_files 0
      { row with offset := { row.offset with orig := 0 } } (by omega) (Nat.zero_le _)
    rw [if_neg (by omega)] at e1
    refine ⟨_, ?_, fun h => e2 (fun j r _ hj => h j r hj),
      fun j r hj hm hl => e3 j r (Nat.zero_le _) hj hm hl⟩
    rw [heq, e1]

/-- The hypotheses of `dedup_name_conflict` hold for `conflict_db` and its row
2: row 1 holds the identifier of the candidate, and row 0, below it, its
digest. -/
theorem dedup_name_conflict_witness :
    table_allocated conflict_db ∧ conflict_db.metadata[2]? = some conflict_row ∧
    (do_name_and_content_dedup conflict_db 2).1 = Code.ERR_DUPLICATE_ID ∧
    ∃ (j : Nat) (r : pict_metadata), j ≠ 2 ∧ conflict_db.metadata[j]? = some r ∧
      r.is_valid = NON_EMPTY ∧ r.pict_id = conflict_row.pict_id :=
  ⟨by decide, by decide, by decide,
    (dedup_name_conflict conflict_db 2 conflict_row (by decide) (by decide)).1.mp (by decide)⟩

/-! ## C26: the duplicate group -/

theorem dup_index_loop_eq (db : pictdb_file) (index : Nat) (SHA : List Nat)
    (hlen : db.header.max_files ≤ db.metadata.length) :
    ∀ fuel i tab0, i + fuel = db.header.max_files →
      dup_index_loop db index SHA fuel i tab0 = some (tab0 ++
        (List.range' i fuel).filter fun j =>
          decide (j ≠ index) &&
            match db.metadata[j]? with
            | some r => decide (r.is_valid = NON_EMPTY ∧ r.SHA = SHA)
            | none => false) := by
  intro fuel
  induction fuel with
  | zero =>
    intro i tab0 _
    simp [dup_index_loop]
  | succ n ih =>
    intro i tab0 hi
    have hlt : i < db.header.max_files := by omega
    have hil : i < db.metadata.length := by omega
    have hr : db.metadata[i]? = some (db.metadata[i]) := List.getElem?_eq_getElem hil
    generalize db.metadata[i] = r at hr
    unfold dup_index_loop
    rw [if_pos hlt, List.range'_succ, List.filter_cons]
    by_cases hidx : i ≠ index
    · rw [if_pos hidx, hr]
      dsimp only
      by_cases hv : NON_EMPTY = r.is_valid
      · rw [if_pos hv]
        by_cases hs : r.SHA = SHA
        · rw [if_pos hs, ih (i + 1) _ (by omega), if_pos (by simp [hidx, hv.symm, hs])]
          simp
        · rw [if_neg hs, ih (i + 1) _ (by omega), if_neg (by simp [hs])]
      · rw [if_neg hv, ih (i + 1) _ (by omega),
          if_neg (by simp; intro _ hc; exact absurd hc.symm hv)]
    · rw [if_neg hidx, ih (i + 1) _ (by omega), if_neg (by simp; intro hc; exact absurd hc hidx)]

/-- With `realloc` doubling a full array, no write leaves `index_tab`, and the
list built is the one of `dup_index_loop`. -/
theorem dup_index_array_loop_eq (db : pictdb_file) (index : Nat) (SHA : List Nat) :
    ∀ fuel i tab cap, 0 < cap → tab.length ≤ cap →
      (dup_index_array_loop db index SHA fuel i tab cap).map Prod.fst =
        dup_index_loop db index SHA fuel i tab := by
  intro fuel
  induction fuel with
  | zero =>
    intro i tab cap _ _
    simp [dup_index_array_loop, dup_index_loop]
  | succ n ih =>
    intro i tab cap hcap hlen
    unfold dup_index_array_loop dup_index_loop
    by_cases hlt : i < db.header.max_files
    · rw [if_pos hlt, if_pos hlt]
      by_cases hidx : i ≠ index
      · rw [if_pos hidx, if_pos hidx]
        cases hr : db.metadata[i]? with
        | none => rfl
        | some r =>
          dsimp only
          by_cases hv : NON_EMPTY = r.is_valid
          · rw [if_pos hv, if_pos hv]
            by_cases hs : r.SHA = SHA
            · rw [if_pos hs, if_pos hs]
              by_cases hfull : tab.length ≥ cap
              · rw [if_pos hfull, if_pos (by omega)]
                exact ih (i + 1) _ _ (by omega) (by rw [List.length_append]; simp; omega)
              · rw [if_neg hfull, if_pos (by omega)]
                exact ih (i + 1) _ _ hcap (by rw [List.length_append]; simp; omega)
            · rw [if_neg hs, if_neg hs]
              exact ih (i + 1) _ _ hcap hlen
          · rw [if_neg hv, if_neg hv]
            exact ih (i + 1) _ _ hcap hlen
      · rw [if_neg hidx, if_neg hidx]
        exact ih (i + 1) _ _ hcap hlen
    · rw [if_neg hlt, if_neg hlt]
      rfl

theorem dup_group_mem (db : pictdb_file) (index : Nat) (SHA : List Nat) (j : Nat) :
    j ∈ dup_group db index SHA ↔ j < db.header.max_files ∧ j ≠ index ∧
      ∃ r, db.metadata[j]? = some r ∧ r.is_valid = NON_EMPTY ∧ r.SHA = SHA := by
  unfold dup_group
  rw [List.mem_filter, List.mem_range]
  cases hr : db.metadata[j]? with
  | none => simp
  | some r => simp

/-- C26. For every table of `max_files` rows and every index below
`max_files`, `get_dup_index_and_update` builds the list that starts with the
index and goes on with exactly the indices, other than it, of the `NON_EMPTY`
rows that have the digest of its row, in ascending order and without
repetition; the array that holds the list starts with 10 places and is
doubled when it is full, so that no write leaves it, whatever the size of the
group. -/
theorem dup_group_list (db : pictdb_file) (index : Nat) (row0 : pict_metadata)
    (halloc : table_allocated db) (hrow : db.metadata[index]? = some row0) :
    (∃ db1, get_dup_index_and_update db index =
      some (index :: dup_group db index row0.SHA, db1)) ∧
    (dup_index_array_loop db index row0.SHA db.header.max_files 0 [index] 10).map Prod.fst =
      some (index :: dup_group db index row0.SHA) ∧
    (dup_group db index row0.SHA).Pairwise (fun a b => a < b) ∧
    (∀ j, j ∈ dup_group db index row0.SHA ↔ j < db.header.max_files ∧ j ≠ index ∧
      ∃ r, db.metadata[j]? = some r ∧ r.is_valid = NON_EMPTY ∧ r.SHA = row0.SHA) := by
  have hlen : db.metadata.length = db.header.max_files := halloc
  have hloop : dup_index_loop db index row0.SHA db.header.max_files 0 [index] =
      some (index :: dup_group db index row0.SHA) := by
    rw [dup_index_loop_eq db index row0.SHA (by omega) db.header.max_files 0 [index] (by omega)]
    unfold dup_group
    rw [List.range_eq_range']
    rfl
  refine ⟨?_, ?_, ?_, dup_group_mem db index row0.SHA⟩
  · unfold get_dup_index_and_update
    rw [hrow]
    dsimp only
    rw [hloop]
    cases hg : dup_group db index row0.SHA with
    | nil => exact ⟨db, rfl⟩
    | cons g rest =>
      dsimp only
      have hgm : g ∈ dup_group db index row0.SHA := by rw [hg]; simp
      obtain ⟨_, _, r, hr, _⟩ := (dup_group_mem db index row0.SHA g).mp hgm
      rw [hr]
      exact ⟨_, rfl⟩
  · rw [dup_index_array_loop_eq db index row0.SHA _ _ _ _ (by decide) (by simp), hloop]
  · unfold dup_group
    exact List.Pairwise.filter _ (List.pairwise_lt_range _)

/-- The hypotheses of `dup_group_list` hold for `twelve_db` and its row 3: the
group has twelve elements, and the array was doubled once. -/
theorem dup_group_list_witness :
    table_allocated twelve_db ∧
    twelve_db.metadata[3]? = some (sample_row [100] [227] 3 40) ∧
    dup_index_array_loop twelve_db 3 [227] 12 0 [3] 10
      = some ([3, 0, 1, 2, 4, 5, 6, 7, 8, 9, 10, 11], 20) ∧
    (∃ db1, get_dup_index_and_update twelve_db 3 =
      some (3 :: dup_group twelve_db 3 (sample_row [100] [227] 3 40).SHA, db1)) ∧
    (dup_index_array_loop twelve_db 3 (sample_row [100] [227] 3 40).SHA
        twelve_db.header.max_files 0 [3] 10).map Prod.fst =
      some (3 :: dup_group twelve_db 3 (sample_row [100] [227] 3 40).SHA) ∧
    (dup_group twelve_db 3 (sample_row [100] [227] 3 40).SHA).Pairwise (fun a b => a < b) ∧
    (∀ j, j ∈ dup_group twelve_db 3 (sample_row [100] [227] 3 40).SHA ↔
      j < twelve_db.header.max_files ∧ j ≠ 3 ∧
      ∃ r, twelve_db.metadata[j]? = some r ∧ r.is_valid = NON_EMPTY ∧
        r.SHA = (sample_row [100] [227] 3 40).SHA) :=
  ⟨by decide, by decide, by decide,
    dup_group_list twelve_db 3 (sample_row [100] [227] 3 40) (by decide) (by decide)⟩

/-! ## C28: back-propagation -/

/-- The update of `get_dup_index_and_update`, field by field: for thumb and
small the size is the one of `g`, the offset is the one of `g` when the sizes
differed; nothing else changes. -/
theorem dup_update_spec (row g : pict_metadata) :
    (∀ v, v = RES_THUMB ∨ v = RES_SMALL →
      (dup_update row g).size.get v = g.size.get v ∧
      (row.size.get v ≠ g.size.get v → (dup_update row g).offset.get v = g.offset.get v) ∧
      (row.size.get v = g.size.get v → (dup_update row g).offset.get v = row.offset.get v)) ∧
    (dup_update row g).size.orig = row.size.orig ∧
    (dup_update row g).offset.orig = row.offset.orig ∧
    (dup_update row g).pict_id = row.pict_id ∧ (dup_update row g).SHA = row.SHA ∧
    (dup_update row g).res_orig = row.res_orig ∧
    (dup_update row g).is_valid = row.is_valid ∧
    (dup_update row g).unused_16 = row.unused_16 := by
  unfold dup_update
  refine ⟨?_, ?_, ?_, ?_, ?_, ?_, ?_, ?_⟩
  · intro v hv
    rcases hv with hv | hv <;> subst hv <;>
      simp only [res_array_get_thumb, res_array_get_small] <;>
      by_cases h1 : row.size.small ≠ g.size.small <;>
      by_cases h2 : row.size.thumb ≠ g.size.thumb <;>
      simp [h1, h2] <;> simp_all
  all_goals
    by_cases h1 : row.size.small ≠ g.size.small <;>
    by_cases h2 : row.size.thumb ≠ g.size.thumb <;>
    simp [h1, h2]

/-- C28, the claim as stated fails: in `uneven_db` the rows 0 and 1 have the
same digest, row 0 holds a thumbnail (size 4 at offset 13) and row 1, which is
`G[1]` for the index 0, holds none.  `get_dup_index_and_update` for the index
0 gives row 0 the size 0 and the offset 0 of row 1: the thumbnail of row 0 is
cleared. -/
theorem back_propagation_clears_counterexample :
    (uneven_db.metadata[0]?).map (fun r => (r.is_valid, r.size.thumb, r.offset.thumb))
      = some (NON_EMPTY, 4, 13) ∧
    (uneven_db.metadata[1]?).map (fun r => (r.is_valid, r.size.thumb, r.offset.thumb))
      = some (NON_EMPTY, 0, 0) ∧
    (get_dup_index_and_update uneven_db 0).map (fun p => p.1) = some [0, 1] ∧
    (get_dup_index_and_update uneven_db 0).map
      (fun p => (p.2.metadata[0]?).map (fun r => (r.size.thumb, r.offset.thumb)))
      = some (some (0, 0)) := by
  decide

/-- C28, amended. For every table and index `i` for which
`get_dup_index_and_update` builds a group `G` of more than one element, only
row `i` changes: for each variant `v` of thumb and small its `size[v]` is then
the one of row `G[1]`, whether that is 0 or not, its `offset[v]` is the one of
row `G[1]` when the two sizes differed on entry and is as it was when they
were equal, and its other fields are as they were.  With a group of one
element nothing changes. -/
theorem back_propagation_effect (db db1 : pictdb_file) (index : Nat) (tab : List Nat)
    (h : get_dup_index_and_update db index = some (tab, db1)) :
    ∃ (row0 : pict_metadata), db.metadata[index]? = some row0 ∧
      ((tab = [index] ∧ db1 = db) ∨
       (∃ (g : Nat) (rest : List Nat) (rg row1 : pict_metadata),
          tab = index :: g :: rest ∧ db.metadata[g]? = some rg ∧
          db1 = { db with metadata := db.metadata.set index row1 } ∧
          (∀ v, v = RES_THUMB ∨ v = RES_SMALL →
            row1.size.get v = rg.size.get v ∧
            (row0.size.get v ≠ rg.size.get v → row1.offset.get v = rg.offset.get v) ∧
            (row0.size.get v = rg.size.get v → row1.offset.get v = row0.offset.get v)) ∧
          row1.size.orig = row0.size.orig ∧ row1.offset.orig = row0.offset.orig ∧
          row1.pict_id = row0.pict_id ∧ row1.SHA = row0.SHA ∧
          row1.res_orig = row0.res_orig ∧ row1.is_valid = row0.is_valid ∧
          row1.unused_16 = row0.unused_16)) := by
  obtain ⟨row0, rest, h1, _, h3, _, h5⟩ := get_dup_index_and_update_ok db index tab db1 h
  refine ⟨row0, h1, ?_⟩
  rcases h5 with ⟨h5, h6⟩ | ⟨g, rest1, rg, h5, h6, h7⟩
  · exact Or.inl ⟨by rw [h3, h5], h6⟩
  · right
    obtain ⟨s1, s2, s3, s4, s5, s6, s7, s8⟩ := dup_update_spec row0 rg
    exact ⟨g, rest1, rg, dup_update row0 rg, by rw [h3, h5], h6, h7, s1, s2, s3, s4, s5, s6,
      s7, s8⟩

/-- The hypothesis of `back_propagation_effect` holds for `uneven_db` and the
index 1, whose row takes the thumbnail of row 0 (size 4 at offset 13). -/
theorem back_propagation_effect_witness :
    get_dup_index_and_update uneven_db 1 = some ([1, 0], uneven_shared_db) ∧
    ∃ (row0 : pict_metadata), uneven_db.metadata[1]? = some row0 ∧
      (([1, 0] = [1] ∧ uneven_shared_db = uneven_db) ∨
       (∃ (g : Nat) (rest : List Nat) (rg row1 : pict_metadata),
          [1, 0] = 1 :: g :: rest ∧ uneven_db.metadata[g]? = some rg ∧
          uneven_shared_db = { uneven_db with metadata := uneven_db.metadata.set 1 row1 } ∧
          (∀ v, v = RES_THUMB ∨ v = RES_SMALL →
            row1.size.get v = rg.size.get v ∧
            (row0.size.get v ≠ rg.size.get v → row1.offset.get v = rg.offset.get v) ∧
            (row0.size.get v = rg.size.get v → row1.offset.get v = row0.offset.get v)) ∧
          row1.size.orig = row0.size.orig ∧ row1.offset.orig = row0.offset.orig ∧
          row1.pict_id = row0.pict_id ∧ row1.SHA = row0.SHA ∧
          row1.res_orig = row0.res_orig ∧ row1.is_valid = row0.is_valid ∧
          row1.unused_16 = row0.unused_16)) :=
  ⟨by decide, back_propagation_effect uneven_db uneven_shared_db 1 [1, 0] (by decide)⟩

/-! ## C27: materialization of a variant -/

/-- In a consistent database two occupied rows with the same digest hold the
same sizes of thumb and small. -/
theorem consistent_sizes (env : Env) (db : pictdb_file) (hcons : consistent env db)
    (a b : pict_metadata) (ha : a ∈ db.metadata) (hb : b ∈ db.metadata)
    (hva : a.is_valid = NON_EMPTY) (hvb : b.is_valid = NON_EMPTY) (hs : a.SHA = b.SHA) :
    a.size.small = b.size.small ∧ a.size.thumb = b.size.thumb := by
  obtain ⟨_, _, h3, h4⟩ := hcons
  obtain ⟨_, _, _, at1, as1⟩ := h3 a ha hva
  obtain ⟨_, _, _, bt1, bs1⟩ := h3 b hb hvb
  obtain ⟨ho, hsz⟩ := h4 a ha b hb hva hvb hs
  constructor
  · by_cases h0 : a.size.small = 0
    · have : b.offset.small = 0 := by rw [← ho]; exact as1.mp h0
      rw [h0, bs1.mpr this]
    · have hb0 : b.size.small ≠ 0 := by
        intro hb0
        have : a.offset.small = 0 := by rw [ho]; exact bs1.mp hb0
        exact h0 (as1.mpr this)
      have := hsz RES_SMALL (by simp) (by rw [res_array_get_small]; exact h0)
        (by rw [res_array_get_small]; exact hb0)
      rw [res_array_get_small, res_array_get_small] at this
      exact this
  · by_cases h0 : a.size.thumb = 0
    · have : b.offset.thumb = 0 := by rw [← ho]; exact at1.mp h0
      rw [h0, bt1.mpr this]
    · have hb0 : b.size.thumb ≠ 0 := by
        intro hb0
        have : a.offset.thumb = 0 := by rw [ho]; exact bt1.mp hb0
        exact h0 (at1.mpr this)
      have := hsz RES_THUMB (by simp) (by rw [res_array_get_thumb]; exact h0)
        (by rw [res_array_get_thumb]; exact hb0)
      rw [res_array_get_thumb, res_array_get_thumb] at this
      exact this

/-- When the occupied rows with the digest of row `index` hold its sizes of
thumb and small, `get_dup_index_and_update` leaves the database as it is, and
`index_tab` lists that row and the occupied rows with its digest. -/
theorem get_dup_index_and_update_shared (db : pictdb_file) (index : Nat)
    (row0 : pict_metadata) (tab : List Nat) (db1 : pictdb_file)
    (hrow : db.metadata[index]? = some row0)
    (hshare : ∀ (g : Nat) (rg : pict_metadata), db.metadata[g]? = some rg →
      rg.is_valid = NON_EMPTY → rg.SHA = row0.SHA →
      row0.size.small = rg.size.small ∧ row0.size.thumb = rg.size.thumb)
    (h : get_dup_index_and_update db index = some (tab, db1)) :
    db1 = db ∧ ∀ k, k ∈ tab ↔ k = index ∨ (k < db.header.max_files ∧ k ≠ index ∧
      ∃ r, db.metadata[k]? = some r ∧ r.is_valid = NON_EMPTY ∧ r.SHA = row0.SHA) := by
  obtain ⟨row, rest, h1, h2, h3, h4, h5⟩ := get_dup_index_and_update_ok db index tab db1 h
  rw [hrow] at h1; cases h1
  have hmem := dup_index_loop_mem db index row0.SHA _ _ _ _ (by omega) h2
  have hmem1 : ∀ k, k ∈ tab ↔ k = index ∨ (k < db.header.max_files ∧ k ≠ index ∧
      ∃ r, db.metadata[k]? = some r ∧ r.is_valid = NON_EMPTY ∧ r.SHA = row0.SHA) := by
    intro k
    rw [hmem k]
    simp
  refine ⟨?_, hmem1⟩
  rcases h5 with ⟨_, h5⟩ | ⟨g, rest1, rg, h5, h6, h7⟩
  · exact h5
  · have hg : g ∈ tab := by rw [h3, h5]; simp
    have hgne : g ≠ index := (h4 g (by rw [h5]; simp)).1
    rcases (hmem1 g).mp hg with hg1 | ⟨_, _, r, hr, hrv, hrs⟩
    · exact absurd hg1 hgne
    · rw [h6] at hr; cases hr
      obtain ⟨e2, e3⟩ := hshare g rg h6 hrv hrs
      rw [h7, dup_update_eq_self row0 rg e2 e3, set_getElem?_self _ _ _ hrow]

/-- The bytes added behind a file `l0` whose part from `te` on was kept. -/
theorem drop_length_of_drop_append {α : Type} (l l0 x : List α) (te : Nat)
    (hte : te ≤ l0.length) (h : l.drop te = l0.drop te ++ x) : l.drop l0.length = x := by
  have e : l.drop l0.length = (l.drop te).drop (l0.length - te) := by
    rw [List.drop_drop]
    congr 1
    omega
  rw [e, h]
  exact List.drop_left' (List.length_drop _ _)

/-- C27. For every consistent database whose file holds the metadata table,
occupied row `i` and variant `dim` of thumb and small with `size[dim] = 0` on
row `i`, where the provider's output has a 32-bit length: the back-propagation
of `get_dup_index_and_update` changes nothing, and a `lazily_resize` that
returns 0 has called the provider on the original of row `i`, has appended its
output `out` at the previous end of the file, and has set `size[dim]` to the
length of `out` and `offset[dim]` to the previous file length on row `i` and
on every occupied row with the same digest; the other variants and fields of
these rows, the rows outside the group and the header are as before.  For the
original `lazily_resize` returns 0 and changes nothing. -/
theorem lazily_resize_materializes (env : Env) (dim : Nat) (db dbL : pictdb_file) (i : Nat)
    (row0 : pict_metadata) (hcons : consistent env db)
    (hfile : table_end env db ≤ db.fpdb.length)
    (hdim : dim = RES_THUMB ∨ dim = RES_SMALL)
    (hrow : db.metadata[i]? = some row0) (hv : row0.is_valid = NON_EMPTY)
    (hsz : row0.size.get dim = 0)
    (hlen : ∀ out, env.jpeg_resize (blob_at db row0.offset.orig row0.size.orig)
      row0.size.orig dim db.header.res_resized = some out → out.length < UINT32_MOD)
    (h : lazily_resize env dim db i = (Code.OK, dbL)) :
    (∃ tab, get_dup_index_and_update db i = some (tab, db)) ∧
    (∃ out : List Nat,
      env.jpeg_resize (blob_at db row0.offset.orig row0.size.orig) row0.size.orig dim
        db.header.res_resized = some out ∧
      out.length ≠ 0 ∧
      dbL.header = db.header ∧
      dbL.fpdb.length = db.fpdb.length + out.length ∧
      dbL.fpdb.drop (table_end env db) = db.fpdb.drop (table_end env db) ++ out ∧
      dbL.fpdb.drop db.fpdb.length = out ∧
      (∀ (k : Nat) (r : pict_metadata), db.metadata[k]? = some r →
        (k = i ∨ (r.is_valid = NON_EMPTY ∧ r.SHA = row0.SHA)) →
        ∃ r1, dbL.metadata[k]? = some r1 ∧
          r1 = resized_row dim out.length db.fpdb.length r ∧
          r1.size.get dim = out.length ∧ r1.offset.get dim = db.fpdb.length ∧
          (∀ v, v ≠ dim → r1.size.get v = r.size.get v ∧ r1.offset.get v = r.offset.get v) ∧
          r1.pict_id = r.pict_id ∧ r1.SHA = r.SHA ∧ r1.res_orig = r.res_orig ∧
          r1.is_valid = r.is_valid ∧ r1.unused_16 = r.unused_16) ∧
      (∀ (k : Nat) (r : pict_metadata), db.metadata[k]? = some r →
        ¬ (k = i ∨ (r.is_valid = NON_EMPTY ∧ r.SHA = row0.SHA)) →
        dbL.metadata[k]? = some r) ∧
      dbL.metadata.length = db.metadata.length) ∧
    lazily_resize env RES_ORIG db i = (Code.OK, db) := by
  obtain ⟨r0, row, tab, db1, h1, _, h3, h4, h5⟩ := lazily_resize_ok env dim db i dbL hdim h
  rw [hrow] at h1; cases h1
  have hshare : ∀ (g : Nat) (rg : pict_metadata), db.metadata[g]? = some rg →
      rg.is_valid = NON_EMPTY → rg.SHA = row0.SHA →
      row0.size.small = rg.size.small ∧ row0.size.thumb = rg.size.thumb := by
    intro g rg hg hgv hgs
    exact consistent_sizes env db hcons row0 rg (mem_of_getElem? _ _ _ hrow)
      (mem_of_getElem? _ _ _ hg) hv hgv hgs.symm
  obtain ⟨e1, htab⟩ := get_dup_index_and_update_shared db i row0 tab db1 hrow hshare h3
  subst e1
  rw [hrow] at h4; cases h4
  have halloc : db1.metadata.length = db1.header.max_files := hcons.1
  refine ⟨⟨tab, h3⟩, ?_, lazily_resize_orig_eq env db1 i⟩
  rcases h5 with ⟨h5, _⟩ | ⟨_, buf, out, hrd, hjr, hns, hl⟩
  · exact absurd hsz h5
  have hbuf : buf = blob_at db1 row0.offset.orig row0.size.orig := by
    rw [read_db_file_image_orig db1 i row0 hrow] at hrd
    by_cases c1 : row0.size.orig = 0
    · rw [if_pos c1] at hrd; cases hrd
    rw [if_neg c1] at hrd
    by_cases c2 : row0.offset.orig + row0.size.orig ≤ db1.fpdb.length
    · rw [if_pos c2] at hrd
      exact (congrArg Prod.snd hrd).symm
    · rw [if_neg c2] at hrd; cases hrd
  subst hbuf
  have hlt := hlen out hjr
  have hmod : out.length % UINT32_MOD = out.length := Nat.mod_eq_of_lt hlt
  rw [hmod] at hl hns
  rw [List.take_length] at hl
  obtain ⟨f1, f2⟩ := resize_update_loop_frame env dim _ _ _ _ _ hl
  have f3 := resize_update_loop_rows env dim _ _ _ _ _ hl
  obtain ⟨f4, f5⟩ := resize_update_loop_file env dim _ _ _
    { db1 with fpdb := db1.fpdb ++ out } _ halloc
    (by show table_end env db1 ≤ (db1.fpdb ++ out).length
        rw [List.length_append]; omega) hl
  have hin : ∀ (k : Nat) (r : pict_metadata), db1.metadata[k]? = some r →
      (k ∈ tab ↔ (k = i ∨ (r.is_valid = NON_EMPTY ∧ r.SHA = row0.SHA))) := by
    intro k r hr
    rw [htab k]
    have hk := getElem?_lt_length _ _ _ hr
    constructor
    · rintro (hk1 | ⟨_, _, r1, hr1, hv1, hs1⟩)
      · exact Or.inl hk1
      · rw [hr] at hr1; cases hr1
        exact Or.inr ⟨hv1, hs1⟩
    · rintro (hk1 | ⟨hv1, hs1⟩)
      · exact Or.inl hk1
      · by_cases hki : k = i
        · exact Or.inl hki
        · exact Or.inr ⟨by omega, hki, r, hr, hv1, hs1⟩
  have hdrop : dbL.fpdb.drop (table_end env db1) = db1.fpdb.drop (table_end env db1) ++ out := by
    have : dbL.fpdb.drop (table_end env db1) = (db1.fpdb ++ out).drop (table_end env db1) := f5
    rw [this, List.drop_append_of_le_length hfile]
  have hlenL : dbL.fpdb.length = db1.fpdb.length + out.length := by
    rw [f4]; exact List.length_append _ _
  refine ⟨out, hjr, hns, f1, hlenL, hdrop, ?_, ?_, ?_, ?_⟩
  · exact drop_length_of_drop_append _ _ _ _ hfile hdrop
  · intro k r hr hc
    refine ⟨resized_row dim out.length db1.fpdb.length r, ?_, rfl,
      (resized_row_get_same _ _ _ _).1, (resized_row_get_same _ _ _ _).2,
      fun v hv1 => resized_row_get_other _ _ _ v r hdim hv1, rfl, rfl, rfl, rfl, rfl⟩
    rw [f3 k, if_pos ((hin k r hr).mpr hc)]
    show (db1.metadata[k]?).map _ = _
    rw [hr]; rfl
  · intro k r hr hc
    rw [f3 k, if_neg (fun hm => hc ((hin k r hr).mp hm))]
    exact hr
  · have := congrArg List.length f2
    rw [List.length_map, List.length_map] at this
    exact this
/-- The hypotheses of `lazily_resize_materializes` hold for `two_db`, whose
two rows share the original `[255, 216, 7]` stored at offset 10, and the
thumbnail of row 0: the provider's four bytes are appended at offset 13. -/
theorem lazily_resize_materializes_witness :
    consistent sample_env two_db ∧
    table_end sample_env two_db ≤ two_db.fpdb.length ∧
    two_db.metadata[0]? = some one_db_row ∧ one_db_row.is_valid = NON_EMPTY ∧
    one_db_row.size.get RES_THUMB = 0 ∧
    lazily_resize sample_env RES_THUMB two_db 0 =
      (Code.OK, (lazily_resize sample_env RES_THUMB two_db 0).2) ∧
    (lazily_resize sample_env RES_THUMB two_db 0).2.fpdb.drop two_db.fpdb.length
      = [255, 216, 0, 255] ∧
    ((lazily_resize sample_env RES_THUMB two_db 0).2.metadata.map
        fun r => (r.size.thumb, r.offset.thumb)) = [(4, 13), (4, 13)] ∧
    ((∃ tab, get_dup_index_and_update two_db 0 = some (tab, two_db)) ∧
     (∃ out : List Nat,
      sample_env.jpeg_resize (blob_at two_db one_db_row.offset.orig one_db_row.size.orig)
        one_db_row.size.orig RES_THUMB two_db.header.res_resized = some out ∧
      out.length ≠ 0 ∧
      (lazily_resize sample_env RES_THUMB two_db 0).2.header = two_db.header ∧
      (lazily_resize sample_env RES_THUMB two_db 0).2.fpdb.length
        = two_db.fpdb.length + out.length ∧
      (lazily_resize sample_env RES_THUMB two_db 0).2.fpdb.drop (table_end sample_env two_db)
        = two_db.fpdb.drop (table_end sample_env two_db) ++ out ∧
      (lazily_resize sample_env RES_THUMB two_db 0).2.fpdb.drop two_db.fpdb.length = out ∧
      (∀ (k : Nat) (r : pict_metadata), two_db.metadata[k]? = some r →
        (k = 0 ∨ (r.is_valid = NON_EMPTY ∧ r.SHA = one_db_row.SHA)) →
        ∃ r1, (lazily_resize sample_env RES_THUMB two_db 0).2.metadata[k]? = some r1 ∧
          r1 = resized_row RES_THUMB out.length two_db.fpdb.length r ∧
          r1.size.get RES_THUMB = out.length ∧ r1.offset.get RES_THUMB = two_db.fpdb.length ∧
          (∀ v, v ≠ RES_THUMB →
            r1.size.get v = r.size.get v ∧ r1.offset.get v = r.offset.get v) ∧
          r1.pict_id = r.pict_id ∧ r1.SHA = r.SHA ∧ r1.res_orig = r.res_orig ∧
          r1.is_valid = r.is_valid ∧ r1.unused_16 = r.unused_16) ∧
      (∀ (k : Nat) (r : pict_metadata), two_db.metadata[k]? = some r →
        ¬ (k = 0 ∨ (r.is_valid = NON_EMPTY ∧ r.SHA = one_db_row.SHA)) →
        (lazily_resize sample_env RES_THUMB two_db 0).2.metadata[k]? = some r) ∧
      (lazily_resize sample_env RES_THUMB two_db 0).2.metadata.length
        = two_db.metadata.length) ∧
     lazily_resize sample_env RES_ORIG two_db 0 = (Code.OK, two_db)) :=
  ⟨by decide, by decide, by decide, by decide, by decide, by decide, by decide, by decide,
    lazily_resize_materializes sample_env RES_THUMB two_db
      (lazily_resize sample_env RES_THUMB two_db 0).2 0 one_db_row (by decide) (by decide)
      (Or.inl rfl) (by decide) (by decide) (by decide)
      (fun out ho => by
        have e : out = [255, 216, 0, 255] := (Option.some.inj ho).symm
        rw [e]
        decide)
      (by decide)⟩

/-! ## C30: the header after `do_gbcollect` -/

/-- A turn of the loop of `do_gbcollect` that returns 0 keeps the two counters
of the temporary database equal to `newIndex`. -/
theorem gc_turn_header (env : Env) (S T S1 T1 : pictdb_file) (n k k1 : Nat)
    (hcons : consistent env S) (hinv : gc_inv env S T n k) (hn : n < S.header.max_files)
    (hd : T.header.db_version = k % UINT32_MOD ∧ T.header.num_files = k % UINT32_MOD ∧
      T.header.res_resized = S.header.res_resized)
    (h : gbcollect_turn env n (S, T, k) = (Code.OK, S1, T1, k1)) :
    T1.header.db_version = k1 % UINT32_MOD ∧ T1.header.num_files = k1 % UINT32_MOD ∧
      T1.header.res_resized = S.header.res_resized := by
  have hallocS : S.metadata.length = S.header.max_files := hcons.1
  have hnl : n < S.metadata.length := by omega
  have hr : S.metadata[n]? = some (S.metadata[n]) := List.getElem?_eq_getElem hnl
  generalize S.metadata[n] = r at hr
  rcases gbcollect_turn_ok env S T S1 T1 n k k1 r hr h with
    ⟨_, _, e2, e3⟩ | ⟨_, e1, _, _, buf, r1, Ti, Ts, _, hins, _, hs1, hs2, ht1, ht2⟩
  · subst e2; subst e3
    exact hd
  · obtain ⟨_, _, _, _, _, _, _, _, hh, _⟩ := do_insert_ok env buf r.pict_id T Ti hinv.core.alloc hins
    have hTs : Ts.header = Ti.header := by
      by_cases c : r1.size.small = 0
      · rw [hs2 c]
      · have := (lazily_resize_frame env RES_SMALL Ti k).1
        rw [hs1 c] at this
        exact this
    have hT1 : T1.header = Ts.header := by
      by_cases c : r1.size.thumb = 0
      · rw [ht2 c]
      · have := (lazily_resize_frame env RES_THUMB Ts k).1
        rw [ht1 c] at this
        exact this
    rw [hT1, hTs, hh, e1]
    obtain ⟨d1, d2, d3⟩ := hd
    refine ⟨?_, ?_, d3⟩
    · show (T.header.db_version + 1) % UINT32_MOD = (k + 1) % UINT32_MOD
      rw [d1]; simp [Nat.add_mod]
    · show (T.header.num_files + 1) % UINT32_MOD = (k + 1) % UINT32_MOD
      rw [d2]; simp [Nat.add_mod]

/-- The loop of `do_gbcollect`, when it returns 0, has kept the two counters of
the temporary database equal to `newIndex`. -/
theorem gc_loop_header (env : Env) (S : pictdb_file) (hcons : consistent env S) :
    ∀ (fuel n : Nat) (T : pictdb_file) (k : Nat) (S1 T1 : pictdb_file) (k1 : Nat),
      n + fuel = S.header.max_files → gc_inv env S T n k →
      (T.header.db_version = k % UINT32_MOD ∧ T.header.num_files = k % UINT32_MOD ∧
        T.header.res_resized = S.header.res_resized) →
      gbcollect_loop env fuel n (S, T, k) = (Code.OK, S1, T1, k1) →
      T1.header.db_version = k1 % UINT32_MOD ∧ T1.header.num_files = k1 % UINT32_MOD ∧
        T1.header.res_resized = S.header.res_resized := by
  intro fuel
  induction fuel with
  | zero =>
    intro n T k S1 T1 k1 _ _ hd h
    simp only [gbcollect_loop, Prod.mk.injEq, true_and] at h
    obtain ⟨_, e2, e3⟩ := h
    subst e2; subst e3
    exact hd
  | succ f ih =>
    intro n T k S1 T1 k1 hn hinv hd h
    unfold gbcollect_loop at h
    have hlt : n < S.header.max_files := by omega
    simp only [if_pos hlt] at h
    rcases ht : gbcollect_turn env n (S, T, k) with ⟨c, S2, T2, k2⟩
    rw [ht] at h
    cases c <;> simp only [Prod.mk.injEq, false_and, reduceCtorEq] at h
    obtain ⟨e, hinv2⟩ := gc_turn_inv env S T S2 T2 n k k2 hcons hinv hlt ht
    have hd2 := gc_turn_header env S T S2 T2 n k k2 hcons hinv hlt hd ht
    subst e
    exact ih (n + 1) T2 k2 S1 T1 k1 (by omega) hinv2 hd2 h

/-- The header that a call of `do_gbcollect` returning 0 leaves in the
temporary database, and the start of its file. -/
theorem do_gbcollect_header (env : Env) (S S1 T : pictdb_file) (hcons : consistent env S)
    (h : do_gbcollect env S = (Code.OK, S1, T)) :
    S1 = S ∧
    T.header.db_version = (occupied S S.header.max_files).length % UINT32_MOD ∧
    T.header.num_files = (occupied S S.header.max_files).length % UINT32_MOD ∧
    T.header.res_resized = S.header.res_resized ∧
    T.header.max_files = S.header.max_files ∧
    T.fpdb.take env.sizeof_header = env.header_bytes T.header := by
  obtain ⟨e, k, hinv⟩ := do_gbcollect_inv env S S1 T hcons h
  unfold do_gbcollect at h
  rw [if_neg (by simp [do_create])] at h
  simp only [Prod.mk.injEq] at h
  obtain ⟨h1, h2, h3⟩ := h
  rcases hl : gbcollect_loop env S.header.max_files 0
    (S, (do_create env S.header.max_files S.header.res_resized).2, 0) with ⟨c, S2, T2, k2⟩
  rw [hl] at h1 h2 h3
  simp only at h1 h2 h3
  subst h1; subst h3
  obtain ⟨d1, d2, d3⟩ := gc_loop_header env S hcons _ 0 _ 0 _ _ _ (by omega)
    (gc_inv_create env S) (by rw [do_create_header]; exact ⟨rfl, rfl, rfl⟩) hl
  obtain ⟨_, hinv2⟩ := gc_loop_inv env S hcons _ 0 _ 0 _ _ _ (by omega)
    (gc_inv_create env S) hl
  have hk := hinv2.hk
  rw [← hk]
  refine ⟨e, d1, d2, d3, hinv2.hmax, ?_⟩
  have hs : T2.fpdb.take (table_end env T2) = table_image env T2 := hinv2.sync
  have hle := sizeof_header_le_table_end env T2
  have : T2.fpdb.take env.sizeof_header =
      (T2.fpdb.take (table_end env T2)).take env.sizeof_header := by
    rw [List.take_take, Nat.min_eq_left hle]
  rw [this, hs]
  unfold table_image
  exact List.take_left' (env.header_bytes_length _)

/-- C30. For every consistent database on which `do_gbcollect` returns 0, the
header of the temporary database, which the first bytes of the resulting file
hold, has `db_version` equal to its `num_files`, both the number of occupied
rows of the source as a `uint32_t`, and the `max_files` and `res_resized` of
the source; the same value of `db_version` comes out for every value of the
`db_version` of the source; and the database given to `do_gbcollect`, its
header included, is as before the call. -/
theorem gbcollect_resets_version (env : Env) (S S1 T : pictdb_file)
    (hcons : consistent env S) (h : do_gbcollect env S = (Code.OK, S1, T)) :
    T.header.db_version = T.header.num_files ∧
    T.header.db_version = (occupied S S.header.max_files).length % UINT32_MOD ∧
    T.header.max_files = S.header.max_files ∧
    T.header.res_resized = S.header.res_resized ∧
    T.fpdb.take env.sizeof_header = env.header_bytes T.header ∧
    (∀ (v : Nat) (S2 T2 : pictdb_file),
      do_gbcollect env { S with header := { S.header with db_version := v } }
        = (Code.OK, S2, T2) →
      T2.header.db_version = T.header.db_version) ∧
    S1 = S ∧ S1.header = S.header := by
  obtain ⟨e, d1, d2, d3, d4, d5⟩ := do_gbcollect_header env S S1 T hcons h
  refine ⟨by rw [d1, d2], d1, d4, d3, d5, ?_, e, by rw [e]⟩
  intro v S2 T2 h2
  have hcons2 : consistent env { S with header := { S.header with db_version := v } } := hcons
  obtain ⟨_, c1, _⟩ := do_gbcollect_header env _ S2 T2 hcons2 h2
  rw [c1, d1]
  rfl

/-- The hypotheses of `gbcollect_resets_version` hold for `gc_db`, whose
version counter is 4 with two occupied rows: after the compaction both
counters are 2. -/
theorem gbcollect_resets_version_witness :
    consistent sample_env gc_db ∧
    do_gbcollect sample_env gc_db = (Code.OK, gc_db, (do_gbcollect sample_env gc_db).2.2) ∧
    gc_db.header.db_version = 4 ∧
    (do_gbcollect sample_env gc_db).2.2.header.db_version = 2 ∧
    (do_gbcollect sample_env gc_db).2.2.header.db_version
      = (do_gbcollect sample_env gc_db).2.2.header.num_files ∧
    (do_gbcollect sample_env gc_db).2.2.header.max_files = gc_db.header.max_files ∧
    (do_gbcollect sample_env gc_db).2.2.header.res_resized = gc_db.header.res_resized :=
  have h := gbcollect_resets_version sample_env gc_db gc_db
    (do_gbcollect sample_env gc_db).2.2 (by decide) (by decide)
  ⟨by decide, by decide, by decide, by decide, h.1, h.2.2.1, h.2.2.2.1⟩

/-! ## C22: the header that `do_create_cmd` builds -/

/-- With as many units of fuel as arguments the loop of `do_create_cmd` comes
to its end. -/
theorem do_create_cmd_loop_defined :
    ∀ (fuel : Nat) (argv : List (List Nat)) (a : create_vars),
      argv ≠ [] → argv.length ≤ fuel → (do_create_cmd_loop fuel argv a).1 ≠ Code.UNDEFINED := by
  intro fuel
  induction fuel with
  | zero =>
    intro argv a hne hl
    cases argv with
    | nil => exact absurd rfl hne
    | cons _ _ => simp at hl
  | succ f ih =>
    intro argv a _ hl
    match argv, hl with
    | [], _ => simp [do_create_cmd_loop]
    | [_], _ => simp [do_create_cmd_loop]
    | _ :: opt :: rest, hl =>
      simp only [List.length_cons] at hl
      unfold do_create_cmd_loop
      split_ifs with h1 h2 h3
      · match rest, hl with
        | [], _ => simp
        | v :: rest1, hl =>
          simp only [List.length_cons] at hl
          dsimp only
          split_ifs
          · simp
          · exact ih _ _ (by simp) (by simp only [List.length_cons]; omega)
      · match rest, hl with
        | [], _ => simp
        | [_], _ => simp
        | x :: y :: rest2, hl =>
          simp only [List.length_cons] at hl
          dsimp only
          split_ifs
          · simp
          · simp
          · exact ih _ _ (by simp) (by simp only [List.length_cons]; omega)
      · match rest, hl with
        | [], _ => simp
        | [_], _ => simp
        | x :: y :: rest2, hl =>
          simp only [List.length_cons] at hl
          dsimp only
          split_ifs
          · simp
          · simp
          · exact ih _ _ (by simp) (by simp only [List.length_cons]; omega)
      · simp

/-- The loop of `do_create_cmd`, when it returns 0, has kept the values of the
options in their ranges; the small resolution is at least the thumbnail
resolution when it was so before, no "-thumb_res" stands behind a
"-small_res" among the arguments to come, and the small resolution is the
default one or no "-thumb_res" is to come. -/
theorem do_create_cmd_loop_inv :
    ∀ (fuel : Nat) (argv : List (List Nat)) (a a1 : create_vars),
      do_create_cmd_loop fuel argv a = (Code.OK, a1) → create_bounds a →
      create_bounds a1 ∧
      (thumb_res_first argv.tail →
        ((a.small_resX = DEFAULT_SMALL ∧ a.small_resY = DEFAULT_SMALL) ∨
          (str_thumb_res ∉ argv.tail ∧
            a.thumb_resX ≤ a.small_resX ∧ a.thumb_resY ≤ a.small_resY)) →
        a1.thumb_resX ≤ a1.small_resX ∧ a1.thumb_resY ≤ a1.small_resY) := by
  intro fuel
  induction fuel with
  | zero =>
    intro argv a a1 h _
    simp [do_create_cmd_loop] at h
  | succ f ih =>
    intro argv a a1 h hb
    have hdone : (Code.OK, a) = (Code.OK, a1) → create_bounds a1 ∧
        (thumb_res_first argv.tail →
          ((a.small_resX = DEFAULT_SMALL ∧ a.small_resY = DEFAULT_SMALL) ∨
            (str_thumb_res ∉ argv.tail ∧
              a.thumb_resX ≤ a.small_resX ∧ a.thumb_resY ≤ a.small_resY)) →
          a1.thumb_resX ≤ a1.small_resX ∧ a1.thumb_resY ≤ a1.small_resY) := by
      intro e
      have e1 : a = a1 := (Prod.mk.inj e).2
      subst e1
      refine ⟨hb, fun _ hd => ?_⟩
      rcases hd with ⟨d1, d2⟩ | ⟨_, d⟩
      · obtain ⟨_, ⟨_, t1⟩, ⟨_, t2⟩, _⟩ := hb
        rw [d1, d2]
        unfold MAX_THUMB at t1 t2
        unfold DEFAULT_SMALL
        omega
      · exact d
    match argv, h, hdone with
    | [], h, hdone => exact hdone (by simpa [do_create_cmd_loop] using h)
    | [_], h, hdone => exact hdone (by simpa [do_create_cmd_loop] using h)
    | _ :: opt :: rest, h, _ =>
      unfold do_create_cmd_loop at h
      obtain ⟨bm, btx, bty, bsx, bsy⟩ := hb
      split_ifs at h with h1 h2 h3
      · match rest, h with
        | [], h => simp at h
        | v :: rest1, h =>
          dsimp only at h
          split_ifs at h with c1
          · simp at h
          · obtain ⟨r1, r2⟩ := ih _ _ _ h ⟨(by constructor <;> dsimp only <;> omega), btx, bty, bsx, bsy⟩
            refine ⟨r1, fun hp hd => r2 ?_ ?_⟩
            · exact (List.pairwise_cons.mp (List.pairwise_cons.mp hp).2).2
            · rcases hd with hd | ⟨d0, d⟩
              · exact Or.inl hd
              · exact Or.inr ⟨fun hm => d0 (List.mem_cons_of_mem _ (List.mem_cons_of_mem _ hm)), d⟩
      · match rest, h with
        | [], h => simp at h
        | [_], h => simp at h
        | x :: y :: rest2, h =>
          dsimp only at h
          split_ifs at h with c1 c2
          · simp at h
          · simp at h
          · obtain ⟨r1, r2⟩ := ih _ _ _ h ⟨bm, (by constructor <;> dsimp only <;> omega),
              (by constructor <;> dsimp only <;> omega), bsx, bsy⟩
            refine ⟨r1, fun hp hd => r2 ?_ ?_⟩
            · exact (List.pairwise_cons.mp (List.pairwise_cons.mp
                (List.pairwise_cons.mp hp).2).2).2
            · rcases hd with hd | ⟨d0, _⟩
              · exact Or.inl hd
              · exact absurd (by rw [h2]; exact List.mem_cons_self _ _) d0
      · match rest, h with
        | [], h => simp at h
        | [_], h => simp at h
        | x :: y :: rest2, h =>
          dsimp only at h
          split_ifs at h with c1 c2
          · simp at h
          · simp at h
          · obtain ⟨r1, r2⟩ := ih _ _ _ h ⟨bm, btx, bty,
              (by constructor <;> dsimp only <;> omega), (by constructor <;> dsimp only <;> omega)⟩
            refine ⟨r1, fun hp _ => r2 ?_ ?_⟩
            · exact (List.pairwise_cons.mp (List.pairwise_cons.mp
                (List.pairwise_cons.mp hp).2).2).2
            · right
              have hp1 := (List.pairwise_cons.mp hp).1
              refine ⟨fun hm => ?_, by dsimp only; omega, by dsimp only; omega⟩
              exact hp1 str_thumb_res
                (List.mem_cons_of_mem _ (List.mem_cons_of_mem _ hm)) ⟨h3, rfl⟩
      · simp at h

/-- C22. On the command line `create db -small_res 100 100 -thumb_res 128 128`
the small resolution is compared with the default thumbnail resolution 64,
and the thumbnail resolution read afterwards is compared with `MAX_THUMB`
only.  `do_create_cmd` reaches `do_create`, which returns 0, with
`res_resized` 128, 128, 100, 100: `small_x < thumb_x` and `small_y < thumb_y`,
against the comparison that `do_create_cmd` makes when "-small_res" comes
last. -/
theorem create_small_below_thumb :
    do_create_cmd sample_env 4096 small_then_thumb_argv =
      (Code.OK, some (do_create sample_env 10 [128, 128, 100, 100]).2) ∧
    (do_create sample_env 10 [128, 128, 100, 100]).2.header.max_files = 10 ∧
    (do_create sample_env 10 [128, 128, 100, 100]).2.header.res_resized
      = [128, 128, 100, 100] ∧
    atouint16 [49, 48, 48] = 100 ∧ atouint16 [49, 50, 56] = 128 := by
  decide

/-- The header that `do_create_cmd` builds when it reaches `do_create`: it has
`1 <= max_files <= 100000`, `1 <= thumb_x, thumb_y <= 128` and
`1 <= small_x, small_y <= 512`, whatever the order and repetition of the
options; and it has `small_x >= thumb_x` and `small_y >= thumb_y` when no
"-thumb_res" stands behind a "-small_res" among the arguments after the file
name. -/
theorem do_create_cmd_header (env : Env) (FILENAME_MAX : Nat) (argv : List (List Nat))
    (c : Code) (db : pictdb_file) (h : do_create_cmd env FILENAME_MAX argv = (c, some db)) :
    ∃ (thumb_x thumb_y small_x small_y : Nat),
      db.header.res_resized = [thumb_x, thumb_y, small_x, small_y] ∧
      (1 ≤ db.header.max_files ∧ db.header.max_files ≤ 100000) ∧
      (1 ≤ thumb_x ∧ thumb_x ≤ 128) ∧ (1 ≤ thumb_y ∧ thumb_y ≤ 128) ∧
      (1 ≤ small_x ∧ small_x ≤ 512) ∧ (1 ≤ small_y ∧ small_y ≤ 512) ∧
      (thumb_res_first (argv.drop 2) → thumb_x ≤ small_x ∧ thumb_y ≤ small_y) := by
  unfold do_create_cmd at h
  split_ifs at h with h0
  · simp at h
  match argv, h with
  | [], h => simp at h
  | cmd :: [], h => simp at h
  | cmd :: db_filename :: rest, h =>
    simp only [List.tail_cons] at h
    split_ifs at h with h1 h2
    · simp at h
    · simp at h
    · simp only [Prod.mk.injEq, Option.some.injEq] at h
      obtain ⟨_, hdb⟩ := h
      rcases hl : do_create_cmd_loop (cmd :: db_filename :: rest).length (db_filename :: rest)
        { max_files := DEFAULT_MAX_FILES, thumb_resX := DEFAULT_THUMB,
          thumb_resY := DEFAULT_THUMB, small_resX := DEFAULT_SMALL,
          small_resY := DEFAULT_SMALL } with ⟨c1, a1⟩
      rw [hl] at hdb h2
      simp only [ne_eq, not_not] at h2
      subst h2
      obtain ⟨hb, hs⟩ := do_create_cmd_loop_inv _ _ _ _ hl (by decide)
      obtain ⟨bm, btx, bty, bsx, bsy⟩ := hb
      refine ⟨a1.thumb_resX, a1.thumb_resY, a1.small_resX, a1.small_resY, ?_, ?_, btx, bty,
        bsx, bsy, ?_⟩
      · rw [← hdb, do_create_header]
      · rw [← hdb, do_create_header]
        exact bm
      · intro hp
        exact hs hp (Or.inl ⟨rfl, rfl⟩)

/-- The command line
`create db -thumb_res 100 120 -small_res 100 200 -max_files 5`, where the
thumbnail resolution comes first, reaches `do_create` with these values. -/
theorem do_create_cmd_thumb_first :
    do_create_cmd sample_env 4096 thumb_then_small_argv =
      (Code.OK, some (do_create sample_env 5 [100, 120, 100, 200]).2) ∧
    thumb_res_first (thumb_then_small_argv.drop 2) ∧
    ∃ (thumb_x thumb_y small_x small_y : Nat),
      (do_create sample_env 5 [100, 120, 100, 200]).2.header.res_resized
        = [thumb_x, thumb_y, small_x, small_y] ∧
      (1 ≤ (do_create sample_env 5 [100, 120, 100, 200]).2.header.max_files ∧
        (do_create sample_env 5 [100, 120, 100, 200]).2.header.max_files ≤ 100000) ∧
      (1 ≤ thumb_x ∧ thumb_x ≤ 128) ∧ (1 ≤ thumb_y ∧ thumb_y ≤ 128) ∧
      (1 ≤ small_x ∧ small_x ≤ 512) ∧ (1 ≤ small_y ∧ small_y ≤ 512) ∧
      (thumb_res_first (thumb_then_small_argv.drop 2) →
        thumb_x ≤ small_x ∧ thumb_y ≤ small_y) :=
  ⟨by decide, by decide,
    do_create_cmd_header sample_env 4096 thumb_then_small_argv Code.OK
      (do_create sample_env 5 [100, 120, 100, 200]).2 (by decide)⟩

/-! ## The stored blobs along a run -/

/-- The three ranges of an occupied row end inside the file. -/
theorem block_in_file (env : Env) (blobs : List (List Nat)) (db : pictdb_file) (i : Nat)
    (r : pict_metadata) (hcore : core_inv env db) (hst : store_inv env blobs db)
    (hr : db.metadata[i]? = some r) (hv : r.is_valid = NON_EMPTY) :
    ∀ v ∈ [RES_THUMB, RES_SMALL, RES_ORIG], r.offset.get v + r.size.get v ≤ db.fpdb.length := by
  obtain ⟨_, g2, g3⟩ := hcore.rows i r hr hv
  obtain ⟨_, _, _, h4, _⟩ := hst.rows i r hr hv
  intro v hvm
  simp only [List.mem_cons, List.mem_singleton, List.not_mem_nil, or_false] at hvm
  rcases hvm with e | e | e <;> subst e
  · rw [res_array_get_thumb, res_array_get_thumb]
    rcases g2 with ⟨a, b⟩ | ⟨_, _, c⟩
    · rw [a, b]; omega
    · exact c
  · rw [res_array_get_small, res_array_get_small]
    rcases g3 with ⟨a, b⟩ | ⟨_, _, c⟩
    · rw [a, b]; omega
    · exact c
  · rw [res_array_get_orig, res_array_get_orig]
    exact h4

/-- A row stays stored when the file keeps its bytes after the table and grows
at its end, with the same table size and resolutions. -/
theorem row_stored_ext (env : Env) (blobs : List (List Nat)) (db db1 : pictdb_file)
    (r : pict_metadata) (x : List Nat)
    (hmax : db1.header.max_files = db.header.max_files)
    (hres : db1.header.res_resized = db.header.res_resized)
    (hf : db1.fpdb.drop (table_end env db) = (db.fpdb ++ x).drop (table_end env db))
    (hlen : db.fpdb.length ≤ db1.fpdb.length)
    (h : row_stored env blobs db r) : row_stored env blobs db1 r := by
  obtain ⟨h1, h2, h3, h4, h5, h6, h7⟩ := h
  have hte : table_end env db1 = table_end env db := by unfold table_end; rw [hmax]
  have hb : blob_at db1 r.offset.orig r.size.orig = blob_at db r.offset.orig r.size.orig :=
    blob_at_ext db db1 _ _ _ x hf h3 h4
  refine ⟨h1, h2, by rw [hte]; exact h3, by omega, by rw [hb]; exact h5, by rw [hb]; exact h6, ?_⟩
  intro v hv hs
  rw [hb, hres]
  exact h7 v hv hs

/-- The stored-blob invariant is kept when the file keeps its bytes after the
table and grows at its end, and every occupied row was there, occupied. -/
theorem store_inv_sub (env : Env) (blobs : List (List Nat)) (db db1 : pictdb_file)
    (x : List Nat) (hst : store_inv env blobs db)
    (hmax : db1.header.max_files = db.header.max_files)
    (hres : db1.header.res_resized = db.header.res_resized)
    (hf : db1.fpdb.drop (table_end env db) = (db.fpdb ++ x).drop (table_end env db))
    (hlen : db.fpdb.length ≤ db1.fpdb.length)
    (hold : ∀ (i : Nat) (r : pict_metadata), db1.metadata[i]? = some r →
      r.is_valid = NON_EMPTY → db.metadata[i]? = some r) :
    store_inv env blobs db1 := by
  refine ⟨?_, ?_⟩
  · intro i r hr hv
    exact row_stored_ext env blobs db db1 r x hmax hres hf hlen
      (hst.rows i r (hold i r hr hv) hv)
  · intro i j a b ha hb hva hvb va hva1 vb hvb1
    exact hst.apart i j a b (hold i a ha hva) (hold j b hb hvb) hva hvb va hva1 vb hvb1
theorem ranges_apart_symm (a b : pict_metadata) (va vb : Nat) (h : ranges_apart a b va vb) :
    ranges_apart b a vb va := by
  rcases h with ⟨h1, h2⟩ | h | h
  · exact Or.inl ⟨h1.symm, h2.symm⟩
  · exact Or.inr (Or.inr h)
  · exact Or.inr (Or.inl h)

/-- The ranges stay apart when row `idx` is replaced by a row whose ranges are
apart from those of the other occupied rows and from each other. -/
theorem blocks_apart_set (db db1 : pictdb_file) (idx : Nat) (row1 : pict_metadata)
    (hap : blocks_apart db) (hmd : db1.metadata = db.metadata.set idx row1)
    (hself : ∀ va ∈ [RES_THUMB, RES_SMALL, RES_ORIG], ∀ vb ∈ [RES_THUMB, RES_SMALL, RES_ORIG],
      ranges_apart row1 row1 va vb)
    (hnew : ∀ (j : Nat) (b : pict_metadata), j ≠ idx → db.metadata[j]? = some b →
      b.is_valid = NON_EMPTY →
      ∀ va ∈ [RES_THUMB, RES_SMALL, RES_ORIG], ∀ vb ∈ [RES_THUMB, RES_SMALL, RES_ORIG],
        ranges_apart row1 b va vb) :
    blocks_apart db1 := by
  intro i j a b ha hb hva hvb va hva1 vb hvb1
  rw [hmd] at ha hb
  rcases getElem?_set_cases _ _ _ _ _ ha with ⟨hi, ea⟩ | ⟨hi, ea⟩ <;>
    rcases getElem?_set_cases _ _ _ _ _ hb with ⟨hj, eb⟩ | ⟨hj, eb⟩
  · subst ea; subst eb
    exact hself va hva1 vb hvb1
  · subst ea
    exact hnew j b hj eb hvb va hva1 vb hvb1
  · subst eb
    exact ranges_apart_symm _ _ _ _ (hnew i a hi ea hva vb hvb1 va hva1)
  · exact hap i j a b ea eb hva hvb va hva1 vb hvb1
theorem row_stored_fields (env : Env) (blobs : List (List Nat)) (db : pictdb_file)
    (r r1 : pict_metadata) (hid : r1.pict_id.length ≤ MAX_PIC_ID) (hs : r1.SHA = r.SHA)
    (hsz : r1.size = r.size) (hoff : r1.offset = r.offset)
    (h : row_stored env blobs db r) : row_stored env blobs db r1 := by
  obtain ⟨_, h2, h3, h4, h5, h6, h7⟩ := h
  unfold row_stored
  rw [hs, hsz, hoff]
  exact ⟨hid, h2, h3, h4, h5, h6, h7⟩

/-- Two ranges are apart when the first is empty and starts at 0. -/
theorem ranges_apart_zero (a b : pict_metadata) (va vb : Nat) (ho : a.offset.get va = 0)
    (hs : a.size.get va = 0) : ranges_apart a b va vb :=
  Or.inr (Or.inl (by rw [ho, hs]; omega))

/-- The stored-blob invariant after a `do_insert` that returns 0, of a blob of
the list whose length is a `uint32_t`. -/
theorem store_inv_insert_ok (env : Env) (blobs : List (List Nat)) (image id : List Nat)
    (db db1 : pictdb_file) (hcore : core_inv env db) (hst : store_inv env blobs db)
    (hfree : collision_free env blobs) (himg : image ∈ blobs)
    (hlen32 : image.length < UINT32_MOD)
    (hins : do_insert env image id db = (Code.OK, db1)) : store_inv env blobs db1 := by
  have halloc := hcore.alloc
  have hlenmd : db.metadata.length = db.header.max_files := halloc
  obtain ⟨idx, row, row1, _, _, hrow, hrowv, hmd, hhdr, hv, hp, hs, hsz, _, _, hbr⟩ :=
    do_insert_ok env image id db db1 halloc hins
  have hmod : image.length % UINT32_MOD = image.length := Nat.mod_eq_of_lt hlen32
  rw [hmod] at hsz
  have hmax : db1.header.max_files = db.header.max_files := by rw [hhdr]; rfl
  have hres : db1.header.res_resized = db.header.res_resized := by rw [hhdr]; rfl
  have hte : table_end env db1 = table_end env db := by unfold table_end; rw [hmax]
  have hklt : idx < db.metadata.length := getElem?_lt_length _ _ _ hrow
  have hkmax : idx < db.header.max_files := by omega
  have hfg := hcore.file_ge
  have hhe := sizeof_header_le_table_end env db
  have hre := row_end_le_table_end env db idx hkmax
  have hid : row1.pict_id.length ≤ MAX_PIC_ID := by
    rw [hp]; exact List.length_take_le _ _
  have hkeep : ∀ (x : List Nat),
      db1.fpdb.drop (table_end env db) = (db.fpdb ++ x).drop (table_end env db) →
      db.fpdb.length ≤ db1.fpdb.length → row_stored env blobs db1 row1 →
      (∀ va ∈ [RES_THUMB, RES_SMALL, RES_ORIG], ∀ vb ∈ [RES_THUMB, RES_SMALL, RES_ORIG],
        ranges_apart row1 row1 va vb) →
      (∀ (j : Nat) (b : pict_metadata), j ≠ idx → db.metadata[j]? = some b →
        b.is_valid = NON_EMPTY →
        ∀ va ∈ [RES_THUMB, RES_SMALL, RES_ORIG], ∀ vb ∈ [RES_THUMB, RES_SMALL, RES_ORIG],
          ranges_apart row1 b va vb) →
      store_inv env blobs db1 := by
    intro x hdrop hlen hr1 hself hnew
    refine ⟨?_, blocks_apart_set db db1 idx row1 hst.apart hmd hself hnew⟩
    intro i r hr hrv
    rw [hmd] at hr
    rcases getElem?_set_cases _ _ _ _ _ hr with ⟨_, e⟩ | ⟨_, e⟩
    · subst e; exact hr1
    · exact row_stored_ext env blobs db db1 r x hmax hres hdrop hlen (hst.rows i r e hrv)
  rcases hbr with ⟨_, hne, _, hst0, hss0, hoff, hf⟩ | ⟨j, rj, hm, _, hoff, hst0, hss0, _, hf⟩
  · -- a new blob at the end of the file
    rw [hmod] at hne hf
    rw [List.take_length] at hf
    have hdrop : db1.fpdb.drop (table_end env db) = (db.fpdb ++ image).drop (table_end env db) := by
      rw [hf]
      exact commit_file_drop env _ _ _ _ _ hhe hre
    have hlen : db1.fpdb.length = db.fpdb.length + image.length := by
      rw [hf, commit_file_length env _ _ _ _ (by rw [List.length_append]; omega)
        (by rw [List.length_append]; omega), List.length_append]
    have hoo : row1.offset.orig = db.fpdb.length := by rw [hoff]
    have hot : row1.offset.thumb = 0 := by rw [hoff]
    have hos : row1.offset.small = 0 := by rw [hoff]
    have hblob : blob_at db1 row1.offset.orig row1.size.orig = image := by
      rw [hoo, hsz]
      unfold blob_at
      rw [slice_of_drop_eq _ _ _ _ _ hdrop hfg, List.drop_left, List.take_length]
    refine hkeep image hdrop (by omega) ?_ ?_ ?_
    · refine ⟨hid, by rw [hsz]; exact hne, by rw [hte, hoo]; exact hfg,
        by rw [hoo, hsz, hlen], by rw [hblob]; exact himg, by rw [hblob]; exact hs, ?_⟩
      intro v hvv hsv
      rcases hvv with e | e <;> subst e
      · rw [res_array_get_thumb] at hsv; exact absurd hst0 hsv
      · rw [res_array_get_small] at hsv; exact absurd hss0 hsv
    · intro va hva vb hvb
      simp only [List.mem_cons, List.mem_singleton, List.not_mem_nil, or_false] at hva hvb
      rcases hva with e | e | e <;> subst e
      · exact ranges_apart_zero _ _ _ _ hot hst0
      · exact ranges_apart_zero _ _ _ _ hos hss0
      · rcases hvb with e | e | e <;> subst e
        · exact ranges_apart_symm _ _ _ _ (ranges_apart_zero _ _ _ _ hot hst0)
        · exact ranges_apart_symm _ _ _ _ (ranges_apart_zero _ _ _ _ hos hss0)
        · exact Or.inl ⟨rfl, rfl⟩
    · intro j b _ hb hbv va hva vb hvb
      have hbin := block_in_file env blobs db j b hcore hst hb hbv vb hvb
      simp only [List.mem_cons, List.mem_singleton, List.not_mem_nil, or_false] at hva
      rcases hva with e | e | e <;> subst e
      · exact ranges_apart_zero _ _ _ _ hot hst0
      · exact ranges_apart_zero _ _ _ _ hos hss0
      · refine Or.inr (Or.inr ?_)
        rw [res_array_get_orig, hoo]
        exact hbin
  · -- the blob of row `j`
    obtain ⟨hjk, hrj, hrjv, hrjs⟩ := hm
    obtain ⟨_, q2, q3, q4, q5, q6, q7⟩ := hst.rows j rj hrj hrjv
    have hB : blob_at db rj.offset.orig rj.size.orig = image :=
      hfree _ q5 _ himg (by rw [← q6, hrjs])
    have hsame : rj.size.orig = image.length := by
      rw [← blob_at_length db _ _ q4, hB]
    have hsize : row1.size = rj.size := by
      cases hr1 : row1.size with
      | mk a b c =>
        cases hr2 : rj.size with
        | mk a1 b1 c1 =>
          rw [hr1] at hst0 hss0 hsz
          rw [hr2] at hst0 hss0 hsame
          simp only at hst0 hss0 hsz hsame
          rw [hst0, hss0, hsz, hsame]
    have hdrop : db1.fpdb.drop (table_end env db) = (db.fpdb ++ []).drop (table_end env db) := by
      rw [hf, List.append_nil]
      exact commit_file_drop env _ _ _ _ _ hhe hre
    have hlen : db1.fpdb.length = db.fpdb.length := by
      rw [hf, commit_file_length env _ _ _ _ (by omega) (by omega)]
    have hrjs1 : row1.SHA = rj.SHA := by rw [hs, hrjs]
    have hget : ∀ v, row1.offset.get v = rj.offset.get v ∧ row1.size.get v = rj.size.get v :=
      fun v => ⟨by rw [hoff], by rw [hsize]⟩
    have htrans : ∀ (b : pict_metadata) (va vb : Nat), ranges_apart rj b va vb →
        ranges_apart row1 b va vb := by
      intro b va vb h
      unfold ranges_apart at h ⊢
      rw [(hget va).1, (hget va).2, hrjs1]
      exact h
    refine hkeep [] hdrop (by omega) ?_ ?_ ?_
    · exact row_stored_fields env blobs db1 rj row1 hid hrjs1 hsize hoff
        (row_stored_ext env blobs db db1 rj [] hmax hres hdrop (by omega)
          (hst.rows j rj hrj hrjv))
    · intro va hva vb hvb
      exact htrans _ _ _ (ranges_apart_symm _ _ _ _
        (htrans _ _ _ (hst.apart j j rj rj hrj hrj hrjv hrjv vb hvb va hva)))
    · intro j1 b _ hb hbv va hva vb hvb
      exact htrans _ _ _ (hst.apart j j1 rj b hrj hb hrjv hbv va hva vb hvb)
/-- What `lazily_resize` leaves, whatever it returns, on an occupied row of a
database with the core invariant: the same header and table and a file that
may have grown at its end, or the image that the provider has built from the
original of the row, appended and recorded in the rows of `index_tab`. -/
theorem lazily_resize_cases (env : Env) (dim : Nat) (db : pictdb_file) (index : Nat)
    (row0 : pict_metadata) (hinv : core_inv env db)
    (hrow : db.metadata[index]? = some row0) (hv : row0.is_valid = NON_EMPTY) :
    ((lazily_resize env dim db index).2.header = db.header ∧
      (lazily_resize env dim db index).2.metadata = db.metadata ∧
      ∃ x, (lazily_resize env dim db index).2.fpdb = db.fpdb ++ x) ∨
    (∃ (out : List Nat) (tab : List Nat),
      (dim = RES_THUMB ∨ dim = RES_SMALL) ∧ row0.size.get dim = 0 ∧
      env.jpeg_resize (blob_at db row0.offset.orig row0.size.orig) row0.size.orig dim
        db.header.res_resized = some out ∧
      out.length % UINT32_MOD ≠ 0 ∧
      (∀ k, k ∈ tab ↔ k = index ∨ (k < db.header.max_files ∧ k ≠ index ∧
        ∃ r, db.metadata[k]? = some r ∧ r.is_valid = NON_EMPTY ∧ r.SHA = row0.SHA)) ∧
      (lazily_resize env dim db index).2.header = db.header ∧
      (lazily_resize env dim db index).2.fpdb.length
        = db.fpdb.length + out.length % UINT32_MOD ∧
      (lazily_resize env dim db index).2.fpdb.drop (table_end env db) =
        (db.fpdb ++ out.take (out.length % UINT32_MOD)).drop (table_end env db) ∧
      ∀ k, (lazily_resize env dim db index).2.metadata[k]? =
        if k ∈ tab then
          (db.metadata[k]?).map (resized_row dim (out.length % UINT32_MOD) db.fpdb.length)
        else db.metadata[k]?) := by
  have hsame : ∀ (d : pictdb_file), d = db →
      (d.header = db.header ∧ d.metadata = db.metadata ∧ ∃ x, d.fpdb = db.fpdb ++ x) :=
    fun d e => by rw [e]; exact ⟨rfl, rfl, [], by rw [List.append_nil]⟩
  unfold lazily_resize
  by_cases h1 : RES_ORIG = dim
  · rw [if_pos h1]; exact Or.inl (hsame _ rfl)
  rw [if_neg h1]
  by_cases h2 : RES_THUMB ≠ dim ∧ RES_SMALL ≠ dim
  · rw [if_pos h2]; exact Or.inl (hsame _ rfl)
  rw [if_neg h2]
  simp only [hrow]
  split_ifs with h3
  · exact Or.inl (hsame _ rfl)
  cases hd : get_dup_index_and_update db index with
  | none => exact Or.inl (hsame _ rfl)
  | some p =>
    obtain ⟨tab, db1⟩ := p
    obtain ⟨e1, htab⟩ := get_dup_index_and_update_core env db index row0 tab db1 hinv hrow hv hd
    subst e1
    simp only [hrow]
    split_ifs with h4 h5
    · exact Or.inl (hsame _ rfl)
    · exact Or.inl (hsame _ rfl)
    · have hrd : (read_db_file_image index RES_ORIG db1).2 =
          blob_at db1 row0.offset.orig row0.size.orig := by
        rw [read_db_file_image_orig db1 index row0 hrow] at h5 ⊢
        by_cases c1 : row0.size.orig = 0
        · rw [if_pos c1] at h5; exact absurd (by decide) h5
        rw [if_neg c1] at h5 ⊢
        by_cases c2 : row0.offset.orig + row0.size.orig ≤ db1.fpdb.length
        · rw [if_pos c2]; rfl
        · rw [if_neg c2] at h5; exact absurd (by decide) h5
      rw [hrd]
      cases hj : env.jpeg_resize (blob_at db1 row0.offset.orig row0.size.orig) row0.size.orig dim
          db1.header.res_resized with
      | none => exact Or.inl (hsame _ rfl)
      | some out =>
        simp only []
        by_cases hns : out.length % UINT32_MOD = 0
        · have hw : write_db_file_image out (out.length % UINT32_MOD) db1 =
              ( Code.ERR_IO, db1.fpdb.length, db1) := by
            unfold write_db_file_image write_disk_image
            simp only [hns, if_true]
          rw [hw]
          simp only []
          rw [if_pos (by decide)]
          exact Or.inl (hsame _ rfl)
        have hw : write_db_file_image out (out.length % UINT32_MOD) db1 =
            (Code.OK, db1.fpdb.length,
              { db1 with fpdb := db1.fpdb ++ out.take (out.length % UINT32_MOD) }) := by
          unfold write_db_file_image write_disk_image
          simp only [if_neg hns, write_at_end]
        rw [hw]
        simp only []
        rw [if_neg (by decide)]
        cases hl : resize_update_loop env dim (out.length % UINT32_MOD) db1.fpdb.length tab
            { db1 with fpdb := db1.fpdb ++ out.take (out.length % UINT32_MOD) } with
        | none => exact Or.inl ⟨rfl, rfl, _, rfl⟩
        | some db2 =>
          simp only []
          right
          have hdim : dim = RES_THUMB ∨ dim = RES_SMALL := by
            by_cases hd : RES_THUMB = dim
            · exact Or.inl hd.symm
            · by_cases hd1 : RES_SMALL = dim
              · exact Or.inr hd1.symm
              · exact absurd ⟨hd, hd1⟩ h2
          obtain ⟨f1, _⟩ := resize_update_loop_frame env dim _ _ _ _ _ hl
          have f3 := resize_update_loop_rows env dim _ _ _ _ _ hl
          have hlen0 : (db1.fpdb ++ out.take (out.length % UINT32_MOD)).length =
              db1.fpdb.length + out.length % UINT32_MOD := by
            rw [List.length_append, List.length_take]
            have := Nat.mod_le out.length UINT32_MOD
            omega
          obtain ⟨f4, f5⟩ := resize_update_loop_file env dim _ _ _
            { db1 with fpdb := db1.fpdb ++ out.take (out.length % UINT32_MOD) } _ hinv.alloc
            (by show table_end env db1 ≤
                  (db1.fpdb ++ out.take (out.length % UINT32_MOD)).length
                rw [hlen0]; have := hinv.file_ge; omega) hl
          exact ⟨out, tab, hdim, by_contra (fun hc => h4 (Ne.symm hc)), rfl, hns, htab, f1,
            by rw [f4]; exact hlen0, f5, f3⟩
/-- Occupied rows with the same digest hold the same original. -/
theorem row_stored_same_blob (env : Env) (blobs : List (List Nat)) (db : pictdb_file)
    (a b : pict_metadata) (hfree : collision_free env blobs)
    (ha : row_stored env blobs db a) (hb : row_stored env blobs db b) (hs : a.SHA = b.SHA) :
    blob_at db a.offset.orig a.size.orig = blob_at db b.offset.orig b.size.orig ∧
    a.size.orig = b.size.orig := by
  obtain ⟨_, _, _, a4, a5, a6, _⟩ := ha
  obtain ⟨_, _, _, b4, b5, b6, _⟩ := hb
  have e : blob_at db a.offset.orig a.size.orig = blob_at db b.offset.orig b.size.orig :=
    hfree _ a5 _ b5 (by rw [← a6, ← b6, hs])
  refine ⟨e, ?_⟩
  rw [← blob_at_length db _ _ a4, ← blob_at_length db _ _ b4, e]

/-- The stored-blob invariant is kept by `lazily_resize` on an occupied row,
whatever it returns. -/
theorem store_inv_lazily_resize (env : Env) (blobs : List (List Nat)) (dim : Nat)
    (db : pictdb_file) (index : Nat) (row0 : pict_metadata) (hcore : core_inv env db)
    (hst : store_inv env blobs db) (hfree : collision_free env blobs)
    (hrow : db.metadata[index]? = some row0) (hv : row0.is_valid = NON_EMPTY) :
    store_inv env blobs (lazily_resize env dim db index).2 := by
  have halloc : db.metadata.length = db.header.max_files := hcore.alloc
  have hfg := hcore.file_ge
  rcases lazily_resize_cases env dim db index row0 hcore hrow hv with
    ⟨h1, h2, x, h3⟩ | ⟨out, tab, hdim, hz, hj, hns, htab, hhdr, hlen, hdrop, hrows⟩
  · refine store_inv_sub env blobs db _ x hst (by rw [h1]) (by rw [h1]) (by rw [h3])
      (by rw [h3, List.length_append]; omega) ?_
    intro i r hr _
    rw [h2] at hr
    exact hr
  generalize (lazily_resize env dim db index).2 = dbL at *
  have hmax : dbL.header.max_files = db.header.max_files := by rw [hhdr]
  have hres : dbL.header.res_resized = db.header.res_resized := by rw [hhdr]
  have hdo : dim ≠ RES_ORIG := by rcases hdim with e | e <;> subst e <;> decide
  -- an occupied row is listed exactly when it carries the digest of row `index`
  have hin : ∀ (k : Nat) (r : pict_metadata), db.metadata[k]? = some r →
      r.is_valid = NON_EMPTY → (k ∈ tab ↔ r.SHA = row0.SHA) := by
    intro k r hr hrv
    rw [htab k]
    have hk := getElem?_lt_length _ _ _ hr
    constructor
    · rintro (h | ⟨_, _, r1, hr1, _, hs1⟩)
      · subst h; rw [hrow] at hr; cases hr; rfl
      · rw [hr] at hr1; cases hr1; exact hs1
    · intro hs
      by_cases hki : k = index
      · exact Or.inl hki
      · exact Or.inr ⟨by omega, hki, r, hr, hrv, hs⟩
  -- every new row is an old row, resized when it is listed
  have hold : ∀ (k : Nat) (r1 : pict_metadata), dbL.metadata[k]? = some r1 →
      ∃ r, db.metadata[k]? = some r ∧
        ((k ∈ tab ∧ r1 = resized_row dim (out.length % UINT32_MOD) db.fpdb.length r) ∨
          (k ∉ tab ∧ r1 = r)) := by
    intro k r1 hr1
    rw [hrows k] at hr1
    by_cases hk : k ∈ tab
    · rw [if_pos hk] at hr1
      cases hr : db.metadata[k]? with
      | none => rw [hr] at hr1; cases hr1
      | some r =>
        rw [hr] at hr1
        simp only [Option.map_some', Option.some.injEq] at hr1
        exact ⟨r, rfl, Or.inl ⟨hk, hr1.symm⟩⟩
    · rw [if_neg hk] at hr1
      exact ⟨r1, hr1, Or.inr ⟨hk, rfl⟩⟩
  -- the range of a variant of a new row is the block just appended or an old range
  have hblk : ∀ (k : Nat) (r1 r : pict_metadata),
      ((k ∈ tab ∧ r1 = resized_row dim (out.length % UINT32_MOD) db.fpdb.length r) ∨
        (k ∉ tab ∧ r1 = r)) →
      r1.is_valid = r.is_valid ∧ r1.SHA = r.SHA ∧ r1.pict_id = r.pict_id ∧
      ∀ v, (k ∈ tab ∧ v = dim ∧ r1.offset.get v = db.fpdb.length ∧
          r1.size.get v = out.length % UINT32_MOD) ∨
        (r1.offset.get v = r.offset.get v ∧ r1.size.get v = r.size.get v) := by
    intro k r1 r hc
    rcases hc with ⟨hk, e⟩ | ⟨_, e⟩
    · subst e
      refine ⟨rfl, rfl, rfl, fun v => ?_⟩
      by_cases hvd : v = dim
      · subst hvd
        exact Or.inl ⟨hk, rfl, (resized_row_get_same _ _ _ _).2, (resized_row_get_same _ _ _ _).1⟩
      · obtain ⟨g1, g2⟩ := resized_row_get_other dim (out.length % UINT32_MOD) db.fpdb.length v r
          hdim hvd
        exact Or.inr ⟨g2, g1⟩
    · subst e
      exact ⟨rfl, rfl, rfl, fun v => Or.inr ⟨rfl, rfl⟩⟩
  refine ⟨?_, ?_⟩
  · intro k r1 hr1 hv1
    obtain ⟨r, hr, hc⟩ := hold k r1 hr1
    obtain ⟨b1, b2, b3, b4⟩ := hblk k r1 r hc
    have hrv : r.is_valid = NON_EMPTY := by rw [← b1]; exact hv1
    have hrs := hst.rows k r hr hrv
    have hrsL := row_stored_ext env blobs db dbL r _ hmax hres hdrop (by omega) hrs
    have ho : r1.offset.orig = r.offset.orig ∧ r1.size.orig = r.size.orig := by
      rcases b4 RES_ORIG with ⟨_, e, _⟩ | ⟨e1, e2⟩
      · exact absurd e.symm hdo
      · exact ⟨e1, e2⟩
    obtain ⟨q1, q2, q3, q4, q5, q6, q7⟩ := hrsL
    unfold row_stored
    rw [ho.1, ho.2, b2, b3]
    refine ⟨q1, q2, q3, q4, q5, q6, ?_⟩
    intro v hvv hsv
    rcases b4 v with ⟨hk, e, _, e2⟩ | ⟨_, e2⟩
    · subst e
      rw [e2, hres]
      have hsha : r.SHA = row0.SHA := (hin k r hr hrv).mp hk
      obtain ⟨c1, c2⟩ := row_stored_same_blob env blobs db r row0 hfree hrs
        (hst.rows index row0 hrow hv) hsha
      have hb : blob_at dbL r.offset.orig r.size.orig = blob_at db r.offset.orig r.size.orig :=
        blob_at_ext db dbL _ _ _ _ hdrop hrs.2.2.1 hrs.2.2.2.1
      rw [hb, c1, c2]
      exact ⟨out, hj, rfl⟩
    · rw [e2] at hsv ⊢
      exact q7 v hvv hsv
  · intro i j a1 b1 ha1 hb1 hva hvb va hva1 vb hvb1
    obtain ⟨a, ha, hca⟩ := hold i a1 ha1
    obtain ⟨b, hb, hcb⟩ := hold j b1 hb1
    obtain ⟨a_1, a_2, _, a_4⟩ := hblk i a1 a hca
    obtain ⟨b_1, b_2, _, b_4⟩ := hblk j b1 b hcb
    have hav : a.is_valid = NON_EMPTY := by rw [← a_1]; exact hva
    have hbv : b.is_valid = NON_EMPTY := by rw [← b_1]; exact hvb
    have hain := block_in_file env blobs db i a hcore hst ha hav va hva1
    have hbin := block_in_file env blobs db j b hcore hst hb hbv vb hvb1
    unfold ranges_apart
    rcases a_4 va with ⟨hia, ea, eo, es⟩ | ⟨eo, es⟩ <;>
      rcases b_4 vb with ⟨hjb, eb, fo, fs⟩ | ⟨fo, fs⟩
    · left
      refine ⟨?_, by rw [ea, eb]⟩
      rw [a_2, b_2, (hin i a ha hav).mp hia, (hin j b hb hbv).mp hjb]
    · right; right
      rw [fo, fs, eo]
      exact hbin
    · right; left
      rw [eo, es, fo]
      exact hain
    · rw [eo, es, fo, fs, a_2, b_2]
      exact hst.apart i j a b ha hb hav hbv va hva1 vb hvb1
/-- The stored-blob invariant is kept by `do_insert`, whatever it returns, of
a blob of the list whose length is a `uint32_t`. -/
theorem store_inv_insert (env : Env) (blobs : List (List Nat)) (image id : List Nat)
    (db : pictdb_file) (hcore : core_inv env db) (hst : store_inv env blobs db)
    (hfree : collision_free env blobs) (himg : image ∈ blobs)
    (hlen32 : image.length < UINT32_MOD) :
    store_inv env blobs (do_insert env image id db).2 := by
  by_cases hok : (do_insert env image id db).1 = Code.OK
  · exact store_inv_insert_ok env blobs image id db _ hcore hst hfree himg hlen32
      (Prod.ext hok rfl)
  · obtain ⟨f1, f2, f3⟩ := do_insert_fail env image id db hcore.alloc hok
    refine store_inv_sub env blobs db _ [] hst (by rw [f1]) (by rw [f1])
      (by rw [f2, List.append_nil]) (by rw [f2]) ?_
    intro i r hr hrv
    rcases f3 with f3 | ⟨idx, row, row1, _, _, _, hv1, hmd⟩
    · rw [f3] at hr; exact hr
    · rw [hmd] at hr
      rcases getElem?_set_cases _ _ _ _ _ hr with ⟨_, e⟩ | ⟨_, e⟩
      · subst e
        rw [hv1] at hrv
        exact absurd hrv (by decide)
      · exact e

/-- The stored-blob invariant is kept by `do_delete`, whatever it returns. -/
theorem store_inv_delete (env : Env) (blobs : List (List Nat)) (id : List Nat)
    (db : pictdb_file) (hcore : core_inv env db) (hst : store_inv env blobs db) :
    store_inv env blobs (do_delete env id db).2 := by
  by_cases hok : (do_delete env id db).1 = Code.OK
  · have heq : do_delete env id db = (Code.OK, (do_delete env id db).2) := Prod.ext hok rfl
    obtain ⟨i, row, _, hi, _, _, _, _, _, hdb⟩ := do_delete_ok env id db _ hcore.alloc heq
    have hre := row_end_le_table_end env db i hi
    have hhe := sizeof_header_le_table_end env db
    rw [hdb]
    refine store_inv_sub env blobs db _ [] hst rfl rfl ?_ ?_ ?_
    · rw [List.append_nil]
      show (write_at (write_at db.fpdb _ _) 0 _).drop _ = _
      rw [write_at_drop _ _ _ _ (by rw [env.header_bytes_length]; omega),
        write_at_drop _ _ _ _ (by rw [env.metadata_bytes_length]; exact hre)]
    · show db.fpdb.length ≤ (write_at (write_at db.fpdb _ _) 0 _).length
      rw [write_at_length, write_at_length]
      omega
    · intro j r hr hrv
      have hr1 : (db.metadata.set i { row with is_valid := EMPTY })[j]? = some r := hr
      rcases getElem?_set_cases _ _ _ _ _ hr1 with ⟨_, e⟩ | ⟨_, e⟩
      · subst e
        exact absurd hrv (by show EMPTY ≠ NON_EMPTY; decide)
      · exact e
  · rw [do_delete_fail env id db hcore.alloc hok]
    exact hst

/-- The stored-blob invariant is kept by `do_read`, whatever it returns. -/
theorem store_inv_read (env : Env) (blobs : List (List Nat)) (id : List Nat) (dim : Nat)
    (db : pictdb_file) (hcore : core_inv env db) (hst : store_inv env blobs db)
    (hfree : collision_free env blobs) :
    store_inv env blobs (do_read env id dim db).db := by
  have halloc : db.metadata.length = db.header.max_files := hcore.alloc
  have hl : (get_image_index id db).1 = Code.OK →
      store_inv env blobs (lazily_resize env dim db (get_image_index id db).2).2 := by
    intro h2
    rcases get_image_index_spec id db (by omega) with ⟨e, _⟩ | ⟨i, ri, _, e, hr, hv, _⟩
    · rw [e] at h2
      cases h2
    · rw [e]
      exact store_inv_lazily_resize env blobs dim db i ri hcore hst hfree hr hv
  unfold do_read
  by_cases h1 : RES_THUMB ≠ dim ∧ RES_SMALL ≠ dim ∧ RES_ORIG ≠ dim
  · rw [if_pos h1]; exact hst
  rw [if_neg h1]
  dsimp only
  by_cases h2 : (get_image_index id db).1 ≠ Code.OK
  · rw [if_pos h2]; exact hst
  rw [if_neg h2]
  have hl1 := hl (not_not.mp h2)
  repeat' split
  all_goals exact hl1

theorem store_inv_step (env : Env) (blobs : List (List Nat)) (db : pictdb_file) (op : Op)
    (hcore : core_inv env db) (hst : store_inv env blobs db)
    (hfree : collision_free env blobs)
    (hop : ∀ B ∈ inserted [op], B ∈ blobs ∧ B.length < UINT32_MOD) :
    store_inv env blobs (step env db op) := by
  cases op with
  | insert image id =>
    obtain ⟨h1, h2⟩ := hop image (by simp [inserted])
    exact store_inv_insert env blobs image id db hcore hst hfree h1 h2
  | delete id => exact store_inv_delete env blobs id db hcore hst
  | read id dim => exact store_inv_read env blobs id dim db hcore hst hfree

theorem store_inv_run (env : Env) (blobs : List (List Nat)) (hfree : collision_free env blobs)
    (ops : List Op) :
    ∀ db, (∀ B ∈ inserted ops, B ∈ blobs ∧ B.length < UINT32_MOD) → core_inv env db →
      store_inv env blobs db → store_inv env blobs (run env db ops) := by
  induction ops with
  | nil => intro db _ _ h; exact h
  | cons op ops ih =>
    intro db hops h1 h2
    rw [inserted_cons] at hops
    exact ih (step env db op)
      (fun B hB => hops B (List.mem_append.mpr (Or.inr hB)))
      (core_inv_step env db op h1)
      (store_inv_step env blobs db op h1 h2 hfree
        (fun B hB => hops B (List.mem_append.mpr (Or.inl hB))))

theorem store_inv_create (env : Env) (blobs : List (List Nat)) (max_files : Nat)
    (res_resized : List Nat) : store_inv env blobs (do_create env max_files res_resized).2 := by
  refine ⟨?_, ?_⟩
  · intro i r hr hv
    rw [do_create_rows env max_files res_resized i r hr] at hv
    exact absurd hv (by decide)
  · intro i j a b ha _ hva
    rw [do_create_rows env max_files res_resized i a ha] at hva
    exact absurd hva (by decide)
/-! ## C19: the length of the file after `do_gbcollect` -/

/-- A turn of the loop of `do_gbcollect` that returns 0 keeps the stored-blob
invariant of the temporary database. -/
theorem gc_turn_store (env : Env) (blobs : List (List Nat)) (S T S1 T1 : pictdb_file)
    (n k k1 : Nat) (hcons : consistent env S) (hinv : gc_inv env S T n k)
    (hn : n < S.header.max_files) (hfree : collision_free env blobs)
    (hlen32 : ∀ B ∈ blobs, B.length < UINT32_MOD)
    (hS : store_inv env blobs S) (hT : store_inv env blobs T)
    (h : gbcollect_turn env n (S, T, k) = (Code.OK, S1, T1, k1)) :
    store_inv env blobs T1 := by
  have hallocS : S.metadata.length = S.header.max_files := hcons.1
  have hnl : n < S.metadata.length := by omega
  have hr : S.metadata[n]? = some (S.metadata[n]) := List.getElem?_eq_getElem hnl
  generalize S.metadata[n] = r at hr
  rcases gbcollect_turn_ok env S T S1 T1 n k k1 r hr h with
    ⟨_, _, e2, _⟩ | ⟨hv, _, e2, hrd, buf, r1, Ti, Ts, hbuf, hins, hr1, hs1, hs2, ht1, ht2⟩
  · rw [e2]; exact hT
  · have hS1 : S1 = S := by
      rw [e2]
      exact (do_read_orig_spec env S n r hcons.1 hcons.2.1 hr hv).1
    subst hS1
    rw [hr] at hr1; cases hr1
    obtain ⟨_, _, heq⟩ := do_read_orig_spec env S1 n r hcons.1 hcons.2.1 hr hv
    have hbufeq : buf = blob_at S1 r.offset.orig r.size.orig := by
      have := heq hrd
      rw [this] at hbuf
      simp only [Option.some.injEq] at hbuf
      exact hbuf.symm
    have hbm : buf ∈ blobs := by
      rw [hbufeq]
      exact (hS.rows n r hr hv).2.2.2.2.1
    have hTi : store_inv env blobs Ti :=
      store_inv_insert_ok env blobs buf r.pict_id T Ti hinv.core hT hfree hbm (hlen32 buf hbm)
        hins
    obtain ⟨t0, hmid0⟩ := gc_insert_step env S1 T Ti n k r buf hcons hinv hr hv hrd hbuf hins
    have hTs : store_inv env blobs Ts := by
      by_cases c : r.size.small = 0
      · rw [hs2 c]; exact hTi
      · have := store_inv_lazily_resize env blobs RES_SMALL Ti k t0 hmid0.core hTi hfree
          hmid0.hrow hmid0.horig.2.1
        rw [hs1 c] at this
        exact this
    obtain ⟨t1, hmid1⟩ := gc_resize_step env S1 Ti Ts n k r t0 _ RES_SMALL (Or.inr rfl) hmid0
      (fun hc => hs1 (by rw [← res_array_get_small]; exact hc))
      (fun hc => hs2 (by rw [← res_array_get_small]; exact hc))
    by_cases c : r.size.thumb = 0
    · rw [ht2 c]; exact hTs
    · have := store_inv_lazily_resize env blobs RES_THUMB Ts k t1 hmid1.core hTs hfree
        hmid1.hrow hmid1.horig.2.1
      rw [ht1 c] at this
      exact this

/-- The loop of `do_gbcollect`, when it returns 0, has kept the stored-blob
invariant of the temporary database. -/
theorem gc_loop_store (env : Env) (blobs : List (List Nat)) (S : pictdb_file)
    (hcons : consistent env S) (hfree : collision_free env blobs)
    (hlen32 : ∀ B ∈ blobs, B.length < UINT32_MOD) (hS : store_inv env blobs S) :
    ∀ (fuel n : Nat) (T : pictdb_file) (k : Nat) (S1 T1 : pictdb_file) (k1 : Nat),
      n + fuel = S.header.max_files → gc_inv env S T n k → store_inv env blobs T →
      gbcollect_loop env fuel n (S, T, k) = (Code.OK, S1, T1, k1) →
      store_inv env blobs T1 := by
  intro fuel
  induction fuel with
  | zero =>
    intro n T k S1 T1 k1 _ _ hT h
    simp only [gbcollect_loop, Prod.mk.injEq, true_and] at h
    obtain ⟨_, e2, _⟩ := h
    subst e2
    exact hT
  | succ f ih =>
    intro n T k S1 T1 k1 hn hinv hT h
    unfold gbcollect_loop at h
    have hlt : n < S.header.max_files := by omega
    simp only [if_pos hlt] at h
    rcases ht : gbcollect_turn env n (S, T, k) with ⟨c, S2, T2, k2⟩
    rw [ht] at h
    cases c <;> simp only [Prod.mk.injEq, false_and, reduceCtorEq] at h
    obtain ⟨e, hinv2⟩ := gc_turn_inv env S T S2 T2 n k k2 hcons hinv hlt ht
    have hT2 := gc_turn_store env blobs S T S2 T2 n k k2 hcons hinv hlt hfree hlen32 hS hT ht
    subst e
    exact ih (n + 1) T2 k2 S1 T1 k1 (by omega) hinv2 hT2 h

/-- After a `do_gbcollect` that returns 0 the temporary database has the
stored-blob invariant. -/
theorem do_gbcollect_store (env : Env) (blobs : List (List Nat)) (S S1 T : pictdb_file)
    (hcons : consistent env S) (hfree : collision_free env blobs)
    (hlen32 : ∀ B ∈ blobs, B.length < UINT32_MOD) (hS : store_inv env blobs S)
    (h : do_gbcollect env S = (Code.OK, S1, T)) : store_inv env blobs T := by
  unfold do_gbcollect at h
  rw [if_neg (by simp [do_create])] at h
  simp only [Prod.mk.injEq] at h
  obtain ⟨h1, h2, h3⟩ := h
  rcases hl : gbcollect_loop env S.header.max_files 0
    (S, (do_create env S.header.max_files S.header.res_resized).2, 0) with ⟨c, S2, T2, k2⟩
  rw [hl] at h1 h2 h3
  simp only at h1 h2 h3
  subst h1; subst h3
  exact gc_loop_store env blobs S hcons hfree hlen32 hS _ 0 _ 0 _ _ _ (by omega)
    (gc_inv_create env S) (store_inv_create env blobs _ _) hl
/-- A relation that sends every number of `[a, b)` to a number of `[c, d)`, no
two of them to the same one, shows that `[a, b)` is not longer than `[c, d)`. -/
theorem interval_le_of_injection (a b c d : Nat) (R : Nat → Nat → Prop)
    (h1 : ∀ p, a ≤ p → p < b → ∃ s, c ≤ s ∧ s < d ∧ R p s)
    (h2 : ∀ p q s, R p s → R q s → p = q) : b - a ≤ d - c := by
  classical
  have hex : ∀ p, ∃ s, (a ≤ p ∧ p < b) → (c ≤ s ∧ s < d ∧ R p s) := by
    intro p
    by_cases hp : a ≤ p ∧ p < b
    · obtain ⟨s, hs⟩ := h1 p hp.1 hp.2
      exact ⟨s, fun _ => hs⟩
    · exact ⟨0, fun h => absurd h hp⟩
  choose f hf using hex
  have hcard : (Finset.Ico a b).card ≤ (Finset.Ico c d).card := by
    apply Finset.card_le_card_of_injOn f
    · intro p hp
      rw [Finset.mem_Ico] at hp
      obtain ⟨g1, g2, _⟩ := hf p hp
      exact Finset.mem_Ico.mpr ⟨g1, g2⟩
    · intro p hp q hq hpq
      rw [Finset.mem_coe, Finset.mem_Ico] at hp hq
      obtain ⟨_, _, g3⟩ := hf p hp
      obtain ⟨_, _, g4⟩ := hf q hq
      rw [hpq] at g3
      exact h2 p q (f q) g3 g4
  rw [Nat.card_Ico, Nat.card_Ico] at hcard
  exact hcard

/-- The size of a variant of an occupied row of the temporary database is the
size of that variant of the row of the source that it stands for. -/
theorem gc_same_size (env : Env) (blobs : List (List Nat)) (S T : pictdb_file)
    (i j : Nat) (r t : pict_metadata) (hS : store_inv env blobs S)
    (hT : store_inv env blobs T)
    (hres : T.header.res_resized = S.header.res_resized)
    (hr : S.metadata[i]? = some r) (ht : T.metadata[j]? = some t)
    (hoc : orig_copied S T r t) (hsv : same_variants r t) :
    ∀ v ∈ [RES_THUMB, RES_SMALL, RES_ORIG], t.size.get v ≠ 0 → t.size.get v = r.size.get v := by
  obtain ⟨c1, c2, _, _, c5, _, _, _, c9⟩ := hoc
  have hrs := (hS.rows i r hr c1).2.2.2.2.2.2
  have hts := (hT.rows j t ht c2).2.2.2.2.2.2
  have hvar : ∀ v, v = RES_THUMB ∨ v = RES_SMALL → t.size.get v ≠ 0 →
      t.size.get v = r.size.get v := by
    intro v hv hne
    obtain ⟨out, e1, e2⟩ := hts v hv hne
    obtain ⟨out1, f1, f2⟩ := hrs v hv ((hsv v hv).mp hne)
    rw [c9, c5, hres, f1] at e1
    cases e1
    rw [e2, f2]
  intro v hvm hne
  simp only [List.mem_cons, List.mem_singleton, List.not_mem_nil, or_false] at hvm
  rcases hvm with e | e | e
  · exact hvar v (Or.inl e) hne
  · exact hvar v (Or.inr e) hne
  · subst e
    rw [res_array_get_orig, res_array_get_orig]
    exact c5

/-- The start of the range of a variant that an occupied row holds is after
the table. -/
theorem block_after_table (env : Env) (db : pictdb_file) (i : Nat) (r : pict_metadata)
    (hcore : core_inv env db) (hr : db.metadata[i]? = some r) (hv : r.is_valid = NON_EMPTY) :
    ∀ v ∈ [RES_THUMB, RES_SMALL, RES_ORIG], r.size.get v ≠ 0 →
      table_end env db ≤ r.offset.get v := by
  obtain ⟨g1, g2, g3⟩ := hcore.rows i r hr hv
  intro v hvm hne
  simp only [List.mem_cons, List.mem_singleton, List.not_mem_nil, or_false] at hvm
  rcases hvm with e | e | e <;> subst e
  · rw [res_array_get_thumb] at hne ⊢
    rcases g2 with ⟨a, _⟩ | ⟨_, b, _⟩
    · exact absurd a hne
    · exact b
  · rw [res_array_get_small] at hne ⊢
    rcases g3 with ⟨a, _⟩ | ⟨_, b, _⟩
    · exact absurd a hne
    · exact b
  · rw [res_array_get_orig]
    exact g1

/-- The file that `do_gbcollect` builds from a consistent database with the
core invariant and the stored-blob invariant is not longer than its file. -/
theorem do_gbcollect_length (env : Env) (blobs : List (List Nat)) (S S1 T : pictdb_file)
    (hcons : consistent env S) (hcore : core_inv env S)
    (hfree : collision_free env blobs) (hlen32 : ∀ B ∈ blobs, B.length < UINT32_MOD)
    (hS : store_inv env blobs S) (h : do_gbcollect env S = (Code.OK, S1, T)) :
    T.fpdb.length ≤ S.fpdb.length := by
  obtain ⟨_, k, hinv⟩ := do_gbcollect_inv env S S1 T hcons h
  have hT := do_gbcollect_store env blobs S S1 T hcons hfree hlen32 hS h
  obtain ⟨_, _, _, hres, _, _⟩ := do_gbcollect_header env S S1 T hcons h
  have hte : table_end env T = table_end env S := by unfold table_end; rw [hinv.hmax]
  obtain ⟨_, hrowsT⟩ := gc_inv_rows env S T k hcons hinv
  have hmain := interval_le_of_injection (table_end env S) T.fpdb.length (table_end env S)
    S.fpdb.length
    (fun p s => ∃ (j i : Nat) (t r : pict_metadata) (v : Nat),
      T.metadata[j]? = some t ∧ t.is_valid = NON_EMPTY ∧
      S.metadata[i]? = some r ∧ r.is_valid = NON_EMPTY ∧ t.SHA = r.SHA ∧
      v ∈ [RES_THUMB, RES_SMALL, RES_ORIG] ∧ t.size.get v = r.size.get v ∧
      t.offset.get v ≤ p ∧ p < t.offset.get v + t.size.get v ∧
      s = r.offset.get v + (p - t.offset.get v)) ?_ ?_
  · have := hcore.file_ge
    omega
  · intro p hp1 hp2
    obtain ⟨j, t, v, ht, htv, hvm, hb1, hb2⟩ :=
      covered_row T p (hinv.cover p hp2 (by rw [hte]; exact hp1))
    obtain ⟨i, r, _, hr, hoc, hsv⟩ := hrowsT j t ht htv
    have hne : t.size.get v ≠ 0 := by omega
    have hsz := gc_same_size env blobs S T i j r t hS hT hres hr ht hoc hsv v hvm hne
    have hrv := hoc.1
    have hafter := block_after_table env S i r hcore hr hrv v hvm (by rw [← hsz]; exact hne)
    have hin := block_in_file env blobs S i r hcore hS hr hrv v hvm
    refine ⟨r.offset.get v + (p - t.offset.get v), by omega, by omega, ?_⟩
    exact ⟨j, i, t, r, v, ht, htv, hr, hrv, hoc.2.2.2.1, hvm, hsz, hb1, hb2, rfl⟩
  · rintro p q s ⟨j1, i1, t1, r1, v1, ht1, htv1, hr1, hrv1, hs1, hvm1, hsz1, ha1, hb1, e1⟩
      ⟨j2, i2, t2, r2, v2, ht2, htv2, hr2, hrv2, hs2, hvm2, hsz2, ha2, hb2, e2⟩
    rcases hS.apart i1 i2 r1 r2 hr1 hr2 hrv1 hrv2 v1 hvm1 v2 hvm2 with ⟨hsha, hvv⟩ | hd | hd
    · subst hvv
      obtain ⟨so, _, _⟩ := hcore.share i1 i2 r1 r2 hr1 hr2 hrv1 hrv2 hsha
      obtain ⟨tof, _, _⟩ := hinv.core.share j1 j2 t1 t2 ht1 ht2 htv1 htv2
        (by rw [hs1, hs2, hsha])
      rw [so] at e1
      rw [tof] at ha1 hb1 e1
      omega
    · omega
    · omega
/-- A database with the core invariant and the stored-blob invariant, for
blobs of 32-bit length that the digest function separates, is consistent. -/
theorem consistent_of_store (env : Env) (blobs : List (List Nat)) (db : pictdb_file)
    (hcore : core_inv env db) (hst : store_inv env blobs db)
    (hfree : collision_free env blobs) (hlen32 : ∀ B ∈ blobs, B.length < UINT32_MOD) :
    consistent env db := by
  have hte_pos : 0 < table_end env db :=
    lt_of_lt_of_le env.sizeof_header_pos (sizeof_header_le_table_end env db)
  refine ⟨hcore.alloc, unique_ids_of_core env db hcore, ?_, ?_⟩
  · intro r hr hv
    obtain ⟨i, hi, e⟩ := List.getElem_of_mem hr
    have hri : db.metadata[i]? = some r := by rw [← e]; exact List.getElem?_eq_getElem hi
    obtain ⟨q1, _, _, q4, q5, q6, _⟩ := hst.rows i r hri hv
    obtain ⟨_, g2, g3⟩ := hcore.rows i r hri hv
    refine ⟨q1, ?_, q6, ?_, ?_⟩
    · rw [← blob_at_length db _ _ q4]
      exact hlen32 _ q5
    · rcases g2 with ⟨a, b⟩ | ⟨a, b, _⟩
      · rw [a, b]
      · exact ⟨fun h => absurd h a, fun h => by omega⟩
    · rcases g3 with ⟨a, b⟩ | ⟨a, b, _⟩
      · rw [a, b]
      · exact ⟨fun h => absurd h a, fun h => by omega⟩
  · intro a ha b hb hva hvb hs
    obtain ⟨i, hi, ea⟩ := List.getElem_of_mem ha
    obtain ⟨j, hj, eb⟩ := List.getElem_of_mem hb
    have hai : db.metadata[i]? = some a := by rw [← ea]; exact List.getElem?_eq_getElem hi
    have hbj : db.metadata[j]? = some b := by rw [← eb]; exact List.getElem?_eq_getElem hj
    obtain ⟨s1, s2, s3⟩ := hcore.share i j a b hai hbj hva hvb hs
    obtain ⟨_, s4⟩ := row_stored_same_blob env blobs db a b hfree (hst.rows i a hai hva)
      (hst.rows j b hbj hvb) hs
    refine ⟨s1, ?_⟩
    intro v hvm _ _
    simp only [List.mem_cons, List.mem_singleton, List.not_mem_nil, or_false] at hvm
    rcases hvm with e | e | e <;> subst e
    · rw [res_array_get_thumb, res_array_get_thumb]; exact s2
    · rw [res_array_get_small, res_array_get_small]; exact s3
    · rw [res_array_get_orig, res_array_get_orig]; exact s4

/-- The invariants of a database that `do_insert`, `do_delete` and `do_read`
calls have built from one produced by `do_create`, with blobs of 32-bit length
that the digest function separates. -/
theorem reachable_store (env : Env) (max_files : Nat) (res_resized : List Nat) (ops : List Op)
    (hfree : collision_free env (inserted ops))
    (hlen32 : ∀ B ∈ inserted ops, B.length < UINT32_MOD) :
    core_inv env (run env (do_create env max_files res_resized).2 ops) ∧
    store_inv env (inserted ops) (run env (do_create env max_files res_resized).2 ops) ∧
    consistent env (run env (do_create env max_files res_resized).2 ops) := by
  have hcore := core_inv_run env ops _ (core_inv_create env max_files res_resized)
  have hst := store_inv_run env (inserted ops) hfree ops _ (fun B hB => ⟨hB, hlen32 B hB⟩)
    (core_inv_create env max_files res_resized)
    (store_inv_create env (inserted ops) max_files res_resized)
  exact ⟨hcore, hst, consistent_of_store env _ _ hcore hst hfree hlen32⟩

/-- C19, amended. For every consistent database on which `do_gbcollect`
returns 0, every byte of the resulting file at or after offset
`sizeof(header) + max_files * sizeof(row)` lies inside the range
`[offset[v], offset[v] + size[v])` of some `NON_EMPTY` row and variant `v` of
the result.  For every database that `do_insert`, `do_delete` and `do_read`
calls have built from one produced by `do_create`, with blobs of 32-bit length
that the digest function separates (such a database is consistent), on which
`do_gbcollect` returns 0, the resulting file is moreover no longer than the
source file. -/
theorem gbcollect_no_garbage (env : Env) (db db1 tmp : pictdb_file)
    (h : do_gbcollect env db = (Code.OK, db1, tmp)) :
    (consistent env db →
      ∀ p, p < tmp.fpdb.length →
        env.sizeof_header + db.header.max_files * env.sizeof_metadata ≤ p → covered tmp p) ∧
    (∀ (max_files : Nat) (res_resized : List Nat) (ops : List Op),
      db = run env (do_create env max_files res_resized).2 ops →
      collision_free env (inserted ops) →
      (∀ B ∈ inserted ops, B.length < UINT32_MOD) →
      consistent env db ∧ tmp.fpdb.length ≤ db.fpdb.length) := by
  constructor
  · intro hcons
    obtain ⟨_, k, hinv⟩ := do_gbcollect_inv env db db1 tmp hcons h
    intro p hp hte
    apply hinv.cover p hp
    unfold table_end
    rw [hinv.hmax]
    exact hte
  · intro max_files res_resized ops hdb hfree hlen32
    obtain ⟨hcore, hst, hcons⟩ := reachable_store env max_files res_resized ops hfree hlen32
    rw [← hdb] at hcore hst hcons
    exact ⟨hcons, do_gbcollect_length env (inserted ops) db db1 tmp hcons hcore hfree hlen32
      hst h⟩

/-- The hypothesis of `gbcollect_no_garbage` holds for `gc_db`, whose file
keeps the blob of a deleted row; the table of three rows ends at byte 13.  The
calls that build `gc_db` leave a file of 23 bytes, with garbage, and
`do_gbcollect` one of 20 bytes. -/
theorem gbcollect_no_garbage_witness :
    do_gbcollect sample_env gc_db = (Code.OK, gc_db, (do_gbcollect sample_env gc_db).2.2) ∧
    consistent sample_env gc_db ∧ ¬ no_garbage sample_env gc_db ∧
    collision_free sample_env (inserted [Op.insert [255, 216, 7] [97],
      Op.read [97] RES_THUMB, Op.insert [255, 216, 9] [98], Op.insert [255, 216, 7] [99],
      Op.delete [98]]) ∧
    gc_db.fpdb.length = 23 ∧ (do_gbcollect sample_env gc_db).2.2.fpdb.length = 20 ∧
    (∀ p, p < (do_gbcollect sample_env gc_db).2.2.fpdb.length →
      sample_env.sizeof_header + gc_db.header.max_files * sample_env.sizeof_metadata ≤ p →
      covered (do_gbcollect sample_env gc_db).2.2 p) ∧
    (do_gbcollect sample_env gc_db).2.2.fpdb.length ≤ gc_db.fpdb.length :=
  have h := gbcollect_no_garbage sample_env gc_db gc_db (do_gbcollect sample_env gc_db).2.2
    (by decide)
  ⟨by decide, by decide, by decide, by decide, by decide, by decide, h.1 (by decide),
    (h.2 3 [64, 64, 256, 256] [Op.insert [255, 216, 7] [97], Op.read [97] RES_THUMB,
      Op.insert [255, 216, 9] [98], Op.insert [255, 216, 7] [99], Op.delete [98]] rfl
      (by decide) (by decide)).2⟩

end PictDB
